import Mathlib

/-!
# couchbase-lite-core: the revision finder and the query compiler

A shallow embedding of `Replicator/RevFinder.cc` and `LiteCore/Query/QueryParser.cc`.
Strings stand for byte strings (one `Char` per byte).  Definitions come first, theorems after.
-/

set_option autoImplicit false

/-! ## Fleece values -/

namespace fleece

/-- A Fleece `slice`: `none` is `nullslice` (a null `buf`), `some s` a non-null slice holding
the bytes `s`.  `if (s)` in the source tests `buf != nullptr`, that is `s.isSome`. -/
abbrev slice := Option String

/-- Bytes of a slice (`nullslice` has none). -/
def slice.bytes (s : slice) : String := s.getD ""

/-- Field `slice::size`. -/
def slice.size (s : slice) : Nat := s.bytes.length

/-- Comparison `slice::operator==`: equal sizes and equal bytes, so `nullslice` equals `""`. -/
def slice.eq (a b : slice) : Bool := a.bytes == b.bytes

/-- Modelled from the spec: the Fleece document value (`fleece::Value`), whose implementation is
not among the sources.  It is the "expression node" of the data model: null, number (integer or
double), boolean, string, binary blob, ordered sequence, mapping from string to node.  An
integer is stored as an `int64_t` or as a `uint64_t`, so it lies between `-2^63` and `2^64 - 1`.
A double is carried as the decimal text that `toString` prints for it. -/
inductive Value where
  | null
  | bool (b : Bool)
  | int (i : Int)
  | double (text : String)
  | string (s : String)
  | data (bytes : String)
  | array (items : List Value)
  | dict (entries : List (String × Value))

/-- Modelled from the spec: `Value::asArray()` of a possibly missing value; `none` is the null
`Array` (the value is missing or is not a sequence). -/
def asArray : Option Value → Option (List Value)
  | some (.array items) => some items
  | _ => none

/-- Modelled from the spec: `Array::count()`; a null `Array` has no items. -/
def count (a : Option (List Value)) : Nat := (a.getD []).length

/-- Modelled from the spec: `Array::operator[]`; a position outside the array, or any position of
a null array, yields the missing value. -/
def get (a : Option (List Value)) (i : Nat) : Option Value := (a.getD []).get? i

/-- Modelled from the spec: `Value::asString()`; `nullslice` unless the value is a string. -/
def asString : Option Value → slice
  | some (.string s) => some s
  | _ => none

/-- Modelled from the spec: `Value::asUnsigned()`, a `uint64_t`: the integer (reduced modulo
`2^64`), `1`/`0` for a boolean, and `0` for everything that is not a number. -/
def asUnsigned : Option Value → Nat
  | some (.int i) => (i % (2 ^ 64 : Int)).toNat
  | some (.bool b) => if b then 1 else 0
  | _ => 0

/-- Modelled from the spec: `Value::asInt()`, an `int64_t`: the integer reduced to the signed
64-bit range, so that an unsigned integer from `2^63` on reads as a negative number; `1`/`0`
for a boolean, and `0` for a value that is not a number.  The sources read only integers
through it (after `isInteger()`); a double, which is carried as text here, is given `0`. -/
def asInt : Option Value → Int
  | some (.int i) => (i + 2 ^ 63) % 2 ^ 64 - 2 ^ 63
  | some (.bool b) => if b then 1 else 0
  | _ => 0

/-- Modelled from the spec: `Value::asDict()`; `none` unless the value is a mapping. -/
def asDict : Option Value → Option (List (String × Value))
  | some (.dict entries) => some entries
  | _ => none

/-- Modelled from the spec: `Dict::get(key)`, the value of the first entry with this key. -/
def dictGet (entries : List (String × Value)) (key : String) : Option Value :=
  (entries.find? fun e => e.1 == key).map fun e => e.2

/-- Modelled from the spec: `Value::toString()`: the decimal text of a number, `true` or
`false`, `null`, the bytes of a string or of a blob, and `nullslice` for a sequence or mapping. -/
def toString : Value → slice
  | .null => some "null"
  | .bool b => some (if b then "true" else "false")
  | .int i => some (ToString.toString i)
  | .double text => some text
  | .string s => some s
  | .data bytes => some bytes
  | .array _ => none
  | .dict _ => none

/-- Escapes of a JSON string: the double quote and the backslash. -/
def escapeJSON (s : String) : String :=
  String.mk (s.data.flatMap fun c =>
    if c = Char.ofNat 34 then [Char.ofNat 92, Char.ofNat 34]
    else if c = Char.ofNat 92 then [Char.ofNat 92, Char.ofNat 92]
    else [c])

mutual
/-- Modelled from the spec: `Value::toJSON()`, the compact JSON text of a value. -/
def toJSON : Value → String
  | .null => "null"
  | .bool b => if b then "true" else "false"
  | .int i => ToString.toString i
  | .double text => text
  | .string s => "\"" ++ escapeJSON s ++ "\""
  | .data bytes => "\"" ++ escapeJSON bytes ++ "\""
  | .array items => "[" ++ toJSONItems items ++ "]"
  | .dict entries => "\x7b" ++ toJSONEntries entries ++ "\x7d"
/-- The items of a sequence, comma-separated. -/
def toJSONItems : List Value → String
  | [] => ""
  | [v] => toJSON v
  | v :: w :: vs => toJSON v ++ "," ++ toJSONItems (w :: vs)
/-- The entries of a mapping, comma-separated. -/
def toJSONEntries : List (String × Value) → String
  | [] => ""
  | [(k, v)] => "\"" ++ escapeJSON k ++ "\":" ++ toJSON v
  | (k, v) :: e :: es =>
    "\"" ++ escapeJSON k ++ "\":" ++ toJSON v ++ "," ++ toJSONEntries (e :: es)
end

mutual
/-- Nesting depth of a value. -/
def Value.depth : Value → Nat
  | .array items => depthItems items + 1
  | .dict entries => depthEntries entries + 1
  | _ => 0
/-- Largest depth of the items of a sequence. -/
def depthItems : List Value → Nat
  | [] => 0
  | v :: vs => max v.depth (depthItems vs)
/-- Largest depth of the values of a mapping. -/
def depthEntries : List (String × Value) → Nat
  | [] => 0
  | (_, v) :: es => max v.depth (depthEntries es)
end

end fleece

/-! ## RevFinder -/

namespace RevFinder

open fleece

/-- Modelled from the spec: the fleece `JSONEncoder` behind `response.jsonBody()` is not among
the sources.  The encoder is the list of the calls made on it, in call order. -/
inductive EncoderCall where
  | beginArray
  | endArray
  | writeInt (n : Int)
  | writeRaw (s : String)
  deriving DecidableEq, Repr

/-- The JSON encoder of a response body: the calls made on it so far, oldest first. -/
structure Encoder where
  calls : List EncoderCall := []
  deriving DecidableEq, Repr

def Encoder.beginArray (e : Encoder) : Encoder := { calls := e.calls ++ [.beginArray] }
def Encoder.endArray (e : Encoder) : Encoder := { calls := e.calls ++ [.endArray] }
def Encoder.writeInt (e : Encoder) (n : Int) : Encoder := { calls := e.calls ++ [.writeInt n] }
def Encoder.writeRaw (e : Encoder) (s : String) : Encoder := { calls := e.calls ++ [.writeRaw s] }

/-- Modelled from the spec: the text a JSON encoder produces for a flat array body.  `first` is
the encoder's comma mechanism: a value written through the encoder is preceded by a comma unless
it is the first one of its array; `writeRaw` bypasses the mechanism and copies its argument. -/
def renderCalls : List EncoderCall → Bool → String
  | [], _ => ""
  | .beginArray :: rest, _ => "[" ++ renderCalls rest true
  | .endArray :: rest, _ => "]" ++ renderCalls rest false
  | .writeInt n :: rest, first => (if first then "" else ",") ++ toString n ++ renderCalls rest false
  | .writeRaw s :: rest, first => s ++ renderCalls rest first

/-- The JSON text of an encoder. -/
def Encoder.text (e : Encoder) : String := renderCalls e.calls true

/-- The integers written through `writeInt`, in order. -/
def Encoder.ints (e : Encoder) : List Int :=
  e.calls.filterMap fun c => match c with
    | .writeInt n => some n
    | _ => none

/-- Modelled from the spec: `RemoteSequence`, the peer's cursor value, opaque to the core: the
JSON value it was built from; `none` is the null sequence of a default-constructed entry. -/
abbrev RemoteSequence := Option Value

/-- Modelled from the spec: `ChangeSequence`, `{remote-sequence?, body-size}`; a default
constructed entry has a null sequence and body size 0. -/
structure ChangeSequence where
  sequence : RemoteSequence := none
  bodySize : Nat := 0

/-- Result of `_db->getDoc(docID, &err)`: the document (its current `revID`, and whether
`flags & kDocDeleted` is set), a not-found error, or any other error. -/
inductive GetDoc where
  | doc (revID : String) (deleted : Bool)
  | notFound
  | otherError
  deriving DecidableEq, Repr

/-- The database as the worker sees it during one call (`_db`, a `DBAccess`, is not among the
sources): the answers of the calls made on it. -/
structure DBAccess where
  /-- Answer of `getDoc(docID)`. -/
  getDoc : slice → GetDoc
  /-- Answer of `c4db_findDocAncestors` for `requireBodies` and the parallel vectors of doc IDs
  and rev IDs: `none` when it fails, else the `ancestors` it filled in. -/
  findDocAncestors : Bool → List slice → List slice → Option (List slice)
  /-- Answer of `c4db_getMaxRevTreeDepth`. -/
  maxRevTreeDepth : Nat
  /-- Answer of `disableBlobSupport()`. -/
  disableBlobSupport : Bool

/-- What `findProposedChange` returns and leaves behind. -/
structure ProposedChange where
  status : Int
  /-- The out-parameter `outCurrentRevID`, `none` when it was not assigned. -/
  outCurrentRevID : slice
  /-- Whether `gotError(err)` was called. -/
  gotError : Bool
  deriving DecidableEq, Repr

/-- `RevFinder::findProposedChange`: checks whether the revID (if any) is really current for the
given doc.  Returns an HTTP-ish status code: 0=OK, 409=conflict, 500=internal error. -/
def findProposedChange (db : DBAccess) (docID revID parentRevID : slice) : ProposedChange :=
  match db.getDoc docID with
  | .notFound =>
    -- Doc doesn't exist; it's a conflict if the peer thinks it does:
    { status := if parentRevID.isSome then 409 else 0, outCurrentRevID := none, gotError := false }
  | .otherError => { status := 500, outCurrentRevID := none, gotError := true }
  | .doc docRevID deleted =>
    let status : Int :=
      if slice.eq (some docRevID) revID then 304
      else if !parentRevID.isSome then (if deleted then 0 else 409)
      else if !slice.eq (some docRevID) parentRevID then 409
      else 0
    { status := status
      outCurrentRevID := if status > 0 then some docRevID else none
      gotError := false }

/-- The status table of the specification, written from its words: the local document is absent
(409 when a parent is offered, else 0), the lookup failed (500), or the document exists (304 when
its current rev is the offered one; else, with no parent offered, 0 when the local doc is deleted
and 409 when not; else 409 when the offered parent differs from the current rev, 0 when equal). -/
def proposedChangeTable (lookup : GetDoc) (revID parentRevID : slice) : Int :=
  match lookup, parentRevID with
  | .notFound, some _ => 409
  | .notFound, none => 0
  | .otherError, _ => 500
  | .doc cur deleted, none =>
    if cur = revID.bytes then 304 else if deleted then 0 else 409
  | .doc cur _, some parent =>
    if cur = revID.bytes then 304 else if cur = parent then 0 else 409

/-- The two marker strings `kC4AncestorExists` and `kC4AncestorExistsButNotCurrent` that
`c4db_findDocAncestors` answers in lieu of an ancestor list (macros of a header that is not among
the sources, hence parameters). -/
structure AncestorMarkers where
  kC4AncestorExists : slice
  kC4AncestorExistsButNotCurrent : slice

/-- Headers and body of a composed response (`MessageBuilder`). -/
structure Response where
  compressed : Bool
  /-- Header `maxHistory`. -/
  maxHistory : Nat
  /-- Whether the header `blobs: "true"` is present. -/
  blobs : Bool
  /-- Whether the header `deltas: "true"` is present. -/
  deltas : Bool
  /-- The JSON body, `response.jsonBody()`. -/
  jsonBody : Encoder

/-- What the worker does to its collaborators and to its counter, in program order. -/
inductive Effect where
  /-- Entry of `handleChangesNow` for the request of this number. -/
  | handleChangesNow (req : Nat)
  /-- Call `req->respondWithError` with a BLIP error of this code. -/
  | respondWithError (req : Nat) (code : Nat)
  /-- Call `_delegate->caughtUp()`. -/
  | caughtUp
  /-- Call `req->respond()` (no response object) or `req->respond(response)`. -/
  | respond (req : Nat) (response : Option Response)
  /-- Call `_db->markRevsSyncedNow()`. -/
  | markRevsSyncedNow
  /-- Call `gotError(err)`. -/
  | gotError
  /-- Call `_db->setDocRemoteAncestor(docID, revID)`. -/
  | setDocRemoteAncestor (docID revID : slice)
  /-- Call `replicator()->docRemoteAncestorChanged(docID, revID)`. -/
  | docRemoteAncestorChanged (docID revID : slice)
  /-- A write to `_numRevsBeingRequested`; `value` is the value written. -/
  | numRevsBeingRequested (value : Nat)
  /-- Call `_delegate->expectSequences(sequences)`. -/
  | expectSequences (sequences : List ChangeSequence)
  /-- The closing `logInfo("Responded to ... w/request for %u revs ...", ..., requested, ...)`. -/
  | logResponded (req : Nat) (requested : Nat)

/-- Local state of the loops of `findRevs` and `findProposedRevs`. -/
structure FindState where
  itemsWritten : Nat := 0
  requested : Nat := 0
  encoder : Encoder
  sequences : List ChangeSequence
  /-- Calls made on the collaborators, oldest first. -/
  effects : List Effect := []

/-- The loop `while (itemsWritten++ < i) write(encoder);` with its variant `i - itemsWritten` as
the recursion argument: the test fails when the variant is 0, and the increment of the failing
test is still performed. -/
def zeroFillLoop (write : Encoder → Encoder) : Nat → Nat → Nat → Encoder → Nat × Encoder
  | 0, itemsWritten, _, encoder => (itemsWritten + 1, encoder)
  | variant + 1, itemsWritten, i, encoder =>
    if itemsWritten < i then zeroFillLoop write variant (itemsWritten + 1) i (write encoder)
    else (itemsWritten + 1, encoder)

/-- The loop `while (itemsWritten++ < i) write(encoder);`: the final `itemsWritten` and encoder. -/
def zeroFill (write : Encoder → Encoder) (itemsWritten i : Nat) (encoder : Encoder) :
    Nat × Encoder :=
  zeroFillLoop write (i - itemsWritten) itemsWritten i encoder

/-- Assignment `sequences[i].bodySize = n`. -/
def setBodySize (sequences : List ChangeSequence) (i n : Nat) : List ChangeSequence :=
  match sequences.get? i with
  | some s => sequences.set i { s with bodySize := n }
  | none => sequences

/-- The statement `if (parentRevID.size == 0) parentRevID = nullslice;`. -/
def nullIfEmpty (s : slice) : slice := if s.size = 0 then none else s

/-- Body of the loop of `findProposedRevs` for the entry `item` at position `i`; `none` when the
`Assert` fails. -/
def findProposedRevsStep (db : DBAccess) (i : Nat) (item : Value) (st : FindState) :
    Option FindState :=
  -- "proposeChanges" entry: [docID, revID, parentRevID?, bodySize?]
  let change := asArray (some item)
  let docID := asString (get change 0)
  let revID := asString (get change 1)
  if docID.size = 0 ∨ revID.size = 0 then
    some st  -- warn("Invalid entry in 'changes' message"); continue
  else
    let parentRevID := nullIfEmpty (asString (get change 2))
    let r := findProposedChange db docID revID parentRevID
    let st := { st with effects := st.effects ++ (if r.gotError then [Effect.gotError] else []) }
    if r.status = 0 then
      -- Accept rev by (lazily) appending a 0:
      match st.sequences.get? i with
      | some s =>
        if s.bodySize = 0 then  -- Assert(sequences[i].bodySize == 0)
          some { st with
            requested := st.requested + 1
            sequences := setBodySize st.sequences i (max (asUnsigned (get change 3)) 1) }
        else none
      | none => none
    else
      -- Reject rev by appending status code:
      let filled := zeroFill (fun e => e.writeInt 0) st.itemsWritten i st.encoder
      some { st with itemsWritten := filled.1, encoder := filled.2.writeInt r.status }

/-- The loop `for (auto item : changes)` of `findProposedRevs`, from position `i` on. -/
def findProposedRevsLoop (db : DBAccess) : Nat → List Value → FindState → Option FindState
  | _, [], st => some st
  | i, item :: rest, st =>
    match findProposedRevsStep db i item st with
    | some st => findProposedRevsLoop db (i + 1) rest st
    | none => none

/-- `RevFinder::findProposedRevs`: same as `findRevs`, but for "proposeChanges" messages.  The
returned state holds the return value (`requested`), the encoder and `sequences`. -/
def findProposedRevs (db : DBAccess) (changes : List Value) (encoder : Encoder)
    (sequences : List ChangeSequence) : Option FindState :=
  findProposedRevsLoop db 0 changes { encoder := encoder, sequences := sequences }

/-- What the first loop of `findRevs` stores in `sequences[i]` for the entry `item`: its remote
sequence and its body-size hint (minimum 1). -/
def compileSequence (item : Value) : ChangeSequence :=
  -- "changes" entry: [sequence, docID, revID, deleted?, bodySize?]
  let change := asArray (some item)
  { sequence := get change 0, bodySize := max (asUnsigned (get change 4)) 1 }

/-- First loop of `findRevs`: fills `sequences[i]` from the entry at position `i`. -/
def compileSequences : Nat → List Value → List ChangeSequence → List ChangeSequence
  | _, [], sequences => sequences
  | i, item :: rest, sequences =>
    compileSequences (i + 1) rest (sequences.set i (compileSequence item))

/-- Body of the second loop of `findRevs` for position `i`, where `anc` is `ancestors[i]`. -/
def findRevsStep (k : AncestorMarkers) (i : Nat) (docID revID anc : slice) (st : FindState) :
    FindState :=
  if slice.eq anc k.kC4AncestorExistsButNotCurrent then
    -- the rev exists but is not marked as the latest from the remote server
    { st with
      effects := st.effects ++
        [Effect.setDocRemoteAncestor docID revID, Effect.docRemoteAncestorChanged docID revID]
      sequences := setBodySize st.sequences i 0 }
  else if slice.eq anc k.kC4AncestorExists then
    { st with sequences := setBodySize st.sequences i 0 }
  else
    -- Don't have revision -- request it:
    let encoder := if st.itemsWritten > 0 then st.encoder.writeRaw "," else st.encoder
    let filled := zeroFill (fun e => e.writeRaw "0,") st.itemsWritten i encoder
    { st with
      requested := st.requested + 1
      itemsWritten := filled.1
      encoder := filled.2.writeRaw (if anc.isSome then anc.bytes else "[]") }

/-- Element `v[i]` of a vector of slices; the vectors of `findRevs` are created with `nChanges`
null slices, so a position that was not filled in holds `nullslice`. -/
def sliceAt (v : List slice) (i : Nat) : slice := (v.get? i).join

/-- Second loop of `findRevs`, `for (i = 0; i < nChanges; ++i)`, from position `i` on;
`variant` is `nChanges - i`. -/
def findRevsLoop (k : AncestorMarkers) (docIDs revIDs ancestors : List slice) :
    Nat → Nat → FindState → FindState
  | 0, _, st => st
  | variant + 1, i, st =>
    findRevsLoop k docIDs revIDs ancestors variant (i + 1)
      (findRevsStep k i (sliceAt docIDs i) (sliceAt revIDs i) (sliceAt ancestors i) st)

/-- The vector `docIDs` that the first loop of `findRevs` compiles. -/
def compileDocIDs (changes : List Value) : List slice :=
  changes.map fun item => asString (get (asArray (some item)) 1)

/-- The vector `revIDs` that the first loop of `findRevs` compiles. -/
def compileRevIDs (changes : List Value) : List slice :=
  changes.map fun item => asString (get (asArray (some item)) 2)

/-- `RevFinder::findRevs`: looks through the contents of a "changes" message, encodes the
response, adds each entry to `sequences`, and returns the number of new revs (`requested`). -/
def findRevs (k : AncestorMarkers) (disableDeltaSupport : Bool) (db : DBAccess)
    (changes : List Value) (encoder : Encoder) (sequences : List ChangeSequence) : FindState :=
  -- Compile the docIDs/revIDs into parallel vectors:
  let docIDs := compileDocIDs changes
  let revIDs := compileRevIDs changes
  let sequences := compileSequences 0 changes sequences
  -- Ask the database to look up the ancestors:
  match db.findDocAncestors (!disableDeltaSupport) docIDs revIDs with
  | none => { encoder := encoder, sequences := sequences, effects := [Effect.gotError] }
  | some ancestors =>
    -- Look through the database response:
    findRevsLoop k docIDs revIDs ancestors changes.length 0
      { encoder := encoder, sequences := sequences }

/-- The replicator options read by the worker. -/
structure Options where
  noIncomingConflicts : Bool
  disableDeltaSupport : Bool

/-- An incoming BLIP request. -/
structure MessageIn where
  /-- Method `number()`. -/
  number : Nat
  /-- Property `Profile`. -/
  profile : slice
  /-- Method `body()`, the raw body. -/
  body : slice
  /-- Method `JSONBody()`, the body parsed as JSON; `none` when there is no parsed value. -/
  JSONBody : Option Value
  /-- Method `noReply()`. -/
  noReply : Bool

/-- The worker: its members, its configuration, and the log of what it has done. -/
structure State where
  options : Options
  markers : AncestorMarkers
  /-- Modelled from the spec: the capacity limit (`tuning::kMaxRevsBeingRequested`). -/
  maxRevsBeingRequested : Nat
  /-- Member `_numRevsBeingRequested`, the in-flight counter. -/
  numRevsBeingRequested : Nat := 0
  /-- Member `_waitingChangesMessages`, front first. -/
  waitingChangesMessages : List MessageIn := []
  /-- Member `_announcedDeltaSupport`. -/
  announcedDeltaSupport : Bool := false
  /-- Everything done so far, oldest first. -/
  effects : List Effect := []

/-- Modelled from the spec: `pullerHasCapacity()` is declared in a header that is not among the
sources; capacity is a threshold test on the in-flight counter, available iff the counter is
within the limit. -/
def State.pullerHasCapacity (rf : State) : Bool :=
  decide (rf.numRevsBeingRequested ≤ rf.maxRevsBeingRequested)

/-- Append to the log. -/
def State.log (rf : State) (es : List Effect) : State := { rf with effects := rf.effects ++ es }

/-- Whether the request is a "proposeChanges" one (the local `proposed`). -/
def MessageIn.proposed (req : MessageIn) : Bool := slice.eq req.profile (some "proposeChanges")

/-- The array `changes` of a request, `req->JSONBody().asArray()`. -/
def MessageIn.changes (req : MessageIn) : Option (List Value) := asArray req.JSONBody

/-- The statements of `handleChangesNow` from the creation of `sequences` to `endArray`: the
vector `sequences` of `nChanges` default entries, the encoder of the response body with its array
begun, and the call of `findProposedRevs` or `findRevs`.  `none` when an `Assert` fails. -/
def findChanges (k : AncestorMarkers) (options : Options) (db : DBAccess) (req : MessageIn) :
    Option FindState :=
  let changes := req.changes
  let nChanges := count changes
  let sequences := List.replicate nChanges ({} : ChangeSequence)
  let encoder := ({} : Encoder).beginArray
  if req.proposed then findProposedRevs db (changes.getD []) encoder sequences
  else some (findRevs k options.disableDeltaSupport db (changes.getD []) encoder sequences)

/-- `RevFinder::handleChangesNow`: actually handle a "changes" message.  `none` when an `Assert`
fails (the call ends by an exception). -/
def handleChangesNow (db : DBAccess) (req : MessageIn) (rf : State) : Option State :=
  let rf := rf.log [.handleChangesNow req.number]
  let proposed := req.proposed
  let changes := req.changes
  let nChanges := count changes
  if !changes.isSome ∧ !slice.eq req.body (some "null") then
    some (rf.log [.respondWithError req.number 400])
  else if nChanges = 0 then
    -- Empty array indicates we've caught up.
    some (rf.log [.caughtUp, .respond req.number none])
  else if req.noReply then
    some rf  -- warn("Got pointless noreply 'changes' message")
  else if rf.options.noIncomingConflicts ∧ !proposed then
    -- In conflict-free mode the protocol requires the pusher send "proposeChanges" instead
    some (rf.log [.respondWithError req.number 409])
  else
    -- Alright, let's look at the changes:
    let rf := if !proposed then rf.log [.markRevsSyncedNow] else rf
    let deltas := !rf.announcedDeltaSupport ∧ !rf.options.disableDeltaSupport
    let rf := if deltas then { rf with announcedDeltaSupport := true } else rf
    match findChanges rf.markers rf.options db req with
    | none => none
    | some st =>
      let response : Response :=
        { compressed := true
          maxHistory := db.maxRevTreeDepth
          blobs := !db.disableBlobSupport
          deltas := deltas
          jsonBody := st.encoder.endArray }
      -- Important that the order be call expectSequences and *then* respond
      let rf := rf.log st.effects
      let rf := { rf with numRevsBeingRequested := rf.numRevsBeingRequested + st.requested }
      let rf := rf.log [.numRevsBeingRequested rf.numRevsBeingRequested]
      let rf := rf.log [.expectSequences st.sequences]
      let rf := rf.log [.respond req.number (some response)]
      some (rf.log [.logResponded req.number st.requested])

/-- `RevFinder::handleChanges`: receiving an incoming "changes" (or "proposeChanges") message. -/
def handleChanges (db : DBAccess) (req : MessageIn) (rf : State) : Option State :=
  if rf.pullerHasCapacity then handleChangesNow db req rf
  else some { rf with waitingChangesMessages := rf.waitingChangesMessages ++ [req] }

/-- `RevFinder::_reRequestingRev`. -/
def reRequestingRev (rf : State) : State :=
  let rf := { rf with numRevsBeingRequested := rf.numRevsBeingRequested + 1 }
  rf.log [.numRevsBeingRequested rf.numRevsBeingRequested]

/-- The loop of `_revReceived`, `while (!_waitingChangesMessages.empty() && pullerHasCapacity())`,
by recursion on the waiting list `waiting` of the state `rf`. -/
def drainWaiting (db : DBAccess) : List MessageIn → State → Option State
  | [], rf => some { rf with waitingChangesMessages := [] }
  | req :: rest, rf =>
    if rf.pullerHasCapacity then
      match handleChangesNow db req { rf with waitingChangesMessages := rest } with
      | some rf => drainWaiting db rest rf
      | none => none
    else some { rf with waitingChangesMessages := req :: rest }

/-- Modelled from the spec: `decrement` (of a header that is not among the sources) takes one
from a counter; a count cannot go below zero, so at 0 the call fails (`none`). -/
def decrement (n : Nat) : Option Nat := if n = 0 then none else some (n - 1)

/-- `RevFinder::_revReceived`; `none` when the call ends by an exception. -/
def revReceived (db : DBAccess) (rf : State) : Option State :=
  match decrement rf.numRevsBeingRequested with
  | none => none
  | some n =>
    let rf := { rf with numRevsBeingRequested := n }
    let rf := rf.log [.numRevsBeingRequested n]
    -- Process waiting "changes" messages if not throttled:
    drainWaiting db rf.waitingChangesMessages rf

/-- A call made on the worker from outside, with the database as it answers during the call. -/
inductive Call where
  | handleChanges (db : DBAccess) (req : MessageIn)
  | revReceived (db : DBAccess)
  | reRequestingRev

/-- One call on the worker. -/
def step (rf : State) : Call → Option State
  | .handleChanges db req => handleChanges db req rf
  | .revReceived db => revReceived db rf
  | .reRequestingRev => some (reRequestingRev rf)

/-- A sequence of calls on the worker, in order; `none` as soon as one ends by an exception. -/
def run : State → List Call → Option State
  | rf, [] => some rf
  | rf, c :: cs =>
    match step rf c with
    | some rf => run rf cs
    | none => none

/-- A fresh worker. -/
def fresh (options : Options) (markers : AncestorMarkers) (maxRevsBeingRequested : Nat) : State :=
  { options := options, markers := markers, maxRevsBeingRequested := maxRevsBeingRequested }

/-- The status that the loop body of `findProposedRevs` obtains for an entry: `none` for an entry
it skips as invalid (empty doc ID or rev ID), else the answer of `findProposedChange`. -/
def proposedEntryStatus (db : DBAccess) (item : Value) : Option Int :=
  let change := asArray (some item)
  let docID := asString (get change 0)
  let revID := asString (get change 1)
  if docID.size = 0 ∨ revID.size = 0 then none
  else
    let parentRevID := nullIfEmpty (asString (get change 2))
    some (findProposedChange db docID revID parentRevID).status

/-- The integer at an entry's position of the normalized response: its rejection status, and 0
for an entry that is not rejected. -/
def proposedSlot (db : DBAccess) (item : Value) : Int := (proposedEntryStatus db item).getD 0

/-- The `sequences` entry of a "proposeChanges" entry: the body-size hint (minimum 1) when the
entry is accepted, the default entry otherwise. -/
def proposedSequence (db : DBAccess) (item : Value) : ChangeSequence :=
  if proposedEntryStatus db item = some 0 then
    { bodySize := max (asUnsigned (get (asArray (some item)) 3)) 1 }
  else {}

/-- The ancestry answer `anc` is `Missing`: it is neither of the two markers (the last branch of
the second loop of `findRevs`). -/
def isMissing (k : AncestorMarkers) (anc : slice) : Bool :=
  !slice.eq anc k.kC4AncestorExistsButNotCurrent && !slice.eq anc k.kC4AncestorExists

/-- The ancestor array of a `Missing` answer as it is written: `[]` for a null answer. -/
def ancestorsText (anc : slice) : String := if anc.isSome then anc.bytes else "[]"

/-- The element at an entry's position of the normalized "changes" response. -/
def revsItem (k : AncestorMarkers) (anc : slice) : String :=
  if isMissing k anc then ancestorsText anc else "0"

/-- The integers owed at a rejected entry: the zeros of the skipped slots, then what follows. -/
def owed (n : Nat) (t : List Int) : List Int := if t = [] then [] else List.replicate n 0 ++ t

/-- The text of `n` skipped slots, each written as `0,`. -/
def zeros : Nat → String
  | 0 => ""
  | n + 1 => "0," ++ zeros n

/-- The text owed at a `Missing` entry at position `i` when `itemsWritten` items are written:
the comma after the previous item, the zeros of the skipped slots, then the items `t` that
follow, comma-separated; nothing when there is no item to write. -/
def owedText (itemsWritten i : Nat) (t : List String) : String :=
  if t = [] then ""
  else (if itemsWritten > 0 then "," else "") ++ zeros (i - itemsWritten)
    ++ String.intercalate "," t

/-- Whether `handleChangesNow` reaches its last branch for the request, where it composes a
response: the batch is not empty, a reply is expected, and the request is not a "changes" one in
conflict-free mode. -/
def composesResponse (req : MessageIn) (rf : State) : Bool :=
  decide (count req.changes ≠ 0) && !req.noReply
    && !(rf.options.noIncomingConflicts && !req.proposed)

/-- The effect is a call of `respond` or `respondWithError`. -/
def Effect.isRespond : Effect → Bool
  | .respond _ _ => true
  | .respondWithError _ _ => true
  | _ => false

/-- The effect is a call of `expectSequences`. -/
def Effect.isExpectSequences : Effect → Bool
  | .expectSequences _ => true
  | _ => false

/-- The effect is a write to the in-flight counter. -/
def Effect.isCounterWrite : Effect → Bool
  | .numRevsBeingRequested _ => true
  | _ => false

/-- The effect is one of the calls that `findRevs` and `findProposedRevs` make. -/
def Effect.isLookup : Effect → Bool
  | .gotError => true
  | .setDocRemoteAncestor _ _ => true
  | .docRemoteAncestorChanged _ _ => true
  | _ => false

/-- The requests whose handling has begun, in order: the numbers of the `handleChangesNow`
entries of a log. -/
def handled : List Effect → List Nat
  | [] => []
  | .handleChangesNow n :: es => n :: handled es
  | _ :: es => handled es

/-- The sum of the requested counts of the batches for which a response was composed, read from
the closing log entries. -/
def requestedSum : List Effect → Nat
  | [] => 0
  | .logResponded _ requested :: es => requested + requestedSum es
  | _ :: es => requestedSum es

/-- The requests that arrive in a sequence of calls, in order. -/
def arrivals : List Call → List Nat
  | [] => []
  | .handleChanges _ req :: cs => req.number :: arrivals cs
  | _ :: cs => arrivals cs

/-- The number of `_reRequestingRev` calls of a sequence of calls. -/
def reRequests : List Call → Nat
  | [] => 0
  | .reRequestingRev :: cs => reRequests cs + 1
  | _ :: cs => reRequests cs

/-- The number of `_revReceived` calls of a sequence of calls. -/
def receipts : List Call → Nat
  | [] => 0
  | .revReceived _ :: cs => receipts cs + 1
  | _ :: cs => receipts cs

/-- The waiting list is non-empty only while no capacity is available. -/
def Throttled (rf : State) : Prop :=
  rf.waitingChangesMessages ≠ [] → rf.pullerHasCapacity = false

/-! ### Example data -/

/-- Example values of the two markers. -/
def exampleMarkers : AncestorMarkers :=
  { kC4AncestorExists := some "1", kC4AncestorExistsButNotCurrent := some "2" }

/-- An example "changes" batch of three entries. -/
def exampleChanges : List Value :=
  [.array [.int 1, .string "doc1", .string "1-aa"],
   .array [.int 2, .string "doc2", .string "2-bb", .bool false, .int 40],
   .array [.int 3, .string "doc3", .string "1-cc"]]

/-- An example database: `doc1` exists with current rev `r1`; of the revisions of
`exampleChanges` only `2-bb` is missing, with the ancestor `1-ba`. -/
def exampleDB : DBAccess where
  getDoc := fun docID => if docID = some "doc1" then .doc "r1" false else .notFound
  findDocAncestors := fun _ _ revIDs =>
    some (revIDs.map fun revID =>
      if revID = some "2-bb" then some "[\"1-ba\"]" else exampleMarkers.kC4AncestorExists)
  maxRevTreeDepth := 20
  disableBlobSupport := false

/-- A fresh worker with default options and capacity limit 0. -/
def exampleState : State := fresh { noIncomingConflicts := false, disableDeltaSupport := false }
  exampleMarkers 0

/-- A "changes" request carrying `exampleChanges`. -/
def exampleRequest : MessageIn :=
  { number := 1, profile := some "changes", body := some "[[1,...],[2,...],[3,...]]"
    JSONBody := some (.array exampleChanges), noReply := false }

/-- A "changes" request with an empty batch. -/
def emptyRequest : MessageIn :=
  { number := 2, profile := some "changes", body := some "[]"
    JSONBody := some (.array []), noReply := false }

/-- A "proposeChanges" request with the entry `("doc1","r2","r1")`. -/
def exampleProposal : MessageIn :=
  { number := 3, profile := some "proposeChanges", body := some "[[\"doc1\",\"r2\",\"r1\"]]"
    JSONBody := some (.array [.array [.string "doc1", .string "r2", .string "r1"]])
    noReply := false }

/-- A "proposeChanges" request with the entry `("doc1","r2","r1")` followed by an entry whose
doc ID is empty. -/
def invalidProposal : MessageIn :=
  { number := 4, profile := some "proposeChanges"
    body := some "[[\"doc1\",\"r2\",\"r1\"],[\"\",\"r9\"]]"
    JSONBody := some (.array [.array [.string "doc1", .string "r2", .string "r1"],
      .array [.string "", .string "r9"]])
    noReply := false }

/-- Two requests arrive, then a revision is received. -/
def exampleCalls : List Call :=
  [.handleChanges exampleDB exampleRequest, .handleChanges exampleDB exampleProposal,
   .revReceived exampleDB]

/-- The normalized response of a "proposeChanges" batch of `n` entries: the integers written,
padded with zeros to length `n`. -/
def normalized (n : Nat) (written : List Int) : List Int :=
  written ++ List.replicate (n - written.length) 0

/-- A "changes" request whose body is the JSON value `null`. -/
def nullRequest : MessageIn :=
  { number := 5, profile := some "changes", body := some "null"
    JSONBody := some .null, noReply := false }

/-- A "changes" request whose body is a JSON object. -/
def objectRequest : MessageIn :=
  { number := 6, profile := some "changes", body := some "\x7b\x7d"
    JSONBody := some (.dict []), noReply := false }

/-- A fresh worker in conflict-free mode, with capacity limit 0. -/
def conflictFreeState : State :=
  fresh { noIncomingConflicts := true, disableDeltaSupport := false } exampleMarkers 0

/-- The responses composed so far, in order: the arguments of the `respond(response)` calls of
a log. -/
def responses : List Effect → List Response
  | [] => []
  | .respond _ (some response) :: es => response :: responses es
  | _ :: es => responses es

/-- The databases that answer during a sequence of calls. -/
def databases : List Call → List DBAccess
  | [] => []
  | .handleChanges db _ :: cs => db :: databases cs
  | .revReceived db :: cs => db :: databases cs
  | .reRequestingRev :: cs => databases cs

/-- An example database whose ancestry lookup fails. -/
def failingDB : DBAccess where
  getDoc := fun _ => .notFound
  findDocAncestors := fun _ _ _ => none
  maxRevTreeDepth := 20
  disableBlobSupport := false

/-- The body sizes of the entries given to `expectSequences`, call by call. -/
def expectedBodySizes : List Effect → List (List Nat)
  | [] => []
  | .expectSequences sequences :: es => sequences.map (fun s => s.bodySize) :: expectedBodySizes es
  | _ :: es => expectedBodySizes es

/-- The values written to the in-flight counter, in order. -/
def counterWrites : List Effect → List Nat
  | [] => []
  | .numRevsBeingRequested value :: es => value :: counterWrites es
  | _ :: es => counterWrites es

/-- What the log says about the responses: the `deltas` header is on the first response only,
and on none when delta support is disabled; every response has the `maxHistory` and `blobs`
of one of the databases `dbs`. -/
def Announced (dbs : List DBAccess) (rf : State) : Prop :=
  (rf.options.disableDeltaSupport = true → ∀ r ∈ responses rf.effects, r.deltas = false) ∧
  (rf.options.disableDeltaSupport = false →
    (rf.announcedDeltaSupport = true ↔ responses rf.effects ≠ []) ∧
    ∀ i r, (responses rf.effects).get? i = some r → r.deltas = decide (i = 0)) ∧
  (∀ r ∈ responses rf.effects, ∃ db ∈ dbs,
    r.maxHistory = db.maxRevTreeDepth ∧ r.blobs = !db.disableBlobSupport)

end RevFinder

/-! ## QueryParser -/

namespace QueryParser

open fleece

/-- The handler methods that an `Operation` can name (`OpHandler`). -/
inductive OpHandler where
  | propertyOp | parameterOp | variableOp | missingOp | infixOp | prefixOp | postfixOp
  | inOp | matchOp | betweenOp | existsOp | anyEveryOp | selectOp | fallbackOp
  deriving DecidableEq, Repr

/-- `QueryParser::Operation`: name, min/max argument count, precedence, handler. -/
structure Operation where
  op : slice
  minArgs : Nat
  maxArgs : Nat
  precedence : Int
  /-- `none` for `kOuterOperation`, which names no handler. -/
  handler : Option OpHandler
  deriving DecidableEq, Repr

/-- `QueryParser::kOperationList`: the operators and their characteristics. -/
def kOperationList : List Operation :=
  [ ⟨some ".", 1, 9, 9, some .propertyOp⟩,
    ⟨some "$", 1, 1, 9, some .parameterOp⟩,
    ⟨some "?", 1, 9, 9, some .variableOp⟩,
    ⟨some "MISSING", 0, 0, 9, some .missingOp⟩,
    ⟨some "||", 2, 9, 8, some .infixOp⟩,
    ⟨some "*", 2, 9, 7, some .infixOp⟩,
    ⟨some "/", 2, 2, 7, some .infixOp⟩,
    ⟨some "%", 2, 2, 7, some .infixOp⟩,
    ⟨some "+", 2, 9, 6, some .infixOp⟩,
    ⟨some "-", 2, 2, 6, some .infixOp⟩,
    ⟨some "-", 1, 1, 9, some .prefixOp⟩,
    ⟨some "<", 2, 2, 4, some .infixOp⟩,
    ⟨some "<=", 2, 2, 4, some .infixOp⟩,
    ⟨some ">", 2, 2, 4, some .infixOp⟩,
    ⟨some ">=", 2, 2, 4, some .infixOp⟩,
    ⟨some "=", 2, 2, 3, some .infixOp⟩,
    ⟨some "!=", 2, 2, 3, some .infixOp⟩,
    ⟨some "IS", 2, 2, 3, some .infixOp⟩,
    ⟨some "IS NOT", 2, 2, 3, some .infixOp⟩,
    ⟨some "IN", 2, 9, 3, some .inOp⟩,
    ⟨some "NOT IN", 2, 9, 3, some .inOp⟩,
    ⟨some "LIKE", 2, 2, 3, some .infixOp⟩,
    ⟨some "MATCH", 2, 2, 3, some .matchOp⟩,
    ⟨some "BETWEEN", 3, 3, 3, some .betweenOp⟩,
    ⟨some "EXISTS", 1, 1, 8, some .existsOp⟩,
    ⟨some "NOT", 1, 1, 9, some .prefixOp⟩,
    ⟨some "AND", 2, 9, 2, some .infixOp⟩,
    ⟨some "OR", 2, 9, 2, some .infixOp⟩,
    ⟨some "ANY", 3, 3, 1, some .anyEveryOp⟩,
    ⟨some "EVERY", 3, 3, 1, some .anyEveryOp⟩,
    ⟨some "ANY AND EVERY", 3, 3, 1, some .anyEveryOp⟩,
    ⟨some "SELECT", 1, 1, 1, some .selectOp⟩,
    ⟨some "DESC", 1, 1, 2, some .postfixOp⟩,
    ⟨none, 0, 0, 10, some .fallbackOp⟩ ]  -- fallback; must come last

/-- The last entry of `kOperationList`, the fallback. -/
def kFallbackOperation : Operation := ⟨none, 0, 0, 10, some .fallbackOp⟩

def kArgListOperation : Operation := ⟨some ",", 0, 9, -2, some .infixOp⟩
def kColumnListOperation : Operation := ⟨some ",", 0, 9, -2, some .infixOp⟩
def kOrderByOperation : Operation := ⟨some "ORDER BY", 1, 9, -3, some .infixOp⟩
def kOuterOperation : Operation := ⟨none, 1, 1, -1, none⟩

/-- A `const Operation*` as the context stack holds it: the object pointed to.  The stack is
compared by address (`_context.back() == &kColumnListOperation`), and the argument-list and
column-list operations have equal contents, so the pointer is kept apart from the contents. -/
inductive OperationPtr where
  /-- Address of `kOperationList[i]`. -/
  | kOperationList (i : Nat)
  | kArgListOperation
  | kColumnListOperation
  | kOrderByOperation
  | kOuterOperation
  /-- Address of the local copy `operation` that `fallbackOp` makes. -/
  | localOperation (operation : Operation)
  deriving DecidableEq, Repr

/-- Dereference of a `const Operation*`. -/
def OperationPtr.deref : OperationPtr → Operation
  | .kOperationList i => QueryParser.kOperationList.getD i kFallbackOperation
  | .kArgListOperation => QueryParser.kArgListOperation
  | .kColumnListOperation => QueryParser.kColumnListOperation
  | .kOrderByOperation => QueryParser.kOrderByOperation
  | .kOuterOperation => QueryParser.kOuterOperation
  | .localOperation operation => operation

/-- What ends a compilation early. -/
inductive Error where
  /-- The exception of `fail(format, ...)`: an invalid-query error with its message. -/
  | invalidQuery (message : String)
  /-- A failed `Assert`. -/
  | assertionFailed
  /-- A use of a missing value or of an empty context stack, which the source does not define. -/
  | undefinedBehavior
  /-- The recursion allowance of the model is used up. -/
  | outOfFuel
  deriving DecidableEq, Repr

/-- The members of a `QueryParser`. -/
structure State where
  /-- Member `_tableName`. -/
  tableName : String
  /-- Member `_bodyColumnName`. -/
  bodyColumnName : String := "body"
  /-- Member `_propertyPath`. -/
  propertyPath : String := ""
  /-- Member `_baseResultColumns`. -/
  baseResultColumns : List String := []
  /-- Member `_defaultLimit`. -/
  defaultLimit : String := ""
  /-- Member `_defaultOffset`. -/
  defaultOffset : String := ""
  /-- Member `_sql`, the text written so far. -/
  sql : String := ""
  /-- Member `_context`, bottom first: `_context.back()` is the last element. -/
  context : List OperationPtr := []
  /-- Member `_parameters`, a set. -/
  parameters : List String := []
  /-- Member `_variables`, a set. -/
  vars : List String := []
  /-- Member `_ftsTables`. -/
  ftsTables : List String := []
  /-- Member `_1stCustomResultCol`. -/
  firstCustomResultCol : Nat := 0
  deriving DecidableEq, Repr

/-- A method of the parser: from the members before the call to the result, or the error that
ended the call, and the members after it. -/
def M (α : Type) : Type := State → Except Error α × State

/-- Return of a value. -/
def M.pure {α : Type} (a : α) : M α := fun qp => (.ok a, qp)

/-- Sequencing: the second method runs on the members that the first one left, unless the first
one ended by an error. -/
def M.bind {α β : Type} (m : M α) (f : α → M β) : M β := fun qp =>
  match m qp with
  | (.ok a, qp) => f a qp
  | (.error e, qp) => (.error e, qp)

instance : Monad M where
  pure := M.pure
  bind := M.bind

/-- An error ends the call. -/
def raise {α : Type} (e : Error) : M α := fun qp => (.error e, qp)

/-- `fail(format, ...)`: throws an invalid-query error. -/
def fail {α : Type} (message : String) : M α := raise (.invalidQuery message)

/-- The members. -/
def getState : M State := fun qp => (.ok qp, qp)

/-- `_sql << text`. -/
def write (text : String) : M Unit := fun qp => (.ok (), { qp with sql := qp.sql ++ text })

/-- `_context.push_back(op)`. -/
def pushContext (op : OperationPtr) : M Unit :=
  fun qp => (.ok (), { qp with context := qp.context ++ [op] })

/-- `_context.pop_back()`. -/
def popContext : M Unit := fun qp => (.ok (), { qp with context := qp.context.dropLast })

/-- `_context.back()`; the source does not define it for an empty stack. -/
def contextBack : M OperationPtr := fun qp =>
  match qp.context.getLast? with
  | some op => (.ok op, qp)
  | none => (.error .undefinedBehavior, qp)

/-- The apostrophe. -/
def apostrophe : Char := Char.ofNat 39

/-- `isalnum` or an underscore. -/
def isAlnumOrUnderscore (c : Char) : Bool := c.isAlphanum || c == '_'

/-- `isAlphanumericOrUnderscore(str)`. -/
def isAlphanumericOrUnderscore (str : String) : Bool :=
  if str.length = 0 then false else str.data.all isAlnumOrUnderscore

/-- `isValidIdentifier(str)`. -/
def isValidIdentifier (str : String) : Bool :=
  isAlphanumericOrUnderscore str && !(str.data.head?.any Char.isDigit)

/-- `appendPaths(parent, child)`: appends two property-path strings. -/
def appendPaths (parent child : String) : String :=
  let child :=
    if child.data.head? = some '$' then
      if child.data.get? 1 = some '.' then String.mk (child.data.drop 2)
      else String.mk (child.data.drop 1)
    else child
  if parent.isEmpty then child
  else if child.data.head? = some '[' then parent ++ child
  else parent ++ "." ++ child

/-- The text that `writeSQLString` writes for `str`: SQL quoting, inside apostrophes, doubling
contained apostrophes. -/
def sqlString (str : String) : String :=
  let simple := !str.data.any (fun c => c == apostrophe)
  if simple then "'" ++ str ++ "'"
  else "'" ++ String.mk (str.data.flatMap fun c =>
    if c == apostrophe then [apostrophe, apostrophe] else [c]) ++ "'"

/-- `QueryParser::writeSQLString(str)` on `_sql`. -/
def writeSQLString (str : String) : M Unit := write (sqlString str)

/-- Body of the loop of `propertyFromOperands` for the operand `item` at position `n`: the text
appended to the property. -/
def propertyFromOperand (n : Nat) (item : Value) : Except Error String :=
  match item with
  | .array arr =>
    if n = 0 then .error (.invalidQuery "Property path can't start with an array index")
    else if arr.length ≠ 1 then
      .error (.invalidQuery "Property array index must have exactly one item")
    else
      match arr.head? with
      | some (.int index) =>  -- `arr->get(0)->isInteger()`
        -- `auto index = arr->get(0)->asInt();`
        .ok ("[" ++ ToString.toString (asInt (some (.int index))) ++ "]")
      | _ => .error (.invalidQuery "Property array index must be an integer")
  | _ =>
    match asString (some item) with
    | none => .error (.invalidQuery "Invalid JSON value in property path")
    | some name => .ok ((if n > 0 then "." else "") ++ name)

/-- The loop of `propertyFromOperands`, from position `n` on. -/
def propertyFromOperandsLoop : Nat → List Value → Except Error String
  | _, [] => .ok ""
  | n, item :: rest =>
    match propertyFromOperand n item with
    | .error e => .error e
    | .ok text =>
      match propertyFromOperandsLoop (n + 1) rest with
      | .error e => .error e
      | .ok more => .ok (text ++ more)

/-- `propertyFromOperands(operands)`: concatenates property operands to produce the property
path string. -/
def propertyFromOperands (operands : List Value) : Except Error String :=
  propertyFromOperandsLoop 0 operands

/-- `propertyFromNode(node)`: returns the property represented by a node, or "" if it's not a
property node. -/
def propertyFromNode (node : Value) : Except Error String :=
  match node with
  | .array (first :: rest) =>
    match asString (some first) with
    | some op =>
      if op.data.head? = some '.' then
        if op.length = 1 then propertyFromOperands rest  -- skip "." item
        else .ok (String.mk (op.data.drop 1))
      else .ok ""
    | none => .ok ""
  | _ => .ok ""  -- not a valid property node

/-- A pure step that may throw, as a method. -/
def liftExcept {α : Type} : Except Error α → M α
  | .ok a => M.pure a
  | .error e => raise e

/-! ### Properties and full-text search -/

/-- `_variables.insert(var)`. -/
def insertVariable (var : String) : M Unit :=
  fun qp => (.ok (), { qp with vars := var :: qp.vars })

/-- `_variables.erase(var)`. -/
def eraseVariable (var : String) : M Unit :=
  fun qp => (.ok (), { qp with vars := qp.vars.erase var })

/-- `_parameters.insert(parameter)`. -/
def insertParameter (parameter : String) : M Unit :=
  fun qp => (.ok (), { qp with parameters := qp.parameters.insert parameter })

/-- `_ftsTables.push_back(key); return _ftsTables.size();`. -/
def addFTSTable (key : String) : M Nat :=
  fun qp => (.ok (qp.ftsTables.length + 1), { qp with ftsTables := qp.ftsTables ++ [key] })

/-- `_1stCustomResultCol = nCol`. -/
def setFirstCustomResultCol (nCol : Nat) : M Unit :=
  fun qp => (.ok (), { qp with firstCustomResultCol := nCol })

/-- `_context.back() = &operation`, for the local `operation` of `fallbackOp`. -/
def setContextBack (op : OperationPtr) : M Unit :=
  fun qp => (.ok (), { qp with context := qp.context.dropLast ++ [op] })

/-- `QueryParser::indexName(keys)`: the table name, `::`, and the JSON of the keys with every
double quote replaced by an apostrophe. -/
def indexName (tableName : String) (keys : List Value) : String :=
  let name := toJSON (.array keys)
  tableName ++ "::" ++ name.map fun c => if c = Char.ofNat 34 then apostrophe else c

/-- `QueryParser::FTSIndexName(const string &property)`. -/
def FTSIndexNameOfProperty (tableName property : String) : String :=
  tableName ++ "::." ++ property

/-- `QueryParser::FTSIndexName(const Value *key)`. -/
def FTSIndexName (key : Value) : M String := do
  let qp ← getState
  match key with
  | .array items =>
    match items.head? with
    | none => raise .undefinedBehavior  -- `get(0)` is null
    | some first =>
      let op := asString (some first)
      if op.size = 0 then fail "Invalid left-hand-side of MATCH"
      else if op.bytes.data.head? = some '.' then do
        let property ← liftExcept (propertyFromNode key)  -- abbreviation for common case
        pure (FTSIndexNameOfProperty qp.tableName property)
      else pure (qp.tableName ++ "::" ++ indexName qp.tableName items)
  | _ => fail "Expected a JSON array"

/-- Position of `key` in a vector, counted from 1; 0 when it is absent. -/
def findIndex1 (key : String) : List String → Nat
  | [] => 0
  | t :: ts => if t = key then 1 else
    match findIndex1 key ts with
    | 0 => 0
    | n + 1 => n + 2

/-- `QueryParser::FTSPropertyIndex(matchLHS, canAdd)`. -/
def FTSPropertyIndex (matchLHS : Value) (canAdd : Bool := false) : M Nat := do
  let key ← FTSIndexName matchLHS
  let qp ← getState
  if key ∈ qp.ftsTables then pure (findIndex1 key qp.ftsTables)
  else if canAdd then addFTSTable key
  else pure 0

mutual
/-- `QueryParser::findFTSProperties(node)`: registers the left operand of every MATCH. -/
def findFTSProperties : Value → M Unit
  | .array (first :: operands) =>
    if slice.eq (asString (some first)) (some "MATCH") then
      match operands with
      | lhs :: rest => do
        let _ ← FTSPropertyIndex lhs true  -- add LHS
        findFTSPropertiesIn rest
      | [] => pure ()
    else findFTSPropertiesIn operands
  | _ => pure ()
/-- The loop `for (; i; ++i) findFTSProperties(i.value())`: recurse into operands. -/
def findFTSPropertiesIn : List Value → M Unit
  | [] => pure ()
  | node :: rest => do
    findFTSProperties node
    findFTSPropertiesIn rest
end

/-- `QueryParser::writePropertyGetter(fn, property)`: writes a call to a Fleece SQL function,
including the closing ")". -/
def writePropertyGetter (fn property : String) : M Unit := do
  let qp ← getState
  if property = "_id" then
    if fn ≠ "fl_value" then fail "can't use '_id' in this context"
    else write "key"
  else if property = "_sequence" then
    if fn ≠ "fl_value" then fail "can't use '_sequence' in this context"
    else write "sequence"
  else if fn = "rank" then
    -- FTS rank() needs special treatment
    let fts := FTSIndexNameOfProperty qp.tableName property
    if fts ∉ qp.ftsTables then fail "rank() can only be used with FTS properties"
    else write ("rank(matchinfo(\"" ++ fts ++ "\"))")
  else do
    write (fn ++ "(" ++ qp.bodyColumnName ++ ", ")
    let path := appendPaths qp.propertyPath property
    writeSQLString path
    write ")"

/-- `QueryParser::writeStringLiteralAsProperty(str)`. -/
def writeStringLiteralAsProperty (str : String) : M Unit :=
  if str.length = 0 ∨ str.data.head? ≠ some '.' then
    fail "Invalid property name; must start with '.'"
  else writePropertyGetter "fl_value" (String.mk (str.data.drop 1))

/-- `QueryParser::writeNestedPropertyOpIfAny(fnName, operands)`: if the first operand is a
property operation, writes it using the given SQL function name and returns true; else returns
false. -/
def writeNestedPropertyOpIfAny (fnName : String) (operands : List Value) : M Bool :=
  match operands with
  | [] => pure false
  | first :: _ => do
    let property ← liftExcept (propertyFromNode first)
    if property.isEmpty then pure false
    else do
      writePropertyGetter fnName property
      pure true

/-! ### Operations -/

/-- `parseNode(operands[i])`; the source does not define it for a missing operand. -/
def parseOperand (parseNode : Value → M Unit) (operands : List Value) (i : Nat) : M Unit :=
  match operands.get? i with
  | some node => parseNode node
  | none => raise .undefinedBehavior

/-- The frame of `QueryParser::handleOperation` around the call `handler` of the handler of
`op`: pushes the operation on the stack and writes parens if needed. -/
def handleOperationWith (handler : M Unit) (op : OperationPtr) : M Unit := do
  let back ← contextBack
  let parenthesize := decide (op.deref.precedence ≤ back.deref.precedence)
  pushContext op
  (if parenthesize then write "(" else pure ())
  handler
  (if parenthesize then write ")" else pure ())
  popContext

/-- `QueryParser::prefixOp`: handles prefix (unary) operators. -/
def prefixOp (parseNode : Value → M Unit) (op : String) (operands : List Value) : M Unit := do
  write op
  (if op.data.getLast?.any Char.isAlpha then write " " else pure ())
  parseOperand parseNode operands 0

/-- `QueryParser::postfixOp`: handles postfix operators. -/
def postfixOp (parseNode : Value → M Unit) (op : String) (operands : List Value) : M Unit := do
  parseOperand parseNode operands 0
  write (" " ++ op)

/-- The loop of `infixOp`, where `n` operands are written already. -/
def infixOpLoop (parseNode : Value → M Unit) (op : String) : Nat → List Value → M Unit
  | _, [] => pure ()
  | n, node :: rest => do
    (if n > 0 then do
      (if op ≠ "," then write " " else pure ())  -- special case for argument lists
      write (op ++ " ")
    else pure ())
    parseNode node
    infixOpLoop parseNode op (n + 1) rest

/-- `QueryParser::infixOp`: handles infix operators. -/
def infixOp (parseNode : Value → M Unit) (op : String) (operands : List Value) : M Unit :=
  infixOpLoop parseNode op 0 operands

/-- `QueryParser::writeArgList`: writes operands as a comma-separated list (parenthesized
depending on current precedence).  The handler of `kArgListOperation` is `infixOp`. -/
def writeArgList (parseNode : Value → M Unit) (operands : List Value) : M Unit :=
  handleOperationWith (infixOp parseNode kArgListOperation.op.bytes operands) .kArgListOperation

/-- `QueryParser::writeColumnList`.  The handler of `kColumnListOperation` is `infixOp`. -/
def writeColumnList (parseNode : Value → M Unit) (operands : List Value) : M Unit :=
  handleOperationWith (infixOp parseNode kColumnListOperation.op.bytes operands)
    .kColumnListOperation

/-- `QueryParser::existsOp`: handles EXISTS. -/
def existsOp (parseNode : Value → M Unit) (op : String) (operands : List Value) : M Unit := do
  -- "EXISTS propertyname" turns into a call to fl_exists()
  if ← writeNestedPropertyOpIfAny "fl_exists" operands then pure ()
  else do
    write op
    (if op.data.getLast?.any Char.isAlpha then write " " else pure ())
    parseOperand parseNode operands 0

/-- `QueryParser::betweenOp`: handles "x BETWEEN y AND z" expressions. -/
def betweenOp (parseNode : Value → M Unit) (op : String) (operands : List Value) : M Unit := do
  parseOperand parseNode operands 0
  write (" " ++ op ++ " ")
  parseOperand parseNode operands 1
  write " AND "
  parseOperand parseNode operands 2

/-- `QueryParser::inOp`: handles "x IN y" and "x NOT IN y" expressions. -/
def inOp (parseNode : Value → M Unit) (op : String) (operands : List Value) : M Unit := do
  parseOperand parseNode operands 0
  write (" " ++ op ++ " ")
  writeArgList parseNode (operands.drop 1)

/-- `QueryParser::matchOp`: handles "property MATCH pattern" expressions (FTS). -/
def matchOp (parseNode : Value → M Unit) (_op : String) (operands : List Value) : M Unit := do
  -- Write the match expression (using an implicit join):
  let ftsTableNo ←
    match operands.get? 0 with
    | some lhs => FTSPropertyIndex lhs
    | none => raise .undefinedBehavior
  (if ftsTableNo = 0 then raise .assertionFailed else pure ())  -- Assert(ftsTableNo > 0)
  write ("(FTS" ++ ToString.toString ftsTableNo ++ ".text MATCH ")
  parseOperand parseNode operands 1
  let qp ← getState
  write (" AND FTS" ++ ToString.toString ftsTableNo ++ ".rowid = " ++ qp.tableName
    ++ ".sequence)")

/-- `QueryParser::anyEveryOp`: handles "ANY var IN array SATISFIES expr" (and EVERY, and ANY AND
EVERY). -/
def anyEveryOp (parseNode : Value → M Unit) (op : String) (operands : List Value) : M Unit := do
  let var ←
    match operands.get? 0 with
    | some v => pure (asString (some v)).bytes
    | none => raise .undefinedBehavior
  (if !isValidIdentifier var then
    fail ("ANY/EVERY first parameter must be an identifier; '" ++ var ++ "' is not")
  else pure ())
  let qp ← getState
  (if var ∈ qp.vars then fail ("Variable '" ++ var ++ "' is already in use") else pure ())
  insertVariable var
  let property ←
    match operands.get? 1 with
    | some node => liftExcept (propertyFromNode node)
    | none => raise .undefinedBehavior
  (if property.isEmpty then fail "ANY/EVERY only supports a property as its source" else pure ())
  let every := op ≠ "ANY"
  let anyAndEvery := op = "ANY AND EVERY"
  (if anyAndEvery then do
    write "("
    writePropertyGetter "fl_count" property
    write " > 0 AND "
  else pure ())
  (if every then write "NOT " else pure ())
  write "EXISTS (SELECT 1 FROM "
  writePropertyGetter "fl_each" property
  write (" AS _" ++ var ++ " WHERE ")
  (if every then write "NOT (" else pure ())
  parseOperand parseNode operands 2
  (if every then write ")" else pure ())
  write ")"
  (if anyAndEvery then write ")" else pure ())
  eraseVariable var

/-- `QueryParser::propertyOp`: handles doc property accessors, e.g. `[".", "prop"]` or
`[".prop"]`. -/
def propertyOp (_op : String) (operands : List Value) : M Unit := do
  let property ← liftExcept (propertyFromOperands operands)
  writePropertyGetter "fl_value" property

/-- `QueryParser::parameterOp`: handles substituted query parameters, e.g. `["$", "x"]` or
`["$x"]`. -/
def parameterOp (op : String) (operands : List Value) : M Unit := do
  let parameter ←
    if op.length = 1 then
      match operands.get? 0 with
      | some v => pure (toString v).bytes
      | none => raise .undefinedBehavior
    else
      let parameter := String.mk (op.data.drop 1)
      if operands.length > 0 then fail ("extra operands to '" ++ parameter ++ "'")
      else pure parameter
  (if !isAlphanumericOrUnderscore parameter then
    fail ("Invalid query parameter name '" ++ parameter ++ "'")
  else pure ())
  insertParameter parameter
  write ("$_" ++ parameter)

/-- `QueryParser::variableOp`: handles variables used in ANY/EVERY predicates. -/
def variableOp (op : String) (operands : List Value) : M Unit := do
  let (var, op, operands) ←
    if op.length = 1 then
      match operands with
      | v :: rest => pure ((asString (some v)).bytes, op, rest)
      | [] => raise .undefinedBehavior
    else
      let op := String.mk (op.data.drop 1)
      pure (op, op, operands)
  (if !isValidIdentifier var then fail ("Invalid variable name '" ++ op ++ "'") else pure ())
  let qp ← getState
  (if var ∉ qp.vars then fail ("No such variable '" ++ op ++ "'") else pure ())
  if operands.length = 0 then write ("_" ++ var ++ ".value")
  else do
    let property ← liftExcept (propertyFromOperands operands)
    write ("fl_value(_" ++ var ++ ".pointer, ")
    writeSQLString property
    write ")"

/-- `QueryParser::missingOp`: handles MISSING, which is the N1QL equivalent of NULL. -/
def missingOp (_op : String) (_operands : List Value) : M Unit := write "NULL"

/-- `QueryParser::functionOp`: handles function calls, where the op ends with "()". -/
def functionOp (parseNode : Value → M Unit) (op : String) (operands : List Value) : M Unit := do
  let op := String.mk (op.data.take (op.length - 2))
  (if !op.data.all isAlnumOrUnderscore then
    fail "Illegal non-alphanumeric character in function name"
  else pure ())
  let opStr := op.map Char.toLower
  -- Special case: "array_count(propertyname)" turns into a call to fl_count:
  let special ←
    if opStr = "array_count" then writeNestedPropertyOpIfAny "fl_count" operands
    else if opStr = "rank" then writeNestedPropertyOpIfAny "rank" operands
    else pure false
  if special then pure ()
  else do
    write op
    writeArgList parseNode operands

/-- `QueryParser::fallbackOp`: handles unrecognized operators, based on prefix ('.', '$', '?')
or suffix ('()'). -/
def fallbackOp (parseNode : Value → M Unit) (op : String) (operands : List Value) : M Unit := do
  -- Put the actual op into the context instead of a null
  let back ← contextBack
  setContextBack (.localOperation { back.deref with op := some op })
  if op.data.head? = some '.' then
    writePropertyGetter "fl_value" (String.mk (op.data.drop 1))  -- skip '.'
  else if op.data.head? = some '$' then parameterOp op operands
  else if op.data.head? = some '?' then variableOp op operands
  else if op.length > 2 ∧ op.data.get? (op.length - 2) = some '('
      ∧ op.data.get? (op.length - 1) = some ')' then
    functionOp parseNode op operands
  else fail ("Unknown operator '" ++ op ++ "'")

/-! ### Top level -/

/-- `QueryParser::reset`. -/
def reset : M Unit := fun qp => (.ok (), { qp with context := [.kOuterOperation] })

/-- `QueryParser::writeResultColumn(val)`. -/
def writeResultColumn (parseNode : Value → M Unit) (val : Value) : M Unit :=
  match val with
  | .array _ => parseNode val
  | .string str =>
    if str = "*" then fail "'*' result column isn't supported"
    else writeStringLiteralAsProperty str  -- "."-prefixed string becomes a property
  | _ => fail "Invalid item type in WHAT clause; must be array or '*' or '.property'"

/-- The loops of `writeSelect` over `_baseResultColumns` and over `_ftsTables`, where `nCol`
columns are written already: the text written. -/
def resultColumnsText (nCol : Nat) : List String → String
  | [] => ""
  | col :: rest => (if nCol > 0 then ", " else "") ++ col ++ resultColumnsText (nCol + 1) rest

/-- The loop of `writeSelect` over the WHAT columns, where `nCol` columns are written already;
returns the final `nCol`. -/
def writeWhats (parseNode : Value → M Unit) : Nat → List Value → M Nat
  | nCol, [] => pure nCol
  | nCol, val :: rest => do
    (if nCol > 0 then write ", " else pure ())
    writeResultColumn parseNode val
    writeWhats parseNode (nCol + 1) rest

/-- The loop of `writeSelect` over `_ftsTables` in the FROM clause, where `ftsTableNo` tables
are written already: the text written. -/
def ftsJoinsText (ftsTableNo : Nat) : List String → String
  | [] => ""
  | ftsTable :: rest =>
    ", \"" ++ ftsTable ++ "\" AS FTS" ++ ToString.toString (ftsTableNo + 1)
      ++ ftsJoinsText (ftsTableNo + 1) rest

/-- `QueryParser::writeSelect(where, operands)`; `operands` is `none` for a null `Dict`. -/
def writeSelect (parseNode : Value → M Unit) (whereNode : Option Value)
    (operands : Option (List (String × Value))) : M Unit := do
  -- Have to find all properties involved in MATCH before emitting the FROM clause:
  (match whereNode with
  | some node => findFTSProperties node
  | none => pure ())
  -- 'What' clause:
  write "SELECT "
  let qp ← getState
  write (resultColumnsText 0 (qp.baseResultColumns
    ++ qp.ftsTables.map fun ftsTable => "offsets(\"" ++ ftsTable ++ "\")"))
  let nCol := qp.baseResultColumns.length + qp.ftsTables.length
  setFirstCustomResultCol nCol
  let what := operands.bind fun d => dictGet d "WHAT"
  let nCol ←
    (match what with
    | some w =>
      match asArray (some w) with
      | none => fail "WHAT must be an array"
      | some whats => writeWhats parseNode nCol whats
    | none => pure nCol)
  (if nCol = 0 then fail "No result columns" else pure ())
  -- FROM clause:
  write " FROM "
  let fromNode := operands.bind fun d => dictGet d " FROM"
  (if fromNode.isSome then fail "FROM parameter to SELECT isn't supported yet, sorry" else pure ())
  let qpFrom ← getState  -- the loop reads `_ftsTables` as it is now
  write (qpFrom.tableName ++ ftsJoinsText 0 qpFrom.ftsTables)
  -- WHERE clause:
  (match whereNode with
  | some node => do
    write " WHERE "
    parseNode node
  | none => pure ())
  -- ORDER BY clause:
  let order := operands.bind fun d => dictGet d "ORDER BY"
  (match order with
  | some o => do
    write " ORDER BY "
    pushContext .kOrderByOperation  -- suppress parens around arg list
    (match asArray (some o) with
    | none => fail "Expected a JSON array"
    | some orderBys => writeColumnList parseNode orderBys)
    popContext
  | none => pure ())
  -- LIMIT, OFFSET clauses:
  (if !qp.defaultLimit.isEmpty then write (" LIMIT " ++ qp.defaultLimit) else pure ())
  if !qp.defaultOffset.isEmpty then write (" OFFSET " ++ qp.defaultOffset)

/-- `QueryParser::writeSelect(const Dict *operands)`. -/
def writeSelectOperands (parseNode : Value → M Unit) (operands : List (String × Value)) :
    M Unit :=
  writeSelect parseNode (dictGet operands "WHERE") (some operands)

/-- `QueryParser::parse(expression)` for a mapping `expression`, as `selectOp` calls it on
the nested parser. -/
def parseOperands (parseNode : Value → M Unit) (operands : List (String × Value)) : M Unit := do
  reset
  writeSelectOperands parseNode operands

/-- `QueryParser::selectOp`: handles SELECT. -/
def selectOp (parseNode : Value → M Unit) (_op : String) (operands : List Value) : M Unit := do
  -- SELECT is unusual in that its operands are encoded as an object
  match operands.get? 0 with
  | none => raise .undefinedBehavior
  | some first =>
    match asDict (some first) with
    | none => fail "Argument to SELECT must be an object"
    | some dict =>
      let qp ← getState
      if qp.context.length ≤ 2 then
        -- Outer SELECT
        writeSelectOperands parseNode dict
      else
        -- Nested SELECT; use a fresh parser
        let nested : State := { tableName := qp.tableName, bodyColumnName := qp.bodyColumnName }
        match parseOperands parseNode dict nested with
        | (.ok _, nested) => write nested.sql
        | (.error e, _) => raise e

/-- The call `(this->*handler)(actualOperator, operands)` of `handleOperation`. -/
def callHandler (parseNode : Value → M Unit) (handler : Option OpHandler)
    (actualOperator : String) (operands : List Value) : M Unit :=
  match handler with
  | some .propertyOp => propertyOp actualOperator operands
  | some .parameterOp => parameterOp actualOperator operands
  | some .variableOp => variableOp actualOperator operands
  | some .missingOp => missingOp actualOperator operands
  | some .infixOp => infixOp parseNode actualOperator operands
  | some .prefixOp => prefixOp parseNode actualOperator operands
  | some .postfixOp => postfixOp parseNode actualOperator operands
  | some .inOp => inOp parseNode actualOperator operands
  | some .matchOp => matchOp parseNode actualOperator operands
  | some .betweenOp => betweenOp parseNode actualOperator operands
  | some .existsOp => existsOp parseNode actualOperator operands
  | some .anyEveryOp => anyEveryOp parseNode actualOperator operands
  | some .selectOp => selectOp parseNode actualOperator operands
  | some .fallbackOp => fallbackOp parseNode actualOperator operands
  | none => raise .undefinedBehavior

/-- `QueryParser::handleOperation`: invokes an Operation's handler.  Pushes Operation on the
stack and writes parens if needed. -/
def handleOperation (parseNode : Value → M Unit) (op : OperationPtr) (actualOperator : String)
    (operands : List Value) : M Unit :=
  handleOperationWith (callHandler parseNode op.deref.handler actualOperator operands) op

/-- The lookup loop of `parseOpNode`, `for (def = kOperationList; def->op; ++def)`, over the
entries from index `i` on: the index of the entry `def` at which the loop ends, and
`nameMatched`. -/
def lookUp (op : String) (nargs : Nat) : List Operation → Nat → Bool → Nat × Bool
  | [], i, nameMatched => (i, nameMatched)
  | d :: rest, i, nameMatched =>
    if !d.op.isSome then (i, nameMatched)
    else if slice.eq (some op) d.op then
      if d.minArgs ≤ nargs ∧ nargs ≤ d.maxArgs then (i, true)
      else lookUp op nargs rest (i + 1) true
    else lookUp op nargs rest (i + 1) nameMatched

/-- `QueryParser::parseOpNode(node)`, on the items of the array `node`. -/
def parseOpNode (parseNode : Value → M Unit) (node : List Value) : M Unit :=
  match node with
  | [] => fail "Empty JSON array"
  | first :: operands =>
    match asString (some first) with
    | none => fail "Operation must be a string"
    | some op =>
      -- Look up the handler:
      let nargs := min operands.length 9
      let found := lookUp op nargs kOperationList 0 false
      let opDef := OperationPtr.kOperationList found.1
      if found.2 ∧ !opDef.deref.op.isSome then fail ("Wrong number of arguments to " ++ op)
      else handleOperation parseNode opDef op operands

/-- `QueryParser::parseNode(node)`, given the method for the nodes below `node`. -/
def parseNodeWith (parseNode : Value → M Unit) (node : Value) : M Unit :=
  match node with
  | .null => write "x''"  -- Represent a Fleece/JSON/N1QL null as an empty blob (?)
  | .int i => write (ToString.toString i)
  | .double text => write text
  | .bool b => write (if b then "1" else "0")  -- SQL doesn't have true/false
  | .string str => do
    let back ← contextBack
    if back = .kColumnListOperation then writeStringLiteralAsProperty str
    else writeSQLString str
  | .data _ => fail "Binary data not supported in query"
  | .array items => parseOpNode parseNode items
  | .dict _ => fail "Dictionaries not supported in query"

/-- `QueryParser::parseNode(node)`; `fuel` bounds the depth of the recursion, and a node of
depth `d` needs `d + 1`. -/
def parseNode : Nat → Value → M Unit
  | 0, _ => raise .outOfFuel
  | fuel + 1, node => parseNodeWith (parseNode fuel) node

/-- `QueryParser::parse(expression)`. -/
def parse (expression : Value) : M Unit := do
  reset
  match expression with
  | .dict operands =>
    -- Given a dict; assume it's the operands of a SELECT:
    writeSelectOperands (parseNode (expression.depth + 1)) operands
  | .array (first :: _) =>
    if slice.eq (asString (some first)) (some "SELECT") then
      -- Given an entire SELECT statement:
      parseNode (expression.depth + 1) expression
    else
      -- Given some other expression; treat it as a WHERE clause of an implicit SELECT:
      writeSelect (parseNode (expression.depth + 1)) (some expression) none
  | _ => writeSelect (parseNode (expression.depth + 1)) (some expression) none

/-- `QueryParser::parseJustExpression(expression)`. -/
def parseJustExpression (expression : Value) : M Unit := do
  reset
  parseNode (expression.depth + 1) expression

/-- `QueryParser::writeCreateIndex(expressions)`. -/
def writeCreateIndex (expressions : List Value) : M Unit := do
  reset
  let qp ← getState
  write ("CREATE INDEX IF NOT EXISTS \"" ++ indexName qp.tableName expressions ++ "\" ON "
    ++ qp.tableName ++ " ")
  writeColumnList (parseNode (depthItems expressions + 1)) expressions

/-- `QueryParser::SQL()` after a method has run on a parser: the text, or the error that ended
the method. -/
def SQL (result : Except Error Unit × State) : Except Error String :=
  match result with
  | (.ok _, qp) => .ok qp.sql
  | (.error e, _) => .error e

/-- `QueryParser::expressionSQL(expr, bodyColumnName)`. -/
def expressionSQL (expr : Value) (bodyColumnName : String := "body") : Except Error String :=
  SQL (parseJustExpression expr { tableName := "XXX", bodyColumnName := bodyColumnName })


/-- The method appends to `_sql`, however it ends, and when it returns the context stacks before
and after it are related by `R`. -/
structure Rel {α : Type} (R : List OperationPtr → List OperationPtr → Prop) (m : M α) :
    Prop where
  appends : ∀ qp, ∃ t, (m qp).2.sql = qp.sql ++ t
  context : ∀ qp a, (m qp).1 = .ok a → R qp.context (m qp).2.context

/-- The method appends to `_sql`, and when it returns the context stack is as before. -/
def Same {α : Type} (m : M α) : Prop := Rel (fun c c' => c' = c) m

/-- The method appends to `_sql`, and when it returns a non-empty context stack is as before
except possibly for its top element. -/
def Top {α : Type} (m : M α) : Prop :=
  Rel (fun c c' => c ≠ [] → c'.dropLast = c.dropLast ∧ c' ≠ []) m

deriving instance DecidableEq for Except

/-- The descriptor `def` that `parseOpNode` hands to `handleOperation` for the operator `op`
applied to `operands`: the entry of `kOperationList` at which its lookup loop ends. -/
def lookUpOperation (op : String) (operands : List Value) : OperationPtr :=
  .kOperationList (lookUp op (min operands.length 9) kOperationList 0 false).1

/-- The members as `handleOperation` leaves them for the handler: `op` is pushed on the
context stack, and the opening parenthesis is written if `parenthesize`. -/
def entered (op : OperationPtr) (parenthesize : Bool) (qp : State) : State :=
  { qp with
    context := qp.context ++ [op]
    sql := qp.sql ++ if parenthesize then "(" else "" }

/-- The test `parenthesize` of `handleOperation`: whether `op` binds no tighter than the
operation `enclosing` on top of the context stack. -/
def parenthesize (op enclosing : OperationPtr) : Bool :=
  decide (op.deref.precedence ≤ enclosing.deref.precedence)

/-- Whether the handler of the operator application `[op, operands...]`, called as
`handleOperation` calls it on the members `qp` under the operation `enclosing`, returns having
appended exactly `body`; `fuel` is the allowance for the operands. -/
def handlerWrites (fuel : Nat) (op : String) (operands : List Value) (enclosing : OperationPtr)
    (qp : State) (body : String) : Bool :=
  let q1 := entered (lookUpOperation op operands)
    (parenthesize (lookUpOperation op operands) enclosing) qp
  let r := callHandler (parseNode fuel) (lookUpOperation op operands).deref.handler op operands q1
  decide (r.1 = .ok ()) && decide (r.2.sql = q1.sql ++ body)

/-- The example `["AND", ["=", [".", "x"], 1], ["=", [".", "y"], 2]]`. -/
def exampleConjunction : Value :=
  .array [.string "AND",
    .array [.string "=", .array [.string ".", .string "x"], .int 1],
    .array [.string "=", .array [.string ".", .string "y"], .int 2]]

/-- A parser as `parseJustExpression` has it after `reset`. -/
def exampleParser : State := { tableName := "XXX", context := [.kOuterOperation] }

/-- The members after the example is compiled. -/
def exampleCompiled : State := (parseNode 4 exampleConjunction exampleParser).2

/-- The text that `infixOp` writes between two operands. -/
def separator (op : String) : String :=
  (if op ≠ "," then " " else "") ++ (op ++ " ")

/-- The operands of a SELECT with the keys `WHAT` and `FROM`:
`\x7b"WHAT": [[".", "name"]], "FROM": "other"\x7d`. -/
def exampleSelectFrom : Value :=
  .dict [("WHAT", .array [.array [.string ".", .string "name"]]), ("FROM", .string "other")]

/-- The same operands with the key ` FROM` (a blank before the word) instead of `FROM`. -/
def exampleSelectBlankFrom : Value :=
  .dict [("WHAT", .array [.array [.string ".", .string "name"]]), (" FROM", .string "other")]

/-- A new parser on the table `kv_default`. -/
def exampleTableParser : State := { tableName := "kv_default" }

/-- The text `str` with every apostrophe doubled and every other byte unchanged. -/
def doubled (str : String) : String :=
  String.mk (str.data.flatMap fun c => if c == apostrophe then [apostrophe, apostrophe] else [c])

/-- Replaces each doubled apostrophe by a single one, from the left. -/
def undouble : List Char → List Char
  | a :: b :: rest =>
    if a == apostrophe && b == apostrophe then apostrophe :: undouble rest
    else a :: undouble (b :: rest)
  | l => l

/-- The text between the outer quotes of `text`, with each doubled apostrophe replaced by a
single one. -/
def unquote (text : String) : String := String.mk (undouble (text.data.drop 1).dropLast)

/-- The path components after the first one, in the words of the interface: a string operand
is appended after a `.`, a one-element sequence holding an integer `k` is appended as `[k]`,
and anything else is rejected (`none`). -/
def pathComponents : List Value → Option String
  | [] => some ""
  | .string name :: rest => (pathComponents rest).map fun more => "." ++ name ++ more
  | .array [.int k] :: rest =>
    (pathComponents rest).map fun more => "[" ++ ToString.toString k ++ "]" ++ more
  | _ :: _ => none

/-- The path of the operands `o1, ..., on` of a property node, in the words of the interface:
`o1` must be a string, and the later operands are path components. -/
def pathOfOperands : List Value → Option String
  | [] => some ""
  | .string o1 :: rest => (pathComponents rest).map fun more => o1 ++ more
  | _ :: _ => none

/-- The path components after the first one, with an index `k` appended as `[k']`, where `k'`
is `k` read as a signed 64-bit integer. -/
def signedPathComponents : List Value → Option String
  | [] => some ""
  | .string name :: rest => (signedPathComponents rest).map fun more => "." ++ name ++ more
  | .array [.int k] :: rest =>
    (signedPathComponents rest).map fun more =>
      "[" ++ ToString.toString (asInt (some (.int k))) ++ "]" ++ more
  | _ :: _ => none

/-- The path of the operands of a property node, with every index read as a signed 64-bit
integer. -/
def signedPathOfOperands : List Value → Option String
  | [] => some ""
  | .string o1 :: rest => (signedPathComponents rest).map fun more => o1 ++ more
  | _ :: _ => none

/-- The property node `[".", "a", [9223372036854775808]]`, whose index is `2^63`. -/
def exampleUnsignedIndex : Value :=
  .array [.string ".", .string "a", .array [.int 9223372036854775808]]

/-- A parser after `reset`, with the variable `a` in scope. -/
def exampleScope : State :=
  { tableName := "XXX", context := [.kOuterOperation], vars := ["a"] }

/-- The method does not read `_sql`: run with a text `p` in front of `_sql`, it returns the same
result and leaves the same members, with `p` in front of `_sql`. -/
structure Frame {α : Type} (m : M α) : Prop where
  prepend : ∀ (p : String) (qp : State),
    m { qp with sql := p ++ qp.sql } = ((m qp).1, { (m qp).2 with sql := p ++ (m qp).2.sql })
/-- A new parser on the table `kv_default` with the result column `key`. -/
def exampleKeyParser : State := { tableName := "kv_default", baseResultColumns := ["key"] }

/-- The members after `exampleKeyParser` has parsed the example conjunction. -/
def exampleParsedOnce : State := (parse exampleConjunction exampleKeyParser).2

/-- The text of an ANY, EVERY or ANY AND EVERY predicate, in the words of the interface: `body`
is the body column, `path` the quoted property path, `v` the variable, `predicate` the text of
the predicate. -/
def anyEveryText (op body path v predicate : String) : String :=
  let any := "EXISTS (SELECT 1 FROM fl_each(" ++ body ++ ", " ++ path ++ ") AS _" ++ v
    ++ " WHERE " ++ predicate ++ ")"
  let every := "NOT EXISTS (SELECT 1 FROM fl_each(" ++ body ++ ", " ++ path ++ ") AS _" ++ v
    ++ " WHERE NOT (" ++ predicate ++ "))"
  if op = "ANY" then any
  else if op = "EVERY" then every
  else "(fl_count(" ++ body ++ ", " ++ path ++ ") > 0 AND " ++ every ++ ")"

/-- The example `["ANY", "a", [".", "tags"], ["=", ["?", "a"], "red"]]`. -/
def exampleAny : Value :=
  .array [.string "ANY", .string "a", .array [.string ".", .string "tags"],
    .array [.string "=", .array [.string "?", .string "a"], .string "red"]]

/-- The same predicate over the reserved property `_id`. -/
def exampleAnyId : Value :=
  .array [.string "ANY", .string "a", .array [.string ".", .string "_id"],
    .array [.string "=", .array [.string "?", .string "a"], .string "red"]]

/-- The members after the predicate of `exampleAny` is compiled on an empty output, with the
variable `a` in scope. -/
def examplePredicateCompiled : State :=
  (parseNode 2 (.array [.string "=", .array [.string "?", .string "a"], .string "red"])
    { exampleParser with vars := ["a"], sql := "" }).2

/-- The example `["MATCH", [".", "text"], "cat"]`. -/
def exampleMatch : Value :=
  .array [.string "MATCH", .array [.string ".", .string "text"], .string "cat"]

/-- A reference to the variable of an ANY inside a SELECT nested in its predicate:
`["ANY", "a", [".", "tags"], ["SELECT", \x7b"WHAT": [["?", "a"]]\x7d]]`. -/
def exampleNestedReference : Value :=
  .array [.string "ANY", .string "a", .array [.string ".", .string "tags"],
    .array [.string "SELECT", .dict [("WHAT", .array [.array [.string "?", .string "a"]])]]]

/-- The same reference as the predicate itself: `["ANY", "a", [".", "tags"], ["?", "a"]]`. -/
def exampleDirectReference : Value :=
  .array [.string "ANY", .string "a", .array [.string ".", .string "tags"],
    .array [.string "?", .string "a"]]

/-- The operator list of the interface: symbol, least and greatest number of operands, and
precedence, as the interface states them. -/
def statedOperatorList : List (String × Nat × Nat × Int) :=
  [ (".", 1, 9, 9), ("$", 1, 9, 9), ("?", 1, 9, 9),
    ("MISSING", 0, 0, 9),
    ("||", 2, 9, 8),
    ("*", 2, 9, 7), ("/", 2, 2, 7), ("%", 2, 2, 7),
    ("+", 2, 9, 6), ("-", 2, 2, 6), ("-", 1, 1, 9),
    ("<", 2, 2, 4), ("<=", 2, 2, 4), (">", 2, 2, 4), (">=", 2, 2, 4),
    ("=", 2, 2, 3), ("!=", 2, 2, 3), ("IS", 2, 2, 3), ("IS NOT", 2, 2, 3),
    ("IN", 2, 9, 3), ("NOT IN", 2, 9, 3),
    ("LIKE", 2, 2, 3), ("MATCH", 2, 2, 3), ("BETWEEN", 3, 3, 3), ("EXISTS", 1, 1, 8),
    ("NOT", 1, 1, 9), ("AND", 2, 9, 2), ("OR", 2, 9, 2),
    ("ANY", 3, 3, 1), ("EVERY", 3, 3, 1), ("ANY AND EVERY", 3, 3, 1),
    ("SELECT", 1, 1, 1),
    ("DESC", 1, 1, 2) ]

/-- The named entries of `kOperationList`, each as symbol, `minArgs`, `maxArgs` and
`precedence`. -/
def operatorTable : List (String × Nat × Nat × Int) :=
  (kOperationList.filter fun d => d.op.isSome).map fun d =>
    (d.op.bytes, d.minArgs, d.maxArgs, d.precedence)

/-- The parameter reference `["$", "x", "y"]`, with two operands. -/
def exampleParameterTwoOperands : Value :=
  .array [.string "$", .string "x", .string "y"]

/-- The application of `+` to the ten operands `0, ..., 9`. -/
def exampleSumOfTen : Value :=
  .array (.string "+" :: (List.range 10).map fun i => Value.int i)

/-- The application of `AND` to the ten operands `0, ..., 9`. -/
def exampleConjunctionOfTen : Value :=
  .array (.string "AND" :: (List.range 10).map fun i => Value.int i)

/-- The application of `IN` to eleven operands: `0 IN (1, ..., 10)`. -/
def exampleInOfEleven : Value :=
  .array (.string "IN" :: (List.range 11).map fun i => Value.int i)

/-- A parser inside a column list, as `writeCreateIndex` and ORDER BY compile their items. -/
def exampleColumnListParser : State :=
  { tableName := "kv_default", context := [.kOuterOperation, .kColumnListOperation] }

/-- The property reference `[".", "$.name"]`, whose path starts at the root `$`. -/
def exampleRootedProperty : Value := .array [.string ".", .string "$.name"]

/-- The property reference `[".", "$._id"]`. -/
def exampleRootedId : Value := .array [.string ".", .string "$._id"]

/-- The example `["=", [".", "name"], "Bob"]`. -/
def exampleNameIsBob : Value :=
  .array [.string "=", .array [.string ".", .string "name"], .string "Bob"]

/-- A parser after `reset`, with the parameter `y` recorded. -/
def exampleRecorded : State :=
  { tableName := "XXX", context := [.kOuterOperation], parameters := ["y"] }

/-- The example `["COUNT()", [".", "x"]]`. -/
def exampleCount : Value :=
  .array [.string "COUNT()", .array [.string ".", .string "x"]]

/-- The call `["ARRAY_COUNT()", [".", "x"]]` of `array_count` on a property. -/
def exampleArrayCount : Value :=
  .array [.string "ARRAY_COUNT()", .array [.string ".", .string "x"]]

/-- The symbol `.a()`, which has the form of a call and starts with `.`. -/
def exampleDottedCall : Value := .array [.string ".a()"]

/-- When the method returns, the members before and after it are related by `I`. -/
structure Keeps {α : Type} (I : State → State → Prop) (m : M α) : Prop where
  keeps : ∀ qp a, (m qp).1 = .ok a → I qp (m qp).2

/-- The relation `I` between members is reflexive and transitive and holds across every
elementary change of the members other than a change of `_variables`. -/
structure Stable (I : State → State → Prop) : Prop where
  refl : ∀ q, I q q
  trans : ∀ a b c, I a b → I b c → I a c
  write : ∀ q s, I q (QueryParser.write s q).2
  pushContext : ∀ q op, I q (QueryParser.pushContext op q).2
  popContext : ∀ q, I q (QueryParser.popContext q).2
  setContextBack : ∀ q op, I q (QueryParser.setContextBack op q).2
  reset : ∀ q, I q (QueryParser.reset q).2
  insertParameter : ∀ q p, I q (QueryParser.insertParameter p q).2
  addFTSTable : ∀ q key, I q (QueryParser.addFTSTable key q).2
  setFirstCustomResultCol : ∀ q n, I q (QueryParser.setFirstCustomResultCol n q).2

/-- The members that the caller configures are equal, and so is `_variables`. -/
def SameScope (q q' : State) : Prop :=
  q'.vars = q.vars ∧ q'.tableName = q.tableName ∧ q'.bodyColumnName = q.bodyColumnName ∧
  q'.propertyPath = q.propertyPath ∧ q'.baseResultColumns = q.baseResultColumns ∧
  q'.defaultLimit = q.defaultLimit ∧ q'.defaultOffset = q.defaultOffset
/-- The configured members are equal, and `_variables` after is `_variables` before without
`var`. -/
def ScopeErased (var : String) (q q' : State) : Prop :=
  q'.vars = q.vars.erase var ∧ q'.tableName = q.tableName ∧
  q'.bodyColumnName = q.bodyColumnName ∧
  q'.propertyPath = q.propertyPath ∧ q'.baseResultColumns = q.baseResultColumns ∧
  q'.defaultLimit = q.defaultLimit ∧ q'.defaultOffset = q.defaultOffset

/-- The negation of a parameter reference with an invalid name: `["NOT", ["$", "a b"]]`. -/
def exampleInvalidParameter : Value :=
  .array [.string "NOT", .array [.string "$", .string "a b"]]

/-- The negation of a property reference in the long form: `["NOT", [".", "p"]]`. -/
def exampleNotLong : Value := .array [.string "NOT", .array [.string ".", .string "p"]]

/-- The negation of a property reference in the shorthand form: `["NOT", [".p"]]`. -/
def exampleNotShort : Value := .array [.string "NOT", .array [.string ".p"]]

/-- The negation of a parameter reference in the long form: `["NOT", ["$", "n"]]`. -/
def exampleNotLongParameter : Value :=
  .array [.string "NOT", .array [.string "$", .string "n"]]

/-- The negation of a parameter reference in the shorthand form: `["NOT", ["$n"]]`. -/
def exampleNotShortParameter : Value := .array [.string "NOT", .array [.string "$n"]]

/-- A MATCH left operand that is no property: `["lower()", [".", "text"]]`. -/
def exampleMatchKey : Value :=
  .array [.string "lower()", .array [.string ".", .string "text"]]

/-- A MATCH on a property whose name holds a double quote and an opening parenthesis:
`["MATCH", [".", "x\"("], "cat"]`. -/
def exampleQuotedMatch : Value :=
  .array [.string "MATCH", .array [.string ".", .string "x\"("], .string "cat"]

/-- Scanner of SQL text, in the words of the interface: from the nesting depth `depth` and the
mode (0 outside quotes, 1 inside a single-quoted literal, 2 inside a double-quoted identifier),
whether every parenthesis outside the quotes is matched and properly nested, and every quote
is closed. -/
def balancedFrom : Nat → Nat → List Char → Bool
  | depth, mode, [] => depth == 0 && mode == 0
  | depth, 0, c :: rest =>
    if c = '(' then balancedFrom (depth + 1) 0 rest
    else if c = ')' then decide (depth > 0) && balancedFrom (depth - 1) 0 rest
    else if c = apostrophe then balancedFrom depth 1 rest
    else if c = '"' then balancedFrom depth 2 rest
    else balancedFrom depth 0 rest
  | depth, 1, c :: rest =>
    if c = apostrophe then balancedFrom depth 0 rest else balancedFrom depth 1 rest
  | depth, mode + 2, c :: rest =>
    if c = '"' then balancedFrom depth 0 rest else balancedFrom depth (mode + 2) rest

/-- Whether the parentheses of an SQL text are balanced outside its quoted parts. -/
def balanced (text : String) : Bool := balancedFrom 0 0 text.data

/-- A mapping whose WHERE is a SELECT with a MATCH:
`{"WHERE": ["SELECT", {"WHERE": ["MATCH", [".", "text"], "cat"]}]}`. -/
def exampleSelectAsWhere : Value :=
  .dict [("WHERE", .array [.string "SELECT", .dict [("WHERE", exampleMatch)]])]

/-- A mapping whose WHERE holds a SELECT with a MATCH under NOT:
`{"WHERE": ["NOT", ["SELECT", {"WHERE": ["MATCH", [".", "text"], "cat"]}]]}`. -/
def exampleSelectUnderNot : Value :=
  .dict [("WHERE", .array [.string "NOT",
    .array [.string "SELECT", .dict [("WHERE", exampleMatch)]]])]

/-- The members of `exampleKeyParser` while it handles a SELECT under NOT: the context stack
holds the outer frame, NOT and SELECT. -/
def exampleNestedContext : State :=
  { exampleKeyParser with
    context := [.kOuterOperation, .kOperationList 25, .kOperationList 31] }

mutual
/-- The left operands of the MATCH nodes that a walk of an expression reaches, in the order of
the walk, in the words of the interface: the walk descends through all operands of every
sequence node, but not into the left operand of a MATCH. -/
def matchOperands : Value → List Value
  | .array (first :: operands) =>
    if slice.eq (asString (some first)) (some "MATCH") then
      match operands with
      | lhs :: rest => lhs :: matchOperandsIn rest
      | [] => []
    else matchOperandsIn operands
  | _ => []
/-- The left operands of the MATCH nodes reached in a list of expressions. -/
def matchOperandsIn : List Value → List Value
  | [] => []
  | node :: rest => matchOperands node ++ matchOperandsIn rest
end

/-- Registration of a name in an FTS plan, in the words of the interface: a name that is
present leaves the plan unchanged, a new name is added at the end. -/
def register (plan : List String) (name : String) : List String :=
  if name ∈ plan then plan else plan ++ [name]

/-- The names of a list that are not in `seen`, without duplicates, in the order of their first
occurrence. -/
def firstOccurrences : List String → List String → List String
  | _, [] => []
  | seen, name :: rest =>
    if name ∈ seen then firstOccurrences seen rest
    else name :: firstOccurrences (seen ++ [name]) rest

/-- Two MATCH clauses on the same property: `["AND", ["MATCH", [".", "text"], "cat"],
["MATCH", [".", "text"], "dog"]]`. -/
def exampleTwoMatches : Value :=
  .array [.string "AND", exampleMatch,
    .array [.string "MATCH", .array [.string ".", .string "text"], .string "dog"]]

/-- The names of the keys `keys`, as `FTSIndexName` derives them in a parser of the table of
`q`. -/
def Named (q : State) (keys : List Value) (names : List String) : Prop :=
  List.Forall₂ (fun lhs name => (FTSIndexName lhs q).1 = .ok name) keys names

/-- The FTS plan after is the plan before with entries added at its end. -/
def PlanGrows (q q' : State) : Prop := q.ftsTables <+: q'.ftsTables

/-- The text that `infixOp` writes for operands whose texts are `texts`, when `n` operands are
written already. -/
def joinedFrom (op : String) (n : Nat) (texts : List String) : String :=
  if n = 0 then String.intercalate (separator op) texts
  else if texts.isEmpty then ""
  else separator op ++ String.intercalate (separator op) texts

/-- The result column of an FTS table: a call of `offsets`. -/
def offsetsColumn (ftsTable : String) : String := "offsets(\"" ++ ftsTable ++ "\")"

/-- The configured members are as before, and the FTS plan has grown at its end. -/
def Settled (q q' : State) : Prop := SameScope q q' ∧ PlanGrows q q'

/-- The mapping of the example of a SELECT with a WHAT and a WHERE:
`\x7b"WHAT": [[".", "name"]], "WHERE": ["=", [".", "id"], 7]\x7d`. -/
def exampleWhatWhere : List (String × Value) :=
  [("WHAT", .array [.array [.string ".", .string "name"]]),
   ("WHERE", .array [.string "=", .array [.string ".", .string "id"], .int 7])]

/-- A mapping with a WHAT only: `\x7b"WHAT": [[".", "name"]]\x7d`. -/
def exampleWhat : List (String × Value) :=
  [("WHAT", .array [.array [.string ".", .string "name"]])]

/-- A mapping with a WHAT and an ORDER BY:
`\x7b"WHAT": [".a"], "ORDER BY": [".b", ["DESC", [".", "c"]]]\x7d`. -/
def exampleOrderBy : List (String × Value) :=
  [("WHAT", .array [.string ".a"]),
   ("ORDER BY", .array [.string ".b",
      .array [.string "DESC", .array [.string ".", .string "c"]]])]

/-- A parser on the table `kv_default` with the result column `key` and the default limit 10
and offset 5. -/
def exampleLimitParser : State :=
  { exampleKeyParser with defaultLimit := "10", defaultOffset := "5" }

/-- The expression list of an index: `[".name", ["lower()", [".", "x"]]]`. -/
def exampleIndexExpressions : List Value :=
  [.string ".name", .array [.string "lower()", .array [.string ".", .string "x"]]]

/-- From members that satisfy `P`, the method ends either by an error that satisfies `E` or by
a return with members that satisfy `P`. -/
structure Guard {α : Type} (P : State → Prop) (E : Error → Prop) (m : M α) : Prop where
  error : ∀ q e, P q → (m q).1 = .error e → E e
  keeps : ∀ q a, P q → (m q).1 = .ok a → P (m q).2

/-- The property `P` of the members holds across every elementary change of the members that a
handler other than `selectOp` makes, a pop of the context stack apart, and `E` holds for the
invalid-query errors and for the uses that the source does not define. -/
structure GStable (P : State → Prop) (E : Error → Prop) : Prop where
  write : ∀ q s, P q → P (QueryParser.write s q).2
  pushContext : ∀ q op, P q → P (QueryParser.pushContext op q).2
  setContextBack : ∀ q op, P q → P (QueryParser.setContextBack op q).2
  insertParameter : ∀ q p, P q → P (QueryParser.insertParameter p q).2
  insertVariable : ∀ q v, P q → P (QueryParser.insertVariable v q).2
  eraseVariable : ∀ q v, P q → P (QueryParser.eraseVariable v q).2
  invalidQuery : ∀ s, E (.invalidQuery s)
  undefinedBehavior : E .undefinedBehavior
mutual
/-- Whether a SELECT operator occurs in an expression: in the expression itself or in an
operand of a sequence node, at any depth. -/
def hasSelect : Value → Bool
  | .array (first :: operands) =>
    slice.eq (asString (some first)) (some "SELECT") || hasSelectIn operands
  | _ => false
/-- Whether a SELECT operator occurs in one of the expressions of a list. -/
def hasSelectIn : List Value → Bool
  | [] => false
  | node :: rest => hasSelect node || hasSelectIn rest
end

/-- The members belong to a parser of the table `tableName` whose FTS plan is `plan`. -/
def Planned (plan : List String) (tableName : String) (q : State) : Prop :=
  q.tableName = tableName ∧ q.ftsTables = plan

/-- The names of the left operands of the MATCH nodes that a walk of `node` reaches, as derived
in a parser of the table `tableName`, are all in `plan`. -/
def Covered (plan : List String) (tableName : String) (node : Value) : Prop :=
  ∀ lhs ∈ matchOperands node, ∀ (q : State) (name : String), q.tableName = tableName →
    (FTSIndexName lhs q).1 = .ok name → name ∈ plan

/-- The error is not a failed assertion. -/
def NoAssertion (e : Error) : Prop := e ≠ .assertionFailed

/-- A MATCH under a conjunction: `["AND", ["MATCH", [".", "text"], "cat"], ["=", [".", "n"], 1]]`. -/
def exampleMatchAnd : Value :=
  .array [.string "AND", exampleMatch,
    .array [.string "=", .array [.string ".", .string "n"], .int 1]]

/-- The error is not the exhaustion of the recursion allowance of the model. -/
def NoFuelError (e : Error) : Prop := e ≠ .outOfFuel

/-- The index of the first custom result column that is recorded is `n`, and the context stack
holds at least `k` operations. -/
def Deep (n k : Nat) (q : State) : Prop := q.firstCustomResultCol = n ∧ k ≤ q.context.length

/-- Whether a node is a SELECT operation: a sequence whose first item is the string `SELECT`
(the test of `parse`). -/
def isSelect : Value → Bool
  | .array (first :: _) => slice.eq (asString (some first)) (some "SELECT")
  | _ => false

/-- A mapping with a WHAT column whose WHERE expression is a SELECT with a MATCH:
`\x7b"WHAT": [[".", "a"]], "WHERE": ["SELECT", \x7b"WHERE": ["MATCH", [".", "text"], "cat"]\x7d]\x7d`. -/
def exampleWhatSelect : List (String × Value) :=
  [("WHAT", .array [.array [.string ".", .string "a"]]),
   ("WHERE", .array [.string "SELECT", .dict [("WHERE", exampleMatch)]])]

end QueryParser

/-! ## Theorems -/

namespace RevFinder

open fleece

/-- C2: `findProposedChange` returns exactly the status of the specification's table, the status
is one of 0, 304, 409, 500, and when the document exists with the offered rev as its current rev
the status is 304 whatever parent is offered. -/
theorem findProposedChange_table (db : DBAccess) (docID revID parentRevID : slice) :
    (findProposedChange db docID revID parentRevID).status
        = proposedChangeTable (db.getDoc docID) revID parentRevID
      ∧ (findProposedChange db docID revID parentRevID).status ∈ ([0, 304, 409, 500] : List Int)
      ∧ (∀ cur deleted, db.getDoc docID = .doc cur deleted → cur = revID.bytes →
          (findProposedChange db docID revID parentRevID).status = 304) := by
  unfold findProposedChange proposedChangeTable
  cases hdoc : db.getDoc docID with
  | notFound => cases parentRevID <;> simp
  | otherError => simp
  | doc cur deleted =>
    cases parentRevID with
    | none =>
      by_cases h : cur = revID.bytes <;> cases deleted <;>
        simp [slice.eq, slice.bytes, h] <;> simp_all [slice.bytes]
    | some parent =>
      by_cases h : cur = revID.bytes <;> by_cases h2 : cur = parent <;>
        simp [slice.eq, slice.bytes, h, h2] <;> simp_all [slice.bytes]

/-! ### Lists -/

theorem rdropWhile_cons {α : Type} (p : α → Bool) (a : α) (l : List α) :
    (a :: l).rdropWhile p
      = if (l.rdropWhile p).isEmpty then (if p a then [] else [a])
        else a :: l.rdropWhile p := by
  induction l using List.reverseRecOn with
  | nil => simp [List.rdropWhile_singleton]
  | append_singleton l x ih =>
    rw [← List.cons_append, List.rdropWhile_concat, List.rdropWhile_concat]
    by_cases hx : p x
    · simp only [hx, if_true]; exact ih
    · simp [hx]

theorem rdropWhile_length_le {α : Type} (p : α → Bool) (l : List α) :
    (l.rdropWhile p).length ≤ l.length :=
  (List.rdropWhile_prefix p l).length_le

/-- Padding a trimmed list: what `rdropWhile` drops is mapped to `z`. -/
theorem rdropWhile_map_pad {α β : Type} (p : α → Bool) (f : α → β) (z : β)
    (hz : ∀ a, p a = true → f a = z) (l : List α) :
    (l.rdropWhile p).map f ++ List.replicate (l.length - (l.rdropWhile p).length) z
      = l.map f := by
  induction l with
  | nil => simp
  | cons a l ih =>
    rw [rdropWhile_cons]
    have hle := rdropWhile_length_le p l
    cases ht : l.rdropWhile p with
    | nil =>
      rw [ht] at ih
      simp only [List.isEmpty_nil, if_true]
      simp only [List.map_nil, List.length_nil, Nat.sub_zero, List.nil_append] at ih
      by_cases hp : p a
      · simp [hp, List.replicate_succ, hz a hp, ih]
      · simp [hp, ih]
    | cons b t =>
      rw [ht] at ih hle
      simp only [List.isEmpty_cons, Bool.false_eq_true, if_false, List.map_cons, List.length_cons,
        List.cons_append, Nat.add_sub_add_right]
      simp only [List.map_cons, List.length_cons, List.cons_append] at ih
      rw [ih]

theorem rdropWhile_get? {α : Type} (p : α → Bool) (l : List α) (i : Nat)
    (h : i < (l.rdropWhile p).length) : (l.rdropWhile p).get? i = l.get? i := by
  obtain ⟨t, ht⟩ := List.rdropWhile_prefix p l
  conv_rhs => rw [← ht]
  simp [List.getElem?_append_left h]

/-- An element that `p` rejects lies inside the trimmed list. -/
theorem lt_rdropWhile_length {α : Type} (p : α → Bool) (l : List α) (i : Nat) (a : α)
    (hi : l.get? i = some a) (hp : p a = false) : i < (l.rdropWhile p).length := by
  induction l generalizing i with
  | nil => simp at hi
  | cons b l ih =>
    rw [rdropWhile_cons]
    cases i with
    | zero =>
      simp only [List.get?_cons_zero, Option.some.injEq] at hi
      subst hi
      cases ht : l.rdropWhile p <;> simp [hp]
    | succ i =>
      simp only [List.get?_cons_succ] at hi
      have := ih i hi
      cases ht : l.rdropWhile p with
      | nil => rw [ht] at this; simp at this
      | cons c t => rw [ht] at this; simpa using this

theorem String_intercalate_cons_cons (s a b : String) (l : List String) :
    String.intercalate s (a :: b :: l) = a ++ s ++ String.intercalate s (b :: l) := by
  have go : ∀ (l : List String) (acc x : String),
      String.intercalate.go (acc ++ x) s l = acc ++ String.intercalate.go x s l := by
    intro l
    induction l with
    | nil => intro acc x; rfl
    | cons c l ih =>
      intro acc x
      simp only [String.intercalate.go]
      rw [← ih, String.append_assoc, String.append_assoc, String.append_assoc]
  simp only [String.intercalate, String.intercalate.go]
  rw [go, String.append_assoc]

/-! ### The loops of `findProposedRevs` -/

theorem zeroFillLoop_calls (w : EncoderCall) :
    ∀ (variant itemsWritten i : Nat) (e : Encoder), variant = i - itemsWritten →
      zeroFillLoop (fun e => { calls := e.calls ++ [w] }) variant itemsWritten i e
        = (max itemsWritten i + 1, { calls := e.calls ++ List.replicate (i - itemsWritten) w }) := by
  intro variant
  induction variant with
  | zero =>
    intro itemsWritten i e h
    have h1 : i ≤ itemsWritten := by omega
    simp [zeroFillLoop, ← h, Nat.max_eq_left h1]
  | succ n ih =>
    intro itemsWritten i e h
    have h1 : itemsWritten < i := by omega
    have h2 : i - itemsWritten = (i - (itemsWritten + 1)) + 1 := by omega
    simp only [zeroFillLoop, h1, if_true]
    rw [ih (itemsWritten + 1) i _ (by omega), h2, List.replicate_succ]
    simp
    omega

theorem zeroFill_calls (w : EncoderCall) (itemsWritten i : Nat) (e : Encoder)
    (h : itemsWritten ≤ i) :
    zeroFill (fun e => { calls := e.calls ++ [w] }) itemsWritten i e
      = (i + 1, { calls := e.calls ++ List.replicate (i - itemsWritten) w }) := by
  have := zeroFillLoop_calls w (i - itemsWritten) itemsWritten i e rfl
  simp only [zeroFill]
  rw [this, Nat.max_eq_right h]

theorem get?_append_length {α : Type} (done : List α) (s : α) (tail : List α) :
    (done ++ s :: tail).get? done.length = some s := by
  induction done with
  | nil => rfl
  | cons a done ih => simpa using ih

theorem set_append_length {α : Type} (done : List α) (s t : α) (tail : List α) :
    (done ++ s :: tail).set done.length t = done ++ t :: tail := by
  induction done with
  | nil => rfl
  | cons a done ih => simp

theorem setBodySize_append (done : List ChangeSequence) (s : ChangeSequence)
    (tail : List ChangeSequence) (n : Nat) :
    setBodySize (done ++ s :: tail) done.length n = done ++ { s with bodySize := n } :: tail := by
  simp only [setBodySize, get?_append_length, set_append_length]

theorem rdropWhile_cons_zero (l : List Int) :
    (0 :: l).rdropWhile (· == 0) = owed 1 (l.rdropWhile (· == 0)) := by
  rw [rdropWhile_cons]
  cases l.rdropWhile (· == 0) <;> simp [owed]

theorem rdropWhile_cons_ne (a : Int) (l : List Int) (h : a ≠ 0) :
    (a :: l).rdropWhile (· == 0) = a :: l.rdropWhile (· == 0) := by
  rw [rdropWhile_cons]
  cases l.rdropWhile (· == 0) <;> simp [h]

theorem owed_owed (n : Nat) (t : List Int) : owed n (owed 1 t) = owed (n + 1) t := by
  unfold owed
  by_cases h : t = []
  · simp [h]
  · simp [h, List.replicate_succ', List.append_assoc]

theorem findProposedRevsStep_skip (db : DBAccess) (i : Nat) (item : Value) (st : FindState)
    (h : proposedEntryStatus db item = none) : findProposedRevsStep db i item st = some st := by
  by_cases hc : (asString (get (asArray (some item)) 0)).size = 0
      ∨ (asString (get (asArray (some item)) 1)).size = 0
  · simp only [findProposedRevsStep, hc, if_true]
  · simp [proposedEntryStatus, hc] at h

theorem findProposedRevsStep_reject (db : DBAccess) (i : Nat) (item : Value) (st : FindState)
    (s : Int) (h : proposedEntryStatus db item = some s) (hs : s ≠ 0) (hi : st.itemsWritten ≤ i) :
    ∃ st1, findProposedRevsStep db i item st = some st1 ∧ st1.itemsWritten = i + 1 ∧
      st1.encoder.calls = st.encoder.calls ++
        List.replicate (i - st.itemsWritten) (.writeInt 0) ++ [.writeInt s] ∧
      st1.requested = st.requested ∧ st1.sequences = st.sequences := by
  by_cases hc : (asString (get (asArray (some item)) 0)).size = 0
      ∨ (asString (get (asArray (some item)) 1)).size = 0
  · simp [proposedEntryStatus, hc] at h
  · simp only [proposedEntryStatus, hc, if_false, Option.some.injEq] at h
    simp only [findProposedRevsStep, hc, h, hs, if_false, Encoder.writeInt,
      zeroFill_calls _ _ _ _ hi]
    exact ⟨_, rfl, rfl, rfl, rfl, rfl⟩

theorem findProposedRevsStep_accept (db : DBAccess) (i : Nat) (item : Value) (st : FindState)
    (h : proposedEntryStatus db item = some 0) (done tail : List ChangeSequence)
    (hseq : st.sequences = done ++ ({} : ChangeSequence) :: tail) (hd : done.length = i) :
    ∃ st1, findProposedRevsStep db i item st = some st1 ∧ st1.itemsWritten = st.itemsWritten ∧
      st1.encoder = st.encoder ∧ st1.requested = st.requested + 1 ∧
      st1.sequences = done ++ proposedSequence db item :: tail := by
  have hps : proposedSequence db item
      = { bodySize := max (asUnsigned (get (asArray (some item)) 3)) 1 } := by
    simp [proposedSequence, h]
  by_cases hc : (asString (get (asArray (some item)) 0)).size = 0
      ∨ (asString (get (asArray (some item)) 1)).size = 0
  · simp [proposedEntryStatus, hc] at h
  · simp only [proposedEntryStatus, hc, if_false, Option.some.injEq] at h
    subst hd
    simp only [findProposedRevsStep, hc, if_false, h, if_true, hseq, get?_append_length,
      setBodySize_append, hps]
    exact ⟨_, rfl, rfl, rfl, rfl, rfl⟩

theorem findProposedRevsLoop_spec (db : DBAccess) :
    ∀ (rest : List Value) (i : Nat) (st : FindState) (done : List ChangeSequence),
      st.sequences = done ++ List.replicate rest.length ({} : ChangeSequence) → done.length = i →
      st.itemsWritten ≤ i →
      ∃ st', findProposedRevsLoop db i rest st = some st' ∧
        st'.encoder.calls = st.encoder.calls ++
          (owed (i - st.itemsWritten) ((rest.map (proposedSlot db)).rdropWhile (· == 0))).map .writeInt ∧
        st'.requested = st.requested + rest.countP (fun item => proposedEntryStatus db item = some 0) ∧
        st'.sequences = done ++ rest.map (proposedSequence db) := by
  intro rest
  induction rest with
  | nil =>
    intro i st done hs _ _
    exact ⟨st, rfl, by simp [owed], by simp, by simp [hs]⟩
  | cons item rest ih =>
    intro i st done hs hd hi
    simp only [findProposedRevsLoop]
    have hsub : i + 1 - st.itemsWritten = (i - st.itemsWritten) + 1 := by omega
    cases hst : proposedEntryStatus db item with
    | none =>
      rw [findProposedRevsStep_skip db i item st hst]
      obtain ⟨st', h1, h2, h3, h4⟩ := ih (i + 1) st (done ++ [({} : ChangeSequence)])
        (by simp [hs, List.replicate_succ]) (by simp [hd]) (by omega)
      refine ⟨st', h1, ?_, ?_, ?_⟩
      · rw [h2]
        have : proposedSlot db item = 0 := by simp [proposedSlot, hst]
        simp only [List.map_cons, this, rdropWhile_cons_zero]
        rw [owed_owed, hsub]
      · rw [h3]; simp [List.countP_cons, hst]
      · rw [h4]; simp [proposedSequence, hst]
    | some s =>
      by_cases hz : s = 0
      · subst hz
        obtain ⟨st1, hstep, e1, e2, e3, e4⟩ := findProposedRevsStep_accept db i item st hst done
          (List.replicate rest.length {}) (by simpa [List.replicate_succ] using hs) hd
        rw [hstep]
        obtain ⟨st', h1, h2, h3, h4⟩ := ih (i + 1) st1 (done ++ [proposedSequence db item])
          (by simp [e4]) (by simp [hd]) (by omega)
        refine ⟨st', h1, ?_, ?_, ?_⟩
        · rw [h2, e1, e2]
          have : proposedSlot db item = 0 := by simp [proposedSlot, hst]
          simp only [List.map_cons, this, rdropWhile_cons_zero]
          rw [owed_owed, hsub]
        · rw [h3, e3]; simp [List.countP_cons, hst]; omega
        · rw [h4]; simp
      · obtain ⟨st1, hstep, e1, e2, e3, e4⟩ :=
          findProposedRevsStep_reject db i item st s hst hz hi
        rw [hstep]
        obtain ⟨st', h1, h2, h3, h4⟩ := ih (i + 1) st1 (done ++ [({} : ChangeSequence)])
          (by simp [e4, hs, List.replicate_succ]) (by simp [hd]) (by omega)
        refine ⟨st', h1, ?_, ?_, ?_⟩
        · rw [h2, e1, e2]
          have : proposedSlot db item = s := by simp [proposedSlot, hst]
          simp only [List.map_cons, this, rdropWhile_cons_ne _ _ hz]
          simp [owed]
          split <;> simp_all
        · rw [h3, e3]; simp [List.countP_cons, hst, hz]
        · rw [h4]; simp [proposedSequence, hst, hz]

/-! ### The loops of `findRevs` -/

theorem renderCalls_append_writeRaw (calls : List EncoderCall) (s : String) (first : Bool) :
    renderCalls (calls ++ [.writeRaw s]) first = renderCalls calls first ++ s := by
  induction calls generalizing first with
  | nil => simp [renderCalls]
  | cons c calls ih =>
    cases c <;> simp [renderCalls, ih, String.append_assoc]

theorem renderCalls_append_endArray (calls : List EncoderCall) (first : Bool) :
    renderCalls (calls ++ [.endArray]) first = renderCalls calls first ++ "]" := by
  induction calls generalizing first with
  | nil => simp [renderCalls]
  | cons c calls ih =>
    cases c <;> simp [renderCalls, ih, String.append_assoc]

theorem text_writeRaw (e : Encoder) (s : String) : (e.writeRaw s).text = e.text ++ s :=
  renderCalls_append_writeRaw e.calls s true

theorem text_endArray (e : Encoder) : e.endArray.text = e.text ++ "]" :=
  renderCalls_append_endArray e.calls true

theorem text_replicate_zeros (e : Encoder) (n : Nat) :
    Encoder.text { calls := e.calls ++ List.replicate n (.writeRaw "0,") }
      = e.text ++ zeros n := by
  induction n generalizing e with
  | zero => simp [zeros, Encoder.text]
  | succ n ih =>
    have := ih (e.writeRaw "0,")
    simp only [Encoder.writeRaw, List.append_assoc, List.singleton_append] at this
    rw [List.replicate_succ, this]
    have h2 := text_writeRaw e "0,"
    simp only [Encoder.writeRaw] at h2
    rw [h2, zeros, String.append_assoc]

theorem zeros_succ (n : Nat) : zeros (n + 1) = zeros n ++ "0," := by
  induction n with
  | zero => rfl
  | succ n ih =>
    show "0," ++ zeros (n + 1) = ("0," ++ zeros n) ++ "0,"
    rw [ih, String.append_assoc]

theorem setBodySize_get? (l : List ChangeSequence) (i v j : Nat) :
    (setBodySize l i v).get? j
      = (l.get? j).map fun s => if j = i then { s with bodySize := v } else s := by
  unfold setBodySize
  cases h : l.get? i with
  | none =>
    simp only
    by_cases hj : j = i
    · subst hj; simp only [List.get?_eq_getElem?] at h ⊢; simp [h]
    · cases l.get? j <;> simp [hj]
  | some s =>
    simp only [List.get?_eq_getElem?, List.getElem?_set] at h ⊢
    by_cases hj : j = i
    · subst hj
      have hlt : j < l.length := by
        by_contra hc
        simp [List.getElem?_eq_none (Nat.le_of_not_lt hc)] at h
      simp [h, hlt]
    · have : ¬ i = j := fun e => hj e.symm
      cases l[j]? <;> simp [hj, this]

theorem setBodySize_length (l : List ChangeSequence) (i v : Nat) :
    (setBodySize l i v).length = l.length := by
  unfold setBodySize
  cases l.get? i <;> simp


theorem zeroFill_writeRaw (itemsWritten i : Nat) (e : Encoder) (h : itemsWritten ≤ i) :
    (zeroFill (fun e => e.writeRaw "0,") itemsWritten i e).1 = i + 1 ∧
    (zeroFill (fun e => e.writeRaw "0,") itemsWritten i e).2.text
      = e.text ++ zeros (i - itemsWritten) := by
  have := zeroFill_calls (.writeRaw "0,") itemsWritten i e h
  simp only [Encoder.writeRaw]
  rw [this]
  exact ⟨rfl, text_replicate_zeros e _⟩

theorem findRevsStep_missing (k : AncestorMarkers) (i : Nat) (docID revID anc : slice)
    (st : FindState) (h : isMissing k anc = true) (hi : st.itemsWritten ≤ i) :
    (findRevsStep k i docID revID anc st).itemsWritten = i + 1 ∧
    (findRevsStep k i docID revID anc st).requested = st.requested + 1 ∧
    (findRevsStep k i docID revID anc st).sequences = st.sequences ∧
    (findRevsStep k i docID revID anc st).effects = st.effects ∧
    (findRevsStep k i docID revID anc st).encoder.text
      = st.encoder.text ++ ((if st.itemsWritten > 0 then "," else "")
          ++ zeros (i - st.itemsWritten) ++ ancestorsText anc) := by
  simp only [isMissing, Bool.and_eq_true, Bool.not_eq_true'] at h
  have hz := zeroFill_writeRaw st.itemsWritten i
    (if st.itemsWritten > 0 then st.encoder.writeRaw "," else st.encoder) hi
  have he : (if st.itemsWritten > 0 then st.encoder.writeRaw "," else st.encoder).text
      = st.encoder.text ++ (if st.itemsWritten > 0 then "," else "") := by
    split
    · exact text_writeRaw _ _
    · simp
  simp only [findRevsStep, h.1, h.2, Bool.false_eq_true, if_false]
  refine ⟨hz.1, trivial, trivial, trivial, ?_⟩
  rw [text_writeRaw, hz.2, he]
  simp only [ancestorsText, String.append_assoc]

theorem findRevsStep_exists (k : AncestorMarkers) (i : Nat) (docID revID anc : slice)
    (st : FindState) (h : isMissing k anc = false) :
    (findRevsStep k i docID revID anc st).itemsWritten = st.itemsWritten ∧
    (findRevsStep k i docID revID anc st).requested = st.requested ∧
    (findRevsStep k i docID revID anc st).sequences = setBodySize st.sequences i 0 ∧
    (findRevsStep k i docID revID anc st).encoder = st.encoder := by
  unfold findRevsStep
  by_cases h1 : slice.eq anc k.kC4AncestorExistsButNotCurrent = true
  · simp [h1]
  · by_cases h2 : slice.eq anc k.kC4AncestorExists = true
    · simp [h1, h2]
    · simp [isMissing, h1, h2] at h


/-- The ancestry answers of positions `i .. i+n-1`. -/
theorem answers_succ (ancestors : List slice) (i n : Nat) :
    (List.range' i (n + 1)).map (fun j => sliceAt ancestors j)
      = sliceAt ancestors i :: (List.range' (i + 1) n).map (fun j => sliceAt ancestors j) := by
  simp [List.range'_succ]

theorem owedText_skip (k : AncestorMarkers) (a : slice) (l : List slice) (iw i : Nat)
    (ha : isMissing k a = false) (hi : iw ≤ i) :
    owedText iw (i + 1) ((l.rdropWhile (fun a => !isMissing k a)).map (revsItem k))
      = owedText iw i (((a :: l).rdropWhile (fun a => !isMissing k a)).map (revsItem k)) := by
  rw [rdropWhile_cons]
  cases ht : l.rdropWhile (fun a => !isMissing k a) with
  | nil => simp [owedText, ha]
  | cons b t =>
    have hsub : i + 1 - iw = (i - iw) + 1 := by omega
    simp only [List.isEmpty_cons, Bool.false_eq_true, if_false, List.map_cons, owedText,
      List.cons_ne_nil, hsub, zeros_succ, String_intercalate_cons_cons, revsItem, ha]
    simp only [String.append_assoc]
    rfl

theorem owedText_write (k : AncestorMarkers) (a : slice) (l : List slice) (iw i : Nat)
    (ha : isMissing k a = true) :
    ((if iw > 0 then "," else "") ++ zeros (i - iw) ++ ancestorsText a)
        ++ owedText (i + 1) (i + 1) ((l.rdropWhile (fun a => !isMissing k a)).map (revsItem k))
      = owedText iw i (((a :: l).rdropWhile (fun a => !isMissing k a)).map (revsItem k)) := by
  rw [rdropWhile_cons]
  cases ht : l.rdropWhile (fun a => !isMissing k a) with
  | nil => simp [owedText, ha, revsItem, String.intercalate, String.intercalate.go]
  | cons b t =>
    simp only [List.isEmpty_cons, Bool.false_eq_true, if_false, List.map_cons, owedText,
      List.cons_ne_nil, String_intercalate_cons_cons, revsItem, ha, if_true, Nat.sub_self, zeros,
      Nat.succ_pos, gt_iff_lt, Nat.lt_add_one, String.append_empty]
    simp only [String.append_assoc]

theorem findRevsLoop_spec (k : AncestorMarkers) (docIDs revIDs ancestors : List slice) :
    ∀ (n i : Nat) (st : FindState), st.itemsWritten ≤ i →
      (findRevsLoop k docIDs revIDs ancestors n i st).encoder.text
          = st.encoder.text ++ owedText st.itemsWritten i
              ((((List.range' i n).map (fun j => sliceAt ancestors j)).rdropWhile
                (fun a => !isMissing k a)).map (revsItem k)) ∧
      (findRevsLoop k docIDs revIDs ancestors n i st).requested
          = st.requested
            + ((List.range' i n).map (fun j => sliceAt ancestors j)).countP (isMissing k) ∧
      (findRevsLoop k docIDs revIDs ancestors n i st).sequences.length = st.sequences.length ∧
      ∀ j, (findRevsLoop k docIDs revIDs ancestors n i st).sequences.get? j
          = (st.sequences.get? j).map fun s =>
              if i ≤ j ∧ j < i + n ∧ isMissing k (sliceAt ancestors j) = false
              then { s with bodySize := 0 } else s := by
  intro n
  induction n with
  | zero =>
    intro i st _
    refine ⟨by simp [findRevsLoop, owedText], by simp [findRevsLoop], rfl, ?_⟩
    intro j
    have : ¬ (i ≤ j ∧ j < i + 0 ∧ isMissing k (sliceAt ancestors j) = false) := by omega
    simp only [findRevsLoop, this, if_false]
    cases st.sequences.get? j <;> rfl
  | succ n ih =>
    intro i st hi
    simp only [findRevsLoop]
    rw [answers_succ]
    cases ha : isMissing k (sliceAt ancestors i) with
    | false =>
      obtain ⟨e1, e2, e3, e4⟩ := findRevsStep_exists k i (sliceAt docIDs i)
        (sliceAt revIDs i) (sliceAt ancestors i) st ha
      obtain ⟨h1, h2, h3, h4⟩ := ih (i + 1) (findRevsStep k i (sliceAt docIDs i)
        (sliceAt revIDs i) (sliceAt ancestors i) st) (by omega)
      refine ⟨?_, ?_, ?_, ?_⟩
      · rw [h1, e1, e4, owedText_skip k _ _ _ _ ha hi]
      · rw [h2, e2]; simp [List.countP_cons, ha]
      · rw [h3, e3, setBodySize_length]
      · intro j
        rw [h4, e3, setBodySize_get?]
        cases st.sequences.get? j with
        | none => rfl
        | some s =>
          simp only [Option.map_some']
          by_cases hj : j = i
          · subst hj
            have : ¬ (j + 1 ≤ j ∧ j < j + 1 + n ∧ isMissing k (sliceAt ancestors j) = false) := by
              omega
            simp [this, ha]
          · by_cases hm : isMissing k (sliceAt ancestors j) = false
            · by_cases hr : i + 1 ≤ j ∧ j < i + 1 + n
              · have hr' : i ≤ j ∧ j < i + (n + 1) := by omega
                simp [hj, hm, hr.1, hr.2, hr'.1, hr'.2]
              · have hr' : ¬ (i ≤ j ∧ j < i + (n + 1)) := by omega
                have h5 : ¬ (i + 1 ≤ j ∧ j < i + 1 + n ∧ isMissing k (sliceAt ancestors j) = false) :=
                  fun h => hr ⟨h.1, h.2.1⟩
                have h6 : ¬ (i ≤ j ∧ j < i + (n + 1) ∧ isMissing k (sliceAt ancestors j) = false) :=
                  fun h => hr' ⟨h.1, h.2.1⟩
                simp only [h5, h6, hj, if_false]
            · simp [hj, hm]
    | true =>
      obtain ⟨e1, e2, e3, _, e5⟩ := findRevsStep_missing k i (sliceAt docIDs i)
        (sliceAt revIDs i) (sliceAt ancestors i) st ha hi
      obtain ⟨h1, h2, h3, h4⟩ := ih (i + 1) (findRevsStep k i (sliceAt docIDs i)
        (sliceAt revIDs i) (sliceAt ancestors i) st) (by omega)
      refine ⟨?_, ?_, ?_, ?_⟩
      · rw [h1, e1, e5, String.append_assoc, owedText_write k _ _ _ _ ha]
      · rw [h2, e2]; simp [List.countP_cons, ha]; omega
      · rw [h3, e3]
      · intro j
        rw [h4, e3]
        cases st.sequences.get? j with
        | none => rfl
        | some s =>
          simp only [Option.map_some']
          by_cases hj : j = i
          · subst hj
            have : ¬ (j + 1 ≤ j ∧ j < j + 1 + n ∧ isMissing k (sliceAt ancestors j) = false) := by
              omega
            simp [this, ha]
          · by_cases hm : isMissing k (sliceAt ancestors j) = false
            · by_cases hr : i + 1 ≤ j ∧ j < i + 1 + n
              · have hr' : i ≤ j ∧ j < i + (n + 1) := by omega
                simp [hm, hr.1, hr.2, hr'.1, hr'.2]
              · have hr' : ¬ (i ≤ j ∧ j < i + (n + 1)) := by omega
                have h5 : ¬ (i + 1 ≤ j ∧ j < i + 1 + n ∧ isMissing k (sliceAt ancestors j) = false) :=
                  fun h => hr ⟨h.1, h.2.1⟩
                have h6 : ¬ (i ≤ j ∧ j < i + (n + 1) ∧ isMissing k (sliceAt ancestors j) = false) :=
                  fun h => hr' ⟨h.1, h.2.1⟩
                simp only [h5, h6, if_false]
            · simp [hm]

theorem compileSequences_length (items : List Value) :
    ∀ (i : Nat) (seqs : List ChangeSequence), (compileSequences i items seqs).length = seqs.length := by
  induction items with
  | nil => intro i seqs; rfl
  | cons item rest ih => intro i seqs; simp [compileSequences, ih]

theorem compileSequences_get? (items : List Value) :
    ∀ (i : Nat) (seqs : List ChangeSequence) (j : Nat),
      (compileSequences i items seqs).get? j
        = (seqs.get? j).map fun s =>
            if i ≤ j then ((items.get? (j - i)).map compileSequence).getD s else s := by
  induction items with
  | nil =>
    intro i seqs j
    simp only [compileSequences]
    cases seqs.get? j <;> simp
  | cons item rest ih =>
    intro i seqs j
    simp only [compileSequences]
    rw [ih]
    simp only [List.get?_eq_getElem?, List.getElem?_set]
    by_cases hj : i = j
    · subst hj
      by_cases hlt : i < seqs.length
      · simp [hlt, List.getElem?_eq_getElem hlt]
      · simp [hlt, List.getElem?_eq_none (Nat.le_of_not_lt hlt)]
    · cases hs : seqs[j]? with
      | none => simp [hj]
      | some s =>
        simp only [hj, if_false, Option.map_some', Option.some.injEq]
        by_cases hle : i + 1 ≤ j
        · have h1 : i ≤ j := by omega
          have h2 : j - i = (j - (i + 1)) + 1 := by omega
          simp only [hle, h1, if_true, h2, List.getElem?_cons_succ]
        · have h1 : ¬ i ≤ j := by omega
          simp only [hle, h1, if_false]


/-- The trimmed list ends at the last element that `p` rejects. -/
theorem rdropWhile_length_eq {α : Type} (p : α → Bool) (l : List α) (i : Nat) (a : α)
    (hi : l.get? i = some a) (hp : p a = false)
    (hlast : ∀ j b, i < j → l.get? j = some b → p b = true) :
    (l.rdropWhile p).length = i + 1 := by
  have hlt := lt_rdropWhile_length p l i a hi hp
  by_contra hne
  have hgt : i + 1 < (l.rdropWhile p).length := by omega
  have hnil : l.rdropWhile p ≠ [] := by
    intro h; rw [h] at hlt; simp at hlt
  have hlastnot := List.rdropWhile_last_not p l hnil
  have hidx : (l.rdropWhile p).length - 1 < (l.rdropWhile p).length := by omega
  have hget := rdropWhile_get? p l _ hidx
  rw [List.getLast_eq_getElem] at hlastnot
  simp only [List.get?_eq_getElem?] at hget
  rw [List.getElem?_eq_getElem hidx] at hget
  have hj : i < (l.rdropWhile p).length - 1 := by omega
  exact hlastnot (hlast _ _ hj (by simpa [List.get?_eq_getElem?] using hget.symm))

theorem text_beginArray : (({} : Encoder).beginArray).text = "[" := by
  decide

theorem owedText_zero (t : List String) : owedText 0 0 t = String.intercalate "," t := by
  unfold owedText
  cases t with
  | nil => rfl
  | cons a t => simp [zeros]

theorem findRevs_ok (k : AncestorMarkers) (disableDeltaSupport : Bool) (db : DBAccess)
    (changes : List Value) (encoder : Encoder) (sequences : List ChangeSequence)
    (ancestors : List slice)
    (hok : db.findDocAncestors (!disableDeltaSupport) (compileDocIDs changes)
      (compileRevIDs changes) = some ancestors) :
    findRevs k disableDeltaSupport db changes encoder sequences
      = findRevsLoop k (compileDocIDs changes) (compileRevIDs changes) ancestors changes.length 0
          { encoder := encoder, sequences := compileSequences 0 changes sequences } := by
  simp only [findRevs, hok]

/-! ### `handleChangesNow` -/

theorem findProposedRevsStep_effects (db : DBAccess) (i : Nat) (item : Value)
    (st st1 : FindState) (h : findProposedRevsStep db i item st = some st1) :
    ∃ es, st1.effects = st.effects ++ es ∧ ∀ e ∈ es, Effect.isLookup e = true := by
  have hes : ∀ b : Bool, ∀ e ∈ (if b = true then [Effect.gotError] else []),
      Effect.isLookup e = true := by
    intro b e he
    cases b
    · simp at he
    · simp only [if_true, List.mem_singleton] at he; subst he; rfl
  unfold findProposedRevsStep at h
  simp only at h
  split at h
  · simp only [Option.some.injEq] at h; subst h; exact ⟨[], by simp, by simp⟩
  · split at h
    · split at h
      · split at h
        · simp only [Option.some.injEq] at h; subst h
          exact ⟨_, rfl, hes _⟩
        · exact Option.noConfusion h
      · exact Option.noConfusion h
    · simp only [Option.some.injEq] at h; subst h
      exact ⟨_, rfl, hes _⟩

theorem findProposedRevsLoop_effects (db : DBAccess) :
    ∀ (rest : List Value) (i : Nat) (st st' : FindState),
      findProposedRevsLoop db i rest st = some st' →
      ∃ es, st'.effects = st.effects ++ es ∧ ∀ e ∈ es, Effect.isLookup e = true := by
  intro rest
  induction rest with
  | nil =>
    intro i st st' h
    simp only [findProposedRevsLoop, Option.some.injEq] at h
    subst h; exact ⟨[], by simp, by simp⟩
  | cons item rest ih =>
    intro i st st' h
    simp only [findProposedRevsLoop] at h
    cases hs : findProposedRevsStep db i item st with
    | none => rw [hs] at h; exact Option.noConfusion h
    | some st1 =>
      rw [hs] at h
      obtain ⟨es1, h1, h2⟩ := findProposedRevsStep_effects db i item st st1 hs
      obtain ⟨es2, h3, h4⟩ := ih (i + 1) st1 st' h
      refine ⟨es1 ++ es2, by rw [h3, h1, List.append_assoc], ?_⟩
      intro e he
      rcases List.mem_append.mp he with h | h
      · exact h2 e h
      · exact h4 e h

theorem findRevsStep_effects (k : AncestorMarkers) (i : Nat) (docID revID anc : slice)
    (st : FindState) :
    ∃ es, (findRevsStep k i docID revID anc st).effects = st.effects ++ es ∧
      ∀ e ∈ es, Effect.isLookup e = true := by
  unfold findRevsStep
  split
  · exact ⟨_, rfl, by intro e he; simp at he; rcases he with h | h <;> subst h <;> rfl⟩
  · split
    · exact ⟨[], by simp, by simp⟩
    · exact ⟨[], by simp, by simp⟩

theorem findRevsLoop_effects (k : AncestorMarkers) (docIDs revIDs ancestors : List slice) :
    ∀ (n i : Nat) (st : FindState),
      ∃ es, (findRevsLoop k docIDs revIDs ancestors n i st).effects = st.effects ++ es ∧
        ∀ e ∈ es, Effect.isLookup e = true := by
  intro n
  induction n with
  | zero => intro i st; exact ⟨[], by simp [findRevsLoop], by simp⟩
  | succ n ih =>
    intro i st
    simp only [findRevsLoop]
    obtain ⟨es1, h1, h2⟩ := findRevsStep_effects k i (sliceAt docIDs i) (sliceAt revIDs i)
      (sliceAt ancestors i) st
    obtain ⟨es2, h3, h4⟩ := ih (i + 1) (findRevsStep k i (sliceAt docIDs i) (sliceAt revIDs i)
      (sliceAt ancestors i) st)
    refine ⟨es1 ++ es2, by rw [h3, h1, List.append_assoc], ?_⟩
    intro e he
    rcases List.mem_append.mp he with h | h
    · exact h2 e h
    · exact h4 e h

theorem findRevs_effects (k : AncestorMarkers) (disableDeltaSupport : Bool) (db : DBAccess)
    (changes : List Value) (encoder : Encoder) (sequences : List ChangeSequence) :
    ∀ e ∈ (findRevs k disableDeltaSupport db changes encoder sequences).effects,
      Effect.isLookup e = true := by
  unfold findRevs
  simp only
  split
  · intro e he; simp only [List.mem_singleton] at he; subst he; rfl
  · obtain ⟨es, h1, h2⟩ := findRevsLoop_effects k (compileDocIDs changes) (compileRevIDs changes)
      ‹List slice› changes.length 0
      { encoder := encoder, sequences := compileSequences 0 changes sequences }
    rw [h1]
    simpa using h2

theorem findRevs_sequences_length (k : AncestorMarkers) (disableDeltaSupport : Bool)
    (db : DBAccess) (changes : List Value) (encoder : Encoder)
    (sequences : List ChangeSequence) :
    (findRevs k disableDeltaSupport db changes encoder sequences).sequences.length
      = sequences.length := by
  unfold findRevs
  simp only
  split
  · simp [compileSequences_length]
  · rw [(findRevsLoop_spec k (compileDocIDs changes) (compileRevIDs changes) _ changes.length 0
      { encoder := encoder, sequences := compileSequences 0 changes sequences }
      (Nat.le_refl 0)).2.2.1]
    simp [compileSequences_length]

/-- `findChanges` returns: the `Assert` of `findProposedRevs` holds on the fresh `sequences`. -/
theorem findChanges_some (k : AncestorMarkers) (options : Options) (db : DBAccess)
    (req : MessageIn) :
    ∃ st, findChanges k options db req = some st ∧ st.sequences.length = count req.changes ∧
      (∀ e ∈ st.effects, Effect.isLookup e = true) ∧
      (req.proposed = true →
        st.requested = (req.changes.getD []).countP
          (fun item => proposedEntryStatus db item = some 0)) := by
  unfold findChanges
  simp only
  cases hp : req.proposed with
  | true =>
    obtain ⟨st, h1, _, h3, h4⟩ := findProposedRevsLoop_spec db (req.changes.getD []) 0
      { encoder := ({} : Encoder).beginArray,
        sequences := List.replicate (count req.changes) {} } [] (by simp [count]) rfl
      (Nat.le_refl 0)
    obtain ⟨es, h5, h6⟩ := findProposedRevsLoop_effects db _ _ _ _ h1
    refine ⟨st, by simpa [findProposedRevs] using h1, ?_, ?_, ?_⟩
    · rw [h4]; simp [count]
    · rw [h5]; simpa using h6
    · intro _; simpa using h3
  | false =>
    simp only [Bool.false_eq_true, if_false]
    refine ⟨_, rfl, ?_, ?_, ?_⟩
    · rw [findRevs_sequences_length]; simp
    · exact findRevs_effects _ _ _ _ _ _
    · intro h; exact absurd h (by simp)


theorem composesResponse_iff (req : MessageIn) (rf : State) :
    composesResponse req rf = true ↔
      count req.changes ≠ 0 ∧ req.noReply = false ∧
        ¬ (rf.options.noIncomingConflicts = true ∧ req.proposed = false) := by
  unfold composesResponse
  cases req.noReply <;> cases rf.options.noIncomingConflicts <;> cases req.proposed <;> simp

theorem count_ne_zero_isSome (a : Option (List Value)) (h : count a ≠ 0) : a.isSome = true := by
  cases a with
  | none => simp [count] at h
  | some l => rfl

/-- The last branch of `handleChangesNow`. -/
theorem handleChangesNow_composes (db : DBAccess) (req : MessageIn) (rf : State)
    (h : composesResponse req rf = true) :
    ∃ st rf' response, findChanges rf.markers rf.options db req = some st ∧
      handleChangesNow db req rf = some rf' ∧
      rf'.effects = rf.effects ++ ([.handleChangesNow req.number]
          ++ (if req.proposed then [] else [.markRevsSyncedNow]) ++ st.effects)
        ++ [.numRevsBeingRequested (rf.numRevsBeingRequested + st.requested),
            .expectSequences st.sequences, .respond req.number (some response),
            .logResponded req.number st.requested] ∧
      rf'.numRevsBeingRequested = rf.numRevsBeingRequested + st.requested ∧
      rf'.waitingChangesMessages = rf.waitingChangesMessages ∧
      rf'.options = rf.options ∧ rf'.markers = rf.markers ∧
      rf'.maxRevsBeingRequested = rf.maxRevsBeingRequested ∧
      rf'.announcedDeltaSupport
        = (rf.announcedDeltaSupport || !rf.options.disableDeltaSupport) ∧
      response.jsonBody = st.encoder.endArray ∧
      response.deltas = (!rf.announcedDeltaSupport && !rf.options.disableDeltaSupport) ∧
      response.blobs = !db.disableBlobSupport ∧
      response.maxHistory = db.maxRevTreeDepth := by
  obtain ⟨hc, hn, hcf⟩ := (composesResponse_iff req rf).mp h
  obtain ⟨st, hst, _⟩ := findChanges_some rf.markers rf.options db req
  have hsome := count_ne_zero_isSome _ hc
  have hcf' : ¬ (rf.options.noIncomingConflicts = true ∧ (!req.proposed) = true) := by
    simpa using hcf
  refine ⟨st, ?_⟩
  unfold handleChangesNow
  simp only [State.log, hsome, Bool.not_true, Bool.false_eq_true, false_and, if_false, hc, hn,
    hcf']
  cases hp : req.proposed <;> cases ha : rf.announcedDeltaSupport <;>
    cases hd : rf.options.disableDeltaSupport <;>
    simp only [hp, ha, hd, Bool.not_true, Bool.not_false, Bool.false_eq_true, if_false, if_true,
      and_self, and_false, false_and, decide_True, decide_False, ite_true, ite_false] <;>
    (rw [hst]
     exact ⟨_, ⟨true, db.maxRevTreeDepth, !db.disableBlobSupport, _, st.encoder.endArray⟩,
       rfl, rfl, by simp, rfl, rfl, rfl, rfl, rfl, rfl, rfl, rfl, rfl, rfl⟩)


/-- The other branches of `handleChangesNow`: only the log changes. -/
theorem handleChangesNow_declines (db : DBAccess) (req : MessageIn) (rf : State)
    (h : composesResponse req rf = false) :
    ∃ es, handleChangesNow db req rf
        = some { rf with effects := rf.effects ++ .handleChangesNow req.number :: es } ∧
      (es = [.respondWithError req.number 400] ∨ es = [.caughtUp, .respond req.number none]
        ∨ es = [] ∨ es = [.respondWithError req.number 409]) := by
  unfold handleChangesNow
  simp only [State.log]
  by_cases h1 : (!req.changes.isSome) = true ∧ (!slice.eq req.body (some "null")) = true
  · simp only [h1, and_self, if_true]
    exact ⟨_, by simp, Or.inl rfl⟩
  · simp only [h1, if_false]
    by_cases h2 : count req.changes = 0
    · simp only [h2, if_true]
      exact ⟨_, by simp, Or.inr (Or.inl rfl)⟩
    · simp only [h2, if_false]
      by_cases h3 : req.noReply = true
      · simp only [h3, if_true]
        exact ⟨[], by simp, Or.inr (Or.inr (Or.inl rfl))⟩
      · simp only [h3, if_false]
        by_cases h4 : rf.options.noIncomingConflicts = true ∧ (!req.proposed) = true
        · simp only [h4, and_self, if_true]
          exact ⟨_, by simp, Or.inr (Or.inr (Or.inr rfl))⟩
        · exfalso
          have : composesResponse req rf = true := by
            rw [composesResponse_iff]
            refine ⟨h2, by simpa using h3, ?_⟩
            simpa using h4
          rw [h] at this
          exact Bool.noConfusion this

theorem handled_append (a b : List Effect) : handled (a ++ b) = handled a ++ handled b := by
  induction a with
  | nil => rfl
  | cons e a ih => cases e <;> simp [handled, ih]

theorem requestedSum_append (a b : List Effect) :
    requestedSum (a ++ b) = requestedSum a + requestedSum b := by
  induction a with
  | nil => simp [requestedSum]
  | cons e a ih => cases e <;> simp [requestedSum, ih, Nat.add_assoc]

theorem handled_lookup (es : List Effect) (h : ∀ e ∈ es, Effect.isLookup e = true) :
    handled es = [] ∧ requestedSum es = 0 := by
  induction es with
  | nil => exact ⟨rfl, rfl⟩
  | cons e es ih =>
    have h1 := h e (List.mem_cons_self _ _)
    have h2 := ih (fun x hx => h x (List.mem_cons_of_mem _ hx))
    cases e <;> simp_all [handled, requestedSum, Effect.isLookup]

/-- What one call of `handleChangesNow` does to the worker. -/
theorem handleChangesNow_summary (db : DBAccess) (req : MessageIn) (rf : State) :
    ∃ rf', handleChangesNow db req rf = some rf' ∧
      handled rf'.effects = handled rf.effects ++ [req.number] ∧
      rf'.numRevsBeingRequested + requestedSum rf.effects
        = rf.numRevsBeingRequested + requestedSum rf'.effects ∧
      rf.numRevsBeingRequested ≤ rf'.numRevsBeingRequested ∧
      rf'.waitingChangesMessages = rf.waitingChangesMessages ∧
      rf'.maxRevsBeingRequested = rf.maxRevsBeingRequested ∧
      rf'.options = rf.options ∧ rf'.markers = rf.markers ∧
      (composesResponse req rf = false →
        rf'.numRevsBeingRequested = rf.numRevsBeingRequested) := by
  cases h : composesResponse req rf with
  | true =>
    obtain ⟨st, rf', response, h1, h2, h3, h4, h5, h6, h7, h8, _⟩ :=
      handleChangesNow_composes db req rf h
    obtain ⟨st2, h9, _, h10, _⟩ := findChanges_some rf.markers rf.options db req
    rw [h1] at h9
    simp only [Option.some.injEq] at h9
    subst h9
    obtain ⟨hl1, hl2⟩ := handled_lookup st.effects h10
    refine ⟨rf', h2, ?_, ?_, by omega, h5, h8, h6, h7, fun hc => Bool.noConfusion hc⟩
    · rw [h3]
      cases req.proposed <;> simp [handled_append, handled, hl1]
    · rw [h3, h4]
      cases req.proposed <;> simp [requestedSum_append, requestedSum, hl2] <;> omega
  | false =>
    obtain ⟨es, h1, h2⟩ := handleChangesNow_declines db req rf h
    refine ⟨_, h1, ?_, ?_, Nat.le_refl _, rfl, rfl, rfl, rfl, fun _ => rfl⟩
    · simp only [handled_append]
      rcases h2 with h | h | h | h <;> subst h <;> simp [handled]
    · simp only [requestedSum_append]
      rcases h2 with h | h | h | h <;> subst h <;> simp [requestedSum]

/-! ### Sequences of calls -/

theorem drainWaiting_spec (db : DBAccess) :
    ∀ (waiting : List MessageIn) (rf : State),
      ∃ rf' k, drainWaiting db waiting rf = some rf' ∧
        handled rf'.effects = handled rf.effects ++ (waiting.take k).map (fun m => m.number) ∧
        rf'.waitingChangesMessages = waiting.drop k ∧ Throttled rf' ∧
        rf'.numRevsBeingRequested + requestedSum rf.effects
          = rf.numRevsBeingRequested + requestedSum rf'.effects ∧
        rf'.maxRevsBeingRequested = rf.maxRevsBeingRequested ∧
        rf'.options = rf.options ∧ rf'.markers = rf.markers := by
  intro waiting
  induction waiting with
  | nil =>
    intro rf
    exact ⟨_, 0, rfl, by simp, rfl, fun h => absurd rfl h, rfl, rfl, rfl, rfl⟩
  | cons req rest ih =>
    intro rf
    simp only [drainWaiting]
    cases hcap : rf.pullerHasCapacity with
    | false =>
      refine ⟨{ rf with waitingChangesMessages := req :: rest }, 0, by simp, by simp, rfl,
        fun _ => ?_, rfl, rfl, rfl, rfl⟩
      simpa [State.pullerHasCapacity] using hcap
    | true =>
      simp only [if_true]
      obtain ⟨rf1, h1, h2, h3, _, h5, h6, h7, h8, _⟩ :=
        handleChangesNow_summary db req { rf with waitingChangesMessages := rest }
      rw [h1]
      obtain ⟨rf', k, g1, g2, g3, g4, g5, g6, g7, g8⟩ := ih rf1
      refine ⟨rf', k + 1, g1, ?_, g3, g4, ?_, by rw [g6, h6], by rw [g7, h7], by rw [g8, h8]⟩
      · rw [g2, h2]; simp
      · simp only at h3
        omega

/-- What one call does to a throttled worker. -/
theorem step_spec (rf rf' : State) (c : Call) (hinv : Throttled rf) (h : step rf c = some rf') :
    Throttled rf' ∧
      handled rf'.effects ++ rf'.waitingChangesMessages.map (fun m => m.number)
        = handled rf.effects ++ rf.waitingChangesMessages.map (fun m => m.number)
          ++ arrivals [c] ∧
      rf'.numRevsBeingRequested + receipts [c] + requestedSum rf.effects
        = rf.numRevsBeingRequested + requestedSum rf'.effects + reRequests [c] ∧
      rf'.maxRevsBeingRequested = rf.maxRevsBeingRequested ∧
      rf'.options = rf.options ∧ rf'.markers = rf.markers := by
  cases c with
  | handleChanges db req =>
    simp only [step, handleChanges] at h
    cases hcap : rf.pullerHasCapacity with
    | true =>
      rw [hcap] at h
      simp only [if_true] at h
      obtain ⟨rf1, h1, h2, h3, h4, h5, h6, h7, h8, _⟩ := handleChangesNow_summary db req rf
      rw [h1] at h
      simp only [Option.some.injEq] at h
      subst h
      have hempty : rf.waitingChangesMessages = [] := by
        by_contra hne
        have := hinv hne
        rw [hcap] at this
        exact Bool.noConfusion this
      refine ⟨?_, ?_, ?_, h6, h7, h8⟩
      · intro hne; rw [h5, hempty] at hne; exact absurd rfl hne
      · rw [h5, h2, hempty]; simp [arrivals]
      · simp only [receipts, reRequests]; omega
    | false =>
      rw [hcap] at h
      simp only [Bool.false_eq_true, if_false, Option.some.injEq] at h
      subst h
      refine ⟨fun _ => ?_, by simp [arrivals], by simp [receipts, reRequests], rfl, rfl, rfl⟩
      simpa [State.pullerHasCapacity] using hcap
  | revReceived db =>
    simp only [step, revReceived, decrement] at h
    by_cases hz : rf.numRevsBeingRequested = 0
    · simp [hz] at h
    · simp only [hz, if_false, State.log] at h
      obtain ⟨rf1, k, g1, g2, g3, g4, g5, g6, g7, g8⟩ := drainWaiting_spec db
        rf.waitingChangesMessages
        { rf with numRevsBeingRequested := rf.numRevsBeingRequested - 1
                  effects := rf.effects ++ [.numRevsBeingRequested (rf.numRevsBeingRequested - 1)] }
      rw [g1] at h
      simp only [Option.some.injEq] at h
      subst h
      refine ⟨g4, ?_, ?_, g6, g7, g8⟩
      · rw [g2, g3]
        simp only [handled_append, handled, List.append_nil, arrivals, List.append_assoc]
        rw [← List.map_append, List.take_append_drop]
      · simp only [requestedSum_append, requestedSum, Nat.add_zero] at g5
        simp only [receipts, reRequests]
        omega
  | reRequestingRev =>
    simp only [step, reRequestingRev, State.log, Option.some.injEq] at h
    subst h
    refine ⟨?_, by simp [handled_append, handled, arrivals],
      by simp [requestedSum_append, requestedSum, receipts, reRequests]; omega, rfl, rfl, rfl⟩
    intro hne
    have := hinv hne
    simp only [State.pullerHasCapacity, decide_eq_false_iff_not, Nat.not_le] at this ⊢
    omega

theorem arrivals_append (a b : List Call) : arrivals (a ++ b) = arrivals a ++ arrivals b := by
  induction a with
  | nil => rfl
  | cons c a ih => cases c <;> simp [arrivals, ih]

theorem receipts_cons (c : Call) (cs : List Call) :
    receipts (c :: cs) = receipts [c] + receipts cs := by
  cases c <;> simp [receipts]; omega

theorem reRequests_cons (c : Call) (cs : List Call) :
    reRequests (c :: cs) = reRequests [c] + reRequests cs := by
  cases c <;> simp [reRequests]; omega

/-- What a sequence of calls does to a throttled worker. -/
theorem run_spec : ∀ (calls : List Call) (rf rf' : State), Throttled rf →
    run rf calls = some rf' →
    Throttled rf' ∧
      handled rf'.effects ++ rf'.waitingChangesMessages.map (fun m => m.number)
        = handled rf.effects ++ rf.waitingChangesMessages.map (fun m => m.number)
          ++ arrivals calls ∧
      rf'.numRevsBeingRequested + receipts calls + requestedSum rf.effects
        = rf.numRevsBeingRequested + requestedSum rf'.effects + reRequests calls ∧
      rf'.maxRevsBeingRequested = rf.maxRevsBeingRequested ∧
      rf'.options = rf.options ∧ rf'.markers = rf.markers := by
  intro calls
  induction calls with
  | nil =>
    intro rf rf' hinv h
    simp only [run, Option.some.injEq] at h
    subst h
    exact ⟨hinv, by simp [arrivals], by simp [receipts, reRequests], rfl, rfl, rfl⟩
  | cons c cs ih =>
    intro rf rf' hinv h
    simp only [run] at h
    cases hs : step rf c with
    | none => rw [hs] at h; exact Option.noConfusion h
    | some rf1 =>
      rw [hs] at h
      obtain ⟨a1, a2, a3, a4, a5, a6⟩ := step_spec rf rf1 c hinv hs
      obtain ⟨b1, b2, b3, b4, b5, b6⟩ := ih rf1 rf' a1 h
      refine ⟨b1, ?_, ?_, by rw [b4, a4], by rw [b5, a5], by rw [b6, a6]⟩
      · rw [b2, a2]
        have : arrivals (c :: cs) = arrivals [c] ++ arrivals cs := arrivals_append [c] cs
        rw [this]; simp
      · rw [receipts_cons, reRequests_cons]
        omega

/-! ### Claims -/

/-- C4: for a batch of N entries `findProposedRevs` returns, and the integers it writes are the
statuses of the batch up to the last rejected entry: position `i` holds the status of a rejected
entry and 0 for any other entry, the last integer written is a rejection status, and padded with
zeros to length N the list is the list of the entries' slots, which is non-zero exactly at the
rejected entries. -/
theorem findProposedRevs_writes_statuses (db : DBAccess) (changes : List Value)
    (encoder : Encoder) :
    ∃ st written,
      findProposedRevs db changes encoder (List.replicate changes.length {}) = some st ∧
      st.encoder.calls = encoder.calls ++ written.map EncoderCall.writeInt ∧
      written.length ≤ changes.length ∧
      (∀ i, i < written.length → written.get? i = (changes.get? i).map (proposedSlot db)) ∧
      (∀ i item s, changes.get? i = some item → proposedEntryStatus db item = some s → s ≠ 0 →
        written.get? i = some s) ∧
      (∀ h : written ≠ [], written.getLast h ≠ 0) ∧
      written ++ List.replicate (changes.length - written.length) 0
        = changes.map (proposedSlot db) ∧
      (∀ item, proposedSlot db item ≠ 0 ↔
        ∃ s, proposedEntryStatus db item = some s ∧ s ≠ 0) := by
  obtain ⟨st, h1, h2, _, _⟩ := findProposedRevsLoop_spec db changes 0
    { encoder := encoder, sequences := List.replicate changes.length {} } [] (by simp) rfl
    (Nat.le_refl 0)
  have hw : owed (0 - 0) ((changes.map (proposedSlot db)).rdropWhile (· == 0))
      = (changes.map (proposedSlot db)).rdropWhile (· == 0) := by
    simp [owed]
  simp only [hw] at h2
  refine ⟨st, (changes.map (proposedSlot db)).rdropWhile (· == 0), h1, h2, ?_, ?_, ?_, ?_, ?_, ?_⟩
  · simpa using rdropWhile_length_le (· == 0) (changes.map (proposedSlot db))
  · intro i hi
    rw [rdropWhile_get? _ _ _ hi]
    simp only [List.get?_eq_getElem?, List.getElem?_map]
  · intro i item s hi hs hne
    have hslot : proposedSlot db item = s := by simp [proposedSlot, hs]
    have hget : (changes.map (proposedSlot db)).get? i = some s := by
      simp only [List.get?_eq_getElem?, List.getElem?_map] at hi ⊢
      rw [hi]; simp [hslot]
    have hlt := lt_rdropWhile_length (· == 0) _ i s hget (by simpa using hne)
    rw [rdropWhile_get? _ _ _ hlt, hget]
  · intro h
    simpa using List.rdropWhile_last_not (· == 0) (changes.map (proposedSlot db)) h
  · simpa using rdropWhile_map_pad (· == 0) id (0 : Int) (by simp) (changes.map (proposedSlot db))
  · intro item
    unfold proposedSlot
    cases proposedEntryStatus db item <;> simp

/-- C6: after `findRevs` returns for a "changes" batch of N entries whose ancestry lookup
succeeds, `sequences` has N entries, entry `i` holding the remote sequence of change `i` and the
body size 0 when the answer is one of the two `Exists` markers and `max(hint, 1)` when it is
`Missing`; a body size is 0 exactly for the entries that are not missing; and the returned
requested count is the number of `Missing` answers. -/
theorem findRevs_sequences (k : AncestorMarkers) (disableDeltaSupport : Bool) (db : DBAccess)
    (changes : List Value) (encoder : Encoder) (sequences : List ChangeSequence)
    (ancestors : List slice) (hlen : sequences.length = changes.length)
    (hok : db.findDocAncestors (!disableDeltaSupport) (compileDocIDs changes)
      (compileRevIDs changes) = some ancestors) :
    (findRevs k disableDeltaSupport db changes encoder sequences).sequences.length
        = changes.length ∧
      (∀ i item, changes.get? i = some item →
        (findRevs k disableDeltaSupport db changes encoder sequences).sequences.get? i
          = some { sequence := get (asArray (some item)) 0
                   bodySize := if isMissing k (sliceAt ancestors i)
                     then max (asUnsigned (get (asArray (some item)) 4)) 1 else 0 }) ∧
      (∀ i s, (findRevs k disableDeltaSupport db changes encoder sequences).sequences.get? i
          = some s → (s.bodySize = 0 ↔ isMissing k (sliceAt ancestors i) = false)) ∧
      (findRevs k disableDeltaSupport db changes encoder sequences).requested
        = ((List.range changes.length).map (sliceAt ancestors)).countP (isMissing k) := by
  rw [findRevs_ok k disableDeltaSupport db changes encoder sequences ancestors hok]
  obtain ⟨_, h2, h3, h4⟩ := findRevsLoop_spec k (compileDocIDs changes) (compileRevIDs changes)
    ancestors changes.length 0
    { encoder := encoder, sequences := compileSequences 0 changes sequences } (Nat.le_refl 0)
  have hentry : ∀ i item, changes.get? i = some item →
      (findRevsLoop k (compileDocIDs changes) (compileRevIDs changes) ancestors changes.length 0
        { encoder := encoder, sequences := compileSequences 0 changes sequences }).sequences.get? i
      = some { sequence := get (asArray (some item)) 0
               bodySize := if isMissing k (sliceAt ancestors i)
                 then max (asUnsigned (get (asArray (some item)) 4)) 1 else 0 } := by
    intro i item hi
    have hlt : i < changes.length := by
      by_contra hc
      rw [List.get?_eq_none.mpr (Nat.le_of_not_lt hc)] at hi
      exact Option.noConfusion hi
    have hs : ∃ s0, sequences.get? i = some s0 := by
      have : i < sequences.length := by omega
      exact ⟨_, List.get?_eq_get this⟩
    obtain ⟨s0, hs0⟩ := hs
    rw [h4, compileSequences_get?, hs0]
    simp only [Nat.zero_le, if_true, Nat.sub_zero, hi, Option.map_some', Option.getD_some,
      true_and, Nat.zero_add, hlt, compileSequence]
    cases isMissing k (sliceAt ancestors i) <;> simp
  refine ⟨?_, hentry, ?_, ?_⟩
  · rw [h3]; simp [compileSequences_length, hlen]
  · intro i s hs
    have hlt : i < changes.length := by
      by_contra hc
      have hlen' := h3
      simp only [compileSequences_length, hlen] at hlen'
      rw [List.get?_eq_none.mpr (by omega)] at hs
      exact Option.noConfusion hs
    have hitem : changes.get? i = some (changes.get ⟨i, hlt⟩) := List.get?_eq_get hlt
    rw [hentry i _ hitem] at hs
    simp only [Option.some.injEq] at hs
    subst hs
    cases isMissing k (sliceAt ancestors i) <;> simp
  · rw [h2]; simp [List.range_eq_range']

/-- Witness of C6 on the example batch: the lookup succeeds, and of the three entries only the
middle one, whose hint is 40, keeps a body size. -/
theorem findRevs_sequences_witness :
    (List.replicate 3 ({} : ChangeSequence)).length = exampleChanges.length ∧
      exampleDB.findDocAncestors (!false) (compileDocIDs exampleChanges)
        (compileRevIDs exampleChanges) = some [some "1", some "[\"1-ba\"]", some "1"] ∧
      (findRevs exampleMarkers false exampleDB exampleChanges {}
        (List.replicate 3 {})).sequences.map (fun s => s.bodySize) = [0, 40, 0] ∧
      (findRevs exampleMarkers false exampleDB exampleChanges {}
        (List.replicate 3 {})).requested = 1 :=
  ⟨rfl, rfl, rfl,
    (findRevs_sequences exampleMarkers false exampleDB exampleChanges {} (List.replicate 3 {})
      [some "1", some "[\"1-ba\"]", some "1"] rfl rfl).2.2.2.trans (by decide)⟩

/-- C3: for a "changes" batch of N entries whose ancestry lookup succeeds, the body that
`findRevs` writes between the brackets is the comma-separated list of the items of the batch up
to the last `Missing` entry: position `i` holds the ancestor array of a `Missing` entry (`[]`
for a null one) and `0` for any other entry; the list has `L + 1` items when `L` is the index of
the last `Missing` entry and none when no entry is missing; no item is empty when no ancestor
array is; and padded with `0` the list has the N items of the batch. -/
theorem findRevs_body (k : AncestorMarkers) (disableDeltaSupport : Bool) (db : DBAccess)
    (changes : List Value) (sequences : List ChangeSequence) (ancestors : List slice)
    (hok : db.findDocAncestors (!disableDeltaSupport) (compileDocIDs changes)
      (compileRevIDs changes) = some ancestors) :
    ∃ items : List String,
      (findRevs k disableDeltaSupport db changes ({} : Encoder).beginArray
          sequences).encoder.endArray.text = "[" ++ String.intercalate "," items ++ "]" ∧
      items.length ≤ changes.length ∧
      (∀ i, i < items.length → items.get? i = some (revsItem k (sliceAt ancestors i))) ∧
      (∀ L, L < changes.length → isMissing k (sliceAt ancestors L) = true →
        (∀ j, L < j → j < changes.length → isMissing k (sliceAt ancestors j) = false) →
        items.length = L + 1) ∧
      ((∀ j, j < changes.length → isMissing k (sliceAt ancestors j) = false) → items = []) ∧
      ((∀ j, isMissing k (sliceAt ancestors j) = true → sliceAt ancestors j ≠ some "") →
        ∀ x ∈ items, x ≠ "") ∧
      items ++ List.replicate (changes.length - items.length) "0"
        = (List.range changes.length).map fun i => revsItem k (sliceAt ancestors i) := by
  have hget : ∀ i a, ((List.range changes.length).map (sliceAt ancestors)).get? i = some a →
      i < changes.length ∧ a = sliceAt ancestors i := by
    intro i a h
    simp only [List.get?_eq_getElem?, List.getElem?_map] at h
    by_cases hi : i < changes.length
    · rw [List.getElem?_range hi] at h
      simp only [Option.map_some', Option.some.injEq] at h
      exact ⟨hi, h.symm⟩
    · rw [List.getElem?_eq_none (by simpa using hi)] at h
      exact Option.noConfusion h
  have hget' : ∀ i, i < changes.length →
      ((List.range changes.length).map (sliceAt ancestors)).get? i = some (sliceAt ancestors i) := by
    intro i hi
    simp only [List.get?_eq_getElem?, List.getElem?_map, List.getElem?_range hi, Option.map_some']
  refine ⟨(((List.range changes.length).map (sliceAt ancestors)).rdropWhile
    (fun a => !isMissing k a)).map (revsItem k), ?_, ?_, ?_, ?_, ?_, ?_, ?_⟩
  · rw [findRevs_ok k disableDeltaSupport db changes _ sequences ancestors hok]
    obtain ⟨h1, _, _, _⟩ := findRevsLoop_spec k (compileDocIDs changes) (compileRevIDs changes)
      ancestors changes.length 0
      { encoder := ({} : Encoder).beginArray, sequences := compileSequences 0 changes sequences }
      (Nat.le_refl 0)
    rw [text_endArray, h1]
    simp only [text_beginArray, owedText_zero, List.range_eq_range']
  · simpa using rdropWhile_length_le (fun a => !isMissing k a)
      ((List.range changes.length).map (sliceAt ancestors))
  · intro i hi
    simp only [List.length_map] at hi
    have h1 := rdropWhile_get? (fun a => !isMissing k a) _ i hi
    have hlt : i < changes.length := by
      have := rdropWhile_length_le (fun a => !isMissing k a)
        ((List.range changes.length).map (sliceAt ancestors))
      simp only [List.length_map, List.length_range] at this
      omega
    rw [hget' i hlt] at h1
    simp only [List.get?_eq_getElem?, List.getElem?_map] at h1 ⊢
    rw [h1]; rfl
  · intro L hL hm hlast
    simp only [List.length_map]
    apply rdropWhile_length_eq _ _ L (sliceAt ancestors L) (hget' L hL) (by simp [hm])
    intro j b hj hb
    obtain ⟨hjl, hbe⟩ := hget j b hb
    subst hbe
    simp [hlast j hj hjl]
  · intro hnone
    have : ((List.range changes.length).map (sliceAt ancestors)).rdropWhile
        (fun a => !isMissing k a) = [] := by
      rw [List.rdropWhile_eq_nil_iff]
      intro x hx
      simp only [List.mem_map, List.mem_range] at hx
      obtain ⟨j, hj, rfl⟩ := hx
      simp [hnone j hj]
    rw [this]; rfl
  · intro hne x hx
    simp only [List.mem_map] at hx
    obtain ⟨a, ha, rfl⟩ := hx
    have hmem := (List.rdropWhile_prefix (fun a => !isMissing k a)
      ((List.range changes.length).map (sliceAt ancestors))).subset ha
    simp only [List.mem_map, List.mem_range] at hmem
    obtain ⟨j, _, rfl⟩ := hmem
    unfold revsItem
    cases hm : isMissing k (sliceAt ancestors j) with
    | false => simp
    | true =>
      have := hne j hm
      simp only [if_true, ancestorsText]
      cases hs : sliceAt ancestors j with
      | none => simp
      | some t =>
        rw [hs] at this
        simp only [Option.isSome_some, if_true, slice.bytes, Option.getD_some]
        intro h; exact this (by rw [h])
  · have := rdropWhile_map_pad (fun a => !isMissing k a) (revsItem k) "0"
      (by intro a ha; simp only [Bool.not_eq_true'] at ha; simp [revsItem, ha])
      ((List.range changes.length).map (sliceAt ancestors))
    simpa using this

/-- Witness of C3 on the example batch, whose middle entry alone is missing: the body is
`[0,["1-ba"]]`, which normalizes to the three items `0`, `["1-ba"]`, `0`. -/
theorem findRevs_body_witness :
    exampleDB.findDocAncestors (!false) (compileDocIDs exampleChanges)
        (compileRevIDs exampleChanges) = some [some "1", some "[\"1-ba\"]", some "1"] ∧
      (findRevs exampleMarkers false exampleDB exampleChanges ({} : Encoder).beginArray
        (List.replicate 3 {})).encoder.endArray.text = "[0,[\"1-ba\"]]" ∧
      ∃ items : List String,
        (findRevs exampleMarkers false exampleDB exampleChanges ({} : Encoder).beginArray
          (List.replicate 3 {})).encoder.endArray.text
            = "[" ++ String.intercalate "," items ++ "]" ∧
        items ++ List.replicate (exampleChanges.length - items.length) "0"
          = ["0", "[\"1-ba\"]", "0"] :=
  ⟨rfl, by decide,
    (findRevs_body exampleMarkers false exampleDB exampleChanges (List.replicate 3 {})
      [some "1", some "[\"1-ba\"]", some "1"] rfl).imp
      fun _ h => ⟨h.1, h.2.2.2.2.2.2.trans (by decide)⟩⟩

/-- C5: when `handleChangesNow` composes a response for a non-empty batch it returns, and what it
does ends with, in this order: the write of the in-flight counter increased by the requested
count, the call of `expectSequences`, the call of `respond` with the response; nothing before
them in the call is a response, a call of `expectSequences` or a write of the counter, and
only the closing log entry follows. -/
theorem handleChangesNow_order (db : DBAccess) (req : MessageIn) (rf : State)
    (h : composesResponse req rf = true) :
    ∃ st rf' response before,
      findChanges rf.markers rf.options db req = some st ∧
      handleChangesNow db req rf = some rf' ∧
      rf'.effects = rf.effects ++ before
        ++ [.numRevsBeingRequested (rf.numRevsBeingRequested + st.requested),
            .expectSequences st.sequences, .respond req.number (some response),
            .logResponded req.number st.requested] ∧
      rf'.numRevsBeingRequested = rf.numRevsBeingRequested + st.requested ∧
      response.jsonBody = st.encoder.endArray ∧
      ∀ e ∈ before, Effect.isRespond e = false ∧ Effect.isExpectSequences e = false
        ∧ Effect.isCounterWrite e = false := by
  obtain ⟨st, rf', response, h1, h2, h3, h4, _, _, _, _, _, h5, _⟩ :=
    handleChangesNow_composes db req rf h
  obtain ⟨st2, h6, _, h7, _⟩ := findChanges_some rf.markers rf.options db req
  rw [h1] at h6
  simp only [Option.some.injEq] at h6
  subst h6
  refine ⟨st, rf', response, _, h1, h2, h3, h4, h5, ?_⟩
  intro e he
  simp only [List.mem_append, List.mem_singleton] at he
  rcases he with (he | he) | he
  · subst he; exact ⟨rfl, rfl, rfl⟩
  · split at he
    · simp at he
    · simp only [List.mem_singleton] at he; subst he; exact ⟨rfl, rfl, rfl⟩
  · have := h7 e he
    cases e <;> simp_all [Effect.isLookup, Effect.isRespond, Effect.isExpectSequences,
      Effect.isCounterWrite]

/-- Witness of C5: the example "changes" request on a fresh worker. -/
theorem handleChangesNow_order_witness :
    composesResponse exampleRequest exampleState = true ∧
      ∃ rf' response before,
        handleChangesNow exampleDB exampleRequest exampleState = some rf' ∧
        rf'.effects = before ++ [.numRevsBeingRequested 1,
          .expectSequences [{ sequence := some (.int 1), bodySize := 0 },
            { sequence := some (.int 2), bodySize := 40 },
            { sequence := some (.int 3), bodySize := 0 }],
          .respond 1 (some response), .logResponded 1 1] ∧
        response.jsonBody.text = "[0,[\"1-ba\"]]" := by
  refine ⟨by decide, ?_⟩
  obtain ⟨st, rf', response, before, h1, h2, h3, _, h5, _⟩ :=
    handleChangesNow_order exampleDB exampleRequest exampleState (by decide)
  have hst : findChanges exampleState.markers exampleState.options exampleDB exampleRequest
      = some (findRevs exampleMarkers false exampleDB exampleChanges ({} : Encoder).beginArray
          (List.replicate 3 {})) := rfl
  rw [hst] at h1
  simp only [Option.some.injEq] at h1
  subst h1
  refine ⟨rf', response, before, h2, h3, ?_⟩
  rw [h5]
  decide

/-- C8, as stated, fails: the empty "changes" batch is handled (the delegate is told that the
peer has caught up, and the request is acknowledged) without any call of `expectSequences`. -/
theorem handleChanges_empty_batch_expects_nothing :
    ∃ rf', handleChanges exampleDB emptyRequest exampleState = some rf' ∧
      rf'.effects = [.handleChangesNow 2, .caughtUp, .respond 2 none] ∧
      rf'.effects.countP Effect.isExpectSequences = 0 :=
  ⟨_, rfl, rfl, rfl⟩

/-- C8, amended: `handleChangesNow` always returns; when it composes a response (the batch is not
empty, a reply is expected, and the request is not refused by the conflict-free rule)
`expectSequences` is called exactly once, right before `respond` and after no other response,
with a vector that has one entry per entry of the batch (only the closing log entry follows);
otherwise it is not called. -/
theorem handleChangesNow_expectSequences (db : DBAccess) (req : MessageIn) (rf : State) :
    ∃ rf' new, handleChangesNow db req rf = some rf' ∧ rf'.effects = rf.effects ++ new ∧
      if composesResponse req rf = true then
        new.countP Effect.isExpectSequences = 1 ∧
        ∃ before sequences response requested,
          new = before ++ [.expectSequences sequences, .respond req.number (some response),
            .logResponded req.number requested] ∧
          sequences.length = count req.changes ∧
          ∀ e ∈ before, Effect.isRespond e = false
      else new.countP Effect.isExpectSequences = 0 := by
  cases h : composesResponse req rf with
  | true =>
    obtain ⟨st, rf', response, h1, h2, h3, _⟩ := handleChangesNow_composes db req rf h
    obtain ⟨st2, h6, hlen, h7, _⟩ := findChanges_some rf.markers rf.options db req
    rw [h1] at h6
    simp only [Option.some.injEq] at h6
    subst h6
    have hbefore : ∀ e ∈ ([Effect.handleChangesNow req.number]
        ++ (if req.proposed = true then [] else [Effect.markRevsSyncedNow]) ++ st.effects
        ++ [Effect.numRevsBeingRequested (rf.numRevsBeingRequested + st.requested)]),
        Effect.isRespond e = false ∧ Effect.isExpectSequences e = false := by
      intro e he
      simp only [List.mem_append, List.mem_singleton] at he
      rcases he with ((he | he) | he) | he
      · subst he; exact ⟨rfl, rfl⟩
      · split at he
        · simp at he
        · simp only [List.mem_singleton] at he; subst he; exact ⟨rfl, rfl⟩
      · have := h7 e he
        cases e <;> simp_all [Effect.isLookup, Effect.isRespond, Effect.isExpectSequences]
      · subst he; exact ⟨rfl, rfl⟩
    refine ⟨rf', _, h2, by rw [h3, List.append_assoc], ?_⟩
    simp only [if_true]
    refine ⟨?_, [Effect.handleChangesNow req.number]
        ++ (if req.proposed = true then [] else [Effect.markRevsSyncedNow]) ++ st.effects
        ++ [Effect.numRevsBeingRequested (rf.numRevsBeingRequested + st.requested)],
      st.sequences, response, st.requested, by simp, hlen, fun e he => (hbefore e he).1⟩
    have hz : ([Effect.handleChangesNow req.number]
        ++ (if req.proposed = true then [] else [Effect.markRevsSyncedNow]) ++ st.effects
        ++ [Effect.numRevsBeingRequested (rf.numRevsBeingRequested + st.requested)]).countP
          Effect.isExpectSequences = 0 := by
      rw [List.countP_eq_zero]
      intro e he
      simp [(hbefore e he).2]
    have hsplit : ([Effect.handleChangesNow req.number]
          ++ (if req.proposed = true then [] else [Effect.markRevsSyncedNow]) ++ st.effects)
        ++ [Effect.numRevsBeingRequested (rf.numRevsBeingRequested + st.requested),
            Effect.expectSequences st.sequences, Effect.respond req.number (some response),
            Effect.logResponded req.number st.requested]
        = ([Effect.handleChangesNow req.number]
          ++ (if req.proposed = true then [] else [Effect.markRevsSyncedNow]) ++ st.effects
          ++ [Effect.numRevsBeingRequested (rf.numRevsBeingRequested + st.requested)])
          ++ [Effect.expectSequences st.sequences, Effect.respond req.number (some response),
            Effect.logResponded req.number st.requested] := by
      simp
    rw [hsplit, List.countP_append, hz]
    rfl
  | false =>
    obtain ⟨es, h1, h2⟩ := handleChangesNow_declines db req rf h
    refine ⟨_, _, h1, rfl, ?_⟩
    simp only [Bool.false_eq_true, if_false]
    rcases h2 with h | h | h | h <;> subst h <;> rfl

/-- C7 at the failing input: for the batch `[["doc1","r2","r1"], ["","r9"]]` the response body is
`[]`, so both positions of the normalized response hold 0, while the in-flight counter is
increased by 1 only: the entry skipped as invalid is answered like an accepted one without being
counted. -/
theorem handleChanges_invalid_entry_uncounted :
    ∃ rf' response, handleChanges exampleDB invalidProposal exampleState = some rf' ∧
      rf'.effects = [.handleChangesNow 4, .numRevsBeingRequested 1,
        .expectSequences [{ bodySize := 1 }, { bodySize := 0 }],
        .respond 4 (some response), .logResponded 4 1] ∧
      response.jsonBody.text = "[]" ∧
      normalized 2 response.jsonBody.ints = [0, 0] ∧
      (normalized 2 response.jsonBody.ints).count 0 = 2 ∧
      rf'.numRevsBeingRequested = exampleState.numRevsBeingRequested + 1 :=
  ⟨_, _, rfl, rfl, by decide, by decide, by decide, rfl⟩

/-- For a batch without invalid entries the number of zeros of the normalized response is the
requested count. -/
theorem findProposedRevs_zero_slots (db : DBAccess) (changes : List Value)
    (hvalid : ∀ item ∈ changes, proposedEntryStatus db item ≠ none) :
    (changes.map (proposedSlot db)).count 0
      = changes.countP (fun item => proposedEntryStatus db item = some 0) := by
  induction changes with
  | nil => rfl
  | cons item rest ih =>
    have h1 := hvalid item (List.mem_cons_self _ _)
    have h2 := ih (fun x hx => hvalid x (List.mem_cons_of_mem _ hx))
    simp only [List.map_cons, List.count_cons, List.countP_cons, h2]
    congr 1
    unfold proposedSlot
    cases hs : proposedEntryStatus db item with
    | none => exact absurd hs h1
    | some s => by_cases hz : s = 0 <;> simp [hz]

/-- C9: after any sequence of calls on a fresh worker, the requests handled so far followed by
the waiting ones are the requests in arrival order, and the waiting list is non-empty only while
no capacity is available; from there a request that arrives without capacity is appended to the
tail of the waiting list and not handled, one that arrives with capacity is handled at once (the
waiting list is empty then), `_reRequestingRev` handles nothing, and `_revReceived` handles
requests taken from the head of the waiting list, in order. -/
theorem handleChanges_arrival_order (options : Options) (markers : AncestorMarkers)
    (maxRevsBeingRequested : Nat) (calls : List Call) (rf : State)
    (h : run (fresh options markers maxRevsBeingRequested) calls = some rf) :
    handled rf.effects ++ rf.waitingChangesMessages.map (fun m => m.number) = arrivals calls ∧
      (rf.waitingChangesMessages ≠ [] → rf.pullerHasCapacity = false) ∧
      (∀ db req, rf.pullerHasCapacity = false →
        handleChanges db req rf
          = some { rf with waitingChangesMessages := rf.waitingChangesMessages ++ [req] }) ∧
      (∀ db req, rf.pullerHasCapacity = true →
        ∃ rf', handleChanges db req rf = some rf' ∧
          handled rf'.effects = handled rf.effects ++ [req.number] ∧
          rf'.waitingChangesMessages = []) ∧
      (handled (reRequestingRev rf).effects = handled rf.effects ∧
        (reRequestingRev rf).waitingChangesMessages = rf.waitingChangesMessages) ∧
      (∀ db rf', revReceived db rf = some rf' →
        ∃ k, handled rf'.effects
            = handled rf.effects ++ (rf.waitingChangesMessages.take k).map (fun m => m.number) ∧
          rf'.waitingChangesMessages = rf.waitingChangesMessages.drop k) := by
  have hfresh : Throttled (fresh options markers maxRevsBeingRequested) :=
    fun hne => absurd rfl hne
  obtain ⟨h1, h2, _⟩ := run_spec calls _ rf hfresh h
  refine ⟨by simpa [fresh, handled] using h2, h1, ?_, ?_, ?_, ?_⟩
  · intro db req hcap
    simp [handleChanges, hcap]
  · intro db req hcap
    obtain ⟨rf', g1, g2, _, _, g5, _⟩ := handleChangesNow_summary db req rf
    have hempty : rf.waitingChangesMessages = [] := by
      by_contra hne
      have := h1 hne
      rw [hcap] at this
      exact Bool.noConfusion this
    exact ⟨rf', by simp [handleChanges, hcap, g1], g2, by rw [g5, hempty]⟩
  · simp [reRequestingRev, State.log, handled_append, handled]
  · intro db rf' hr
    simp only [revReceived, decrement] at hr
    by_cases hz : rf.numRevsBeingRequested = 0
    · simp [hz] at hr
    · simp only [hz, if_false, State.log] at hr
      obtain ⟨rf1, k, g1, g2, g3, _⟩ := drainWaiting_spec db rf.waitingChangesMessages
        { rf with numRevsBeingRequested := rf.numRevsBeingRequested - 1
                  effects := rf.effects ++ [.numRevsBeingRequested (rf.numRevsBeingRequested - 1)] }
      rw [g1] at hr
      simp only [Option.some.injEq] at hr
      subst hr
      exact ⟨k, by simpa [handled_append, handled] using g2, g3⟩

/-- Witness of C9: with capacity for one batch and two arriving requests, the second waits
while the first is handled, and is handled once a revision of the first is received. -/
theorem handleChanges_arrival_order_witness :
    (∃ rf, run exampleState (exampleCalls.take 2) = some rf ∧ handled rf.effects = [1] ∧
        rf.waitingChangesMessages.map (fun m => m.number) = [3]) ∧
      ∃ rf, run exampleState exampleCalls = some rf ∧
        handled rf.effects ++ rf.waitingChangesMessages.map (fun m => m.number)
          = arrivals exampleCalls ∧
        handled rf.effects = [1, 3] := by
  exact ⟨⟨_, rfl, rfl, rfl⟩,
    ⟨_, rfl, (handleChanges_arrival_order
      { noIncomingConflicts := false, disableDeltaSupport := false } exampleMarkers 0
      exampleCalls _ rfl).1, rfl⟩⟩

/-- C10: after any sequence of calls on a fresh worker, the in-flight counter is the sum of the
requested counts of the composed responses, plus the number of `_reRequestingRev` calls, minus
the number of `_revReceived` calls; and a request that is queued, or for which no response is
composed (invalid body, empty batch, noreply, refused with 409), leaves the counter unchanged. -/
theorem numRevsBeingRequested_ledger (options : Options) (markers : AncestorMarkers)
    (maxRevsBeingRequested : Nat) (calls : List Call) (rf : State)
    (h : run (fresh options markers maxRevsBeingRequested) calls = some rf) :
    (rf.numRevsBeingRequested : Int)
        = (requestedSum rf.effects : Int) + (reRequests calls : Int) - (receipts calls : Int) ∧
      (∀ db req, rf.pullerHasCapacity = false ∨ composesResponse req rf = false →
        ∃ rf', handleChanges db req rf = some rf' ∧
          rf'.numRevsBeingRequested = rf.numRevsBeingRequested ∧
          requestedSum rf'.effects = requestedSum rf.effects) := by
  have hfresh : Throttled (fresh options markers maxRevsBeingRequested) :=
    fun hne => absurd rfl hne
  obtain ⟨_, _, h3, _⟩ := run_spec calls _ rf hfresh h
  simp only [fresh, requestedSum, Nat.add_zero, Nat.zero_add] at h3
  refine ⟨by omega, ?_⟩
  intro db req hor
  cases hcap : rf.pullerHasCapacity with
  | false =>
    exact ⟨{ rf with waitingChangesMessages := rf.waitingChangesMessages ++ [req] },
      by simp [handleChanges, hcap], rfl, rfl⟩
  | true =>
    have hc : composesResponse req rf = false := by
      rcases hor with h | h
      · rw [hcap] at h; exact Bool.noConfusion h
      · exact h
    obtain ⟨rf', g1, _, g3, _, _, _, _, _, g9⟩ := handleChangesNow_summary db req rf
    have := g9 hc
    exact ⟨rf', by simp [handleChanges, hcap, g1], this, by omega⟩

/-- Witness of C10: after the two example requests and one received revision the counter is
1 + 1 - 1. -/
theorem numRevsBeingRequested_ledger_witness :
    ∃ rf, run exampleState exampleCalls = some rf ∧ rf.numRevsBeingRequested = 1 ∧
      requestedSum rf.effects = 2 ∧ reRequests exampleCalls = 0 ∧ receipts exampleCalls = 1 ∧
      (rf.numRevsBeingRequested : Int)
        = (requestedSum rf.effects : Int) + (reRequests exampleCalls : Int)
          - (receipts exampleCalls : Int) :=
  ⟨_, rfl, rfl, rfl, rfl, rfl, (numRevsBeingRequested_ledger
      { noIncomingConflicts := false, disableDeltaSupport := false } exampleMarkers 0
      exampleCalls _ rfl).1⟩

/-- C11, as stated, fails: a request whose body is the JSON value `null` is not answered with
an error; it is handled as an empty batch (the delegate is told that the peer has caught up,
and the request is acknowledged). -/
theorem handleChanges_null_body_caught_up :
    ∃ rf', handleChanges exampleDB nullRequest exampleState = some rf' ∧
      rf'.effects = [.handleChangesNow 5, .caughtUp, .respond 5 none] ∧
      ∀ e ∈ rf'.effects, e ≠ .respondWithError 5 400 :=
  ⟨_, rfl, rfl, by
    intro e he
    change e ∈ [Effect.handleChangesNow 5, .caughtUp, .respond 5 none] at he
    simp only [List.mem_cons, List.mem_singleton, List.not_mem_nil, or_false] at he
    rcases he with h | h | h <;> subst h <;> exact fun h => Effect.noConfusion h⟩

/-- C11, amended: a request whose body has no JSON sequence (it is missing, or it is a JSON value
other than a sequence) and is not the text `null` is answered with the error 400, and that is
all that happens: only the log of the worker changes, by the entry and the error response, so
`expectSequences` is not called and the counter, the waiting list and the flags are as before.
A body `null` is handled as an empty batch. -/
theorem handleChangesNow_invalid_body (db : DBAccess) (req : MessageIn) (rf : State)
    (hbody : req.changes = none) :
    (slice.eq req.body (some "null") = false →
      handleChangesNow db req rf = some { rf with effects := rf.effects
        ++ [.handleChangesNow req.number, .respondWithError req.number 400] }) ∧
    (slice.eq req.body (some "null") = true →
      handleChangesNow db req rf = some { rf with effects := rf.effects
        ++ [.handleChangesNow req.number, .caughtUp, .respond req.number none] }) := by
  constructor
  · intro hnull
    simp [handleChangesNow, State.log, hbody, hnull]
  · intro hnull
    simp [handleChangesNow, State.log, hbody, hnull, count]

/-- Witness of C11: a request whose body is a JSON object. -/
theorem handleChangesNow_invalid_body_witness :
    objectRequest.changes = none ∧ slice.eq objectRequest.body (some "null") = false ∧
    handleChangesNow exampleDB objectRequest exampleState
      = some { exampleState with
          effects := [.handleChangesNow 6, .respondWithError 6 400] } :=
  ⟨rfl, rfl, (handleChangesNow_invalid_body exampleDB objectRequest exampleState rfl).1 rfl⟩

/-- C12: in conflict-free mode `handleChangesNow` answers a non-empty "changes" batch that
expects a reply with the error 409, and that is all that happens: only the log of the worker
changes, so `expectSequences` is not called and the counter, the flag `_announcedDeltaSupport`
and the waiting list are as before.  A "proposeChanges" request is never answered with the
error 409, and an empty batch is handled as caught-up. -/
theorem handleChangesNow_conflict_free (db : DBAccess) (req : MessageIn) (rf : State)
    (hmode : rf.options.noIncomingConflicts = true) :
    (req.proposed = false → count req.changes ≠ 0 → req.noReply = false →
      handleChangesNow db req rf = some { rf with effects := rf.effects
        ++ [.handleChangesNow req.number, .respondWithError req.number 409] }) ∧
    (req.proposed = true → ∀ rf', handleChangesNow db req rf = some rf' →
      ∃ new, rf'.effects = rf.effects ++ new ∧ ∀ e ∈ new, ∀ n, e ≠ .respondWithError n 409) ∧
    (req.changes = some [] →
      handleChangesNow db req rf = some { rf with effects := rf.effects
        ++ [.handleChangesNow req.number, .caughtUp, .respond req.number none] }) := by
  refine ⟨?_, ?_, ?_⟩
  · intro hp hc hn
    have hsome := count_ne_zero_isSome _ hc
    simp [handleChangesNow, State.log, hsome, hc, hn, hmode, hp]
  · intro hp rf' hrf
    cases hcomp : composesResponse req rf with
    | true =>
      obtain ⟨st, rf2, response, h1, h2, h3, _⟩ := handleChangesNow_composes db req rf hcomp
      obtain ⟨st2, h4, _, h5, _⟩ := findChanges_some rf.markers rf.options db req
      rw [h1] at h4
      simp only [Option.some.injEq] at h4
      subst h4
      rw [h2] at hrf
      simp only [Option.some.injEq] at hrf
      subst hrf
      refine ⟨_, by rw [h3, List.append_assoc], ?_⟩
      intro e he n
      simp only [hp, if_true, List.append_nil, List.mem_append, List.mem_cons,
        List.mem_singleton, List.not_mem_nil, or_false] at he
      rcases he with (he | he) | he | he | he | he
      · subst he; exact fun h => Effect.noConfusion h
      · have := h5 e he
        intro h; subst h; simp [Effect.isLookup] at this
      · subst he; exact fun h => Effect.noConfusion h
      · subst he; exact fun h => Effect.noConfusion h
      · subst he; exact fun h => Effect.noConfusion h
      · subst he; exact fun h => Effect.noConfusion h
    | false =>
      have hcf : ¬ (rf.options.noIncomingConflicts = true ∧ (!req.proposed) = true) := by
        simp [hp]
      unfold handleChangesNow at hrf
      simp only [State.log] at hrf
      by_cases h1 : (!req.changes.isSome) = true ∧ (!slice.eq req.body (some "null")) = true
      · simp only [h1, and_self, if_true, Option.some.injEq] at hrf
        subst hrf
        refine ⟨[.handleChangesNow req.number, .respondWithError req.number 400], by simp, ?_⟩
        intro e he n
        simp only [List.mem_cons, List.mem_singleton, List.not_mem_nil, or_false] at he
        rcases he with he | he <;> subst he <;> intro h <;> cases h
      · simp only [h1, if_false] at hrf
        by_cases h2 : count req.changes = 0
        · simp only [h2, if_true, Option.some.injEq] at hrf
          subst hrf
          refine ⟨[.handleChangesNow req.number, .caughtUp, .respond req.number none],
            by simp, ?_⟩
          intro e he n
          simp only [List.mem_cons, List.mem_singleton, List.not_mem_nil, or_false] at he
          rcases he with he | he | he <;> subst he <;> intro h <;> cases h
        · simp only [h2, if_false] at hrf
          by_cases h3 : req.noReply = true
          · simp only [h3, if_true, Option.some.injEq] at hrf
            subst hrf
            refine ⟨[.handleChangesNow req.number], by simp, ?_⟩
            intro e he n
            simp only [List.mem_singleton] at he
            subst he
            exact fun h => Effect.noConfusion h
          · exfalso
            have : composesResponse req rf = true := by
              rw [composesResponse_iff]
              exact ⟨h2, by simpa using h3, by simpa using hcf⟩
            rw [hcomp] at this
            exact Bool.noConfusion this
  · intro hc
    simp [handleChangesNow, State.log, hc, count]

/-- Witness of C12: the example "changes" request on a fresh worker in conflict-free mode. -/
theorem handleChangesNow_conflict_free_witness :
    conflictFreeState.options.noIncomingConflicts = true ∧
    handleChangesNow exampleDB exampleRequest conflictFreeState
      = some { conflictFreeState with
          effects := [.handleChangesNow 1, .respondWithError 1 409] } :=
  ⟨rfl, (handleChangesNow_conflict_free exampleDB exampleRequest conflictFreeState rfl).1
    rfl (by decide) rfl⟩

/-! ### The headers of the composed responses -/

theorem responses_append (a b : List Effect) : responses (a ++ b) = responses a ++ responses b := by
  induction a with
  | nil => rfl
  | cons e es ih =>
    cases e with
    | respond n r => cases r <;> simp [responses, ih]
    | _ => simp [responses, ih]

theorem responses_lookup (es : List Effect) (h : ∀ e ∈ es, Effect.isLookup e = true) :
    responses es = [] := by
  induction es with
  | nil => rfl
  | cons e es ih =>
    have he := h e (List.mem_cons_self _ _)
    have ih' := ih fun x hx => h x (List.mem_cons_of_mem _ hx)
    cases e <;> simp [Effect.isLookup] at he <;> simp [responses, ih']

theorem announced_mono (dbs dbs' : List DBAccess) (rf : State) (hsub : ∀ db ∈ dbs, db ∈ dbs')
    (h : Announced dbs rf) : Announced dbs' rf :=
  ⟨h.1, h.2.1, fun r hr => by
    obtain ⟨db, hdb, h1⟩ := h.2.2 r hr
    exact ⟨db, hsub db hdb, h1⟩⟩

theorem announced_of_eq (dbs : List DBAccess) (rf rf' : State) (h : Announced dbs rf)
    (he : responses rf'.effects = responses rf.effects)
    (ha : rf'.announcedDeltaSupport = rf.announcedDeltaSupport) (ho : rf'.options = rf.options) :
    Announced dbs rf' := by
  unfold Announced
  rw [he, ha, ho]
  exact h

theorem handleChangesNow_announced (dbs : List DBAccess) (db : DBAccess) (req : MessageIn)
    (rf rf' : State) (hdb : db ∈ dbs) (hinv : Announced dbs rf)
    (h : handleChangesNow db req rf = some rf') : Announced dbs rf' := by
  cases hc : composesResponse req rf with
  | false =>
    obtain ⟨es, h1, h2⟩ := handleChangesNow_declines db req rf hc
    rw [h1] at h
    simp only [Option.some.injEq] at h
    subst h
    refine announced_of_eq dbs rf _ hinv ?_ rfl rfl
    show responses (rf.effects ++ Effect.handleChangesNow req.number :: es) = responses rf.effects
    rw [responses_append]
    rcases h2 with h | h | h | h <;> subst h <;> simp [responses]
  | true =>
    obtain ⟨st, rf1, response, h1, h2, h3, _, _, h6, _, _, h9, _, h11, h12, h13⟩ :=
      handleChangesNow_composes db req rf hc
    rw [h2] at h
    simp only [Option.some.injEq] at h
    subst h
    obtain ⟨st', hst', _, hlook, _⟩ := findChanges_some rf.markers rf.options db req
    rw [h1] at hst'
    simp only [Option.some.injEq] at hst'
    subst hst'
    have hres : responses rf1.effects = responses rf.effects ++ [response] := by
      rw [h3]
      simp only [responses_append, responses_lookup _ hlook]
      cases req.proposed <;> simp [responses]
    unfold Announced
    rw [hres, h6, h9]
    refine ⟨fun hd r hr => ?_, fun hd => ⟨?_, fun i r hi => ?_⟩, fun r hr => ?_⟩
    · rcases List.mem_append.1 hr with hr | hr
      · exact hinv.1 hd r hr
      · simp only [List.mem_singleton] at hr
        subst hr
        rw [h11, hd]
        simp
    · simp [hd]
    · obtain ⟨hann, hold⟩ := hinv.2.1 hd
      by_cases hlt : i < (responses rf.effects).length
      · rw [List.get?_eq_getElem?, List.getElem?_append_left hlt,
          ← List.get?_eq_getElem?] at hi
        exact hold i r hi
      · have hge : (responses rf.effects).length ≤ i := Nat.le_of_not_lt hlt
        rw [List.get?_eq_getElem?, List.getElem?_append_right hge] at hi
        have hi0 : i - (responses rf.effects).length = 0 := by
          by_contra hne
          obtain ⟨k, hk⟩ := Nat.exists_eq_succ_of_ne_zero hne
          rw [hk] at hi
          simp at hi
        rw [hi0] at hi
        simp only [List.getElem?_cons_zero, Option.some.injEq] at hi
        subst hi
        rw [h11, hd]
        cases ha : rf.announcedDeltaSupport with
        | true =>
          have hne := hann.1 ha
          have : 0 < (responses rf.effects).length := List.length_pos.2 hne
          have hi' : i ≠ 0 := by omega
          simp [hi']
        | false =>
          have hnil : responses rf.effects = [] := by
            by_contra hne
            have := hann.2 hne
            rw [ha] at this
            exact Bool.noConfusion this
          rw [hnil] at hi0
          simp only [List.length_nil, Nat.sub_zero] at hi0
          simp [hi0]
    · rcases List.mem_append.1 hr with hr | hr
      · exact hinv.2.2 r hr
      · simp only [List.mem_singleton] at hr
        subst hr
        exact ⟨db, hdb, h13, h12⟩

theorem drainWaiting_announced (dbs : List DBAccess) (db : DBAccess) (hdb : db ∈ dbs) :
    ∀ (waiting : List MessageIn) (rf rf' : State), Announced dbs rf →
      drainWaiting db waiting rf = some rf' → Announced dbs rf' := by
  intro waiting
  induction waiting with
  | nil =>
    intro rf rf' hinv h
    simp only [drainWaiting, Option.some.injEq] at h
    subst h
    exact announced_of_eq dbs rf _ hinv rfl rfl rfl
  | cons req rest ih =>
    intro rf rf' hinv h
    simp only [drainWaiting] at h
    split at h
    · split at h
      · rename_i rf1 h1
        exact ih rf1 rf' (handleChangesNow_announced dbs db req
          { rf with waitingChangesMessages := rest } rf1 hdb
          (announced_of_eq dbs rf _ hinv rfl rfl rfl) h1) h
      · exact Option.noConfusion h
    · simp only [Option.some.injEq] at h
      subst h
      exact announced_of_eq dbs rf _ hinv rfl rfl rfl

theorem responses_counter (es : List Effect) (n : Nat) :
    responses (es ++ [Effect.numRevsBeingRequested n]) = responses es := by
  rw [responses_append]
  simp [responses]

theorem step_announced (dbs : List DBAccess) (rf rf' : State) (c : Call)
    (hsub : ∀ db ∈ databases [c], db ∈ dbs) (hinv : Announced dbs rf)
    (h : step rf c = some rf') : Announced dbs rf' := by
  cases c with
  | handleChanges db req =>
    simp only [step, handleChanges] at h
    split at h
    · exact handleChangesNow_announced _ db req rf rf' (hsub db (by simp [databases])) hinv h
    · simp only [Option.some.injEq] at h
      subst h
      exact announced_of_eq _ rf _ hinv rfl rfl rfl
  | revReceived db =>
    simp only [step, revReceived] at h
    split at h
    · exact Option.noConfusion h
    · rename_i n hn
      refine drainWaiting_announced _ db (hsub db (by simp [databases])) _ _ rf' ?_ h
      exact announced_of_eq _ rf _ hinv (responses_counter _ _) rfl rfl
  | reRequestingRev =>
    simp only [step, Option.some.injEq] at h
    subst h
    exact announced_of_eq _ rf _ hinv (responses_counter _ _) rfl rfl

theorem databases_cons (c : Call) (cs : List Call) :
    databases (c :: cs) = databases [c] ++ databases cs := by
  cases c <;> rfl

theorem run_announced : ∀ (calls : List Call) (dbs : List DBAccess) (rf rf' : State),
    Announced dbs rf → run rf calls = some rf' → Announced (dbs ++ databases calls) rf' := by
  intro calls
  induction calls with
  | nil =>
    intro dbs rf rf' hinv h
    simp only [run, Option.some.injEq] at h
    subst h
    exact announced_mono _ _ _ (fun db hdb => List.mem_append_left _ hdb) hinv
  | cons c cs ih =>
    intro dbs rf rf' hinv h
    simp only [run] at h
    split at h
    · rename_i rf1 h1
      have hold := announced_mono dbs (dbs ++ databases [c]) rf
        (fun db hdb => List.mem_append_left _ hdb) hinv
      have hstep := step_announced (dbs ++ databases [c]) rf rf1 c
        (fun db hdb => List.mem_append_right _ hdb) hold h1
      have := ih (dbs ++ databases [c]) rf1 rf' hstep h
      rw [List.append_assoc, ← databases_cons] at this
      exact this
    · exact Option.noConfusion h

/-- C33: over any sequence of calls on a fresh worker, the composed responses, in the order
of their `respond` calls, carry the header `deltas: "true"` on the first one only when delta
support is enabled, and on none when it is disabled (so at most one response carries it);
every composed response carries as `maxHistory` the maximum revision-tree depth of the
database that answered during its call, and carries `blobs: "true"` if and only if that
database has blob support enabled. -/
theorem run_response_headers (options : Options) (markers : AncestorMarkers)
    (maxRevsBeingRequested : Nat) (calls : List Call) (rf : State)
    (h : run (fresh options markers maxRevsBeingRequested) calls = some rf) :
    (options.disableDeltaSupport = true → ∀ r ∈ responses rf.effects, r.deltas = false) ∧
    (options.disableDeltaSupport = false →
      ∀ i r, (responses rf.effects).get? i = some r → r.deltas = decide (i = 0)) ∧
    ((responses rf.effects).countP (fun r => r.deltas) ≤ 1) ∧
    (∀ r ∈ responses rf.effects, ∃ db ∈ databases calls,
      r.maxHistory = db.maxRevTreeDepth ∧ (r.blobs = true ↔ db.disableBlobSupport = false)) := by
  have h0 : Announced [] (fresh options markers maxRevsBeingRequested) := by
    refine ⟨fun _ r hr => ?_, fun _ => ⟨?_, fun i r hi => ?_⟩, fun r hr => ?_⟩
    · simp [fresh, responses] at hr
    · simp [fresh, responses]
    · simp [fresh, responses] at hi
    · simp [fresh, responses] at hr
  have hinv := run_announced calls [] _ rf h0 h
  have hopt : rf.options = options :=
    (run_spec calls _ rf (fun hne => absurd rfl hne) h).2.2.2.2.1
  rw [List.nil_append] at hinv
  obtain ⟨h1, h2, h3⟩ := hinv
  rw [hopt] at h1 h2
  refine ⟨h1, fun hd => (h2 hd).2, ?_, fun r hr => ?_⟩
  · cases hd : options.disableDeltaSupport with
    | true =>
      have : (responses rf.effects).countP (fun r => r.deltas) = 0 := by
        rw [List.countP_eq_zero]
        intro r hr
        simp [h1 hd r hr]
      omega
    | false =>
      have hall := (h2 hd).2
      cases hrs : responses rf.effects with
      | nil => simp
      | cons r0 rest =>
        rw [hrs] at hall
        have hrest : rest.countP (fun r => r.deltas) = 0 := by
          rw [List.countP_eq_zero]
          intro r hr
          obtain ⟨n, hn⟩ := List.get?_of_mem hr
          have := hall (n + 1) r (by simpa using hn)
          simp [this]
        rw [List.countP_cons, hrest]
        split <;> omega
  · obtain ⟨db, hdb, hm, hb⟩ := h3 r hr
    refine ⟨db, hdb, hm, ?_⟩
    rw [hb]
    cases db.disableBlobSupport <;> simp

/-- Witness of C33: in the example session two responses are composed; the first carries
`deltas`, the second does not. -/
theorem run_response_headers_witness :
    ∃ rf, run exampleState exampleCalls = some rf ∧
      (responses rf.effects).map (fun r => (r.deltas, r.blobs, r.maxHistory))
        = [(true, true, 20), (false, true, 20)] ∧
      (responses rf.effects).countP (fun r => r.deltas) ≤ 1 :=
  ⟨_, rfl, by decide,
    (run_response_headers { noIncomingConflicts := false, disableDeltaSupport := false }
      exampleMarkers 0 exampleCalls _ rfl).2.2.1⟩

/-! ### A failed ancestry lookup -/

theorem compileSequence_bodySize (item : Value) : 1 ≤ (compileSequence item).bodySize := by
  simp only [compileSequence]
  exact Nat.le_max_right _ _

/-- C38, the defect: when the ancestry lookup fails, `findRevs` only calls `gotError`: it
returns the requested count 0 and writes no ancestor array, but every entry of `sequences`
keeps the body size, at least 1, that the first loop gave it (the second loop, which sets the
body size of an entry that is not wanted to 0, is skipped).  For the example batch of three
entries, `expectSequences` gets the body sizes 1, 40, 1 while the counter is written with 0
and the response body is `[]`. -/
theorem findRevs_failed_lookup_keeps_sizes :
    (∀ (k : AncestorMarkers) (disableDeltaSupport : Bool) (db : DBAccess) (changes : List Value)
      (encoder : Encoder) (sequences : List ChangeSequence),
      sequences.length = changes.length →
      db.findDocAncestors (!disableDeltaSupport) (compileDocIDs changes) (compileRevIDs changes)
        = none →
      (findRevs k disableDeltaSupport db changes encoder sequences).requested = 0 ∧
      (findRevs k disableDeltaSupport db changes encoder sequences).encoder = encoder ∧
      ((findRevs k disableDeltaSupport db changes encoder sequences).sequences.countP
        (fun s => s.bodySize != 0)) = changes.length) ∧
    (∃ rf response, handleChangesNow failingDB exampleRequest exampleState = some rf ∧
      expectedBodySizes rf.effects = [[1, 40, 1]] ∧
      counterWrites rf.effects = [0] ∧ rf.numRevsBeingRequested = 0 ∧
      responses rf.effects = [response] ∧ response.jsonBody.text = "[]") := by
  constructor
  · intro k dds db changes encoder sequences hlen hfail
    refine ⟨by simp only [findRevs, hfail], by simp only [findRevs, hfail], ?_⟩
    simp only [findRevs, hfail]
    have hall : ∀ s ∈ compileSequences 0 changes sequences, (s.bodySize != 0) = true := by
      intro s hs
      obtain ⟨n, hn⟩ := List.get?_of_mem hs
      rw [compileSequences_get?] at hn
      have hlt : n < changes.length := by
        by_contra hc
        have : sequences.get? n = none := List.get?_eq_none.mpr (by omega)
        rw [this] at hn
        exact Option.noConfusion hn
      have hs0 : sequences.get? n = some (sequences.get ⟨n, by omega⟩) := List.get?_eq_get _
      have hc0 : changes.get? n = some (changes.get ⟨n, hlt⟩) := List.get?_eq_get _
      rw [hs0] at hn
      simp only [Nat.zero_le, if_true, Nat.sub_zero, hc0, Option.map_some', Option.getD_some,
        Option.some.injEq] at hn
      subst hn
      have := compileSequence_bodySize (changes.get ⟨n, hlt⟩)
      simp only [bne_iff_ne, ne_eq]
      omega
    rw [List.countP_eq_length.2 hall, compileSequences_length, hlen]
  · exact ⟨_, _, rfl, by decide, by decide, rfl, rfl, by decide⟩

end RevFinder

/-! ## Theorems about the query compiler -/

namespace QueryParser
open fleece

set_option linter.unusedTactic false
set_option linter.unreachableTactic false

/-! ### Methods that keep the context stack -/

theorem bind_apply {α β : Type} (m : M α) (k : α → M β) (qp : State) :
    (m >>= k) qp = match m qp with
      | (.ok a, qp) => k a qp
      | (.error e, qp) => (.error e, qp) := rfl

theorem rel_bind {α β : Type} {R S T : List OperationPtr → List OperationPtr → Prop}
    (hT : ∀ a b c, R a b → S b c → T a c) {m : M α} {k : α → M β}
    (hm : Rel R m) (hk : ∀ a, Rel S (k a)) : Rel T (m >>= k) := by
  constructor
  · intro qp
    rw [bind_apply]
    obtain ⟨t, ht⟩ := hm.appends qp
    cases hq : m qp with
    | mk r qp1 =>
      rw [hq] at ht
      cases r with
      | error e => exact ⟨t, ht⟩
      | ok a =>
        obtain ⟨t2, ht2⟩ := (hk a).appends qp1
        exact ⟨t ++ t2, by simp only at ht ⊢; rw [ht2, ht, String.append_assoc]⟩
  · intro qp b
    rw [bind_apply]
    have hc := hm.context qp
    cases hq : m qp with
    | mk r qp1 =>
      rw [hq] at hc
      cases r with
      | error e => intro h; exact Except.noConfusion h
      | ok a =>
        intro h
        exact hT _ _ _ (hc a rfl) ((hk a).context qp1 b h)

theorem same_bind {α β : Type} {m : M α} {k : α → M β}
    (hm : Same m) (hk : ∀ a, Same (k a)) : Same (m >>= k) :=
  rel_bind (fun _ _ _ h1 h2 => h2.trans h1) hm hk

theorem same_pure {α : Type} (a : α) : Same (pure a : M α) :=
  ⟨fun _ => ⟨"", by simp [pure, M.pure]⟩, fun _ _ _ => rfl⟩

theorem same_raise {α : Type} (e : Error) : Same (raise e : M α) :=
  ⟨fun _ => ⟨"", by simp [raise]⟩, fun _ _ h => Except.noConfusion h⟩

theorem same_fail {α : Type} (s : String) : Same (fail s : M α) := same_raise _

theorem same_write (s : String) : Same (write s) :=
  ⟨fun _ => ⟨s, rfl⟩, fun _ _ _ => rfl⟩

theorem same_getState : Same getState :=
  ⟨fun _ => ⟨"", by simp [getState]⟩, fun _ _ _ => rfl⟩

theorem same_contextBack : Same contextBack := by
  constructor
  · intro qp
    unfold contextBack
    cases qp.context.getLast? <;> exact ⟨"", by simp⟩
  · intro qp a _
    unfold contextBack
    cases qp.context.getLast? <;> rfl

theorem same_liftExcept {α : Type} (x : Except Error α) : Same (liftExcept x) := by
  cases x
  · exact same_raise _
  · exact same_pure _

theorem same_writeSQLString (s : String) : Same (writeSQLString s) := same_write _

theorem same_writePropertyGetter (fn property : String) :
    Same (writePropertyGetter fn property) := by
  unfold writePropertyGetter
  repeat' first
    | exact same_pure _ | exact same_write _ | exact same_fail _ | exact same_raise _
    | exact same_getState | exact same_contextBack | exact same_liftExcept _
    | exact same_writeSQLString _ | assumption
    | apply same_bind | intro _ | split | dsimp only

theorem same_writeStringLiteralAsProperty (str : String) :
    Same (writeStringLiteralAsProperty str) := by
  unfold writeStringLiteralAsProperty
  repeat' first
    | exact same_pure _ | exact same_write _ | exact same_fail _ | exact same_raise _
    | exact same_getState | exact same_contextBack | exact same_liftExcept _
    | exact same_writeSQLString _     | exact same_writePropertyGetter _ _
    | assumption
    | apply same_bind | intro _ | split | dsimp only

theorem same_writeNestedPropertyOpIfAny (fnName : String) (operands : List Value) :
    Same (writeNestedPropertyOpIfAny fnName operands) := by
  unfold writeNestedPropertyOpIfAny
  repeat' first
    | exact same_pure _ | exact same_write _ | exact same_fail _ | exact same_raise _
    | exact same_getState | exact same_contextBack | exact same_liftExcept _
    | exact same_writeSQLString _     | exact same_writePropertyGetter _ _
    | assumption
    | apply same_bind | intro _ | split | dsimp only

theorem same_insertVariable (var : String) : Same (insertVariable var) :=
  ⟨fun _ => ⟨"", by simp [insertVariable]⟩, fun _ _ _ => rfl⟩

theorem same_eraseVariable (var : String) : Same (eraseVariable var) :=
  ⟨fun _ => ⟨"", by simp [eraseVariable]⟩, fun _ _ _ => rfl⟩

theorem same_insertParameter (parameter : String) : Same (insertParameter parameter) :=
  ⟨fun _ => ⟨"", by simp [insertParameter]⟩, fun _ _ _ => rfl⟩

theorem same_addFTSTable (key : String) : Same (addFTSTable key) :=
  ⟨fun _ => ⟨"", by simp [addFTSTable]⟩, fun _ _ _ => rfl⟩

theorem same_setFirstCustomResultCol (nCol : Nat) : Same (setFirstCustomResultCol nCol) :=
  ⟨fun _ => ⟨"", by simp [setFirstCustomResultCol]⟩, fun _ _ _ => rfl⟩

theorem same_FTSIndexName (key : Value) : Same (FTSIndexName key) := by
  unfold FTSIndexName
  repeat' first
    | exact same_pure _ | exact same_write _ | exact same_fail _ | exact same_raise _
    | exact same_getState | exact same_contextBack | exact same_liftExcept _
    | exact same_writeSQLString _ | assumption
    | apply same_bind | intro _ | split | dsimp only

theorem same_FTSPropertyIndex (matchLHS : Value) (canAdd : Bool) :
    Same (FTSPropertyIndex matchLHS canAdd) := by
  unfold FTSPropertyIndex
  repeat' first
    | exact same_pure _ | exact same_write _ | exact same_fail _ | exact same_raise _
    | exact same_getState | exact same_contextBack | exact same_liftExcept _
    | exact same_writeSQLString _     | exact same_FTSIndexName _ | exact same_addFTSTable _
    | assumption
    | apply same_bind | intro _ | split | dsimp only

theorem same_parseOperand (parseNode : Value → M Unit) (hpn : ∀ node, Same (parseNode node))
    (operands : List Value) (i : Nat) : Same (parseOperand parseNode operands i) := by
  unfold parseOperand
  repeat' first
    | exact same_pure _ | exact same_write _ | exact same_fail _ | exact same_raise _
    | exact same_getState | exact same_contextBack | exact same_liftExcept _
    | exact same_writeSQLString _     | exact hpn _
    | assumption
    | apply same_bind | intro _ | split | dsimp only

/-! ### The frame of `handleOperation` and the handlers -/

theorem rel_pushContext (op : OperationPtr) :
    Rel (fun c c' => c' = c ++ [op]) (pushContext op) :=
  ⟨fun _ => ⟨"", by simp [pushContext]⟩, fun _ _ _ => rfl⟩

theorem rel_popContext : Rel (fun c c' => c' = c.dropLast) popContext :=
  ⟨fun _ => ⟨"", by simp [popContext]⟩, fun _ _ _ => rfl⟩

theorem top_of_same {α : Type} {m : M α} (h : Same m) : Top m :=
  ⟨h.appends, fun qp a ha hne => by rw [h.context qp a ha]; exact ⟨rfl, hne⟩⟩

theorem top_setContextBack (op : OperationPtr) : Top (setContextBack op) :=
  ⟨fun _ => ⟨"", by simp [setContextBack]⟩, fun qp _ _ _ => by simp [setContextBack]⟩

theorem top_bind {α β : Type} {m : M α} {k : α → M β}
    (hm : Top m) (hk : ∀ a, Top (k a)) : Top (m >>= k) :=
  rel_bind (fun _ _ _ h1 h2 hne =>
    ⟨((h2 (h1 hne).2).1).trans (h1 hne).1, (h2 (h1 hne).2).2⟩) hm hk

theorem same_ite {α : Type} (c : Prop) [Decidable c] {a b : M α}
    (ha : Same a) (hb : Same b) : Same (if c then a else b) := by
  split
  · exact ha
  · exact hb

theorem rel_same_bind {α β : Type} {R : List OperationPtr → List OperationPtr → Prop}
    {m : M α} {k : α → M β} (hm : Same m) (hk : ∀ a, Rel R (k a)) : Rel R (m >>= k) :=
  rel_bind (fun _ _ _ h1 h2 => by rw [h1] at h2; exact h2) hm hk

/-- The frame of `handleOperation` restores the context stack. -/
theorem same_handleOperationWith (handler : M Unit) (op : OperationPtr) (h : Top handler) :
    Same (handleOperationWith handler op) := by
  unfold handleOperationWith
  apply same_bind same_contextBack
  intro back
  dsimp only
  have tailA : ∀ s : String, Rel (fun c c' => c ≠ [] → c' = c.dropLast)
      (write s >>= fun _ => handler >>= fun _ => write ")" >>= fun _ => popContext) :=
    fun s => rel_same_bind (same_write _) (fun _ =>
      rel_bind (fun _ _ _ h1 h2 hne => by rw [h2, (h1 hne).1])
        h (fun _ => rel_same_bind (same_write _) (fun _ => rel_popContext)))
  have tailB : Rel (fun c c' => c ≠ [] → c' = c.dropLast)
      ((pure PUnit.unit : M PUnit) >>= fun _ => handler >>= fun _ =>
        (pure PUnit.unit : M PUnit) >>= fun _ => popContext) :=
    rel_same_bind (same_pure _) (fun _ =>
      rel_bind (fun _ _ _ h1 h2 hne => by rw [h2, (h1 hne).1])
        h (fun _ => rel_same_bind (same_pure _) (fun _ => rel_popContext)))
  cases hb : decide (op.deref.precedence ≤ back.deref.precedence)
  · simp only [Bool.false_eq_true, if_false]
    exact rel_bind (fun a b c h1 h2 => by rw [h2 (by rw [h1]; simp), h1]; simp)
      (rel_pushContext op) (fun _ => tailB)
  · simp only [if_true]
    exact rel_bind (fun a b c h1 h2 => by rw [h2 (by rw [h1]; simp), h1]; simp)
      (rel_pushContext op) (fun _ => tailA _)

theorem same_prefixOp (parseNode : Value → M Unit) (hpn : ∀ node, Same (parseNode node))
    (op : String) (operands : List Value) : Same (prefixOp parseNode op operands) := by
  unfold prefixOp
  repeat' first
    | exact same_pure _ | exact same_write _ | exact same_fail _ | exact same_raise _
    | exact same_getState | exact same_contextBack | exact same_liftExcept _
    | exact same_writeSQLString _ | exact same_writePropertyGetter _ _
    | exact same_writeNestedPropertyOpIfAny _ _ | exact same_parseOperand _ hpn _ _
    | exact hpn _ | assumption
    | apply same_bind | intro _ | apply same_ite | split | dsimp only

theorem same_postfixOp (parseNode : Value → M Unit) (hpn : ∀ node, Same (parseNode node))
    (op : String) (operands : List Value) : Same (postfixOp parseNode op operands) := by
  unfold postfixOp
  repeat' first
    | exact same_pure _ | exact same_write _ | exact same_fail _ | exact same_raise _
    | exact same_getState | exact same_contextBack | exact same_liftExcept _
    | exact same_writeSQLString _ | exact same_writePropertyGetter _ _
    | exact same_writeNestedPropertyOpIfAny _ _ | exact same_parseOperand _ hpn _ _
    | exact hpn _ | assumption
    | apply same_bind | intro _ | apply same_ite | split | dsimp only

theorem same_infixOpLoop (parseNode : Value → M Unit) (hpn : ∀ node, Same (parseNode node))
    (op : String) (operands : List Value) :
    ∀ n, Same (infixOpLoop parseNode op n operands) := by
  induction operands with
  | nil => intro n; exact same_pure _
  | cons node rest ih =>
    intro n
    unfold infixOpLoop
    repeat' first
      | exact same_pure _ | exact same_write _ | exact same_fail _ | exact same_raise _
      | exact same_getState | exact same_contextBack | exact same_liftExcept _
      | exact same_writeSQLString _ | exact same_writePropertyGetter _ _
      | exact same_writeNestedPropertyOpIfAny _ _ | exact same_parseOperand _ hpn _ _
      | exact hpn _     | exact ih _
      | assumption
      | apply same_bind | intro _ | apply same_ite | split | dsimp only

theorem same_infixOp (parseNode : Value → M Unit) (hpn : ∀ node, Same (parseNode node))
    (op : String) (operands : List Value) : Same (infixOp parseNode op operands) :=
  same_infixOpLoop parseNode hpn op operands 0

theorem same_writeArgList (parseNode : Value → M Unit) (hpn : ∀ node, Same (parseNode node))
    (operands : List Value) : Same (writeArgList parseNode operands) :=
  same_handleOperationWith _ _ (top_of_same (same_infixOp parseNode hpn _ _))

theorem same_writeColumnList (parseNode : Value → M Unit) (hpn : ∀ node, Same (parseNode node))
    (operands : List Value) : Same (writeColumnList parseNode operands) :=
  same_handleOperationWith _ _ (top_of_same (same_infixOp parseNode hpn _ _))


theorem same_existsOp (parseNode : Value → M Unit) (hpn : ∀ node, Same (parseNode node))
    (op : String) (operands : List Value) : Same (existsOp parseNode op operands) := by
  unfold existsOp
  repeat' first
    | exact same_pure _ | exact same_write _ | exact same_fail _ | exact same_raise _
    | exact same_getState | exact same_contextBack | exact same_liftExcept _
    | exact same_writeSQLString _ | exact same_writePropertyGetter _ _
    | exact same_writeNestedPropertyOpIfAny _ _ | exact same_parseOperand _ hpn _ _
    | exact hpn _     | exact same_writeArgList _ hpn _ | exact same_FTSPropertyIndex _ _
    | exact same_insertVariable _ | exact same_eraseVariable _
    | assumption
    | apply same_bind | intro _ | apply same_ite | split | dsimp only

theorem same_betweenOp (parseNode : Value → M Unit) (hpn : ∀ node, Same (parseNode node))
    (op : String) (operands : List Value) : Same (betweenOp parseNode op operands) := by
  unfold betweenOp
  repeat' first
    | exact same_pure _ | exact same_write _ | exact same_fail _ | exact same_raise _
    | exact same_getState | exact same_contextBack | exact same_liftExcept _
    | exact same_writeSQLString _ | exact same_writePropertyGetter _ _
    | exact same_writeNestedPropertyOpIfAny _ _ | exact same_parseOperand _ hpn _ _
    | exact hpn _     | exact same_writeArgList _ hpn _ | exact same_FTSPropertyIndex _ _
    | exact same_insertVariable _ | exact same_eraseVariable _
    | assumption
    | apply same_bind | intro _ | apply same_ite | split | dsimp only

theorem same_inOp (parseNode : Value → M Unit) (hpn : ∀ node, Same (parseNode node))
    (op : String) (operands : List Value) : Same (inOp parseNode op operands) := by
  unfold inOp
  repeat' first
    | exact same_pure _ | exact same_write _ | exact same_fail _ | exact same_raise _
    | exact same_getState | exact same_contextBack | exact same_liftExcept _
    | exact same_writeSQLString _ | exact same_writePropertyGetter _ _
    | exact same_writeNestedPropertyOpIfAny _ _ | exact same_parseOperand _ hpn _ _
    | exact hpn _     | exact same_writeArgList _ hpn _ | exact same_FTSPropertyIndex _ _
    | exact same_insertVariable _ | exact same_eraseVariable _
    | assumption
    | apply same_bind | intro _ | apply same_ite | split | dsimp only

theorem same_matchOp (parseNode : Value → M Unit) (hpn : ∀ node, Same (parseNode node))
    (op : String) (operands : List Value) : Same (matchOp parseNode op operands) := by
  unfold matchOp
  repeat' first
    | exact same_pure _ | exact same_write _ | exact same_fail _ | exact same_raise _
    | exact same_getState | exact same_contextBack | exact same_liftExcept _
    | exact same_writeSQLString _ | exact same_writePropertyGetter _ _
    | exact same_writeNestedPropertyOpIfAny _ _ | exact same_parseOperand _ hpn _ _
    | exact hpn _     | exact same_writeArgList _ hpn _ | exact same_FTSPropertyIndex _ _
    | exact same_insertVariable _ | exact same_eraseVariable _
    | assumption
    | apply same_bind | intro _ | apply same_ite | split | dsimp only

theorem same_anyEveryOp (parseNode : Value → M Unit) (hpn : ∀ node, Same (parseNode node))
    (op : String) (operands : List Value) : Same (anyEveryOp parseNode op operands) := by
  unfold anyEveryOp
  repeat' first
    | exact same_pure _ | exact same_write _ | exact same_fail _ | exact same_raise _
    | exact same_getState | exact same_contextBack | exact same_liftExcept _
    | exact same_writeSQLString _ | exact same_writePropertyGetter _ _
    | exact same_writeNestedPropertyOpIfAny _ _ | exact same_parseOperand _ hpn _ _
    | exact hpn _     | exact same_writeArgList _ hpn _ | exact same_FTSPropertyIndex _ _
    | exact same_insertVariable _ | exact same_eraseVariable _
    | assumption
    | apply same_bind | intro _ | apply same_ite | split | dsimp only

theorem same_functionOp (parseNode : Value → M Unit) (hpn : ∀ node, Same (parseNode node))
    (op : String) (operands : List Value) : Same (functionOp parseNode op operands) := by
  unfold functionOp
  repeat' first
    | exact same_pure _ | exact same_write _ | exact same_fail _ | exact same_raise _
    | exact same_getState | exact same_contextBack | exact same_liftExcept _
    | exact same_writeSQLString _ | exact same_writePropertyGetter _ _
    | exact same_writeNestedPropertyOpIfAny _ _ | exact same_parseOperand _ hpn _ _
    | exact hpn _     | exact same_writeArgList _ hpn _ | exact same_FTSPropertyIndex _ _
    | exact same_insertVariable _ | exact same_eraseVariable _
    | assumption
    | apply same_bind | intro _ | apply same_ite | split | dsimp only

theorem same_propertyOp (op : String) (operands : List Value) :
    Same (propertyOp op operands) := by
  have hpn : ∀ node : Value, Same (pure () : M Unit) := fun _ => same_pure _
  unfold propertyOp
  repeat' first
    | exact same_pure _ | exact same_write _ | exact same_fail _ | exact same_raise _
    | exact same_getState | exact same_contextBack | exact same_liftExcept _
    | exact same_writeSQLString _ | exact same_writePropertyGetter _ _
    | exact same_writeNestedPropertyOpIfAny _ _ | exact same_parseOperand _ hpn _ _
    | exact hpn _     | exact same_insertParameter _
    | assumption
    | apply same_bind | intro _ | apply same_ite | split | dsimp only

theorem same_parameterOp (op : String) (operands : List Value) :
    Same (parameterOp op operands) := by
  have hpn : ∀ node : Value, Same (pure () : M Unit) := fun _ => same_pure _
  unfold parameterOp
  repeat' first
    | exact same_pure _ | exact same_write _ | exact same_fail _ | exact same_raise _
    | exact same_getState | exact same_contextBack | exact same_liftExcept _
    | exact same_writeSQLString _ | exact same_writePropertyGetter _ _
    | exact same_writeNestedPropertyOpIfAny _ _ | exact same_parseOperand _ hpn _ _
    | exact hpn _     | exact same_insertParameter _
    | assumption
    | apply same_bind | intro _ | apply same_ite | split | dsimp only

theorem same_variableOp (op : String) (operands : List Value) :
    Same (variableOp op operands) := by
  have hpn : ∀ node : Value, Same (pure () : M Unit) := fun _ => same_pure _
  unfold variableOp
  repeat' first
    | exact same_pure _ | exact same_write _ | exact same_fail _ | exact same_raise _
    | exact same_getState | exact same_contextBack | exact same_liftExcept _
    | exact same_writeSQLString _ | exact same_writePropertyGetter _ _
    | exact same_writeNestedPropertyOpIfAny _ _ | exact same_parseOperand _ hpn _ _
    | exact hpn _     | exact same_insertParameter _
    | assumption
    | apply same_bind | intro _ | apply same_ite | split | dsimp only

theorem same_missingOp (op : String) (operands : List Value) :
    Same (missingOp op operands) := by
  have hpn : ∀ node : Value, Same (pure () : M Unit) := fun _ => same_pure _
  unfold missingOp
  repeat' first
    | exact same_pure _ | exact same_write _ | exact same_fail _ | exact same_raise _
    | exact same_getState | exact same_contextBack | exact same_liftExcept _
    | exact same_writeSQLString _ | exact same_writePropertyGetter _ _
    | exact same_writeNestedPropertyOpIfAny _ _ | exact same_parseOperand _ hpn _ _
    | exact hpn _     | exact same_insertParameter _
    | assumption
    | apply same_bind | intro _ | apply same_ite | split | dsimp only

/-! ### SELECT, dispatch and `parseNode` -/

theorem top_fallbackOp (parseNode : Value → M Unit) (hpn : ∀ node, Same (parseNode node))
    (op : String) (operands : List Value) : Top (fallbackOp parseNode op operands) := by
  unfold fallbackOp
  refine top_bind (top_of_same same_contextBack) (fun back => ?_)
  refine top_bind (top_setContextBack _) (fun _ => ?_)
  apply top_of_same
  repeat' first
    | exact same_pure _ | exact same_write _ | exact same_fail _ | exact same_raise _
    | exact same_getState | exact same_contextBack | exact same_liftExcept _
    | exact same_writeSQLString _ | exact same_writePropertyGetter _ _
    | exact same_writeStringLiteralAsProperty _
    | exact same_writeNestedPropertyOpIfAny _ _ | exact same_parseOperand _ hpn _ _
    | exact hpn _     | exact same_parameterOp _ _ | exact same_variableOp _ _ | exact same_functionOp _ hpn _ _
    | assumption
    | apply same_bind | intro _ | apply same_ite | split | dsimp only

theorem depth_le_depthItems {v : Value} {l : List Value} (h : v ∈ l) :
    v.depth ≤ depthItems l := by
  induction l with
  | nil => cases h
  | cons a l ih =>
    rw [depthItems]
    rcases List.mem_cons.1 h with rfl | h
    · exact le_max_left _ _
    · exact le_trans (ih h) (le_max_right _ _)

theorem same_findFTSPropertiesIn (l : List Value)
    (h : ∀ v ∈ l, Same (findFTSProperties v)) : Same (findFTSPropertiesIn l) := by
  induction l with
  | nil => rw [findFTSPropertiesIn]; exact same_pure _
  | cons a l ih =>
    rw [findFTSPropertiesIn]
    exact same_bind (h a (List.mem_cons_self _ _))
      (fun _ => ih (fun v hv => h v (List.mem_cons_of_mem _ hv)))

theorem same_findFTSProperties_depth :
    ∀ (n : Nat) (v : Value), v.depth ≤ n → Same (findFTSProperties v) := by
  intro n
  induction n with
  | zero =>
    intro v hv
    cases v with
    | array items => rw [Value.depth] at hv; omega
    | dict entries => simp only [findFTSProperties]; exact same_pure _
    | _ => simp only [findFTSProperties]; exact same_pure _
  | succ n ih =>
    intro v hv
    cases v with
    | array items =>
      rw [Value.depth] at hv
      cases items with
      | nil => simp only [findFTSProperties]; exact same_pure _
      | cons first operands =>
        have hops : ∀ v ∈ operands, Same (findFTSProperties v) := fun v hv2 =>
          ih v (le_trans (depth_le_depthItems (List.mem_cons_of_mem first hv2)) (by omega))
        cases operands with
        | nil =>
          rw [findFTSProperties]
          split
          · exact same_pure _
          · exact same_findFTSPropertiesIn _ hops
        | cons lhs rest =>
          rw [findFTSProperties]
          split
          · exact same_bind (same_FTSPropertyIndex _ _) (fun _ =>
              same_findFTSPropertiesIn _ (fun v hv2 => hops v (List.mem_cons_of_mem _ hv2)))
          · exact same_findFTSPropertiesIn _ hops
    | _ => simp only [findFTSProperties]; exact same_pure _

theorem same_findFTSProperties (v : Value) : Same (findFTSProperties v) :=
  same_findFTSProperties_depth v.depth v (le_refl _)


theorem same_writeResultColumn (parseNode : Value → M Unit) (hpn : ∀ node, Same (parseNode node))
    (val : Value) : Same (writeResultColumn parseNode val) := by
  unfold writeResultColumn
  repeat' first
    | exact same_pure _ | exact same_write _ | exact same_fail _ | exact same_raise _
    | exact same_getState | exact same_contextBack | exact same_liftExcept _
    | exact same_writeSQLString _ | exact same_writePropertyGetter _ _
    | exact same_writeStringLiteralAsProperty _
    | exact same_writeNestedPropertyOpIfAny _ _ | exact same_parseOperand _ hpn _ _
    | exact hpn _ | assumption
    | apply same_bind | intro _ | apply same_ite | split | dsimp only

theorem same_writeWhats (parseNode : Value → M Unit) (hpn : ∀ node, Same (parseNode node))
    (whats : List Value) : ∀ nCol, Same (writeWhats parseNode nCol whats) := by
  induction whats with
  | nil => intro nCol; exact same_pure _
  | cons val rest ih =>
    intro nCol
    unfold writeWhats
    repeat' first
      | exact same_pure _ | exact same_write _ | exact same_fail _ | exact same_raise _
      | exact same_getState | exact same_contextBack | exact same_liftExcept _
      | exact same_writeSQLString _ | exact same_writePropertyGetter _ _
      | exact same_writeStringLiteralAsProperty _
      | exact same_writeNestedPropertyOpIfAny _ _ | exact same_parseOperand _ hpn _ _
      | exact hpn _     | exact ih _ | exact same_writeResultColumn _ hpn _
      | assumption
      | apply same_bind | intro _ | apply same_ite | split | dsimp only

theorem same_push_pop {α : Type} (op : OperationPtr) (m : M α) (h : Same m) :
    Same (pushContext op >>= fun _ => m >>= fun _ => popContext) :=
  rel_bind (fun a b c h1 h2 => by rw [h2, h1]; simp) (rel_pushContext op)
    (fun _ => rel_same_bind h (fun _ => rel_popContext))


theorem same_writeSelect (parseNode : Value → M Unit) (hpn : ∀ node, Same (parseNode node))
    (whereNode : Option Value) (operands : Option (List (String × Value))) :
    Same (writeSelect parseNode whereNode operands) := by
  unfold writeSelect
  repeat' first
    | exact same_pure _ | exact same_write _ | exact same_fail _ | exact same_raise _
    | exact same_getState | exact same_contextBack | exact same_liftExcept _
    | exact same_writeSQLString _ | exact same_writePropertyGetter _ _
    | exact same_writeStringLiteralAsProperty _
    | exact same_writeNestedPropertyOpIfAny _ _ | exact same_parseOperand _ hpn _ _
    | exact hpn _     | exact same_findFTSProperties _ | exact same_setFirstCustomResultCol _
    | exact same_writeWhats _ hpn _ _
    | (apply same_push_pop; split)
    | exact same_writeColumnList _ hpn _
    | assumption
    | apply same_bind | intro _ | apply same_ite | split | dsimp only

theorem same_writeSelectOperands (parseNode : Value → M Unit) (hpn : ∀ node, Same (parseNode node))
    (operands : List (String × Value)) : Same (writeSelectOperands parseNode operands) :=
  same_writeSelect parseNode hpn _ _

theorem same_selectOp (parseNode : Value → M Unit) (hpn : ∀ node, Same (parseNode node))
    (op : String) (operands : List Value) : Same (selectOp parseNode op operands) := by
  unfold selectOp
  repeat' first
    | exact same_pure _ | exact same_write _ | exact same_fail _ | exact same_raise _
    | exact same_getState | exact same_contextBack | exact same_liftExcept _
    | exact same_writeSQLString _ | exact same_writePropertyGetter _ _
    | exact same_writeStringLiteralAsProperty _
    | exact same_writeNestedPropertyOpIfAny _ _ | exact same_parseOperand _ hpn _ _
    | exact hpn _     | exact same_writeSelectOperands _ hpn _
    | assumption
    | apply same_bind | intro _ | apply same_ite | split | dsimp only

theorem top_callHandler (parseNode : Value → M Unit) (hpn : ∀ node, Same (parseNode node))
    (handler : Option OpHandler) (op : String) (operands : List Value) :
    Top (callHandler parseNode handler op operands) := by
  unfold callHandler
  split
  all_goals first
    | exact top_fallbackOp _ hpn _ _
    | exact top_of_same (same_propertyOp _ _)
    | exact top_of_same (same_parameterOp _ _)
    | exact top_of_same (same_variableOp _ _)
    | exact top_of_same (same_missingOp _ _)
    | exact top_of_same (same_infixOp _ hpn _ _)
    | exact top_of_same (same_prefixOp _ hpn _ _)
    | exact top_of_same (same_postfixOp _ hpn _ _)
    | exact top_of_same (same_inOp _ hpn _ _)
    | exact top_of_same (same_matchOp _ hpn _ _)
    | exact top_of_same (same_betweenOp _ hpn _ _)
    | exact top_of_same (same_existsOp _ hpn _ _)
    | exact top_of_same (same_anyEveryOp _ hpn _ _)
    | exact top_of_same (same_selectOp _ hpn _ _)
    | exact top_of_same (same_raise _)

theorem same_handleOperation (parseNode : Value → M Unit) (hpn : ∀ node, Same (parseNode node))
    (opDef : OperationPtr) (op : String) (operands : List Value) :
    Same (handleOperation parseNode opDef op operands) :=
  same_handleOperationWith _ _ (top_callHandler parseNode hpn _ _ _)

theorem same_parseOpNode (parseNode : Value → M Unit) (hpn : ∀ node, Same (parseNode node))
    (node : List Value) : Same (parseOpNode parseNode node) := by
  unfold parseOpNode
  repeat' first
    | exact same_pure _ | exact same_write _ | exact same_fail _ | exact same_raise _
    | exact same_getState | exact same_contextBack | exact same_liftExcept _
    | exact same_writeSQLString _ | exact same_writePropertyGetter _ _
    | exact same_writeStringLiteralAsProperty _
    | exact same_writeNestedPropertyOpIfAny _ _ | exact same_parseOperand _ hpn _ _
    | exact hpn _     | exact same_handleOperation _ hpn _ _ _
    | assumption
    | apply same_bind | intro _ | apply same_ite | split | dsimp only

theorem same_parseNodeWith (parseNode : Value → M Unit) (hpn : ∀ node, Same (parseNode node))
    (node : Value) : Same (parseNodeWith parseNode node) := by
  unfold parseNodeWith
  repeat' first
    | exact same_pure _ | exact same_write _ | exact same_fail _ | exact same_raise _
    | exact same_getState | exact same_contextBack | exact same_liftExcept _
    | exact same_writeSQLString _ | exact same_writePropertyGetter _ _
    | exact same_writeStringLiteralAsProperty _
    | exact same_writeNestedPropertyOpIfAny _ _ | exact same_parseOperand _ hpn _ _
    | exact hpn _     | exact same_parseOpNode _ hpn _
    | assumption
    | apply same_bind | intro _ | apply same_ite | split | dsimp only

/-- Compiling a node appends to the SQL text and, when it succeeds, leaves the context stack
as it found it. -/
theorem same_parseNode : ∀ (fuel : Nat) (node : Value), Same (parseNode fuel node) := by
  intro fuel
  induction fuel with
  | zero => intro node; exact same_raise _
  | succ fuel ih => intro node; exact same_parseNodeWith _ ih node

/-! ### The parenthesization of an operator application -/

theorem contextBack_eq (qp : State) (enclosing : OperationPtr)
    (htop : qp.context.getLast? = some enclosing) : contextBack qp = (.ok enclosing, qp) := by
  simp only [contextBack, htop]

/-- The frame of `handleOperation`: the handler runs with the operation pushed, between the
parentheses if the operation binds no tighter than the enclosing one. -/
theorem handleOperationWith_spec (handler : M Unit) (op enclosing : OperationPtr)
    (qp qp' : State) (htop : qp.context.getLast? = some enclosing) (hh : Top handler)
    (h : handleOperationWith handler op qp = (.ok (), qp')) :
    ∃ body q2,
      handler (entered op (decide (op.deref.precedence ≤ enclosing.deref.precedence)) qp)
        = (.ok (), q2) ∧
      q2.sql = (entered op (decide (op.deref.precedence ≤ enclosing.deref.precedence)) qp).sql
        ++ body ∧
      qp'.sql = qp.sql ++
          (if op.deref.precedence ≤ enclosing.deref.precedence then "(" ++ body ++ ")"
            else body) ∧
      qp'.context = qp.context := by
  unfold handleOperationWith at h
  rw [bind_apply, contextBack_eq qp enclosing htop] at h
  by_cases hp : op.deref.precedence ≤ enclosing.deref.precedence
  · simp only [hp, decide_True, if_true, bind_apply, pushContext, write, entered] at h ⊢
    obtain ⟨t, ht⟩ := hh.appends
      { qp with context := qp.context ++ [op], sql := qp.sql ++ "(" }
    have hc := hh.context { qp with context := qp.context ++ [op], sql := qp.sql ++ "(" }
    cases hq : handler { qp with context := qp.context ++ [op], sql := qp.sql ++ "(" } with
    | mk r q2 =>
      rw [hq] at h ht hc
      cases r with
      | error e => simp at h
      | ok a =>
        simp only [popContext, Prod.mk.injEq, true_and] at h
        have hc2 := (hc () rfl (by simp)).1
        simp only [List.dropLast_concat] at hc2
        refine ⟨t, q2, rfl, ht, ?_, ?_⟩
        · rw [← h]; simp only at ht ⊢; rw [ht]; simp only [String.append_assoc]
        · rw [← h]; exact hc2
  · simp only [hp, decide_False, if_false, Bool.false_eq_true, bind_apply, pushContext, pure,
      M.pure, String.append_empty, entered] at h ⊢
    obtain ⟨t, ht⟩ := hh.appends { qp with context := qp.context ++ [op] }
    have hc := hh.context { qp with context := qp.context ++ [op] }
    cases hq : handler { qp with context := qp.context ++ [op] } with
    | mk r q2 =>
      rw [hq] at h ht hc
      cases r with
      | error e => simp at h
      | ok a =>
        simp only [popContext, Prod.mk.injEq, true_and] at h
        have hc2 := (hc () rfl (by simp)).1
        simp only [List.dropLast_concat] at hc2
        refine ⟨t, q2, rfl, ht, ?_, ?_⟩
        · rw [← h]; exact ht
        · rw [← h]; exact hc2

theorem parseNode_succ_array (fuel : Nat) (op : String) (operands : List Value) :
    parseNode (fuel + 1) (.array (.string op :: operands)) =
      if (lookUp op (min operands.length 9) kOperationList 0 false).2
          ∧ !(lookUpOperation op operands).deref.op.isSome then
        fail ("Wrong number of arguments to " ++ op)
      else handleOperation (parseNode fuel) (lookUpOperation op operands) op operands := rfl

/-- An operator application that `parseNode` compiles: the handler of its descriptor runs with
the descriptor pushed, and its text is wrapped in parentheses if and only if the descriptor
binds no tighter than the one on top of the context stack. -/
theorem parseNode_operation (fuel : Nat) (op : String) (operands : List Value)
    (enclosing : OperationPtr) (qp qp' : State)
    (htop : qp.context.getLast? = some enclosing)
    (h : parseNode (fuel + 1) (.array (.string op :: operands)) qp = (.ok (), qp')) :
    ∃ body q2,
      callHandler (parseNode fuel) (lookUpOperation op operands).deref.handler op operands
          (entered (lookUpOperation op operands)
            (decide ((lookUpOperation op operands).deref.precedence
              ≤ enclosing.deref.precedence)) qp)
        = (.ok (), q2) ∧
      q2.sql = (entered (lookUpOperation op operands)
            (decide ((lookUpOperation op operands).deref.precedence
              ≤ enclosing.deref.precedence)) qp).sql ++ body ∧
      qp'.sql = qp.sql ++
          (if (lookUpOperation op operands).deref.precedence ≤ enclosing.deref.precedence
            then "(" ++ body ++ ")" else body) ∧
      qp'.context = qp.context := by
  rw [parseNode_succ_array] at h
  split at h
  · simp [fail, raise] at h
  · exact handleOperationWith_spec _ _ _ _ _ htop
      (top_callHandler _ (same_parseNode fuel) _ _ _) h

/-! ### The lookup and `infixOp` -/

/-- Where the lookup loop of `parseOpNode` ends: at an entry that is the end marker, or that
has the name of the operator and admits the number of arguments. -/
theorem lookUp_spec (op : String) (nargs : Nat) :
    ∀ (l : List Operation) (i : Nat) (nameMatched : Bool),
      ∃ k, (lookUp op nargs l i nameMatched).1 = i + k ∧
        ∀ d, l.get? k = some d → d.op.isSome = true →
          slice.eq (some op) d.op = true ∧ d.minArgs ≤ nargs ∧ nargs ≤ d.maxArgs := by
  intro l
  induction l with
  | nil => intro i nm; exact ⟨0, rfl, fun d hd => by simp at hd⟩
  | cons d rest ih =>
    intro i nm
    unfold lookUp
    split
    · rename_i h1
      refine ⟨0, rfl, fun d2 hd hs => ?_⟩
      simp only [List.get?_cons_zero, Option.some.injEq] at hd
      subst hd
      simp [hs] at h1
    · split
      · rename_i h2
        split
        · rename_i h3
          refine ⟨0, rfl, fun d2 hd _ => ?_⟩
          simp only [List.get?_cons_zero, Option.some.injEq] at hd
          subst hd
          exact ⟨h2, h3.1, h3.2⟩
        · obtain ⟨k, hk, hd⟩ := ih (i + 1) true
          exact ⟨k + 1, by rw [hk]; omega, fun d2 hd2 => hd d2 (by simpa using hd2)⟩
      · obtain ⟨k, hk, hd⟩ := ih (i + 1) nm
        exact ⟨k + 1, by rw [hk]; omega, fun d2 hd2 => hd d2 (by simpa using hd2)⟩

theorem infixOp_entries :
    ∀ d ∈ kOperationList, d.handler = some .infixOp →
      d.op.isSome = true ∧ d.op ≠ some "," := by
  decide

/-- An operator that `parseOpNode` hands to `infixOp` is not the comma. -/
theorem infixOp_ne_comma (op : String) (operands : List Value)
    (h : (lookUpOperation op operands).deref.handler = some .infixOp) : op ≠ "," := by
  obtain ⟨k, hk, hd⟩ := lookUp_spec op (min operands.length 9) kOperationList 0 false
  simp only [lookUpOperation, OperationPtr.deref, hk, Nat.zero_add] at h
  cases hg : QueryParser.kOperationList.get? k with
  | none =>
    rw [List.getD_eq_getElem?_getD, ← List.get?_eq_getElem?, hg] at h
    simp [kFallbackOperation] at h
  | some d =>
    rw [List.getD_eq_getElem?_getD, ← List.get?_eq_getElem?, hg] at h
    simp only [Option.getD_some] at h
    obtain ⟨h1, h2⟩ := infixOp_entries d (List.get?_mem hg) h
    obtain ⟨h3, _⟩ := hd d hg h1
    intro hop
    subst hop
    cases hdo : d.op with
    | none => simp [hdo] at h1
    | some s =>
      rw [hdo] at h3 h2
      simp only [slice.eq, slice.bytes, Option.getD_some, beq_iff_eq] at h3
      exact h2 (by rw [h3])

theorem intercalate_cons (s a : String) (l : List String) :
    String.intercalate s (a :: l)
      = a ++ (if l.isEmpty then "" else s ++ String.intercalate s l) := by
  cases l with
  | nil => simp [String.intercalate, String.intercalate.go]
  | cons b l =>
    rw [RevFinder.String_intercalate_cons_cons]
    simp [String.append_assoc]

/-- The loop of `infixOp`: the operands are compiled in turn, each with the context stack as
the loop found it, and their texts are written with the separator between them. -/
theorem infixOpLoop_spec (parseNode : Value → M Unit) (hpn : ∀ node, Same (parseNode node))
    (op : String) :
    ∀ (operands : List Value) (n : Nat) (q q' : State),
      infixOpLoop parseNode op n operands q = (.ok (), q') →
      ∃ texts : List String, texts.length = operands.length ∧
        q'.sql = q.sql ++ (if n = 0 then String.intercalate (separator op) texts
          else if texts.isEmpty then ""
          else separator op ++ String.intercalate (separator op) texts) ∧
        q'.context = q.context ∧
        ∀ j x, operands.get? j = some x →
          ∃ t qj qj', texts.get? j = some t ∧ qj.context = q.context ∧
            parseNode x qj = (.ok (), qj') ∧ qj'.sql = qj.sql ++ t := by
  intro operands
  induction operands with
  | nil =>
    intro n q q' h
    simp only [infixOpLoop, pure, M.pure, Prod.mk.injEq, true_and] at h
    subst h
    refine ⟨[], rfl, ?_, rfl, fun j x hx => by simp at hx⟩
    split <;> simp [String.intercalate]
  | cons x rest ih =>
    intro n q q' h
    unfold infixOpLoop at h
    -- the separator
    have hpre : ∃ q0, (if n > 0 then do
          (if op ≠ "," then write " " else pure ())
          write (op ++ " ")
        else pure () : M Unit) q = (.ok (), q0)
        ∧ q0.sql = q.sql ++ (if n = 0 then "" else separator op)
        ∧ q0.context = q.context := by
      by_cases hn : n > 0
      · have hn0 : n ≠ 0 := by omega
        by_cases hop : op ≠ ","
        · simp only [hn, hn0, hop, if_true, if_false, bind_apply, write, separator,
            not_false_eq_true, ne_eq]
          exact ⟨_, rfl, by simp [String.append_assoc], rfl⟩
        · simp only [hn, hn0, hop, if_true, if_false, bind_apply, write, separator, pure,
            M.pure, not_false_eq_true, ne_eq]
          exact ⟨_, rfl, by simp, rfl⟩
      · have hn0 : n = 0 := by omega
        simp only [hn, hn0, if_true, if_false, pure, M.pure]
        exact ⟨_, rfl, by simp, rfl⟩
    obtain ⟨q0, hq0, hsql0, hctx0⟩ := hpre
    rw [bind_apply, hq0] at h
    simp only [bind_apply] at h
    obtain ⟨t, ht⟩ := (hpn x).appends q0
    have hc := (hpn x).context q0
    cases hqx : parseNode x q0 with
    | mk r qx =>
      rw [hqx] at h ht hc
      cases r with
      | error e => simp at h
      | ok a =>
        simp only at h ht
        have hcx : qx.context = q0.context := hc () rfl
        obtain ⟨texts, hlen, hsql, hctx, hops⟩ := ih (n + 1) qx q' h
        refine ⟨t :: texts, by simp [hlen], ?_, by rw [hctx, hcx, hctx0], ?_⟩
        · rw [hsql, ht, hsql0]
          simp only [Nat.add_one_ne_zero, if_false, intercalate_cons, List.isEmpty_cons]
          by_cases hn0 : n = 0
          · simp only [hn0, if_true, String.append_empty, String.append_assoc]
          · simp only [hn0, if_false, String.append_assoc, Bool.false_eq_true]
        · intro j y hy
          cases j with
          | zero =>
            simp only [List.get?_cons_zero, Option.some.injEq] at hy
            subst hy
            exact ⟨t, q0, qx, rfl, hctx0, hqx, ht⟩
          | succ j =>
            obtain ⟨t2, qj, qj', h1, h2, h3, h4⟩ := hops j y (by simpa using hy)
            exact ⟨t2, qj, qj', by simpa using h1, by rw [h2, hcx, hctx0], h3, h4⟩

/-! ### Claims -/

theorem String_append_cancel (s a b : String) (h : s ++ a = s ++ b) : a = b := by
  have h2 := congrArg String.data h
  simp only [String.data_append, List.append_cancel_left_eq] at h2
  exact String.ext h2

theorem separator_eq (op : String) (h : op ≠ ",") : separator op = " " ++ op ++ " " := by
  simp only [separator, h, ne_eq, not_false_eq_true, if_true, String.append_assoc]

theorem handlerWrites_iff (fuel : Nat) (op : String) (operands : List Value)
    (enclosing : OperationPtr) (qp : State) (body : String) :
    handlerWrites fuel op operands enclosing qp body = true ↔
      ∃ q2, callHandler (parseNode fuel) (lookUpOperation op operands).deref.handler op
          operands (entered (lookUpOperation op operands)
            (parenthesize (lookUpOperation op operands) enclosing) qp) = (.ok (), q2) ∧
        q2.sql = (entered (lookUpOperation op operands)
            (parenthesize (lookUpOperation op operands) enclosing) qp).sql ++ body := by
  simp only [handlerWrites, Bool.and_eq_true, decide_eq_true_eq]
  constructor
  · rintro ⟨h1, h2⟩
    exact ⟨_, Prod.ext h1 rfl, h2⟩
  · rintro ⟨q2, h1, h2⟩
    rw [h1]
    exact ⟨rfl, h2⟩

/-- C1: an operator application `[op, operands...]` that `parseNode` compiles while the
operation `enclosing` is on top of the context stack: the text `body` of its handler is
written between one pair of parentheses if and only if the precedence of its operation is at
most that of `enclosing`, and bare otherwise; the context stack is restored.  If the handler
is `infixOp`, `body` is the texts of the operands joined by the operator between blanks, and
the text of each operand that is itself an operator application is the text of its handler,
between parentheses if and only if its precedence is at most that of `op`. -/
theorem parseNode_parenthesizes (fuel : Nat) (op : String) (operands : List Value)
    (enclosing : OperationPtr) (qp qp' : State)
    (htop : qp.context.getLast? = some enclosing)
    (h : parseNode (fuel + 1) (.array (.string op :: operands)) qp = (.ok (), qp')) :
    ∃ body,
      handlerWrites fuel op operands enclosing qp body = true ∧
      qp'.sql = qp.sql ++
        (if parenthesize (lookUpOperation op operands) enclosing then "(" ++ body ++ ")"
          else body) ∧
      qp'.context = qp.context ∧
      ((lookUpOperation op operands).deref.handler = some .infixOp →
        ∃ texts : List String, texts.length = operands.length ∧
          body = String.intercalate (" " ++ op ++ " ") texts ∧
          ∀ j opx operandsx, operands.get? j = some (.array (.string opx :: operandsx)) →
            ∃ bodyx f qj, fuel = f + 1 ∧
              qj.context.getLast? = some (lookUpOperation op operands) ∧
              handlerWrites f opx operandsx (lookUpOperation op operands) qj bodyx = true ∧
              texts.get? j = some
                (if parenthesize (lookUpOperation opx operandsx) (lookUpOperation op operands)
                  then "(" ++ bodyx ++ ")" else bodyx)) := by
  obtain ⟨body, q2, hcall, hq2, hsql, hctx⟩ :=
    parseNode_operation fuel op operands enclosing qp qp' htop h
  refine ⟨body, (handlerWrites_iff _ _ _ _ _ _).2 ⟨q2, hcall, hq2⟩, ?_, hctx, ?_⟩
  · rw [hsql]
    simp only [parenthesize, decide_eq_true_eq]
  · intro hinf
    rw [hinf] at hcall
    obtain ⟨texts, hlen, hsql2, hctx2, hops⟩ :=
      infixOpLoop_spec (parseNode fuel) (same_parseNode fuel) op operands 0 _ q2 hcall
    simp only [if_true] at hsql2
    rw [hq2] at hsql2
    refine ⟨texts, hlen, ?_, ?_⟩
    · rw [← separator_eq op (infixOp_ne_comma op operands hinf)]
      exact String_append_cancel _ _ _ hsql2
    · intro j opx operandsx hx
      obtain ⟨t, qj, qj', h1, h2, h3, h4⟩ := hops j _ hx
      cases fuel with
      | zero => simp [parseNode, raise] at h3
      | succ f =>
        have hback : qj.context.getLast? = some (lookUpOperation op operands) := by
          rw [h2]; simp [entered]
        obtain ⟨bodyx, q2x, hcallx, hq2x, hsqlx, _⟩ :=
          parseNode_operation f opx operandsx _ qj qj' hback h3
        refine ⟨bodyx, f, qj, rfl, hback, (handlerWrites_iff _ _ _ _ _ _).2 ⟨q2x, hcallx, hq2x⟩,
          ?_⟩
        rw [h1, String_append_cancel _ _ _ (h4.symm.trans hsqlx)]
        simp only [parenthesize, decide_eq_true_eq]

/-- Witness of C1: the example conjunction, compiled as a bare expression. -/
theorem parseNode_parenthesizes_witness :
    exampleParser.context.getLast? = some .kOuterOperation ∧
    parseNode 4 exampleConjunction exampleParser = (.ok (), exampleCompiled) ∧
    exampleCompiled.sql = "fl_value(body, 'x') = 1 AND fl_value(body, 'y') = 2" ∧
    expressionSQL exampleConjunction
      = .ok "fl_value(body, 'x') = 1 AND fl_value(body, 'y') = 2" ∧
    ∃ body texts, exampleCompiled.sql = exampleParser.sql ++ body ∧
      body = String.intercalate " AND " texts ∧ texts.length = 2 := by
  have h : parseNode 4 exampleConjunction exampleParser = (.ok (), exampleCompiled) := by
    decide!
  obtain ⟨body, _, h2, _, h4⟩ :=
    parseNode_parenthesizes 3 "AND" _ .kOuterOperation exampleParser exampleCompiled rfl h
  obtain ⟨texts, h5, h6, _⟩ := h4 (by decide!)
  refine ⟨rfl, h, by decide!, by decide!, body, texts, ?_, h6, h5⟩
  rw [h2]
  have hp : parenthesize (lookUpOperation "AND"
      [.array [.string "=", .array [.string ".", .string "x"], .int 1],
        .array [.string "=", .array [.string ".", .string "y"], .int 2]])
      .kOuterOperation = false := by decide!
  rw [hp]
  rfl

/-! ### Quoting -/

theorem flatMap_double_of_simple (l : List Char)
    (h : l.any (fun c => c == apostrophe) = false) :
    l.flatMap (fun c => if c == apostrophe then [apostrophe, apostrophe] else [c]) = l := by
  induction l with
  | nil => rfl
  | cons c l ih =>
    simp only [List.any_cons, Bool.or_eq_false_iff] at h
    simp only [List.flatMap_cons, h.1, Bool.false_eq_true, if_false, ih h.2,
      List.singleton_append]

/-- Both paths of `writeSQLString` write the text with its apostrophes doubled, between
apostrophes. -/
theorem sqlString_eq (str : String) : sqlString str = "'" ++ doubled str ++ "'" := by
  unfold sqlString doubled
  cases h : str.data.any (fun c => c == apostrophe) with
  | false =>
    simp only [Bool.not_false, if_true]
    rw [flatMap_double_of_simple _ h]
  | true => simp only [Bool.not_true, Bool.false_eq_true, if_false]

theorem doubled_length (l : List Char) :
    (l.flatMap fun c => if c == apostrophe then [apostrophe, apostrophe] else [c]).length
      = l.length + l.count apostrophe := by
  induction l with
  | nil => rfl
  | cons c l ih =>
    simp only [List.flatMap_cons, List.length_append, ih, List.length_cons, List.count_cons]
    by_cases hc : c = apostrophe
    · subst hc
      simp
      omega
    · have h2 : (c == apostrophe) = false := by simpa using hc
      simp [h2]
      omega

theorem undouble_flatMap (l : List Char) :
    undouble (l.flatMap fun c => if c == apostrophe then [apostrophe, apostrophe] else [c])
      = l := by
  induction l with
  | nil => rfl
  | cons c l ih =>
    simp only [List.flatMap_cons]
    by_cases hc : c = apostrophe
    · subst hc
      simp only [beq_self_eq_true, if_true, List.cons_append, List.nil_append, undouble,
        Bool.and_self]
      exact congrArg (List.cons apostrophe) ih
    · have h2 : (c == apostrophe) = false := by simpa using hc
      simp only [h2, Bool.false_eq_true, if_false, List.singleton_append]
      cases hX : (l.flatMap fun c =>
          if c == apostrophe then [apostrophe, apostrophe] else [c]) with
      | nil =>
        rw [hX] at ih
        simp only [undouble] at ih ⊢
        rw [← ih]
      | cons b rest =>
        rw [hX] at ih
        simp only [undouble, h2, Bool.false_and, Bool.false_eq_true, if_false, ih]

theorem drop_dropLast_quoted (l : List Char) :
    ((apostrophe :: (l ++ [apostrophe])).drop 1).dropLast = l := by
  simp

/-! ### Claims on quoting and property paths -/

/-- C13: the operands `\x7b"WHAT": [[".", "name"]], "FROM": "other"\x7d` of a SELECT hold the key
`FROM`, and `parse` returns SQL for them instead of failing; the test of `writeSelect` looks up
the key ` FROM`, with a blank before the word, and it is only for that key that `parse` fails
with the invalid-query error. -/
theorem parse_FROM_key_accepted :
    dictGet [("WHAT", Value.array [.array [.string ".", .string "name"]]),
      ("FROM", .string "other")] "FROM" = some (.string "other") ∧
    SQL (parse exampleSelectFrom exampleTableParser)
      = .ok "SELECT fl_value(body, 'name') FROM kv_default" ∧
    SQL (parse exampleSelectBlankFrom exampleTableParser)
      = .error (.invalidQuery "FROM parameter to SELECT isn't supported yet, sorry") := by
  refine ⟨rfl, by decide!, by decide!⟩

/-- C15: for every string, `writeSQLString` appends to `_sql` an apostrophe, the string with
every apostrophe doubled and every other byte unchanged, and an apostrophe, on both paths of
the code (with and without an apostrophe in the string); the length of that text is the length
of the string plus 2 plus the number of its apostrophes; replacing each doubled apostrophe
between the outer quotes by a single one gives back the string; `can't` becomes `'can''t'`. -/
theorem writeSQLString_quotes (str : String) :
    (∀ qp, writeSQLString str qp
      = (.ok (), { qp with sql := qp.sql ++ ("'" ++ doubled str ++ "'") })) ∧
    (str.data.any (fun c => c == apostrophe) = false → sqlString str = "'" ++ str ++ "'") ∧
    (sqlString str).length = str.length + 2 + str.data.count apostrophe ∧
    unquote (sqlString str) = str ∧
    sqlString "can't" = "'can''t'" := by
  refine ⟨fun qp => ?_, fun h => ?_, ?_, ?_, by decide⟩
  · simp only [writeSQLString, write, sqlString_eq]
  · simp only [sqlString, h, Bool.not_false, if_true]
  · rw [sqlString_eq]
    have h1 : (doubled str).length = str.length + str.data.count apostrophe := by
      simp only [doubled, String.length, doubled_length]
    have h2 : "'".length = 1 := rfl
    rw [String.length_append, String.length_append, h1, h2]
    omega
  · rw [sqlString_eq]
    simp only [unquote, doubled, String.data_append]
    simp only [List.singleton_append, List.cons_append, List.drop_succ_cons, List.drop_zero,
      List.dropLast_concat, List.nil_append, undouble_flatMap]

/-! ### Property paths -/

theorem dot_append_data (name : String) : ("." ++ name).data = '.' :: name.data := by
  rw [String.data_append]
  rfl

theorem dot_append_length (name : String) : ("." ++ name).length = name.length + 1 := by
  show ("." ++ name).data.length = name.data.length + 1
  rw [dot_append_data]
  rfl

theorem propertyFromNode_shorthand (name : String) (operands : List Value) (h : name ≠ "") :
    propertyFromNode (.array (.string ("." ++ name) :: operands)) = .ok name := by
  have hlen : ("." ++ name).length ≠ 1 := by
    rw [dot_append_length]
    intro h1
    apply h
    have h2 : name.length = 0 := by omega
    exact String.ext (List.length_eq_zero.1 h2)
  simp only [propertyFromNode, asString, dot_append_data, List.head?_cons, if_true, hlen,
    if_false, List.drop_succ_cons, List.drop_zero]

/-- The later operands of a property node, as the loop of `propertyFromOperands` handles them
from a position after the first. -/
theorem propertyFromOperandsLoop_components (operands : List Value) :
    ∀ n, 0 < n →
      (propertyFromOperandsLoop n operands).toOption = signedPathComponents operands := by
  induction operands with
  | nil => intro n _; rfl
  | cons item rest ih =>
    intro n hn
    have hn0 : n ≠ 0 := by omega
    have ih1 := ih (n + 1) (by omega)
    rw [propertyFromOperandsLoop]
    cases item with
    | string name =>
      simp only [propertyFromOperand, asString, hn, if_true, signedPathComponents]
      rw [← ih1]
      cases propertyFromOperandsLoop (n + 1) rest <;> simp [Except.toOption, String.append_assoc]
    | array arr =>
      simp only [propertyFromOperand, hn0, if_false]
      cases arr with
      | nil => simp [signedPathComponents, Except.toOption]
      | cons x xs =>
        cases xs with
        | cons y ys => simp [signedPathComponents, Except.toOption]
        | nil =>
          cases x <;> simp only [List.length_singleton, ne_eq, not_true_eq_false, if_false,
            List.head?_cons, signedPathComponents, Except.toOption]
          rw [← ih1]
          cases propertyFromOperandsLoop (n + 1) rest <;>
            simp [Except.toOption, String.append_assoc]
    | _ => simp [propertyFromOperand, asString, signedPathComponents, Except.toOption]

theorem propertyFromOperands_signed (operands : List Value) :
    (propertyFromOperands operands).toOption = signedPathOfOperands operands := by
  cases operands with
  | nil => rfl
  | cons item rest =>
    have ih1 := propertyFromOperandsLoop_components rest 1 (by omega)
    rw [propertyFromOperands, propertyFromOperandsLoop]
    cases item with
    | string name =>
      simp only [propertyFromOperand, asString, signedPathOfOperands, Nat.lt_irrefl, if_false,
        gt_iff_lt]
      rw [← ih1]
      cases propertyFromOperandsLoop (0 + 1) rest <;> simp [Except.toOption]
    | array arr => simp [propertyFromOperand, signedPathOfOperands, Except.toOption]
    | _ => simp [propertyFromOperand, asString, signedPathOfOperands, Except.toOption]

/-- An integer of the signed 64-bit range is read as it is. -/
theorem asInt_of_int64 (k : Int) (h1 : -2 ^ 63 ≤ k) (h2 : k < 2 ^ 63) :
    asInt (some (.int k)) = k := by
  show (k + 2 ^ 63) % 2 ^ 64 - 2 ^ 63 = k
  rw [Int.emod_eq_of_lt (by omega) (by omega)]
  omega

/-- An unsigned integer from `2^63` on is read as a negative number. -/
theorem asInt_of_unsigned (k : Int) (h1 : 2 ^ 63 ≤ k) (h2 : k < 2 ^ 64) :
    asInt (some (.int k)) = k - 2 ^ 64 := by
  show (k + 2 ^ 63) % 2 ^ 64 - 2 ^ 63 = k - 2 ^ 64
  have h : (k + 2 ^ 63) % 2 ^ 64 = k + 2 ^ 63 - 2 ^ 64 := by
    rw [Int.emod_eq_sub_self_emod, Int.emod_eq_of_lt (by omega) (by omega)]
  omega

theorem signedPathComponents_eq (operands : List Value)
    (h : ∀ k, Value.array [.int k] ∈ operands → -2 ^ 63 ≤ k ∧ k < 2 ^ 63) :
    signedPathComponents operands = pathComponents operands := by
  induction operands with
  | nil => rfl
  | cons item rest ih =>
    have ih1 := ih (fun k hk => h k (List.mem_cons_of_mem _ hk))
    cases item with
    | string name => simp only [signedPathComponents, pathComponents, ih1]
    | array arr =>
      cases arr with
      | nil => simp only [signedPathComponents, pathComponents]
      | cons x xs =>
        cases xs with
        | cons y ys => cases x <;> simp only [signedPathComponents, pathComponents]
        | nil =>
          cases x with
          | int k =>
            obtain ⟨h1, h2⟩ := h k (List.mem_cons_self _ _)
            simp only [signedPathComponents, pathComponents, ih1, asInt_of_int64 k h1 h2]
          | _ => simp only [signedPathComponents, pathComponents]
    | _ => simp only [signedPathComponents, pathComponents]

theorem signedPathOfOperands_eq (operands : List Value)
    (h : ∀ k, Value.array [.int k] ∈ operands → -2 ^ 63 ≤ k ∧ k < 2 ^ 63) :
    signedPathOfOperands operands = pathOfOperands operands := by
  cases operands with
  | nil => rfl
  | cons item rest =>
    have h1 := signedPathComponents_eq rest (fun k hk => h k (List.mem_cons_of_mem _ hk))
    cases item <;> simp only [signedPathOfOperands, pathOfOperands, h1]

theorem propertyFromOperand_error (n : Nat) (item : Value) (e : Error)
    (h : propertyFromOperand n item = .error e) : ∃ message, e = .invalidQuery message := by
  unfold propertyFromOperand at h
  split at h
  · split at h
    · exact ⟨_, (Except.error.inj h).symm⟩
    · split at h
      · exact ⟨_, (Except.error.inj h).symm⟩
      · split at h
        · cases h
        · exact ⟨_, (Except.error.inj h).symm⟩
  · split at h
    · exact ⟨_, (Except.error.inj h).symm⟩
    · cases h

theorem propertyFromOperandsLoop_error (operands : List Value) :
    ∀ n e, propertyFromOperandsLoop n operands = .error e →
      ∃ message, e = .invalidQuery message := by
  induction operands with
  | nil => intro n e h; cases h
  | cons item rest ih =>
    intro n e h
    rw [propertyFromOperandsLoop] at h
    cases h1 : propertyFromOperand n item with
    | error e1 =>
      rw [h1] at h
      simp only at h
      cases h
      exact propertyFromOperand_error n item _ h1
    | ok text =>
      rw [h1] at h
      simp only at h
      cases h2 : propertyFromOperandsLoop (n + 1) rest with
      | error e2 =>
        rw [h2] at h
        simp only at h
        cases h
        exact ih _ _ h2
      | ok more => rw [h2] at h; cases h

/-- C16: the index of a path is read as a signed 64-bit integer, so the unsigned index `2^63`
of `[".", "a", [9223372036854775808]]` is appended as `[-9223372036854775808]`, where the
interface gives `a[9223372036854775808]`.  Everywhere else the node `[".", o1, ..., on]` is
handled as the interface says: for operands whose indices are in the signed 64-bit range
`propertyFromNode` returns the path of the operands (`o1` a string, each later string after a
`.`, each one-element sequence holding an integer `k` as `[k]`), and in general the same path
with each index read as a signed 64-bit integer; it rejects, with an invalid-query error,
exactly the operands that have no path: a sequence at position 0, a sequence that is not one
integer, an operand that is neither a string nor a sequence.  It returns the empty string for
a node that is not a sequence whose first element is a string that begins with `.`.
`[".", "a", "b"]` and `[".a.b"]` give `a.b`. -/
theorem propertyFromNode_index_wraps :
    propertyFromNode exampleUnsignedIndex = .ok "a[-9223372036854775808]" ∧
    pathOfOperands [.string "a", .array [.int 9223372036854775808]]
      = some "a[9223372036854775808]" ∧
    (∀ operands, (∀ k, Value.array [.int k] ∈ operands → -2 ^ 63 ≤ k ∧ k < 2 ^ 63) →
      (propertyFromNode (.array (.string "." :: operands))).toOption
        = pathOfOperands operands) ∧
    (∀ operands, (propertyFromNode (.array (.string "." :: operands))).toOption
      = signedPathOfOperands operands) ∧
    (∀ k : Int, (-2 ^ 63 ≤ k → k < 2 ^ 63 → asInt (some (.int k)) = k) ∧
      (2 ^ 63 ≤ k → k < 2 ^ 64 → asInt (some (.int k)) = k - 2 ^ 64)) ∧
    (∀ operands e, propertyFromNode (.array (.string "." :: operands)) = .error e →
      ∃ message, e = .invalidQuery message) ∧
    (∀ arr rest, (propertyFromNode (.array (.string "." :: .array arr :: rest))).toOption
      = none) ∧
    (∀ node, (∀ op rest, node = .array (.string op :: rest) → op.data.head? ≠ some '.') →
      propertyFromNode node = .ok "") ∧
    propertyFromNode (.array [.string ".", .string "a", .string "b"]) = .ok "a.b" ∧
    propertyFromNode (.array [.string ".a.b"]) = .ok "a.b" := by
  have hdot : ∀ operands, propertyFromNode (.array (.string "." :: operands))
      = propertyFromOperands operands := fun _ => rfl
  refine ⟨by decide, by decide, fun operands hr => ?_, fun operands => ?_,
    fun k => ⟨asInt_of_int64 k, asInt_of_unsigned k⟩, fun operands e h => ?_,
    fun arr rest => ?_, fun node h => ?_, by decide, by decide⟩
  · rw [hdot, propertyFromOperands_signed, signedPathOfOperands_eq operands hr]
  · rw [hdot, propertyFromOperands_signed]
  · rw [hdot] at h
    exact propertyFromOperandsLoop_error operands 0 e h
  · rw [hdot, propertyFromOperands_signed]
    rfl
  · unfold propertyFromNode
    split
    · rename_i first rest
      split
      · rename_i op hop
        have hfirst : first = .string op := by
          cases first <;> simp [asString] at hop
          rw [hop]
        rw [if_neg (h op rest (by rw [hfirst]))]
      · rfl
    · rfl

/-- C17, as stated, fails: `propertyFromNode` returns `a` for `[".a", [0]]`, not `a[0]`, and it
returns `a` for `[".a", ["b"]]` instead of rejecting it. -/
theorem propertyFromNode_shorthand_ignores_operands :
    propertyFromNode (.array [.string ".a", .array [.int 0]]) = .ok "a" ∧
    propertyFromNode (.array [.string ".a", .array [.int 0]]) ≠ .ok "a[0]" ∧
    propertyFromNode (.array [.string ".a", .array [.string "b"]]) = .ok "a" := by
  refine ⟨by decide, by decide, by decide⟩

/-- C17, amended: for the shorthand property form, the operands that follow a `.name` symbol
are ignored; `propertyFromNode` returns `name` whatever they are, and `fallbackOp`, which
compiles the shorthand form, does the same on any two lists of operands. -/
theorem propertyFromNode_shorthand_operands (name : String) (operands : List Value)
    (h : name ≠ "") :
    propertyFromNode (.array (.string ("." ++ name) :: operands)) = .ok name ∧
    ∀ (parseNode : Value → M Unit) (others : List Value),
      fallbackOp parseNode ("." ++ name) operands
        = fallbackOp parseNode ("." ++ name) others := by
  refine ⟨propertyFromNode_shorthand name operands h, fun parseNode others => ?_⟩
  simp only [fallbackOp, dot_append_data, List.head?_cons, if_true]

/-- Witness of C17: the two nodes of the claim. -/
theorem propertyFromNode_shorthand_operands_witness :
    "a" ≠ "" ∧
    propertyFromNode (.array (.string ("." ++ "a") :: [.array [.int 0]])) = .ok "a" ∧
    propertyFromNode (.array (.string ("." ++ "a") :: [.array [.string "b"]])) = .ok "a" :=
  ⟨by decide, (propertyFromNode_shorthand_operands "a" [.array [.int 0]] (by decide)).1,
    (propertyFromNode_shorthand_operands "a" [.array [.string "b"]] (by decide)).1⟩

/-! ### Running the frame of `handleOperation` -/

/-- What `handleOperation` does around the handler, computed: it fails as the handler fails,
and otherwise closes the parenthesis, if one was opened, and pops the context stack. -/
theorem handleOperationWith_eq (handler : M Unit) (op enclosing : OperationPtr) (qp : State)
    (htop : qp.context.getLast? = some enclosing) :
    handleOperationWith handler op qp =
      match handler (entered op (parenthesize op enclosing) qp) with
      | (.ok _, q2) => (.ok (), { q2 with
          sql := q2.sql ++ (if parenthesize op enclosing then ")" else "")
          context := q2.context.dropLast })
      | (.error e, q2) => (.error e, q2) := by
  unfold handleOperationWith
  rw [bind_apply, contextBack_eq qp enclosing htop]
  cases hp : parenthesize op enclosing with
  | true =>
    have hp2 : decide (op.deref.precedence ≤ enclosing.deref.precedence) = true := hp
    simp only [hp2, if_true, bind_apply, pushContext, write, entered]
    cases handler { qp with context := qp.context ++ [op], sql := qp.sql ++ "(" } with
    | mk r q2 => cases r <;> simp [popContext]
  | false =>
    have hp2 : decide (op.deref.precedence ≤ enclosing.deref.precedence) = false := hp
    have he : ({ qp with context := qp.context ++ [op], sql := qp.sql ++ "" } : State)
        = { qp with context := qp.context ++ [op] } := by simp
    simp only [hp2, if_false, Bool.false_eq_true, bind_apply, pushContext, pure, M.pure, entered,
      he]
    cases handler { qp with context := qp.context ++ [op] } with
    | mk r q2 => cases r <;> simp [popContext]

/-! ### The lookup of an operator that is not in the table -/

theorem lookUp_skip (op : String) (nargs : Nat) :
    ∀ (l : List Operation) (i : Nat) (nameMatched : Bool),
      (∀ d ∈ l, d.op.isSome = true → slice.eq (some op) d.op = false) →
      lookUp op nargs l i nameMatched
        = (i + (l.takeWhile fun d => d.op.isSome).length, nameMatched) := by
  intro l
  induction l with
  | nil => intro i nm _; rfl
  | cons d rest ih =>
    intro i nm h
    unfold lookUp
    cases hs : d.op.isSome with
    | false => simp [hs]
    | true =>
      have h1 := h d (List.mem_cons_self _ _) hs
      simp only [hs, Bool.not_true, Bool.false_eq_true, if_false, h1, List.takeWhile_cons,
        if_true, List.length_cons]
      rw [ih (i + 1) nm (fun d2 hd2 => h d2 (List.mem_cons_of_mem _ hd2))]
      simp only [Prod.mk.injEq, and_true]
      omega

/-- An operator that differs from every name of `kOperationList` ends the lookup at the last
entry, the fallback, with no name matched. -/
theorem lookUp_fallback (op : String) (nargs : Nat)
    (h : ∀ d ∈ kOperationList, d.op.isSome = true → slice.eq (some op) d.op = false) :
    lookUp op nargs kOperationList 0 false = (33, false) := by
  rw [lookUp_skip op nargs kOperationList 0 false h]
  rfl

theorem kOperationList_question :
    ∀ d ∈ kOperationList, d.op = some "?" ∨ d.op.bytes.data.head? ≠ some '?' := by
  decide

theorem question_append_data (v : String) : ("?" ++ v).data = '?' :: v.data := by
  rw [String.data_append]
  rfl

/-- The shorthand `?v` of a variable reference is no name of `kOperationList`. -/
theorem lookUp_variable_shorthand (v : String) (nargs : Nat) (hv : v ≠ "") :
    lookUp ("?" ++ v) nargs kOperationList 0 false = (33, false) := by
  apply lookUp_fallback
  intro d hd hs
  cases hdo : d.op with
  | none => rw [hdo] at hs; cases hs
  | some s =>
    simp only [slice.eq, slice.bytes, Option.getD_some, beq_eq_false_iff_ne, ne_eq]
    intro heq
    rcases kOperationList_question d hd with h1 | h1
    · rw [hdo] at h1
      simp only [Option.some.injEq] at h1
      rw [h1] at heq
      have h2 := congrArg String.data heq
      rw [question_append_data] at h2
      have h3 : "?".data = ['?'] := rfl
      rw [h3] at h2
      simp only [List.cons.injEq, true_and] at h2
      exact hv (String.ext h2)
    · rw [hdo] at h1
      simp only [slice.bytes, Option.getD_some] at h1
      rw [← heq, question_append_data] at h1
      simp at h1

/-- The long form `?` of a variable reference, with at least one operand, is looked up as the
entry of `variableOp`. -/
theorem lookUp_variable (nargs : Nat) (h1 : 1 ≤ nargs) (h9 : nargs ≤ 9) :
    lookUp "?" nargs kOperationList 0 false = (2, true) := by
  have h : ∀ n < 10, 1 ≤ n → lookUp "?" n kOperationList 0 false = (2, true) := by decide
  exact h nargs (by omega) h1

/-! ### Variables -/

/-- `variableOp` on a reference to the variable `v` with the trailing path `path`, in the long
form (`op` is `?` and the first operand gives `v`) or in the shorthand form (`op` is `?v`). -/
theorem variableOp_eq (op : String) (operands : List Value) (v : String) (path : List Value)
    (qp : State)
    (hform : (op = "?" ∧ ∃ first, operands = first :: path ∧ v = (asString (some first)).bytes)
      ∨ (op = "?" ++ v ∧ v ≠ "" ∧ operands = path)) :
    ∃ e, variableOp op operands qp =
      if isValidIdentifier v = true ∧ v ∈ qp.vars then
        if path.length = 0 then (.ok (), { qp with sql := qp.sql ++ ("_" ++ v ++ ".value") })
        else
          match propertyFromOperands path with
          | .ok property => (.ok (), { qp with sql :=
              qp.sql ++ ("fl_value(_" ++ v ++ ".pointer, " ++ sqlString property ++ ")") })
          | .error e => (.error e, qp)
      else (.error e, qp) := by
  have hfinal : ∀ opname : String, ∃ e, (do
        (if !isValidIdentifier v then fail ("Invalid variable name '" ++ opname ++ "'")
          else pure () : M Unit)
        let qp ← getState
        (if v ∉ qp.vars then fail ("No such variable '" ++ opname ++ "'") else pure () : M Unit)
        if path.length = 0 then write ("_" ++ v ++ ".value")
        else do
          let property ← liftExcept (propertyFromOperands path)
          write ("fl_value(_" ++ v ++ ".pointer, ")
          writeSQLString property
          write ")" : M Unit) qp =
      if isValidIdentifier v = true ∧ v ∈ qp.vars then
        if path.length = 0 then (.ok (), { qp with sql := qp.sql ++ ("_" ++ v ++ ".value") })
        else
          match propertyFromOperands path with
          | .ok property => (.ok (), { qp with sql :=
              qp.sql ++ ("fl_value(_" ++ v ++ ".pointer, " ++ sqlString property ++ ")") })
          | .error e => (.error e, qp)
      else (.error e, qp) := by
    intro opname
    by_cases hid : isValidIdentifier v = true
    · by_cases hin : v ∈ qp.vars
      · refine ⟨.undefinedBehavior, ?_⟩
        simp only [hid, hin, and_self, if_true, Bool.not_true, Bool.false_eq_true, if_false,
          bind_apply, pure, M.pure, getState, not_true_eq_false]
        by_cases hp : path.length = 0
        · simp only [hp, if_true, write]
        · simp only [hp, if_false, bind_apply]
          cases hprop : propertyFromOperands path with
          | error e => simp only [liftExcept, raise]
          | ok property =>
            simp only [liftExcept, M.pure, write, writeSQLString, String.append_assoc]
      · refine ⟨.invalidQuery ("No such variable '" ++ opname ++ "'"), ?_⟩
        simp only [hid, hin, and_false, if_false, Bool.not_true, Bool.false_eq_true, bind_apply,
          pure, M.pure, getState, not_false_eq_true, if_true, fail, raise]
    · refine ⟨.invalidQuery ("Invalid variable name '" ++ opname ++ "'"), ?_⟩
      have hid2 : isValidIdentifier v = false := by simpa using hid
      simp only [hid2, Bool.false_eq_true, false_and, if_false, Bool.not_false, if_true,
        bind_apply, fail, raise]
  rcases hform with ⟨h1, first, h2, h3⟩ | ⟨h1, h2, h3⟩
  · subst h1 h2 h3
    exact hfinal "?"
  · subst h1 h3
    have hlen : ("?" ++ v).length ≠ 1 := by
      show ("?" ++ v).data.length ≠ 1
      rw [question_append_data]
      intro h
      apply h2
      simp only [List.length_cons, Nat.add_left_eq_self] at h
      exact String.ext (List.length_eq_zero.1 h)
    obtain ⟨e, he⟩ := hfinal v
    refine ⟨e, ?_⟩
    rw [← he]
    unfold variableOp
    simp only [hlen, if_false, question_append_data, List.drop_succ_cons, List.drop_zero]
    rfl

theorem fallbackOp_variable (parseNode : Value → M Unit) (v : String) (operands : List Value)
    (back : OperationPtr) (q : State) (hback : q.context.getLast? = some back) :
    fallbackOp parseNode ("?" ++ v) operands q
      = variableOp ("?" ++ v) operands { q with context := q.context.dropLast
          ++ [.localOperation { back.deref with op := some ("?" ++ v) }] } := by
  unfold fallbackOp
  rw [bind_apply, contextBack_eq q back hback]
  simp only [bind_apply, setContextBack, question_append_data, List.head?_cons,
    Option.some.injEq]
  rfl

/-- The handler that `parseOpNode` calls for a variable reference is `variableOp`, run on the
members as `handleOperation` leaves them, with some context stack above the one of `qp`. -/
theorem callHandler_variable (fuel : Nat) (op : String) (operands : List Value) (v : String)
    (path : List Value) (enclosing : OperationPtr) (qp : State)
    (hform : (op = "?" ∧ ∃ first, operands = first :: path ∧ v = (asString (some first)).bytes)
      ∨ (op = "?" ++ v ∧ v ≠ "" ∧ operands = path)) :
    parseNode (fuel + 1) (.array (.string op :: operands))
      = handleOperation (parseNode fuel) (lookUpOperation op operands) op operands ∧
    ∃ ctx, ctx.dropLast = qp.context ∧
      callHandler (parseNode fuel) (lookUpOperation op operands).deref.handler op operands
          (entered (lookUpOperation op operands)
            (parenthesize (lookUpOperation op operands) enclosing) qp)
        = variableOp op operands { qp with
            context := ctx
            sql := qp.sql ++
              if parenthesize (lookUpOperation op operands) enclosing then "(" else "" } := by
  rcases hform with ⟨h1, first, h2, h3⟩ | ⟨h1, h2, h3⟩
  · subst h1 h2
    have hl : lookUp "?" (min (first :: path).length 9) kOperationList 0 false = (2, true) :=
      lookUp_variable _ (by simp) (by omega)
    have hop : lookUpOperation "?" (first :: path) = .kOperationList 2 := by
      simp only [lookUpOperation, hl]
    refine ⟨?_, qp.context ++ [.kOperationList 2], by simp, ?_⟩
    · rw [parseNode_succ_array, hl, hop]
      rfl
    · rw [hop]
      rfl
  · subst h1 h3
    have hl : lookUp ("?" ++ v) (min operands.length 9) kOperationList 0 false = (33, false) :=
      lookUp_variable_shorthand v _ h2
    have hop : lookUpOperation ("?" ++ v) operands = .kOperationList 33 := by
      simp only [lookUpOperation, hl]
    refine ⟨?_, qp.context ++ [.localOperation
      { (OperationPtr.kOperationList 33).deref with op := some ("?" ++ v) }], by simp, ?_⟩
    · rw [parseNode_succ_array, hl, hop]
      rfl
    · rw [hop]
      have hh : (OperationPtr.kOperationList 33).deref.handler = some .fallbackOp := rfl
      rw [hh]
      show fallbackOp (parseNode fuel) ("?" ++ v) operands _ = _
      rw [fallbackOp_variable (parseNode fuel) v operands (.kOperationList 33) _
        (by simp [entered])]
      simp [entered]

/-- C20, as stated, fails: a reference to the variable of an enclosing ANY, inside the predicate
of that ANY, is not compiled when a nested SELECT stands between them; `selectOp` compiles the
nested SELECT with a new parser, whose `_variables` is empty.  The same reference directly in
the predicate is compiled. -/
theorem variable_unbound_in_nested_select :
    isValidIdentifier "a" = true ∧
    expressionSQL exampleNestedReference = .error (.invalidQuery "No such variable '?'") ∧
    expressionSQL exampleDirectReference
      = .ok "EXISTS (SELECT 1 FROM fl_each(body, 'tags') AS _a WHERE _a.value)" := by
  refine ⟨by decide, by decide!, by decide!⟩

/-- C20, amended: a variable reference, in the long form `["?", v, path...]` or in the shorthand
form `["?v", path...]`, is compiled successfully if and only if `v` is a valid identifier that
is in `_variables` of the parser that compiles it (the set to which `anyEveryOp` adds its
variable while it compiles its predicate; a nested SELECT has a parser of its own) and the
trailing path, if any, is well formed; otherwise the compilation fails.  On success the
members change only by the text written: `_v.value` when there is no trailing path and
`fl_value(_v.pointer, '<path>')` when there is one, between the parentheses of
`handleOperation` if the enclosing operation calls for them. -/
theorem parseNode_variable (fuel : Nat) (op : String) (operands : List Value) (v : String)
    (path : List Value) (enclosing : OperationPtr) (qp : State)
    (htop : qp.context.getLast? = some enclosing)
    (hform : (op = "?" ∧ ∃ first, operands = first :: path ∧ v = (asString (some first)).bytes)
      ∨ (op = "?" ++ v ∧ v ≠ "" ∧ operands = path)) :
    ((parseNode (fuel + 1) (.array (.string op :: operands)) qp).1 = .ok () ↔
      isValidIdentifier v = true ∧ v ∈ qp.vars ∧
        (path = [] ∨ ∃ property, propertyFromOperands path = .ok property)) ∧
    ((parseNode (fuel + 1) (.array (.string op :: operands)) qp).1 = .ok () →
      ∃ text,
        (parseNode (fuel + 1) (.array (.string op :: operands)) qp).2 = { qp with
          sql := qp.sql ++
            if parenthesize (lookUpOperation op operands) enclosing then "(" ++ text ++ ")"
            else text } ∧
        (path = [] → text = "_" ++ v ++ ".value") ∧
        ∀ property, path ≠ [] → propertyFromOperands path = .ok property →
          text = "fl_value(_" ++ v ++ ".pointer, " ++ sqlString property ++ ")") := by
  obtain ⟨hparse, ctx, hctx, hcall⟩ :=
    callHandler_variable fuel op operands v path enclosing qp hform
  rw [hparse]
  unfold handleOperation
  rw [handleOperationWith_eq _ _ enclosing qp htop, hcall]
  obtain ⟨e, he⟩ := variableOp_eq op operands v path { qp with
    context := ctx
    sql := qp.sql ++ if parenthesize (lookUpOperation op operands) enclosing then "(" else "" }
    hform
  rw [he]
  have hlen : path.length = 0 ↔ path = [] := List.length_eq_zero
  by_cases hc : isValidIdentifier v = true ∧ v ∈ qp.vars
  · simp only [hc, and_self, if_true, true_and]
    by_cases hp : path = []
    · subst hp
      simp only [List.length_nil, if_true, true_or, iff_true, forall_const, ne_eq,
        not_true_eq_false, false_implies, implies_true, and_true]
      refine ⟨trivial, "_" ++ v ++ ".value", ?_, rfl⟩
      cases parenthesize (lookUpOperation op operands) enclosing <;>
        simp [hctx, String.append_assoc]
    · have hp2 : ¬ path.length = 0 := fun h => hp (hlen.1 h)
      simp only [hp2, if_false, hp, false_or, false_implies, true_and, ne_eq, not_false_eq_true,
        forall_const]
      cases hprop : propertyFromOperands path with
      | error e2 => simp
      | ok property =>
        simp only [Except.ok.injEq, exists_eq', iff_true, forall_const, forall_eq']
        refine ⟨trivial, _, ?_, rfl⟩
        cases parenthesize (lookUpOperation op operands) enclosing <;>
          simp [hctx, String.append_assoc]
  · simp only [hc, if_false]
    constructor
    · constructor
      · intro h; cases h
      · intro h; exact absurd ⟨h.1, h.2.1⟩ hc
    · intro h; cases h

/-- Witness of C20: the references `["?", "a"]` and `["?a", "x"]` with `a` in scope. -/
theorem parseNode_variable_witness :
    exampleScope.context.getLast? = some .kOuterOperation ∧
    parseNode 1 (.array [.string "?", .string "a"]) exampleScope
      = (.ok (), { exampleScope with sql := "_a.value" }) ∧
    parseNode 1 (.array [.string "?a", .string "x"]) exampleScope
      = (.ok (), { exampleScope with sql := "fl_value(_a.pointer, 'x')" }) := by
  have h1 := parseNode_variable 0 "?" [.string "a"] "a" [] .kOuterOperation exampleScope rfl
    (Or.inl ⟨rfl, _, rfl, rfl⟩)
  have h2 := parseNode_variable 0 ("?" ++ "a") [.string "x"] "a" [.string "x"]
    .kOuterOperation exampleScope rfl (Or.inr ⟨rfl, by decide, rfl⟩)
  have ok1 := h1.1.2 ⟨by decide, by decide, Or.inl rfl⟩
  have ok2 := h2.1.2 ⟨by decide, by decide, Or.inr ⟨"x", by decide⟩⟩
  obtain ⟨t1, e1, f1, _⟩ := h1.2 ok1
  obtain ⟨t2, e2, _, f2⟩ := h2.2 ok2
  have g2 := f2 "x" (by simp) (by decide)
  have g1 := f1 rfl
  subst g1 g2
  refine ⟨rfl, Prod.ext ok1 (e1.trans ?_), Prod.ext ok2 (e2.trans ?_)⟩
  · decide!
  · decide!

/-! ### Methods that do not read the text written so far -/

theorem frame_bind {α β : Type} {m : M α} {k : α → M β}
    (hm : Frame m) (hk : ∀ a, Frame (k a)) : Frame (m >>= k) := by
  constructor
  intro p qp
  rw [bind_apply, bind_apply, hm.prepend p qp]
  cases hq : m qp with
  | mk r q1 =>
    cases r with
    | error e => rfl
    | ok a => exact (hk a).prepend p q1

theorem frame_getState_bind {β : Type} {k : State → M β}
    (hk : ∀ qp, Frame (k qp))
    (hsql : ∀ (p : String) (qp : State), k { qp with sql := p ++ qp.sql } = k qp) :
    Frame (getState >>= k) := by
  constructor
  intro p qp
  rw [bind_apply, bind_apply]
  simp only [getState]
  rw [hsql p qp]
  exact (hk qp).prepend p qp

theorem frame_pure {α : Type} (a : α) : Frame (pure a : M α) := ⟨fun _ _ => rfl⟩

theorem frame_raise {α : Type} (e : Error) : Frame (raise e : M α) := ⟨fun _ _ => rfl⟩

theorem frame_fail {α : Type} (s : String) : Frame (fail s : M α) := frame_raise _

theorem frame_write (s : String) : Frame (write s) :=
  ⟨fun p qp => by simp only [write, String.append_assoc]⟩

theorem frame_contextBack : Frame contextBack := by
  constructor
  intro p qp
  simp only [contextBack]
  cases qp.context.getLast? <;> rfl

theorem frame_pushContext (op : OperationPtr) : Frame (pushContext op) := ⟨fun _ _ => rfl⟩

theorem frame_popContext : Frame popContext := ⟨fun _ _ => rfl⟩

theorem frame_setContextBack (op : OperationPtr) : Frame (setContextBack op) :=
  ⟨fun _ _ => rfl⟩

theorem frame_reset : Frame reset := ⟨fun _ _ => rfl⟩

theorem frame_liftExcept {α : Type} (x : Except Error α) : Frame (liftExcept x) := by
  cases x
  · exact frame_raise _
  · exact frame_pure _

theorem frame_writeSQLString (s : String) : Frame (writeSQLString s) := frame_write _

theorem frame_insertVariable (var : String) : Frame (insertVariable var) := ⟨fun _ _ => rfl⟩

theorem frame_eraseVariable (var : String) : Frame (eraseVariable var) := ⟨fun _ _ => rfl⟩

theorem frame_insertParameter (parameter : String) : Frame (insertParameter parameter) :=
  ⟨fun _ _ => rfl⟩

theorem frame_addFTSTable (key : String) : Frame (addFTSTable key) := ⟨fun _ _ => rfl⟩

theorem frame_setFirstCustomResultCol (nCol : Nat) : Frame (setFirstCustomResultCol nCol) :=
  ⟨fun _ _ => rfl⟩

theorem frame_ite {α : Type} (c : Prop) [Decidable c] {a b : M α}
    (ha : Frame a) (hb : Frame b) : Frame (if c then a else b) := by
  split
  · exact ha
  · exact hb

theorem frame_writePropertyGetter (fn property : String) :
    Frame (writePropertyGetter fn property) := by
  unfold writePropertyGetter
  repeat' with_reducible first
    | exact frame_pure _ | exact frame_write _ | exact frame_fail _ | exact frame_raise _
    | exact frame_contextBack | exact frame_liftExcept _ | exact frame_writeSQLString _
    | exact frame_pushContext _ | exact frame_popContext | exact frame_setContextBack _
    | exact frame_reset
    | assumption
    | apply frame_getState_bind | (intro _ _; rfl)
    | apply frame_bind | intro _ | apply frame_ite | split | dsimp only

theorem frame_writeStringLiteralAsProperty (str : String) :
    Frame (writeStringLiteralAsProperty str) := by
  unfold writeStringLiteralAsProperty
  repeat' with_reducible first
    | exact frame_pure _ | exact frame_write _ | exact frame_fail _ | exact frame_raise _
    | exact frame_contextBack | exact frame_liftExcept _ | exact frame_writeSQLString _
    | exact frame_pushContext _ | exact frame_popContext | exact frame_setContextBack _
    | exact frame_reset
    | exact frame_writePropertyGetter _ _
    | assumption
    | apply frame_getState_bind | (intro _ _; rfl)
    | apply frame_bind | intro _ | apply frame_ite | split | dsimp only

theorem frame_writeNestedPropertyOpIfAny (fnName : String) (operands : List Value) :
    Frame (writeNestedPropertyOpIfAny fnName operands) := by
  unfold writeNestedPropertyOpIfAny
  repeat' with_reducible first
    | exact frame_pure _ | exact frame_write _ | exact frame_fail _ | exact frame_raise _
    | exact frame_contextBack | exact frame_liftExcept _ | exact frame_writeSQLString _
    | exact frame_pushContext _ | exact frame_popContext | exact frame_setContextBack _
    | exact frame_reset
    | exact frame_writePropertyGetter _ _
    | assumption
    | apply frame_getState_bind | (intro _ _; rfl)
    | apply frame_bind | intro _ | apply frame_ite | split | dsimp only

theorem frame_FTSIndexName (key : Value) :
    Frame (FTSIndexName key) := by
  unfold FTSIndexName
  repeat' with_reducible first
    | exact frame_pure _ | exact frame_write _ | exact frame_fail _ | exact frame_raise _
    | exact frame_contextBack | exact frame_liftExcept _ | exact frame_writeSQLString _
    | exact frame_pushContext _ | exact frame_popContext | exact frame_setContextBack _
    | exact frame_reset
    | assumption
    | apply frame_getState_bind | (intro _ _; rfl)
    | apply frame_bind | intro _ | apply frame_ite | split | dsimp only

theorem frame_FTSPropertyIndex (matchLHS : Value) (canAdd : Bool) :
    Frame (FTSPropertyIndex matchLHS canAdd) := by
  unfold FTSPropertyIndex
  repeat' with_reducible first
    | exact frame_pure _ | exact frame_write _ | exact frame_fail _ | exact frame_raise _
    | exact frame_contextBack | exact frame_liftExcept _ | exact frame_writeSQLString _
    | exact frame_pushContext _ | exact frame_popContext | exact frame_setContextBack _
    | exact frame_reset
    | exact frame_FTSIndexName _ | exact frame_addFTSTable _
    | assumption
    | apply frame_getState_bind | (intro _ _; rfl)
    | apply frame_bind | intro _ | apply frame_ite | split | dsimp only

theorem frame_parseOperand (parseNode : Value → M Unit) (hpn : ∀ node, Frame (parseNode node)) (operands : List Value) (i : Nat) :
    Frame (parseOperand parseNode operands i) := by
  unfold parseOperand
  repeat' with_reducible first
    | exact frame_pure _ | exact frame_write _ | exact frame_fail _ | exact frame_raise _
    | exact frame_contextBack | exact frame_liftExcept _ | exact frame_writeSQLString _
    | exact frame_pushContext _ | exact frame_popContext | exact frame_setContextBack _
    | exact frame_reset
    | exact hpn _
    | assumption
    | apply frame_getState_bind | (intro _ _; rfl)
    | apply frame_bind | intro _ | apply frame_ite | split | dsimp only

theorem frame_handleOperationWith (handler : M Unit) (op : OperationPtr) (h : Frame handler) :
    Frame (handleOperationWith handler op) := by
  unfold handleOperationWith
  repeat' with_reducible first
    | exact frame_pure _ | exact frame_write _ | exact frame_fail _ | exact frame_raise _
    | exact frame_contextBack | exact frame_liftExcept _ | exact frame_writeSQLString _
    | exact frame_pushContext _ | exact frame_popContext | exact frame_setContextBack _
    | exact frame_reset
    | assumption
    | apply frame_getState_bind | (intro _ _; rfl)
    | apply frame_bind | intro _ | apply frame_ite | split | dsimp only

theorem frame_prefixOp (parseNode : Value → M Unit) (hpn : ∀ node, Frame (parseNode node)) (op : String) (operands : List Value) :
    Frame (prefixOp parseNode op operands) := by
  unfold prefixOp
  repeat' with_reducible first
    | exact frame_pure _ | exact frame_write _ | exact frame_fail _ | exact frame_raise _
    | exact frame_contextBack | exact frame_liftExcept _ | exact frame_writeSQLString _
    | exact frame_pushContext _ | exact frame_popContext | exact frame_setContextBack _
    | exact frame_reset
    | exact frame_writePropertyGetter _ _ | exact frame_writeNestedPropertyOpIfAny _ _
    | exact frame_parseOperand _ hpn _ _ | exact hpn _
    | assumption
    | apply frame_getState_bind | (intro _ _; rfl)
    | apply frame_bind | intro _ | apply frame_ite | split | dsimp only

theorem frame_postfixOp (parseNode : Value → M Unit) (hpn : ∀ node, Frame (parseNode node)) (op : String) (operands : List Value) :
    Frame (postfixOp parseNode op operands) := by
  unfold postfixOp
  repeat' with_reducible first
    | exact frame_pure _ | exact frame_write _ | exact frame_fail _ | exact frame_raise _
    | exact frame_contextBack | exact frame_liftExcept _ | exact frame_writeSQLString _
    | exact frame_pushContext _ | exact frame_popContext | exact frame_setContextBack _
    | exact frame_reset
    | exact frame_writePropertyGetter _ _ | exact frame_writeNestedPropertyOpIfAny _ _
    | exact frame_parseOperand _ hpn _ _ | exact hpn _
    | assumption
    | apply frame_getState_bind | (intro _ _; rfl)
    | apply frame_bind | intro _ | apply frame_ite | split | dsimp only

theorem frame_infixOpLoop (parseNode : Value → M Unit) (hpn : ∀ node, Frame (parseNode node))
    (op : String) (operands : List Value) :
    ∀ n, Frame (infixOpLoop parseNode op n operands) := by
  induction operands with
  | nil => intro n; exact frame_pure _
  | cons node rest ih =>
    intro n
    unfold infixOpLoop
    repeat' with_reducible first
      | exact frame_pure _ | exact frame_write _ | exact frame_fail _ | exact frame_raise _
      | exact frame_contextBack | exact frame_liftExcept _ | exact frame_writeSQLString _
      | exact frame_pushContext _ | exact frame_popContext | exact frame_setContextBack _
      | exact frame_reset
      | exact frame_writePropertyGetter _ _ | exact frame_writeNestedPropertyOpIfAny _ _
      | exact frame_parseOperand _ hpn _ _ | exact hpn _
      | exact ih _
      | assumption
      | apply frame_getState_bind | (intro _ _; rfl)
      | apply frame_bind | intro _ | apply frame_ite | split | dsimp only

theorem frame_infixOp (parseNode : Value → M Unit) (hpn : ∀ node, Frame (parseNode node))
    (op : String) (operands : List Value) : Frame (infixOp parseNode op operands) :=
  frame_infixOpLoop parseNode hpn op operands 0

theorem frame_writeArgList (parseNode : Value → M Unit) (hpn : ∀ node, Frame (parseNode node))
    (operands : List Value) : Frame (writeArgList parseNode operands) :=
  frame_handleOperationWith _ _ (frame_infixOp parseNode hpn _ _)

theorem frame_writeColumnList (parseNode : Value → M Unit) (hpn : ∀ node, Frame (parseNode node))
    (operands : List Value) : Frame (writeColumnList parseNode operands) :=
  frame_handleOperationWith _ _ (frame_infixOp parseNode hpn _ _)


theorem frame_existsOp (parseNode : Value → M Unit) (hpn : ∀ node, Frame (parseNode node)) (op : String) (operands : List Value) :
    Frame (existsOp parseNode op operands) := by
  unfold existsOp
  repeat' with_reducible first
    | exact frame_pure _ | exact frame_write _ | exact frame_fail _ | exact frame_raise _
    | exact frame_contextBack | exact frame_liftExcept _ | exact frame_writeSQLString _
    | exact frame_pushContext _ | exact frame_popContext | exact frame_setContextBack _
    | exact frame_reset
    | exact frame_writePropertyGetter _ _ | exact frame_writeNestedPropertyOpIfAny _ _
    | exact frame_parseOperand _ hpn _ _ | exact hpn _
    | exact frame_writeArgList _ hpn _ | exact frame_FTSPropertyIndex _ _
    | exact frame_insertVariable _ | exact frame_eraseVariable _ | exact frame_insertParameter _
    | assumption
    | apply frame_getState_bind | (intro _ _; rfl)
    | apply frame_bind | intro _ | apply frame_ite | split | dsimp only

theorem frame_betweenOp (parseNode : Value → M Unit) (hpn : ∀ node, Frame (parseNode node)) (op : String) (operands : List Value) :
    Frame (betweenOp parseNode op operands) := by
  unfold betweenOp
  repeat' with_reducible first
    | exact frame_pure _ | exact frame_write _ | exact frame_fail _ | exact frame_raise _
    | exact frame_contextBack | exact frame_liftExcept _ | exact frame_writeSQLString _
    | exact frame_pushContext _ | exact frame_popContext | exact frame_setContextBack _
    | exact frame_reset
    | exact frame_writePropertyGetter _ _ | exact frame_writeNestedPropertyOpIfAny _ _
    | exact frame_parseOperand _ hpn _ _ | exact hpn _
    | exact frame_writeArgList _ hpn _ | exact frame_FTSPropertyIndex _ _
    | exact frame_insertVariable _ | exact frame_eraseVariable _ | exact frame_insertParameter _
    | assumption
    | apply frame_getState_bind | (intro _ _; rfl)
    | apply frame_bind | intro _ | apply frame_ite | split | dsimp only

theorem frame_inOp (parseNode : Value → M Unit) (hpn : ∀ node, Frame (parseNode node)) (op : String) (operands : List Value) :
    Frame (inOp parseNode op operands) := by
  unfold inOp
  repeat' with_reducible first
    | exact frame_pure _ | exact frame_write _ | exact frame_fail _ | exact frame_raise _
    | exact frame_contextBack | exact frame_liftExcept _ | exact frame_writeSQLString _
    | exact frame_pushContext _ | exact frame_popContext | exact frame_setContextBack _
    | exact frame_reset
    | exact frame_writePropertyGetter _ _ | exact frame_writeNestedPropertyOpIfAny _ _
    | exact frame_parseOperand _ hpn _ _ | exact hpn _
    | exact frame_writeArgList _ hpn _ | exact frame_FTSPropertyIndex _ _
    | exact frame_insertVariable _ | exact frame_eraseVariable _ | exact frame_insertParameter _
    | assumption
    | apply frame_getState_bind | (intro _ _; rfl)
    | apply frame_bind | intro _ | apply frame_ite | split | dsimp only

theorem frame_matchOp (parseNode : Value → M Unit) (hpn : ∀ node, Frame (parseNode node)) (op : String) (operands : List Value) :
    Frame (matchOp parseNode op operands) := by
  unfold matchOp
  repeat' with_reducible first
    | exact frame_pure _ | exact frame_write _ | exact frame_fail _ | exact frame_raise _
    | exact frame_contextBack | exact frame_liftExcept _ | exact frame_writeSQLString _
    | exact frame_pushContext _ | exact frame_popContext | exact frame_setContextBack _
    | exact frame_reset
    | exact frame_writePropertyGetter _ _ | exact frame_writeNestedPropertyOpIfAny _ _
    | exact frame_parseOperand _ hpn _ _ | exact hpn _
    | exact frame_writeArgList _ hpn _ | exact frame_FTSPropertyIndex _ _
    | exact frame_insertVariable _ | exact frame_eraseVariable _ | exact frame_insertParameter _
    | assumption
    | apply frame_getState_bind | (intro _ _; rfl)
    | apply frame_bind | intro _ | apply frame_ite | split | dsimp only

theorem frame_anyEveryOp (parseNode : Value → M Unit) (hpn : ∀ node, Frame (parseNode node)) (op : String) (operands : List Value) :
    Frame (anyEveryOp parseNode op operands) := by
  unfold anyEveryOp
  repeat' with_reducible first
    | exact frame_pure _ | exact frame_write _ | exact frame_fail _ | exact frame_raise _
    | exact frame_contextBack | exact frame_liftExcept _ | exact frame_writeSQLString _
    | exact frame_pushContext _ | exact frame_popContext | exact frame_setContextBack _
    | exact frame_reset
    | exact frame_writePropertyGetter _ _ | exact frame_writeNestedPropertyOpIfAny _ _
    | exact frame_parseOperand _ hpn _ _ | exact hpn _
    | exact frame_writeArgList _ hpn _ | exact frame_FTSPropertyIndex _ _
    | exact frame_insertVariable _ | exact frame_eraseVariable _ | exact frame_insertParameter _
    | assumption
    | apply frame_getState_bind | (intro _ _; rfl)
    | apply frame_bind | intro _ | apply frame_ite | split | dsimp only

theorem frame_functionOp (parseNode : Value → M Unit) (hpn : ∀ node, Frame (parseNode node)) (op : String) (operands : List Value) :
    Frame (functionOp parseNode op operands) := by
  unfold functionOp
  repeat' with_reducible first
    | exact frame_pure _ | exact frame_write _ | exact frame_fail _ | exact frame_raise _
    | exact frame_contextBack | exact frame_liftExcept _ | exact frame_writeSQLString _
    | exact frame_pushContext _ | exact frame_popContext | exact frame_setContextBack _
    | exact frame_reset
    | exact frame_writePropertyGetter _ _ | exact frame_writeNestedPropertyOpIfAny _ _
    | exact frame_parseOperand _ hpn _ _ | exact hpn _
    | exact frame_writeArgList _ hpn _ | exact frame_FTSPropertyIndex _ _
    | exact frame_insertVariable _ | exact frame_eraseVariable _ | exact frame_insertParameter _
    | assumption
    | apply frame_getState_bind | (intro _ _; rfl)
    | apply frame_bind | intro _ | apply frame_ite | split | dsimp only

theorem frame_propertyOp (op : String) (operands : List Value) :
    Frame (propertyOp op operands) := by
  have hpn : ∀ node : Value, Frame (pure () : M Unit) := fun _ => frame_pure _
  unfold propertyOp
  repeat' with_reducible first
    | exact frame_pure _ | exact frame_write _ | exact frame_fail _ | exact frame_raise _
    | exact frame_contextBack | exact frame_liftExcept _ | exact frame_writeSQLString _
    | exact frame_pushContext _ | exact frame_popContext | exact frame_setContextBack _
    | exact frame_reset
    | exact frame_writePropertyGetter _ _ | exact frame_writeNestedPropertyOpIfAny _ _
    | exact frame_parseOperand _ hpn _ _ | exact hpn _
    | exact frame_writeArgList _ hpn _ | exact frame_FTSPropertyIndex _ _
    | exact frame_insertVariable _ | exact frame_eraseVariable _ | exact frame_insertParameter _
    | assumption
    | apply frame_getState_bind | (intro _ _; rfl)
    | apply frame_bind | intro _ | apply frame_ite | split | dsimp only

theorem frame_parameterOp (op : String) (operands : List Value) :
    Frame (parameterOp op operands) := by
  have hpn : ∀ node : Value, Frame (pure () : M Unit) := fun _ => frame_pure _
  unfold parameterOp
  repeat' with_reducible first
    | exact frame_pure _ | exact frame_write _ | exact frame_fail _ | exact frame_raise _
    | exact frame_contextBack | exact frame_liftExcept _ | exact frame_writeSQLString _
    | exact frame_pushContext _ | exact frame_popContext | exact frame_setContextBack _
    | exact frame_reset
    | exact frame_writePropertyGetter _ _ | exact frame_writeNestedPropertyOpIfAny _ _
    | exact frame_parseOperand _ hpn _ _ | exact hpn _
    | exact frame_writeArgList _ hpn _ | exact frame_FTSPropertyIndex _ _
    | exact frame_insertVariable _ | exact frame_eraseVariable _ | exact frame_insertParameter _
    | assumption
    | apply frame_getState_bind | (intro _ _; rfl)
    | apply frame_bind | intro _ | apply frame_ite | split | dsimp only

theorem frame_variableOp (op : String) (operands : List Value) :
    Frame (variableOp op operands) := by
  have hpn : ∀ node : Value, Frame (pure () : M Unit) := fun _ => frame_pure _
  unfold variableOp
  repeat' with_reducible first
    | exact frame_pure _ | exact frame_write _ | exact frame_fail _ | exact frame_raise _
    | exact frame_contextBack | exact frame_liftExcept _ | exact frame_writeSQLString _
    | exact frame_pushContext _ | exact frame_popContext | exact frame_setContextBack _
    | exact frame_reset
    | exact frame_writePropertyGetter _ _ | exact frame_writeNestedPropertyOpIfAny _ _
    | exact frame_parseOperand _ hpn _ _ | exact hpn _
    | exact frame_writeArgList _ hpn _ | exact frame_FTSPropertyIndex _ _
    | exact frame_insertVariable _ | exact frame_eraseVariable _ | exact frame_insertParameter _
    | assumption
    | apply frame_getState_bind | (intro _ _; rfl)
    | apply frame_bind | intro _ | apply frame_ite | split | dsimp only

theorem frame_missingOp (op : String) (operands : List Value) :
    Frame (missingOp op operands) := by
  have hpn : ∀ node : Value, Frame (pure () : M Unit) := fun _ => frame_pure _
  unfold missingOp
  repeat' with_reducible first
    | exact frame_pure _ | exact frame_write _ | exact frame_fail _ | exact frame_raise _
    | exact frame_contextBack | exact frame_liftExcept _ | exact frame_writeSQLString _
    | exact frame_pushContext _ | exact frame_popContext | exact frame_setContextBack _
    | exact frame_reset
    | exact frame_writePropertyGetter _ _ | exact frame_writeNestedPropertyOpIfAny _ _
    | exact frame_parseOperand _ hpn _ _ | exact hpn _
    | exact frame_writeArgList _ hpn _ | exact frame_FTSPropertyIndex _ _
    | exact frame_insertVariable _ | exact frame_eraseVariable _ | exact frame_insertParameter _
    | assumption
    | apply frame_getState_bind | (intro _ _; rfl)
    | apply frame_bind | intro _ | apply frame_ite | split | dsimp only

theorem frame_fallbackOp (parseNode : Value → M Unit) (hpn : ∀ node, Frame (parseNode node)) (op : String) (operands : List Value) :
    Frame (fallbackOp parseNode op operands) := by
  unfold fallbackOp
  repeat' with_reducible first
    | exact frame_pure _ | exact frame_write _ | exact frame_fail _ | exact frame_raise _
    | exact frame_contextBack | exact frame_liftExcept _ | exact frame_writeSQLString _
    | exact frame_pushContext _ | exact frame_popContext | exact frame_setContextBack _
    | exact frame_reset
    | exact frame_writePropertyGetter _ _ | exact frame_writeNestedPropertyOpIfAny _ _
    | exact frame_parseOperand _ hpn _ _ | exact hpn _
    | exact frame_writeArgList _ hpn _ | exact frame_FTSPropertyIndex _ _
    | exact frame_insertVariable _ | exact frame_eraseVariable _ | exact frame_insertParameter _
    | exact frame_parameterOp _ _ | exact frame_variableOp _ _ | exact frame_functionOp _ hpn _ _
    | assumption
    | apply frame_getState_bind | (intro _ _; rfl)
    | apply frame_bind | intro _ | apply frame_ite | split | dsimp only

theorem frame_findFTSPropertiesIn (l : List Value)
    (h : ∀ v ∈ l, Frame (findFTSProperties v)) : Frame (findFTSPropertiesIn l) := by
  induction l with
  | nil => rw [findFTSPropertiesIn]; exact frame_pure _
  | cons a l ih =>
    rw [findFTSPropertiesIn]
    exact frame_bind (h a (List.mem_cons_self _ _))
      (fun _ => ih (fun v hv => h v (List.mem_cons_of_mem _ hv)))

theorem frame_findFTSProperties_depth :
    ∀ (n : Nat) (v : Value), v.depth ≤ n → Frame (findFTSProperties v) := by
  intro n
  induction n with
  | zero =>
    intro v hv
    cases v with
    | array items => rw [Value.depth] at hv; omega
    | dict entries => simp only [findFTSProperties]; exact frame_pure _
    | _ => simp only [findFTSProperties]; exact frame_pure _
  | succ n ih =>
    intro v hv
    cases v with
    | array items =>
      rw [Value.depth] at hv
      cases items with
      | nil => simp only [findFTSProperties]; exact frame_pure _
      | cons first operands =>
        have hops : ∀ v ∈ operands, Frame (findFTSProperties v) := fun v hv2 =>
          ih v (le_trans (depth_le_depthItems (List.mem_cons_of_mem first hv2)) (by omega))
        cases operands with
        | nil =>
          rw [findFTSProperties]
          split
          · exact frame_pure _
          · exact frame_findFTSPropertiesIn _ hops
        | cons lhs rest =>
          rw [findFTSProperties]
          split
          · exact frame_bind (frame_FTSPropertyIndex _ _) (fun _ =>
              frame_findFTSPropertiesIn _ (fun v hv2 => hops v (List.mem_cons_of_mem _ hv2)))
          · exact frame_findFTSPropertiesIn _ hops
    | _ => simp only [findFTSProperties]; exact frame_pure _

theorem frame_findFTSProperties (v : Value) : Frame (findFTSProperties v) :=
  frame_findFTSProperties_depth v.depth v (le_refl _)


theorem frame_writeResultColumn (parseNode : Value → M Unit) (hpn : ∀ node, Frame (parseNode node)) (val : Value) :
    Frame (writeResultColumn parseNode val) := by
  unfold writeResultColumn
  repeat' with_reducible first
    | exact frame_pure _ | exact frame_write _ | exact frame_fail _ | exact frame_raise _
    | exact frame_contextBack | exact frame_liftExcept _ | exact frame_writeSQLString _
    | exact frame_pushContext _ | exact frame_popContext | exact frame_setContextBack _
    | exact frame_reset
    | exact frame_writePropertyGetter _ _ | exact frame_writeNestedPropertyOpIfAny _ _
    | exact frame_parseOperand _ hpn _ _ | exact hpn _
    | exact frame_writeStringLiteralAsProperty _
    | assumption
    | apply frame_getState_bind | (intro _ _; rfl)
    | apply frame_bind | intro _ | apply frame_ite | split | dsimp only

theorem frame_writeWhats (parseNode : Value → M Unit) (hpn : ∀ node, Frame (parseNode node))
    (whats : List Value) : ∀ nCol, Frame (writeWhats parseNode nCol whats) := by
  induction whats with
  | nil => intro nCol; exact frame_pure _
  | cons val rest ih =>
    intro nCol
    unfold writeWhats
    repeat' with_reducible first
      | exact frame_pure _ | exact frame_write _ | exact frame_fail _ | exact frame_raise _
      | exact frame_contextBack | exact frame_liftExcept _ | exact frame_writeSQLString _
      | exact frame_pushContext _ | exact frame_popContext | exact frame_setContextBack _
      | exact frame_reset
      | exact frame_writePropertyGetter _ _ | exact frame_writeNestedPropertyOpIfAny _ _
      | exact frame_parseOperand _ hpn _ _ | exact hpn _
      | exact ih _ | exact frame_writeResultColumn _ hpn _
      | assumption
      | apply frame_getState_bind | (intro _ _; rfl)
      | apply frame_bind | intro _ | apply frame_ite | split | dsimp only

theorem frame_writeSelect (parseNode : Value → M Unit) (hpn : ∀ node, Frame (parseNode node)) (whereNode : Option Value) (operands : Option (List (String × Value))) :
    Frame (writeSelect parseNode whereNode operands) := by
  unfold writeSelect
  repeat' with_reducible first
    | exact frame_pure _ | exact frame_write _ | exact frame_fail _ | exact frame_raise _
    | exact frame_contextBack | exact frame_liftExcept _ | exact frame_writeSQLString _
    | exact frame_pushContext _ | exact frame_popContext | exact frame_setContextBack _
    | exact frame_reset
    | exact frame_writePropertyGetter _ _ | exact frame_writeNestedPropertyOpIfAny _ _
    | exact frame_parseOperand _ hpn _ _ | exact hpn _
    | exact frame_findFTSProperties _ | exact frame_setFirstCustomResultCol _
    | exact frame_writeWhats _ hpn _ _ | exact frame_writeColumnList _ hpn _
    | assumption
    | apply frame_getState_bind | (intro _ _; rfl)
    | apply frame_bind | intro _ | apply frame_ite | split | dsimp only

theorem frame_writeSelectOperands (parseNode : Value → M Unit) (hpn : ∀ node, Frame (parseNode node))
    (operands : List (String × Value)) : Frame (writeSelectOperands parseNode operands) :=
  frame_writeSelect parseNode hpn _ _


theorem frame_selectOp (parseNode : Value → M Unit) (hpn : ∀ node, Frame (parseNode node)) (op : String) (operands : List Value) :
    Frame (selectOp parseNode op operands) := by
  unfold selectOp
  repeat' with_reducible first
    | exact frame_pure _ | exact frame_write _ | exact frame_fail _ | exact frame_raise _
    | exact frame_contextBack | exact frame_liftExcept _ | exact frame_writeSQLString _
    | exact frame_pushContext _ | exact frame_popContext | exact frame_setContextBack _
    | exact frame_reset
    | exact frame_writePropertyGetter _ _ | exact frame_writeNestedPropertyOpIfAny _ _
    | exact frame_parseOperand _ hpn _ _ | exact hpn _
    | exact frame_writeSelectOperands _ hpn _
    | assumption
    | apply frame_getState_bind | (intro _ _; rfl)
    | apply frame_bind | intro _ | apply frame_ite | split | dsimp only

theorem frame_callHandler (parseNode : Value → M Unit) (hpn : ∀ node, Frame (parseNode node))
    (handler : Option OpHandler) (op : String) (operands : List Value) :
    Frame (callHandler parseNode handler op operands) := by
  unfold callHandler
  split
  all_goals first
    | exact frame_fallbackOp _ hpn _ _
    | exact frame_propertyOp _ _
    | exact frame_parameterOp _ _
    | exact frame_variableOp _ _
    | exact frame_missingOp _ _
    | exact frame_infixOp _ hpn _ _
    | exact frame_prefixOp _ hpn _ _
    | exact frame_postfixOp _ hpn _ _
    | exact frame_inOp _ hpn _ _
    | exact frame_matchOp _ hpn _ _
    | exact frame_betweenOp _ hpn _ _
    | exact frame_existsOp _ hpn _ _
    | exact frame_anyEveryOp _ hpn _ _
    | exact frame_selectOp _ hpn _ _
    | exact frame_raise _

theorem frame_handleOperation (parseNode : Value → M Unit) (hpn : ∀ node, Frame (parseNode node))
    (opDef : OperationPtr) (op : String) (operands : List Value) :
    Frame (handleOperation parseNode opDef op operands) :=
  frame_handleOperationWith _ _ (frame_callHandler parseNode hpn _ _ _)


theorem frame_parseOpNode (parseNode : Value → M Unit) (hpn : ∀ node, Frame (parseNode node)) (node : List Value) :
    Frame (parseOpNode parseNode node) := by
  unfold parseOpNode
  repeat' with_reducible first
    | exact frame_pure _ | exact frame_write _ | exact frame_fail _ | exact frame_raise _
    | exact frame_contextBack | exact frame_liftExcept _ | exact frame_writeSQLString _
    | exact frame_pushContext _ | exact frame_popContext | exact frame_setContextBack _
    | exact frame_reset
    | exact frame_writePropertyGetter _ _ | exact frame_writeNestedPropertyOpIfAny _ _
    | exact frame_parseOperand _ hpn _ _ | exact hpn _
    | exact frame_handleOperation _ hpn _ _ _
    | assumption
    | apply frame_getState_bind | (intro _ _; rfl)
    | apply frame_bind | intro _ | apply frame_ite | split | dsimp only

theorem frame_parseNodeWith (parseNode : Value → M Unit) (hpn : ∀ node, Frame (parseNode node)) (node : Value) :
    Frame (parseNodeWith parseNode node) := by
  unfold parseNodeWith
  repeat' with_reducible first
    | exact frame_pure _ | exact frame_write _ | exact frame_fail _ | exact frame_raise _
    | exact frame_contextBack | exact frame_liftExcept _ | exact frame_writeSQLString _
    | exact frame_pushContext _ | exact frame_popContext | exact frame_setContextBack _
    | exact frame_reset
    | exact frame_writePropertyGetter _ _ | exact frame_writeNestedPropertyOpIfAny _ _
    | exact frame_parseOperand _ hpn _ _ | exact hpn _
    | exact frame_parseOpNode _ hpn _ | exact frame_writeStringLiteralAsProperty _
    | assumption
    | apply frame_getState_bind | (intro _ _; rfl)
    | apply frame_bind | intro _ | apply frame_ite | split | dsimp only

/-- Compiling a node does not read the text written so far. -/
theorem frame_parseNode : ∀ (fuel : Nat) (node : Value), Frame (parseNode fuel node) := by
  intro fuel
  induction fuel with
  | zero => intro node; exact frame_raise _
  | succ fuel ih => intro node; exact frame_parseNodeWith _ ih node

theorem frame_parse (expression : Value) : Frame (parse expression) := by
  have hpn := frame_parseNode (expression.depth + 1)
  unfold parse
  repeat' with_reducible first
    | exact frame_pure _ | exact frame_write _ | exact frame_fail _ | exact frame_raise _
    | exact frame_contextBack | exact frame_liftExcept _ | exact frame_writeSQLString _
    | exact frame_pushContext _ | exact frame_popContext | exact frame_setContextBack _
    | exact frame_reset
    | exact hpn _ | exact frame_writeSelect _ hpn _ _ | exact frame_writeSelectOperands _ hpn _
    | assumption
    | apply frame_getState_bind | (intro _ _; rfl)
    | apply frame_bind | intro _ | apply frame_ite | split | dsimp only

/-! ### Parsing twice -/

theorem SQL_prepend (p : String) (r : Except Error Unit × State) :
    SQL (r.1, { r.2 with sql := p ++ r.2.sql }) = (SQL r).map (fun text => p ++ text) := by
  obtain ⟨res, q⟩ := r
  cases res <;> rfl

/-- C14, as stated, fails: a parser that parses the example conjunction twice returns from
`SQL()` the text of the first parse followed by the text of the second, not what a new parser
returns after parsing it once; `reset` leaves `_sql` as it is. -/
theorem parse_twice_accumulates :
    SQL (parse exampleConjunction exampleKeyParser)
      = .ok ("SELECT key FROM kv_default WHERE "
        ++ "fl_value(body, 'x') = 1 AND fl_value(body, 'y') = 2") ∧
    SQL ((parse exampleConjunction >>= fun _ => parse exampleConjunction) exampleKeyParser)
      = .ok ("SELECT key FROM kv_default WHERE "
        ++ "fl_value(body, 'x') = 1 AND fl_value(body, 'y') = 2"
        ++ "SELECT key FROM kv_default WHERE "
        ++ "fl_value(body, 'x') = 1 AND fl_value(body, 'y') = 2") ∧
    SQL ((parse exampleConjunction >>= fun _ => parse exampleConjunction) exampleKeyParser)
      ≠ SQL (parse exampleConjunction exampleKeyParser) ∧
    (reset exampleParsedOnce).2.sql = exampleParsedOnce.sql := by
  have hreset : ∀ q : State, (reset q).2.sql = q.sql := fun _ => rfl
  refine ⟨by decide!, by decide!, by decide!, hreset _⟩

/-- C14, amended: `reset` clears the context stack and nothing else: the output stays.  A
parser that parses `e1` and then `e2` returns from `SQL()` the output of the first parse
followed by exactly what the parser as the first parse left it, with its output emptied,
returns after parsing `e2`. -/
theorem parse_after_parse (e1 e2 : Value) (qp q1 : State)
    (h1 : parse e1 qp = (.ok (), q1)) :
    reset q1 = (.ok (), { q1 with context := [.kOuterOperation] }) ∧
    SQL (parse e1 qp) = .ok q1.sql ∧
    SQL ((parse e1 >>= fun _ => parse e2) qp)
      = (SQL (parse e2 { q1 with sql := "" })).map (fun text => q1.sql ++ text) := by
  refine ⟨rfl, by rw [h1]; rfl, ?_⟩
  rw [bind_apply, h1]
  have hf := (frame_parse e2).prepend q1.sql { q1 with sql := "" }
  have hq : ({ ({ q1 with sql := "" } : State) with sql := q1.sql ++ "" } : State) = q1 := by
    simp
  simp only at hf
  rw [hq] at hf
  show SQL (parse e2 q1) = _
  rw [hf]
  exact SQL_prepend _ _

/-- Witness of C14: the example conjunction parsed twice. -/
theorem parse_after_parse_witness :
    parse exampleConjunction exampleKeyParser = (.ok (), exampleParsedOnce) ∧
    SQL ((parse exampleConjunction >>= fun _ => parse exampleConjunction) exampleKeyParser)
      = (SQL (parse exampleConjunction { exampleParsedOnce with sql := "" })).map
          (fun text => exampleParsedOnce.sql ++ text) :=
  ⟨by decide!, (parse_after_parse exampleConjunction exampleConjunction exampleKeyParser
    exampleParsedOnce (by decide!)).2.2⟩

/-! ### ANY and EVERY -/

/-- A method that does not read `_sql`, run on any output, in terms of its run on the empty
output. -/
theorem Frame.run {α : Type} {m : M α} (hm : Frame m) (q : State) (text : String) :
    m { q with sql := text } = ((m { q with sql := "" }).1,
      { (m { q with sql := "" }).2 with sql := text ++ (m { q with sql := "" }).2.sql }) := by
  have h := hm.prepend text { q with sql := "" }
  simp only [String.append_empty] at h
  exact h

/-- `writePropertyGetter` for a function other than `rank` and a property other than the
reserved ones. -/
theorem writePropertyGetter_eq (fn property : String) (q : State)
    (hfn : fn ≠ "rank") (hid : property ≠ "_id") (hseq : property ≠ "_sequence") :
    writePropertyGetter fn property q = (.ok (), { q with sql := q.sql ++ (fn ++ "("
      ++ q.bodyColumnName ++ ", " ++ sqlString (appendPaths q.propertyPath property) ++ ")") })
    := by
  simp only [writePropertyGetter, bind_apply, getState, hid, hseq, hfn, if_false, write,
    writeSQLString, String.append_assoc]

theorem propertyFromNode_dot (p : String) :
    propertyFromNode (.array [.string ".", .string p]) = .ok p := by
  show propertyFromOperands [.string p] = .ok p
  simp [propertyFromOperands, propertyFromOperandsLoop, propertyFromOperand, asString]

/-- `anyEveryOp` up to the predicate: the checks and what is written before the predicate is
compiled, for a valid variable that is not in scope and a property that is not reserved. -/
theorem anyEveryOp_eq (parseNode : Value → M Unit) (hpn : ∀ node, Frame (parseNode node))
    (op v p : String) (source e : Value) (qp : State)
    (hop : op = "ANY" ∨ op = "EVERY" ∨ op = "ANY AND EVERY")
    (hv : isValidIdentifier v = true) (hscope : v ∉ qp.vars)
    (hsource : propertyFromNode source = .ok p)
    (hp : p ≠ "") (hid : p ≠ "_id") (hseq : p ≠ "_sequence") :
    (∀ q2, parseNode e { qp with vars := v :: qp.vars, sql := "" } = (.ok (), q2) →
      anyEveryOp parseNode op [.string v, source, e] qp = (.ok (), { q2 with
        sql := qp.sql ++ anyEveryText op qp.bodyColumnName
          (sqlString (appendPaths qp.propertyPath p)) v q2.sql
        vars := q2.vars.erase v })) ∧
    (∀ er q2, parseNode e { qp with vars := v :: qp.vars, sql := "" } = (.error er, q2) →
      (anyEveryOp parseNode op [.string v, source, e] qp).1 = .error er) := by
  have hpe : p.isEmpty = false := by
    rw [Bool.eq_false_iff]
    intro h
    exact hp ((String.isEmpty_iff p).1 h)
  have hrun := fun text => (hpn e).run { qp with vars := v :: qp.vars } text
  have hg1 := fun q => writePropertyGetter_eq "fl_each" p q (by decide) hid hseq
  have hg2 := fun q => writePropertyGetter_eq "fl_count" p q (by decide) hid hseq
  constructor
  · intro q2 h2
    simp only [h2] at hrun
    rcases hop with h | h | h <;> subst h <;>
      simp only [anyEveryOp, bind_apply, List.get?_cons_zero, List.get?_cons_succ, asString,
        slice.bytes, Option.getD_some, pure, M.pure, hv, Bool.not_true, Bool.false_eq_true,
        if_false, getState, hscope, insertVariable, hsource, liftExcept, hpe, write,
        hg1, hg2, parseOperand, hrun, eraseVariable,
        anyEveryText, String.append_assoc, ne_eq, not_true_eq_false, not_false_eq_true, if_true,
        reduceCtorEq, String.reduceEq] <;> rfl
  · intro er q2 h2
    simp only [h2] at hrun
    rcases hop with h | h | h <;> subst h <;>
      simp only [anyEveryOp, bind_apply, List.get?_cons_zero, List.get?_cons_succ, asString,
        slice.bytes, Option.getD_some, pure, M.pure, hv, Bool.not_true, Bool.false_eq_true,
        if_false, getState, hscope, insertVariable, hsource, liftExcept, hpe, write,
        hg1, hg2, parseOperand, hrun, eraseVariable,
        anyEveryText, String.append_assoc, ne_eq, not_true_eq_false, not_false_eq_true, if_true,
        reduceCtorEq, String.reduceEq]

/-- C19, as stated, fails: with the reserved property `_id` as the source, the ANY predicate
is not compiled; `writePropertyGetter` refuses the property for `fl_each`. -/
theorem anyEveryOp_reserved_property_fails :
    isValidIdentifier "a" = true ∧
    propertyFromNode (.array [.string ".", .string "_id"]) = .ok "_id" ∧
    expressionSQL exampleAnyId
      = .error (.invalidQuery "can't use '_id' in this context") := by
  refine ⟨by decide, by decide, by decide!⟩

/-- C19, amended: `["ANY", v, [".", p], e]`, `["EVERY", v, [".", p], e]` and
`["ANY AND EVERY", v, [".", p], e]` are handled by `anyEveryOp`.  For a valid identifier `v`
that is not in scope and a property path `p` that is not empty and not one of the reserved
names `_id` and `_sequence`, it writes the text of the interface for the operator, where the
path is `p` appended to the property path of the parser, quoted, and the predicate text is what
compiling `e` with `v` in scope writes; if that fails, it fails the same way.  It fails when
`v` is not an identifier and when the source is not a property. -/
theorem anyEveryOp_compiles (fuel : Nat) (op v p : String) (e : Value) (qp : State)
    (hop : op = "ANY" ∨ op = "EVERY" ∨ op = "ANY AND EVERY") :
    (lookUpOperation op [.string v, .array [.string ".", .string p], e]).deref.handler
      = some .anyEveryOp ∧
    (isValidIdentifier v = false → ∀ source, ∃ message,
      anyEveryOp (parseNode fuel) op [.string v, source, e] qp
        = (.error (.invalidQuery message), qp)) ∧
    (isValidIdentifier v = true → v ∉ qp.vars → ∀ source, propertyFromNode source = .ok "" →
      ∃ message, (anyEveryOp (parseNode fuel) op [.string v, source, e] qp).1
        = .error (.invalidQuery message)) ∧
    (isValidIdentifier v = true → v ∉ qp.vars → p ≠ "" → p ≠ "_id" → p ≠ "_sequence" →
      (∀ q2, parseNode fuel e { qp with vars := v :: qp.vars, sql := "" } = (.ok (), q2) →
        anyEveryOp (parseNode fuel) op [.string v, .array [.string ".", .string p], e] qp
          = (.ok (), { q2 with
              sql := qp.sql ++ anyEveryText op qp.bodyColumnName
                (sqlString (appendPaths qp.propertyPath p)) v q2.sql
              vars := q2.vars.erase v })) ∧
      (∀ er q2, parseNode fuel e { qp with vars := v :: qp.vars, sql := "" } = (.error er, q2) →
        (anyEveryOp (parseNode fuel) op [.string v, .array [.string ".", .string p], e] qp).1
          = .error er)) := by
  refine ⟨?_, fun hv source => ?_, fun hv hscope source hsource => ?_,
    fun hv hscope hp hid hseq => ?_⟩
  · rcases hop with h | h | h <;> subst h <;> rfl
  · refine ⟨"ANY/EVERY first parameter must be an identifier; '" ++ v ++ "' is not", ?_⟩
    simp only [anyEveryOp, bind_apply, List.get?_cons_zero, asString, slice.bytes,
      Option.getD_some, pure, M.pure, hv, Bool.not_false, if_true, fail, raise]
  · refine ⟨"ANY/EVERY only supports a property as its source", ?_⟩
    simp only [anyEveryOp, bind_apply, List.get?_cons_zero, List.get?_cons_succ, asString,
      slice.bytes, Option.getD_some, pure, M.pure, hv, Bool.not_true, Bool.false_eq_true,
      if_false, getState, hscope, insertVariable, hsource, liftExcept, not_false_eq_true]
    rfl
  · exact anyEveryOp_eq (parseNode fuel) (frame_parseNode fuel) op v p _ e qp hop hv hscope
      (propertyFromNode_dot p) hp hid hseq

/-- Witness of C19: the example `["ANY", "a", [".", "tags"], ["=", ["?", "a"], "red"]]`. -/
theorem anyEveryOp_compiles_witness :
    ("ANY" = "ANY" ∨ "ANY" = "EVERY" ∨ "ANY" = "ANY AND EVERY") ∧
    (anyEveryOp (parseNode 2) "ANY" [.string "a", .array [.string ".", .string "tags"],
      .array [.string "=", .array [.string "?", .string "a"], .string "red"]]
      exampleParser).2.sql
      = "EXISTS (SELECT 1 FROM fl_each(body, 'tags') AS _a WHERE _a.value = 'red')" ∧
    expressionSQL exampleAny
      = .ok "EXISTS (SELECT 1 FROM fl_each(body, 'tags') AS _a WHERE _a.value = 'red')" := by
  have h := (anyEveryOp_compiles 2 "ANY" "a" "tags"
    (.array [.string "=", .array [.string "?", .string "a"], .string "red"]) exampleParser
    (Or.inl rfl)).2.2.2 (by decide) (by decide) (by decide) (by decide) (by decide)
  have h1 := h.1 examplePredicateCompiled (by decide!)
  refine ⟨Or.inl rfl, ?_, by decide!⟩
  rw [h1]
  decide!

/-! ### MATCH -/

theorem FTSIndexName_dot (p : String) (q : State) :
    FTSIndexName (.array [.string ".", .string p]) q
      = (.ok (q.tableName ++ "::." ++ p), q) := by
  have h1 : ¬ slice.size (some ".") = 0 := by decide
  have h2 : (slice.bytes (some ".")).data.head? = some '.' := by decide
  simp only [FTSIndexName, bind_apply, getState, List.head?_cons, asString, h1, h2, if_false,
    if_true, propertyFromNode_dot, liftExcept, M.pure, pure, FTSIndexNameOfProperty]

theorem FTSPropertyIndex_add (p : String) (q : State) (h : q.ftsTables = []) :
    FTSPropertyIndex (.array [.string ".", .string p]) true q
      = (.ok 1, { q with ftsTables := [q.tableName ++ "::." ++ p] }) := by
  simp only [FTSPropertyIndex, bind_apply, FTSIndexName_dot, getState, h, List.not_mem_nil,
    if_false, if_true, addFTSTable, List.length_nil, List.nil_append]

theorem FTSPropertyIndex_found (p : String) (q : State)
    (h : q.ftsTables = [q.tableName ++ "::." ++ p]) :
    FTSPropertyIndex (.array [.string ".", .string p]) false q = (.ok 1, q) := by
  simp only [FTSPropertyIndex, bind_apply, FTSIndexName_dot, getState, h, List.mem_singleton,
    if_true, findIndex1, pure, M.pure]

theorem findFTSProperties_match (p s : String) (q : State) (h : q.ftsTables = []) :
    findFTSProperties (.array [.string "MATCH", .array [.string ".", .string p], .string s]) q
      = (.ok (), { q with ftsTables := [q.tableName ++ "::." ++ p] }) := by
  have h1 : slice.eq (asString (some (Value.string "MATCH"))) (some "MATCH") = true := by decide
  rw [findFTSProperties, if_pos h1, bind_apply, FTSPropertyIndex_add p q h]
  simp only
  rw [findFTSPropertiesIn, bind_apply]
  have h2 : findFTSProperties (.string s) = pure () := by rw [findFTSProperties]; intros; contradiction
  rw [h2, findFTSPropertiesIn]
  rfl

/-- A string operand under an operation other than the column list is written quoted. -/
theorem parseNode_string (fuel : Nat) (s : String) (q : State) (back : OperationPtr)
    (hback : q.context.getLast? = some back) (hcol : back ≠ .kColumnListOperation) :
    parseNode (fuel + 1) (.string s) q = (.ok (), { q with sql := q.sql ++ sqlString s }) := by
  simp only [parseNode, parseNodeWith, bind_apply, contextBack_eq q back hback, hcol, if_false,
    writeSQLString, write]

theorem matchOp_eq (fuel : Nat) (p s : String) (q : State) (ctx : List OperationPtr)
    (hctx : q.context = ctx ++ [.kOperationList 22])
    (h : q.ftsTables = [q.tableName ++ "::." ++ p]) :
    matchOp (parseNode (fuel + 1)) "MATCH" [.array [.string ".", .string p], .string s] q
      = (.ok (), { q with sql := q.sql ++ ("(FTS1.text MATCH " ++ sqlString s
          ++ " AND FTS1.rowid = " ++ q.tableName ++ ".sequence)") }) := by
  have h1 : ToString.toString (1 : Nat) = "1" := by decide
  have hne : (1 : Nat) ≠ 0 := by decide
  have hs := fun (text : String) => parseNode_string fuel s { q with sql := text }
    (.kOperationList 22) (by simp [hctx]) (by decide)
  simp only [matchOp, bind_apply, List.get?_cons_zero, List.get?_cons_succ,
    FTSPropertyIndex_found p q h, hne, if_false, pure, M.pure, write, parseOperand, h1, hs,
    getState, String.append_assoc]
  rfl

/-- The MATCH expression of the claim, compiled with its FTS table registered. -/
theorem parseNode_match (fuel : Nat) (p s : String) (q : State) (enclosing : OperationPtr)
    (htop : q.context.getLast? = some enclosing)
    (hprec : parenthesize (.kOperationList 22) enclosing = false)
    (h : q.ftsTables = [q.tableName ++ "::." ++ p]) :
    parseNode (fuel + 2)
        (.array [.string "MATCH", .array [.string ".", .string p], .string s]) q
      = (.ok (), { q with sql := q.sql ++ ("(FTS1.text MATCH " ++ sqlString s
          ++ " AND FTS1.rowid = " ++ q.tableName ++ ".sequence)") }) := by
  have hl : lookUp "MATCH" (min [Value.array [.string ".", .string p], .string s].length 9)
      kOperationList 0 false = (22, true) := by
    show lookUp "MATCH" 2 kOperationList 0 false = (22, true)
    decide
  have hop : lookUpOperation "MATCH" [.array [.string ".", .string p], .string s]
      = .kOperationList 22 := by
    simp only [lookUpOperation, hl]
  rw [parseNode_succ_array, hl, hop]
  have hsome : (OperationPtr.kOperationList 22).deref.op.isSome = true := by decide
  simp only [hsome, Bool.not_true, Bool.false_eq_true, and_false, if_false]
  unfold handleOperation
  rw [handleOperationWith_eq _ _ enclosing q htop, hprec]
  have hh : (OperationPtr.kOperationList 22).deref.handler = some .matchOp := by decide
  rw [hh]
  have hc : ∀ operands, callHandler (parseNode (fuel + 1)) (some .matchOp) "MATCH" operands
      = matchOp (parseNode (fuel + 1)) "MATCH" operands := fun _ => rfl
  rw [hc, matchOp_eq fuel p s _ q.context (by simp [entered]) (by simpa [entered] using h)]
  simp [entered]

/-- C18: for every property path `p` and pattern `s`, `parse` of `["MATCH", [".", p], s]` on a
parser that has no FTS table yet writes a SELECT whose result columns are the base columns
followed by `offsets("<table>::.p")`, whose FROM clause is `<table>, "<table>::.p" AS FTS1`, and
whose WHERE text is `(FTS1.text MATCH <s quoted> AND FTS1.rowid = <table>.sequence)`, followed
by the default limit and offset, if any. -/
theorem parse_match (p s : String) (qp : State) (hfts : qp.ftsTables = []) :
    SQL (parse (.array [.string "MATCH", .array [.string ".", .string p], .string s]) qp)
      = .ok (qp.sql ++ "SELECT "
        ++ resultColumnsText 0 (qp.baseResultColumns
            ++ ["offsets(\"" ++ (qp.tableName ++ "::." ++ p) ++ "\")"])
        ++ " FROM " ++ (qp.tableName ++ ", \"" ++ (qp.tableName ++ "::." ++ p) ++ "\" AS FTS1")
        ++ " WHERE " ++ ("(FTS1.text MATCH " ++ sqlString s
          ++ " AND FTS1.rowid = " ++ qp.tableName ++ ".sequence)")
        ++ (if !qp.defaultLimit.isEmpty then " LIMIT " ++ qp.defaultLimit else "")
        ++ (if !qp.defaultOffset.isEmpty then " OFFSET " ++ qp.defaultOffset else "")) := by
  have hdepth : (Value.array [.string "MATCH", .array [.string ".", .string p],
      .string s]).depth = 2 := by
    simp [Value.depth, depthItems]
  have hsel : slice.eq (asString (some (Value.string "MATCH"))) (some "SELECT") = false := by
    decide
  have hfind := fun (q : State) (h : q.ftsTables = []) => findFTSProperties_match p s q h
  have hnode := fun (q : State) (enclosing : OperationPtr) htop hprec h =>
    parseNode_match 1 p s q enclosing htop hprec h
  have h1 : ToString.toString (0 + 1 : Nat) = "1" := by decide
  unfold parse
  rw [bind_apply]
  simp only [reset, hsel, Bool.false_eq_true, if_false, hdepth]
  unfold writeSelect
  rw [bind_apply]
  dsimp only
  rw [hfind { qp with context := [.kOuterOperation] } hfts]
  simp only [bind_apply, write, getState, setFirstCustomResultCol, Option.bind,
    pure, M.pure, List.length_append, List.length_singleton, List.length_cons, List.length_nil,
    Nat.add_one_ne_zero, if_false, Option.isSome, Bool.false_eq_true, List.map_cons,
    List.map_nil, ftsJoinsText, h1]
  rw [hnode _ .kOuterOperation]
  · cases hl : qp.defaultLimit.isEmpty <;> cases ho : qp.defaultOffset.isEmpty <;>
      simp only [SQL, write, bind_apply, pure, M.pure, String.append_assoc, Bool.not_true,
        Bool.not_false, Bool.false_eq_true, if_false, if_true, String.append_empty] <;> rfl
  · rfl
  · decide
  · rfl

/-- Witness of C18: the example `["MATCH", [".", "text"], "cat"]` on a new parser. -/
theorem parse_match_witness :
    exampleKeyParser.ftsTables = [] ∧
    SQL (parse exampleMatch exampleKeyParser)
      = .ok ("SELECT key, offsets(\"kv_default::.text\") FROM kv_default, "
        ++ "\"kv_default::.text\" AS FTS1 WHERE "
        ++ "(FTS1.text MATCH 'cat' AND FTS1.rowid = kv_default.sequence)") :=
  ⟨rfl, (parse_match "text" "cat" exampleKeyParser rfl).trans (by decide!)⟩

/-! ### The operation table -/

/-- C24, as stated, fails: the entry of `$` admits exactly one operand, not one to nine; a
parameter reference with two operands is refused for its number of arguments. -/
theorem kOperationList_parameter_arity :
    operatorTable ≠ statedOperatorList ∧
    (∀ d ∈ kOperationList, d.op = some "$" → d.minArgs = 1 ∧ d.maxArgs = 1 ∧ d.precedence = 9) ∧
    expressionSQL exampleParameterTwoOperands
      = .error (.invalidQuery "Wrong number of arguments to $") := by
  refine ⟨by decide, by decide, by decide!⟩

/-- C24, amended: the named entries of `kOperationList` are, in this order, the symbols of the
operator list with these arity windows and precedences: `.` and `?` 1-9, 9; `$` 1, 9;
MISSING 0, 9; `||` 2-9, 8; `*` 2-9, 7; `/` and `%` 2, 7; `+` 2-9, 6; binary `-` 2, 6; unary
`-` 1, 9; `<` `<=` `>` `>=` 2, 4; `=` `!=` IS, IS NOT 2, 3; IN and NOT IN 2-9, 3; LIKE 2, 3;
MATCH 2, 3; BETWEEN 3, 3; EXISTS 1, 8; NOT 1, 9; AND and OR 2-9, 2; ANY, EVERY, ANY AND
EVERY 3, 1; SELECT 1, 1; DESC 1, 2.  It differs from the stated list in the entry of `$`
only. -/
theorem kOperationList_table :
    operatorTable =
      [ (".", 1, 9, 9), ("$", 1, 1, 9), ("?", 1, 9, 9),
        ("MISSING", 0, 0, 9),
        ("||", 2, 9, 8),
        ("*", 2, 9, 7), ("/", 2, 2, 7), ("%", 2, 2, 7),
        ("+", 2, 9, 6), ("-", 2, 2, 6), ("-", 1, 1, 9),
        ("<", 2, 2, 4), ("<=", 2, 2, 4), (">", 2, 2, 4), (">=", 2, 2, 4),
        ("=", 2, 2, 3), ("!=", 2, 2, 3), ("IS", 2, 2, 3), ("IS NOT", 2, 2, 3),
        ("IN", 2, 9, 3), ("NOT IN", 2, 9, 3),
        ("LIKE", 2, 2, 3), ("MATCH", 2, 2, 3), ("BETWEEN", 3, 3, 3), ("EXISTS", 1, 1, 8),
        ("NOT", 1, 1, 9), ("AND", 2, 9, 2), ("OR", 2, 9, 2),
        ("ANY", 3, 3, 1), ("EVERY", 3, 3, 1), ("ANY AND EVERY", 3, 3, 1),
        ("SELECT", 1, 1, 1),
        ("DESC", 1, 1, 2) ] ∧
    kOperationList.length = 34 ∧
    kOperationList.get? 33 = some kFallbackOperation ∧
    ∀ i, i < 33 → operatorTable.get? i ≠ statedOperatorList.get? i → i = 1 := by
  refine ⟨by decide, by decide, by decide, by decide⟩

/-! ### Which entry the lookup selects -/

theorem slice_eq_some (op s : String) : slice.eq (some op) (some s) = true ↔ s = op := by
  simp only [slice.eq, slice.bytes, Option.getD_some, beq_iff_eq]
  exact eq_comm

/-- The lookup ends at the first entry that has the name of the operator and admits the number
of arguments, when all entries before it are named. -/
theorem lookUp_first (op : String) (nargs : Nat) :
    ∀ (l : List Operation) (i : Nat) (nameMatched : Bool) (k : Nat) (d : Operation),
      l.get? k = some d → d.op = some op → d.minArgs ≤ nargs ∧ nargs ≤ d.maxArgs →
      (∀ j e, j < k → l.get? j = some e → e.op.isSome = true ∧
        ¬ (e.op = some op ∧ e.minArgs ≤ nargs ∧ nargs ≤ e.maxArgs)) →
      lookUp op nargs l i nameMatched = (i + k, true) := by
  intro l
  induction l with
  | nil => intro i nm k d hd; simp at hd
  | cons e rest ih =>
    intro i nm k d hd hop hfit hbefore
    cases k with
    | zero =>
      simp only [List.get?_cons_zero, Option.some.injEq] at hd
      subst hd
      unfold lookUp
      simp [hop, slice_eq_some, hfit.1, hfit.2]
    | succ k =>
      simp only [List.get?_cons_succ] at hd
      obtain ⟨hs, hno⟩ := hbefore 0 e (Nat.succ_pos k) rfl
      have hrest : ∀ j e2, j < k → rest.get? j = some e2 → e2.op.isSome = true ∧
          ¬ (e2.op = some op ∧ e2.minArgs ≤ nargs ∧ nargs ≤ e2.maxArgs) :=
        fun j e2 hj he2 => hbefore (j + 1) e2 (Nat.succ_lt_succ hj) (by simpa using he2)
      unfold lookUp
      simp only [hs, Bool.not_true, Bool.false_eq_true, if_false]
      cases heo : e.op with
      | none => rw [heo] at hs; cases hs
      | some s =>
        by_cases hname : s = op
        · have hnf : ¬ (e.minArgs ≤ nargs ∧ nargs ≤ e.maxArgs) :=
            fun hf => hno ⟨by rw [heo, hname], hf⟩
          simp only [(slice_eq_some op s).2 hname, if_true, hnf, if_false]
          rw [ih (i + 1) true k d hd hop hfit hrest]
          simp only [Prod.mk.injEq, and_true]
          omega
        · have hne : slice.eq (some op) (some s) = false := by
            cases h : slice.eq (some op) (some s) with
            | false => rfl
            | true => exact absurd ((slice_eq_some op s).1 h) hname
          simp only [hne, Bool.false_eq_true, if_false]
          rw [ih (i + 1) nm k d hd hop hfit hrest]
          simp only [Prod.mk.injEq, and_true]
          omega

/-- The lookup runs to the end marker when no entry has the name of the operator and admits
the number of arguments; a name was matched if some entry has the name. -/
theorem lookUp_none (op : String) (nargs : Nat) :
    ∀ (l : List Operation) (i : Nat) (nameMatched : Bool),
      (∀ e ∈ l, ¬ (e.op = some op ∧ e.minArgs ≤ nargs ∧ nargs ≤ e.maxArgs)) →
      lookUp op nargs l i nameMatched
        = (i + (l.takeWhile fun d => d.op.isSome).length,
            nameMatched || (l.takeWhile fun d => d.op.isSome).any fun d => d.op == some op) := by
  intro l
  induction l with
  | nil => intro i nm _; simp [lookUp]
  | cons e rest ih =>
    intro i nm h
    have hrest : ∀ e2 ∈ rest, ¬ (e2.op = some op ∧ e2.minArgs ≤ nargs ∧ nargs ≤ e2.maxArgs) :=
      fun e2 he2 => h e2 (List.mem_cons_of_mem _ he2)
    unfold lookUp
    cases heo : e.op with
    | none => simp [heo]
    | some s =>
      simp only [Option.isSome_some, Bool.not_true, Bool.false_eq_true, if_false,
        List.takeWhile_cons, heo, if_true, List.length_cons, List.any_cons]
      by_cases hname : s = op
      · have hnf : ¬ (e.minArgs ≤ nargs ∧ nargs ≤ e.maxArgs) :=
          fun hf => h e (List.mem_cons_self _ _) ⟨by rw [heo, hname], hf⟩
        simp only [(slice_eq_some op s).2 hname, if_true, hnf, if_false]
        rw [ih (i + 1) true hrest]
        simp only [Prod.mk.injEq, hname, beq_self_eq_true, Bool.true_or, Bool.or_true, and_true]
        omega
      · have hne : slice.eq (some op) (some s) = false := by
          cases h2 : slice.eq (some op) (some s) with
          | false => rfl
          | true => exact absurd ((slice_eq_some op s).1 h2) hname
        have hne2 : (some s == some op) = false := by simpa using hname
        simp only [hne, Bool.false_eq_true, if_false]
        rw [ih (i + 1) nm hrest]
        simp only [Prod.mk.injEq, hne2, Bool.false_or, and_true]
        omega

theorem kOperationList_named :
    ∀ j e, kOperationList.get? j = some e → (e.op.isSome = true ↔ j < 33) := by
  intro j e h
  have hj : j < 34 := by
    have := List.get?_eq_some.1 h
    obtain ⟨hlt, _⟩ := this
    exact hlt
  have hall : ∀ j < 34, ∀ e, kOperationList.get? j = some e → (e.op.isSome = true ↔ j < 33) := by
    decide
  exact hall j hj e h

theorem kOperationList_takeWhile :
    (kOperationList.takeWhile fun d => d.op.isSome) = kOperationList.take 33 := by
  decide


/-- C22, as stated, fails: no entry of `+` has an arity window that contains the operand count
ten, and the application of `+` to ten operands is compiled all the same; `parseOpNode` tests
the windows against the operand count capped at nine. -/
theorem lookUp_caps_operand_count :
    (∃ d ∈ kOperationList, d.op = some "+") ∧
    (∀ d ∈ kOperationList, ¬ (d.op = some "+" ∧ d.minArgs ≤ 10 ∧ 10 ≤ d.maxArgs)) ∧
    expressionSQL exampleSumOfTen = .ok "0 + 1 + 2 + 3 + 4 + 5 + 6 + 7 + 8 + 9" := by
  refine ⟨by decide, by decide, by decide!⟩

/-- C22, amended: `parseOpNode` selects the first entry of `kOperationList` whose symbol equals
the first element of the node and whose arity window contains the operand count capped at 9
(`min(count, 9)`), and hands it to `handleOperation`; if the symbol occurs in the table and no
such entry exists, it fails with the wrong-number-of-arguments error; if the symbol does not
occur, it hands the last entry, the fallback, to `handleOperation`.  `-` with one operand
selects the prefix entry (precedence 9), with two operands the infix entry (precedence 6), and
with three operands is an error; an empty sequence and a sequence whose first element is not a
string are rejected. -/
theorem parseOpNode_selects (fuel : Nat) (op : String) (operands : List Value) :
    (∀ i d, kOperationList.get? i = some d → d.op = some op →
      d.minArgs ≤ min operands.length 9 ∧ min operands.length 9 ≤ d.maxArgs →
      (∀ j e, j < i → kOperationList.get? j = some e →
        ¬ (e.op = some op ∧ e.minArgs ≤ min operands.length 9
          ∧ min operands.length 9 ≤ e.maxArgs)) →
      (OperationPtr.kOperationList i).deref = d ∧
      parseNode (fuel + 1) (.array (.string op :: operands))
        = handleOperation (parseNode fuel) (.kOperationList i) op operands) ∧
    ((∃ d ∈ kOperationList, d.op = some op) →
      (∀ d ∈ kOperationList, ¬ (d.op = some op ∧ d.minArgs ≤ min operands.length 9
        ∧ min operands.length 9 ≤ d.maxArgs)) →
      ∀ qp, parseNode (fuel + 1) (.array (.string op :: operands)) qp
        = (.error (.invalidQuery ("Wrong number of arguments to " ++ op)), qp)) ∧
    ((∀ d ∈ kOperationList, d.op ≠ some op) →
      (OperationPtr.kOperationList 33).deref = kFallbackOperation ∧
      parseNode (fuel + 1) (.array (.string op :: operands))
        = handleOperation (parseNode fuel) (.kOperationList 33) op operands) ∧
    (∀ a, lookUpOperation "-" [a] = .kOperationList 10) ∧
    (OperationPtr.kOperationList 10).deref = ⟨some "-", 1, 1, 9, some .prefixOp⟩ ∧
    (∀ a b, lookUpOperation "-" [a, b] = .kOperationList 9) ∧
    (OperationPtr.kOperationList 9).deref = ⟨some "-", 2, 2, 6, some .infixOp⟩ ∧
    (∀ a b c qp, parseNode (fuel + 1) (.array [.string "-", a, b, c]) qp
      = (.error (.invalidQuery "Wrong number of arguments to -"), qp)) ∧
    expressionSQL (.array [.string "-", .int 5]) = .ok "-5" ∧
    expressionSQL (.array [.string "-", .int 5, .int 3]) = .ok "5 - 3" ∧
    (∀ qp, parseNode (fuel + 1) (.array []) qp
      = (.error (.invalidQuery "Empty JSON array"), qp)) ∧
    (∀ first rest qp, asString (some first) = none →
      parseNode (fuel + 1) (.array (first :: rest)) qp
        = (.error (.invalidQuery "Operation must be a string"), qp)) := by
  refine ⟨?_, ?_, ?_, fun _ => rfl, rfl, fun _ _ => rfl, rfl, fun _ _ _ _ => rfl, by decide!,
    by decide!, fun _ => rfl, ?_⟩
  · intro i d hd hop hfit hbefore
    have hi : i < 33 := (kOperationList_named i d hd).1 (by rw [hop]; rfl)
    have hl : lookUp op (min operands.length 9) kOperationList 0 false = (0 + i, true) :=
      lookUp_first op _ kOperationList 0 false i d hd hop hfit
        (fun j e hj he => ⟨(kOperationList_named j e he).2 (by omega), hbefore j e hj he⟩)
    rw [Nat.zero_add] at hl
    have hderef : (OperationPtr.kOperationList i).deref = d := by
      simp only [OperationPtr.deref, List.getD_eq_getElem?_getD, ← List.get?_eq_getElem?, hd,
        Option.getD_some]
    refine ⟨hderef, ?_⟩
    rw [parseNode_succ_array]
    have hop2 : lookUpOperation op operands = .kOperationList i := by
      simp only [lookUpOperation, hl]
    rw [hop2, hderef, hl, hop]
    simp
  · rintro ⟨d, hd, hop⟩ hnone qp
    have hl := lookUp_none op (min operands.length 9) kOperationList 0 false hnone
    rw [kOperationList_takeWhile] at hl
    have hany : ((kOperationList.take 33).any fun d => d.op == some op) = true := by
      rw [List.any_eq_true]
      refine ⟨d, ?_, by simp [hop]⟩
      obtain ⟨k, hk⟩ := List.get?_of_mem hd
      have hk33 : k < 33 := (kOperationList_named k d hk).1 (by rw [hop]; rfl)
      have : (kOperationList.take 33).get? k = some d := by
        rw [List.get?_eq_getElem?, List.getElem?_take_of_lt hk33, ← List.get?_eq_getElem?, hk]
      exact List.get?_mem this
    rw [hany] at hl
    have hl2 : lookUp op (min operands.length 9) kOperationList 0 false = (33, true) := by
      rw [hl]; rfl
    rw [parseNode_succ_array]
    have hop2 : lookUpOperation op operands = .kOperationList 33 := by
      simp only [lookUpOperation, hl2]
    rw [hop2, hl2]
    rfl
  · intro hno
    have hl : lookUp op (min operands.length 9) kOperationList 0 false = (33, false) := by
      apply lookUp_fallback
      intro d hd hs
      cases hdo : d.op with
      | none => rw [hdo] at hs; cases hs
      | some s =>
        cases h : slice.eq (some op) (some s) with
        | false => rfl
        | true =>
          exact absurd (by rw [hdo, (slice_eq_some op s).1 h]) (hno d hd)
    refine ⟨rfl, ?_⟩
    rw [parseNode_succ_array]
    have hop2 : lookUpOperation op operands = .kOperationList 33 := by
      simp only [lookUpOperation, hl]
    rw [hop2, hl]
    rfl
  · intro first rest qp h
    cases first <;> first | rfl | (simp [asString] at h)


/-! ### Operators with any number of operands -/

theorem parseOperand_some (parseNode : Value → M Unit) (operands : List Value) (i : Nat)
    (q q' : State) (h : parseOperand parseNode operands i q = (.ok (), q')) :
    ∃ x, operands.get? i = some x ∧ parseNode x q = (.ok (), q') := by
  unfold parseOperand at h
  cases hx : operands.get? i with
  | none => rw [hx] at h; simp [raise] at h
  | some x => rw [hx] at h; exact ⟨x, rfl, h⟩

/-- The handler `inOp`: the first operand is compiled, and the other operands are compiled in
turn as an argument list, which is written between parentheses after the operator. -/
theorem inOp_spec (parseNode : Value → M Unit) (hpn : ∀ node, Same (parseNode node))
    (op : String) (operands : List Value) (back : OperationPtr) (q q' : State)
    (hback : q.context.getLast? = some back) (hprec : (-2 : Int) ≤ back.deref.precedence)
    (h : inOp parseNode op operands q = (.ok (), q')) :
    ∃ (first : String) (texts : List String), texts.length + 1 = operands.length ∧
      q'.sql = q.sql ++ (first ++ " " ++ op ++ " (" ++ String.intercalate ", " texts ++ ")") ∧
      (∃ x q1, operands.get? 0 = some x ∧ parseNode x q = (.ok (), q1)
        ∧ q1.sql = q.sql ++ first) ∧
      ∀ j x, operands.get? (j + 1) = some x →
        ∃ t qj qj', texts.get? j = some t ∧ parseNode x qj = (.ok (), qj')
          ∧ qj'.sql = qj.sql ++ t := by
  unfold inOp at h
  rw [bind_apply] at h
  cases h0 : parseOperand parseNode operands 0 q with
  | mk r q1 =>
    rw [h0] at h
    cases r with
    | error e => simp at h
    | ok a =>
      obtain ⟨x, hx, hx2⟩ := parseOperand_some parseNode operands 0 q q1 h0
      obtain ⟨first, hfirst⟩ := (hpn x).appends q
      have hctx1 := (hpn x).context q () (by rw [hx2])
      rw [hx2] at hfirst hctx1
      simp only at hfirst hctx1
      simp only [bind_apply, write] at h
      have hback2 : ({ q1 with sql := q1.sql ++ (" " ++ op ++ " ") } : State).context.getLast?
          = some back := by
        show q1.context.getLast? = some back
        rw [hctx1]; exact hback
      obtain ⟨body, q2, hcall, hq2, hsql, _⟩ :=
        handleOperationWith_spec _ .kArgListOperation back _ q' hback2
          (top_of_same (same_infixOp parseNode hpn _ _)) h
      obtain ⟨texts, hlen, hsql2, _, hops⟩ :=
        infixOpLoop_spec parseNode hpn _ (operands.drop 1) 0 _ q2 hcall
      simp only [if_true] at hsql2
      rw [hq2] at hsql2
      have hbody := String_append_cancel _ _ _ hsql2
      have hsep : separator kArgListOperation.op.bytes = ", " := by decide
      rw [hsep] at hbody
      have hp : (OperationPtr.kArgListOperation).deref.precedence ≤ back.deref.precedence :=
        hprec
      refine ⟨first, texts, ?_, ?_, ⟨x, q1, hx, hx2, hfirst⟩, ?_⟩
      · rw [hlen, List.length_drop]
        have : 0 < operands.length := by
          cases operands with
          | nil => simp at hx
          | cons _ _ => simp
        omega
      · rw [hsql]
        simp only [hp, if_true, hfirst, hbody, String.append_assoc]
        rfl
      · intro j y hy
        have hy2 : (operands.drop 1).get? j = some y := by
          rw [List.get?_eq_getElem?, List.getElem?_drop, Nat.add_comm, ← List.get?_eq_getElem?]
          exact hy
        obtain ⟨t, qj, qj', h1, _, h3, h4⟩ := hops j y hy2
        exact ⟨t, qj, qj', h1, h3, h4⟩

theorem variadic_entries_checked :
    ∀ op ∈ ["IN", "NOT IN", "AND", "OR", "*", "+", "||"], ∀ n, n < 10 → 2 ≤ n →
      (lookUp op n kOperationList 0 false).2 = true ∧
      (kOperationList.get? (lookUp op n kOperationList 0 false).1).any (fun d =>
        d.op == some op && d.minArgs == 2 && d.maxArgs == 9 && decide (0 ≤ d.precedence)
          && (d.handler == some .infixOp || d.handler == some .inOp)) = true := by
  decide

theorem variadic_entries (op : String)
    (hop : op ∈ ["IN", "NOT IN", "AND", "OR", "*", "+", "||"]) (n : Nat) (h10 : n < 10)
    (h2 : 2 ≤ n) :
    ∃ i, lookUp op n kOperationList 0 false = (i, true) ∧
      ∃ d, kOperationList.get? i = some d ∧ d.op = some op ∧ d.minArgs = 2 ∧ d.maxArgs = 9
        ∧ 0 ≤ d.precedence
        ∧ (d.handler = some .infixOp ∨ d.handler = some .inOp) := by
  obtain ⟨h1, h3⟩ := variadic_entries_checked op hop n h10 h2
  refine ⟨(lookUp op n kOperationList 0 false).1, Prod.ext rfl h1, ?_⟩
  cases hg : kOperationList.get? (lookUp op n kOperationList 0 false).1 with
  | none => rw [hg] at h3; simp at h3
  | some d =>
    rw [hg] at h3
    simp only [Option.any_some, Bool.and_eq_true, beq_iff_eq, decide_eq_true_eq,
      Bool.or_eq_true] at h3
    obtain ⟨⟨⟨⟨a, b⟩, c⟩, e⟩, f⟩ := h3
    exact ⟨d, rfl, a, b, c, e, f⟩

/-- C23, as stated, fails: `AND` applied to ten operands and `IN` applied to eleven are
compiled, with all their operands. -/
theorem variadic_ten_operands_compiled :
    expressionSQL exampleConjunctionOfTen
      = .ok "0 AND 1 AND 2 AND 3 AND 4 AND 5 AND 6 AND 7 AND 8 AND 9" ∧
    expressionSQL exampleInOfEleven = .ok "0 IN (1, 2, 3, 4, 5, 6, 7, 8, 9, 10)" := by
  refine ⟨by decide!, by decide!⟩

/-- C23, amended: the cap of 9 applies to the operand count only as the arity test reads it
(`min(count, 9)`), and is no upper bound on the number of operands: a variadic operator (IN,
NOT IN, AND, OR, `*`, `+`, `||`, whose entry has the window 2-9) applied to two or more
operands, also to more than 9, is handed to the handler of its entry and never refused for its
number of arguments; when the compilation succeeds, every operand is compiled, and the text is
the texts of all operands joined by the operator (for IN and NOT IN: the text of the first
operand, the operator, and the texts of the other operands as a parenthesized list), between
the parentheses of `handleOperation` if the enclosing operation calls for them. -/
theorem parseOpNode_variadic (fuel : Nat) (op : String) (operands : List Value)
    (hop : op ∈ ["IN", "NOT IN", "AND", "OR", "*", "+", "||"])
    (hn : 2 ≤ operands.length) :
    ∃ i d, kOperationList.get? i = some d ∧ d.op = some op ∧ d.minArgs = 2 ∧ d.maxArgs = 9 ∧
      lookUpOperation op operands = .kOperationList i ∧
      parseNode (fuel + 1) (.array (.string op :: operands))
        = handleOperation (parseNode fuel) (.kOperationList i) op operands ∧
      ∀ qp qp' enclosing, qp.context.getLast? = some enclosing →
        parseNode (fuel + 1) (.array (.string op :: operands)) qp = (.ok (), qp') →
        ∃ (body : String) (texts : List String),
          texts.length = operands.length ∧
          (∀ j x, operands.get? j = some x →
            ∃ t qj qj', texts.get? j = some t ∧ parseNode fuel x qj = (.ok (), qj')
              ∧ qj'.sql = qj.sql ++ t) ∧
          qp'.sql = qp.sql ++
            (if parenthesize (.kOperationList i) enclosing then "(" ++ body ++ ")" else body) ∧
          (d.handler = some .infixOp → body = String.intercalate (" " ++ op ++ " ") texts) ∧
          (d.handler = some .inOp → body = texts.headD "" ++ " " ++ op ++ " ("
            ++ String.intercalate ", " texts.tail ++ ")") := by
  obtain ⟨i, hl, d, hd, hdop, hmin, hmax, hprec, hh⟩ :=
    variadic_entries op hop (min operands.length 9) (by omega) (by omega)
  have hlo : lookUpOperation op operands = .kOperationList i := by
    simp only [lookUpOperation, hl]
  have hderef : (OperationPtr.kOperationList i).deref = d := by
    simp only [OperationPtr.deref, List.getD_eq_getElem?_getD, ← List.get?_eq_getElem?, hd,
      Option.getD_some]
  have hparse : parseNode (fuel + 1) (.array (.string op :: operands))
      = handleOperation (parseNode fuel) (.kOperationList i) op operands := by
    rw [parseNode_succ_array, hlo, hderef, hl, hdop]
    simp
  refine ⟨i, d, hd, hdop, hmin, hmax, hlo, hparse, ?_⟩
  intro qp qp' enclosing htop h
  obtain ⟨body, q2, hcall, hq2, hsql, _⟩ :=
    parseNode_operation fuel op operands enclosing qp qp' htop h
  rw [hlo, hderef] at hcall hq2 hsql
  have hsql' : qp'.sql = qp.sql ++
      (if parenthesize (.kOperationList i) enclosing then "(" ++ body ++ ")" else body) := by
    rw [hsql]
    simp only [parenthesize, decide_eq_true_eq, hderef]
  rcases hh with hh | hh
  · rw [hh] at hcall
    obtain ⟨texts, hlen, hsql2, _, hops⟩ :=
      infixOpLoop_spec (parseNode fuel) (same_parseNode fuel) op operands 0 _ q2 hcall
    simp only [if_true] at hsql2
    rw [hq2] at hsql2
    have hne : op ≠ "," := by
      intro hc
      subst hc
      revert hop
      decide
    refine ⟨body, texts, hlen, ?_, hsql', ?_, ?_⟩
    · intro j x hx
      obtain ⟨t, qj, qj', h1, _, h3, h4⟩ := hops j x hx
      exact ⟨t, qj, qj', h1, h3, h4⟩
    · intro _
      rw [← separator_eq op hne]
      exact String_append_cancel _ _ _ hsql2
    · intro hc
      rw [hh] at hc
      cases hc
  · rw [hh] at hcall
    have hback : (entered (.kOperationList i)
        (decide (d.precedence ≤ enclosing.deref.precedence)) qp).context.getLast?
        = some (.kOperationList i) := by
      simp [entered]
    obtain ⟨first, texts, hlen, hsql2, ⟨x0, q1, hx0, hx1, hx2⟩, hops⟩ :=
      inOp_spec (parseNode fuel) (same_parseNode fuel) op operands (.kOperationList i) _ q2
        hback (by rw [hderef]; omega) hcall
    rw [hq2] at hsql2
    have hbody := String_append_cancel _ _ _ hsql2
    refine ⟨body, first :: texts, by simp [hlen], ?_, hsql', ?_, ?_⟩
    · intro j x hx
      cases j with
      | zero =>
        rw [hx0] at hx
        simp only [Option.some.injEq] at hx
        subst hx
        exact ⟨first, _, q1, rfl, hx1, hx2⟩
      | succ j =>
        obtain ⟨t, qj, qj', h1, h3, h4⟩ := hops j x hx
        exact ⟨t, qj, qj', by simpa using h1, h3, h4⟩
    · intro hc
      rw [hh] at hc
      cases hc
    · intro _
      rw [hbody]
      rfl

/-- Witness of C23: `AND` applied to the ten operands `0, ..., 9`. -/
theorem parseOpNode_variadic_witness :
    "AND" ∈ ["IN", "NOT IN", "AND", "OR", "*", "+", "||"] ∧
    2 ≤ ((List.range 10).map fun i => Value.int i).length ∧
    ∃ i d, kOperationList.get? i = some d ∧ d.op = some "AND" ∧ d.minArgs = 2 ∧ d.maxArgs = 9 ∧
      lookUpOperation "AND" ((List.range 10).map fun i => Value.int i) = .kOperationList i ∧
      parseNode 2 (.array (.string "AND" :: (List.range 10).map fun i => Value.int i))
        = handleOperation (parseNode 1) (.kOperationList i) "AND"
            ((List.range 10).map fun i => Value.int i) := by
  obtain ⟨i, d, h1, h2, h3, h4, h5, h6, _⟩ :=
    parseOpNode_variadic 1 "AND" ((List.range 10).map fun i => Value.int i) (by decide)
      (by decide)
  exact ⟨by decide, by decide, i, d, h1, h2, h3, h4, h5, h6⟩

/-! ### Leaf nodes -/

/-- C28: what `parseNode` writes for a leaf node.  Null gives the empty-blob literal `x''`
(not the keyword NULL), true gives `1` and false `0`, a number its decimal text, a string the
SQL-quoted literal unless the column-list operation is on top of the context stack, and there
the property getter of the string without its leading `.`; a string that does not start with
`.` fails there.  A binary blob and a mapping fail with an invalid-query error.  In every
successful case the members change only by the text appended. -/
theorem parseNode_leaf (fuel : Nat) (qp : State) :
    parseNode (fuel + 1) .null qp = (.ok (), { qp with sql := qp.sql ++ "x''" }) ∧
    "x''" ≠ "NULL" ∧
    parseNode (fuel + 1) (.bool true) qp = (.ok (), { qp with sql := qp.sql ++ "1" }) ∧
    parseNode (fuel + 1) (.bool false) qp = (.ok (), { qp with sql := qp.sql ++ "0" }) ∧
    (∀ i : Int, parseNode (fuel + 1) (.int i) qp
      = (.ok (), { qp with sql := qp.sql ++ ToString.toString i })) ∧
    (∀ text : String, parseNode (fuel + 1) (.double text) qp
      = (.ok (), { qp with sql := qp.sql ++ text })) ∧
    (∀ (s : String) (back : OperationPtr), qp.context.getLast? = some back →
      back ≠ .kColumnListOperation →
      parseNode (fuel + 1) (.string s) qp
        = (.ok (), { qp with sql := qp.sql ++ sqlString s })) ∧
    (∀ s : String, qp.context.getLast? = some .kColumnListOperation →
      (s.data.head? = some '.' →
        parseNode (fuel + 1) (.string s) qp
          = writePropertyGetter "fl_value" (String.mk (s.data.drop 1)) qp) ∧
      (s.data.head? ≠ some '.' →
        parseNode (fuel + 1) (.string s) qp
          = (.error (.invalidQuery "Invalid property name; must start with '.'"), qp))) ∧
    (∀ name : String, qp.context.getLast? = some .kColumnListOperation →
      name ≠ "_id" → name ≠ "_sequence" →
      parseNode (fuel + 1) (.string ("." ++ name)) qp
        = (.ok (), { qp with sql := qp.sql ++ ("fl_value(" ++ qp.bodyColumnName ++ ", "
            ++ sqlString (appendPaths qp.propertyPath name) ++ ")") })) ∧
    (∀ bytes : String, parseNode (fuel + 1) (.data bytes) qp
      = (.error (.invalidQuery "Binary data not supported in query"), qp)) ∧
    (∀ entries : List (String × Value), parseNode (fuel + 1) (.dict entries) qp
      = (.error (.invalidQuery "Dictionaries not supported in query"), qp)) ∧
    SQL (parseNode 1 (.int (-3)) exampleParser) = .ok "-3" ∧
    SQL (parseNode 1 (.string "it's") exampleParser) = .ok "'it''s'" ∧
    SQL (parseNode 1 (.string ".name") exampleColumnListParser)
      = .ok "fl_value(body, 'name')" ∧
    SQL (parseNode 1 (.string "name") exampleColumnListParser)
      = .error (.invalidQuery "Invalid property name; must start with '.'") := by
  have hcol : ∀ s : String, qp.context.getLast? = some .kColumnListOperation →
      parseNode (fuel + 1) (.string s) qp = writeStringLiteralAsProperty s qp := by
    intro s hback
    simp only [parseNode, parseNodeWith, bind_apply,
      contextBack_eq qp .kColumnListOperation hback, if_true]
  refine ⟨rfl, by decide, rfl, rfl, fun _ => rfl, fun _ => rfl,
    fun s back hback hne => parseNode_string fuel s qp back hback hne, ?_, ?_,
    fun _ => rfl, fun _ => rfl, by decide!, by decide!, by decide!, by decide!⟩
  · intro s hback
    rw [hcol s hback]
    unfold writeStringLiteralAsProperty
    constructor
    · intro hdot
      have hlen : s.length ≠ 0 := by
        show s.data.length ≠ 0
        intro h0
        rw [List.length_eq_zero.1 h0] at hdot
        simp at hdot
      simp only [hlen, hdot, ne_eq, not_true_eq_false, or_self, if_false]
    · intro hdot
      simp only [hdot, ne_eq, not_false_eq_true, or_true, if_true]
      rfl
  · intro name hback hid hseq
    rw [hcol _ hback]
    unfold writeStringLiteralAsProperty
    have hlen : ("." ++ name).length ≠ 0 := by
      rw [dot_append_length]; omega
    simp only [hlen, dot_append_data, List.head?_cons, ne_eq, not_true_eq_false, or_self,
      if_false, List.drop_succ_cons, List.drop_zero]
    exact writePropertyGetter_eq "fl_value" name qp (by decide) hid hseq

/-! ### Property references -/

theorem singleton_append_data (c : Char) (v : String) :
    (String.mk [c] ++ v).data = c :: v.data := by
  rw [String.data_append]
  rfl

/-- A symbol that starts with `c` and is longer than `c` is no name of `kOperationList`, when
`c` alone is the only name of the table that starts with `c`. -/
theorem lookUp_shorthand (c : Char) (v : String) (nargs : Nat) (hv : v ≠ "")
    (htable : ∀ d ∈ kOperationList,
      d.op = some (String.mk [c]) ∨ d.op.bytes.data.head? ≠ some c) :
    lookUp (String.mk [c] ++ v) nargs kOperationList 0 false = (33, false) := by
  apply lookUp_fallback
  intro d hd hs
  cases hdo : d.op with
  | none => rw [hdo] at hs; cases hs
  | some s =>
    simp only [slice.eq, slice.bytes, Option.getD_some, beq_eq_false_iff_ne, ne_eq]
    intro heq
    rcases htable d hd with h1 | h1
    · rw [hdo] at h1
      simp only [Option.some.injEq] at h1
      rw [h1] at heq
      have h2 := congrArg String.data heq
      rw [singleton_append_data] at h2
      simp only [List.cons.injEq, true_and] at h2
      exact hv (String.ext h2)
    · rw [hdo] at h1
      simp only [slice.bytes, Option.getD_some] at h1
      rw [← heq, singleton_append_data] at h1
      simp at h1

theorem kOperationList_dot :
    ∀ d ∈ kOperationList, d.op = some (String.mk ['.']) ∨ d.op.bytes.data.head? ≠ some '.' := by
  decide

theorem kOperationList_dollar :
    ∀ d ∈ kOperationList, d.op = some (String.mk ['$']) ∨ d.op.bytes.data.head? ≠ some '$' := by
  decide

theorem lookUp_property_shorthand (p : String) (nargs : Nat) (hp : p ≠ "") :
    lookUp ("." ++ p) nargs kOperationList 0 false = (33, false) :=
  lookUp_shorthand '.' p nargs hp kOperationList_dot

theorem lookUp_parameter_shorthand (n : String) (nargs : Nat) (hn : n ≠ "") :
    lookUp ("$" ++ n) nargs kOperationList 0 false = (33, false) :=
  lookUp_shorthand '$' n nargs hn kOperationList_dollar

/-- The long form `.` of a property reference, with at least one operand, is looked up as the
entry of `propertyOp`. -/
theorem lookUp_property (nargs : Nat) (h1 : 1 ≤ nargs) (h9 : nargs ≤ 9) :
    lookUp "." nargs kOperationList 0 false = (0, true) := by
  have h : ∀ n < 10, 1 ≤ n → lookUp "." n kOperationList 0 false = (0, true) := by decide
  exact h nargs (by omega) h1

theorem fallbackOp_property (parseNode : Value → M Unit) (p : String) (operands : List Value)
    (back : OperationPtr) (q : State) (hback : q.context.getLast? = some back) :
    fallbackOp parseNode ("." ++ p) operands q
      = writePropertyGetter "fl_value" p { q with context := q.context.dropLast
          ++ [.localOperation { back.deref with op := some ("." ++ p) }] } := by
  unfold fallbackOp
  rw [bind_apply, contextBack_eq q back hback]
  simp only [bind_apply, setContextBack, dot_append_data, List.head?_cons, if_true,
    List.drop_succ_cons, List.drop_zero]

/-- What `writePropertyGetter` writes for the function `fl_value`. -/
theorem writePropertyGetter_fl_value (p : String) (q : State) :
    writePropertyGetter "fl_value" p q = (.ok (), { q with sql := q.sql ++
      (if p = "_id" then "key" else if p = "_sequence" then "sequence"
        else "fl_value(" ++ q.bodyColumnName ++ ", "
          ++ sqlString (appendPaths q.propertyPath p) ++ ")") }) := by
  by_cases hid : p = "_id"
  · subst hid; rfl
  · by_cases hseq : p = "_sequence"
    · subst hseq; rfl
    · rw [writePropertyGetter_eq "fl_value" p q (by decide) hid hseq]
      simp only [hid, hseq, if_false]
      rfl

/-- The handler that `parseOpNode` calls for a property reference ends in
`writePropertyGetter` for `fl_value`, run on the members as `handleOperation` leaves them, with
some context stack above the one of `qp`. -/
theorem callHandler_property (fuel : Nat) (op : String) (operands : List Value) (p : String)
    (enclosing : OperationPtr) (qp : State)
    (hform : (op = "." ∧ operands ≠ [] ∧ propertyFromOperands operands = .ok p)
      ∨ (op = "." ++ p ∧ p ≠ "")) :
    parseNode (fuel + 1) (.array (.string op :: operands))
      = handleOperation (parseNode fuel) (lookUpOperation op operands) op operands ∧
    ∃ ctx, ctx.dropLast = qp.context ∧
      callHandler (parseNode fuel) (lookUpOperation op operands).deref.handler op operands
          (entered (lookUpOperation op operands)
            (parenthesize (lookUpOperation op operands) enclosing) qp)
        = writePropertyGetter "fl_value" p { qp with
            context := ctx
            sql := qp.sql ++
              if parenthesize (lookUpOperation op operands) enclosing then "(" else "" } := by
  rcases hform with ⟨h1, h2, h3⟩ | ⟨h1, h2⟩
  · subst h1
    have hlen : 1 ≤ min operands.length 9 := by
      cases operands with
      | nil => exact absurd rfl h2
      | cons _ _ => simp only [List.length_cons]; omega
    have hl : lookUp "." (min operands.length 9) kOperationList 0 false = (0, true) :=
      lookUp_property _ hlen (by omega)
    have hop : lookUpOperation "." operands = .kOperationList 0 := by
      simp only [lookUpOperation, hl]
    refine ⟨?_, qp.context ++ [.kOperationList 0], by simp, ?_⟩
    · rw [parseNode_succ_array, hl, hop]
      rfl
    · rw [hop]
      show propertyOp "." operands _ = _
      unfold propertyOp
      rw [bind_apply, h3]
      rfl
  · subst h1
    have hl : lookUp ("." ++ p) (min operands.length 9) kOperationList 0 false = (33, false) :=
      lookUp_property_shorthand p _ h2
    have hop : lookUpOperation ("." ++ p) operands = .kOperationList 33 := by
      simp only [lookUpOperation, hl]
    refine ⟨?_, qp.context ++ [.localOperation
      { (OperationPtr.kOperationList 33).deref with op := some ("." ++ p) }], by simp, ?_⟩
    · rw [parseNode_succ_array, hl, hop]
      rfl
    · rw [hop]
      have hh : (OperationPtr.kOperationList 33).deref.handler = some .fallbackOp := rfl
      rw [hh]
      show fallbackOp (parseNode fuel) ("." ++ p) operands _ = _
      rw [fallbackOp_property (parseNode fuel) p operands (.kOperationList 33) _
        (by simp [entered])]
      simp [entered]

/-- C29, as stated, fails: the property reference with the path `$.name` compiles to a lookup
of `name`, not of `$.name`, because `appendPaths` strips a leading `$.`; and the reference with
the path `$._id` compiles to a body lookup of `_id`. -/
theorem propertyOp_strips_root :
    propertyFromNode exampleRootedProperty = .ok "$.name" ∧
    expressionSQL exampleRootedProperty = .ok "fl_value(body, 'name')" ∧
    expressionSQL exampleRootedProperty ≠ .ok ("fl_value(body, " ++ sqlString "$.name" ++ ")") ∧
    propertyFromNode exampleRootedId = .ok "$._id" ∧
    expressionSQL exampleRootedId = .ok "fl_value(body, '_id')" := by
  refine ⟨by decide, by decide!, by decide!, by decide, by decide!⟩

/-- C29, amended: a property reference, in the long form `[".", path...]` or in the shorthand
form `[".p"]`, whose path as written is exactly `_id` compiles to the column `key`, and one
whose path is exactly `_sequence` to the column `sequence`; every other path `p` compiles to
`fl_value(<body-column>, '<q>')`, where `q`, SQL-quoted, is `appendPaths` of the configured
property path and `p`: `p` without a leading `$.` or `$`, after the configured property path
if there is one, and `p` itself when no property path is configured and `p` does not start
with `$`.  The members change only by that text, which stands between the parentheses of
`handleOperation` if the enclosing operation calls for them.  The bare expression
`["=", [".", "name"], "Bob"]` gives `fl_value(body, 'name') = 'Bob'`. -/
theorem parseNode_property (fuel : Nat) (op : String) (operands : List Value) (p : String)
    (enclosing : OperationPtr) (qp : State)
    (htop : qp.context.getLast? = some enclosing)
    (hform : (op = "." ∧ operands ≠ [] ∧ propertyFromOperands operands = .ok p)
      ∨ (op = "." ++ p ∧ p ≠ "")) :
    (∃ text,
      parseNode (fuel + 1) (.array (.string op :: operands)) qp = (.ok (), { qp with
        sql := qp.sql ++
          if parenthesize (lookUpOperation op operands) enclosing then "(" ++ text ++ ")"
          else text }) ∧
      (p = "_id" → text = "key") ∧
      (p = "_sequence" → text = "sequence") ∧
      (p ≠ "_id" → p ≠ "_sequence" →
        text = "fl_value(" ++ qp.bodyColumnName ++ ", "
          ++ sqlString (appendPaths qp.propertyPath p) ++ ")")) ∧
    (qp.propertyPath = "" → p.data.head? ≠ some '$' → appendPaths qp.propertyPath p = p) ∧
    (∀ rest : String, appendPaths "" ("$." ++ rest) = rest) ∧
    expressionSQL exampleNameIsBob = .ok "fl_value(body, 'name') = 'Bob'" := by
  obtain ⟨hparse, ctx, hctx, hcall⟩ :=
    callHandler_property fuel op operands p enclosing qp hform
  refine ⟨⟨if p = "_id" then "key" else if p = "_sequence" then "sequence"
      else "fl_value(" ++ qp.bodyColumnName ++ ", "
        ++ sqlString (appendPaths qp.propertyPath p) ++ ")", ?_, ?_, ?_, ?_⟩, ?_, ?_, by decide!⟩
  · rw [hparse]
    unfold handleOperation
    rw [handleOperationWith_eq _ _ enclosing qp htop, hcall, writePropertyGetter_fl_value]
    cases parenthesize (lookUpOperation op operands) enclosing <;>
      simp [hctx, String.append_assoc]
  · intro h; simp only [h, if_true]
  · intro h; subst h; rfl
  · intro h1 h2; simp only [h1, h2, if_false]
  · intro hpp hd
    simp only [appendPaths, hpp, hd, if_false]
    rfl
  · intro rest
    have hdata : ("$." ++ rest).data = '$' :: '.' :: rest.data := by
      rw [String.data_append]; rfl
    simp only [appendPaths, hdata, List.head?_cons, if_true, List.get?_cons_succ,
      List.get?_cons_zero, List.drop_succ_cons, List.drop_zero]
    rfl

/-- Witness of C29: the references `[".", "_id"]` and `[".name"]`. -/
theorem parseNode_property_witness :
    exampleParser.context.getLast? = some .kOuterOperation ∧
    parseNode 1 (.array [.string ".", .string "_id"]) exampleParser
      = (.ok (), { exampleParser with sql := "key" }) ∧
    parseNode 1 (.array [.string ".name"]) exampleParser
      = (.ok (), { exampleParser with sql := "fl_value(body, 'name')" }) := by
  have h1 := parseNode_property 0 "." [.string "_id"] "_id" .kOuterOperation exampleParser rfl
    (Or.inl ⟨rfl, by simp, by decide⟩)
  have h2 := parseNode_property 0 ("." ++ "name") [] "name" .kOuterOperation exampleParser rfl
    (Or.inr ⟨rfl, by decide⟩)
  obtain ⟨⟨t1, e1, f1, _, _⟩, _⟩ := h1
  obtain ⟨⟨t2, e2, _, _, f2⟩, _⟩ := h2
  have g1 := f1 rfl
  have g2 := f2 (by decide) (by decide)
  subst g1 g2
  refine ⟨rfl, e1.trans ?_, e2.trans ?_⟩
  · decide!
  · decide!

/-! ### Parameter references -/

theorem dollar_append_data (n : String) : ("$" ++ n).data = '$' :: n.data := by
  rw [String.data_append]
  rfl

/-- The long form `$` of a parameter reference, with one operand, is looked up as the entry of
`parameterOp`; with no operand it is refused for its number of arguments. -/
theorem lookUp_parameter :
    lookUp "$" 1 kOperationList 0 false = (1, true) ∧
    lookUp "$" 0 kOperationList 0 false = (33, true) := by
  decide

/-- The name that `isAlphanumericOrUnderscore` accepts: not empty, and made of ASCII letters,
digits and underscores. -/
theorem isAlphanumericOrUnderscore_iff (n : String) :
    isAlphanumericOrUnderscore n = true ↔
      n ≠ "" ∧ ∀ c ∈ n.data, c.isAlpha = true ∨ c.isDigit = true ∨ c = '_' := by
  have hlen : n.length = 0 ↔ n = "" := by
    constructor
    · intro h; exact String.ext (List.length_eq_zero.1 h)
    · intro h; subst h; rfl
  unfold isAlphanumericOrUnderscore
  by_cases h0 : n.length = 0
  · simp only [h0, if_true, Bool.false_eq_true, false_iff, not_and]
    intro hne
    exact absurd (hlen.1 h0) hne
  · have hne : n ≠ "" := fun h => h0 (hlen.2 h)
    simp only [h0, if_false, List.all_eq_true, hne, ne_eq, not_false_eq_true, true_and]
    constructor
    · intro h c hc
      have := h c hc
      simp only [isAlnumOrUnderscore, Char.isAlphanum, Bool.or_eq_true, beq_iff_eq] at this
      rcases this with (h1 | h1) | h1
      · exact Or.inl h1
      · exact Or.inr (Or.inl h1)
      · exact Or.inr (Or.inr h1)
    · intro h c hc
      simp only [isAlnumOrUnderscore, Char.isAlphanum, Bool.or_eq_true, beq_iff_eq]
      rcases h c hc with h1 | h1 | h1
      · exact Or.inl (Or.inl h1)
      · exact Or.inl (Or.inr h1)
      · exact Or.inr h1

/-- `parameterOp` on a reference to the parameter `n`, in the long form (`op` is `$` and the one
operand gives `n`) or in the shorthand form (`op` is `$n`, without operands). -/
theorem parameterOp_eq (op : String) (operands : List Value) (n : String) (q : State)
    (hform : (op = "$" ∧ ∃ v, operands = [v] ∧ n = (toString v).bytes)
      ∨ (op = "$" ++ n ∧ n ≠ "" ∧ operands = [])) :
    parameterOp op operands q =
      if isAlphanumericOrUnderscore n = true then
        (.ok (), { q with
          parameters := q.parameters.insert n
          sql := q.sql ++ ("$_" ++ n) })
      else (.error (.invalidQuery ("Invalid query parameter name '" ++ n ++ "'")), q) := by
  have hfinal : (do
        (if !isAlphanumericOrUnderscore n then
          fail ("Invalid query parameter name '" ++ n ++ "'")
        else pure () : M Unit)
        insertParameter n
        write ("$_" ++ n) : M Unit) q =
      if isAlphanumericOrUnderscore n = true then
        (.ok (), { q with
          parameters := q.parameters.insert n
          sql := q.sql ++ ("$_" ++ n) })
      else (.error (.invalidQuery ("Invalid query parameter name '" ++ n ++ "'")), q) := by
    by_cases hid : isAlphanumericOrUnderscore n = true
    · simp only [hid, if_true, Bool.not_true, Bool.false_eq_true, if_false, bind_apply, pure,
        M.pure, insertParameter, write]
    · have hid2 : isAlphanumericOrUnderscore n = false := by simpa using hid
      simp only [hid2, Bool.false_eq_true, if_false, Bool.not_false, if_true, bind_apply, fail,
        raise]
  rcases hform with ⟨h1, v, h2, h3⟩ | ⟨h1, h2, h3⟩
  · subst h1 h2 h3
    rw [← hfinal]
    rfl
  · subst h1 h3
    have hlen : ("$" ++ n).length ≠ 1 := by
      show ("$" ++ n).data.length ≠ 1
      rw [dollar_append_data]
      intro h
      apply h2
      simp only [List.length_cons, Nat.add_left_eq_self] at h
      exact String.ext (List.length_eq_zero.1 h)
    rw [← hfinal]
    unfold parameterOp
    simp only [hlen, if_false, dollar_append_data, List.drop_succ_cons, List.drop_zero,
      List.length_nil, gt_iff_lt, Nat.lt_irrefl]
    rfl

theorem fallbackOp_parameter (parseNode : Value → M Unit) (n : String) (operands : List Value)
    (back : OperationPtr) (q : State) (hback : q.context.getLast? = some back) :
    fallbackOp parseNode ("$" ++ n) operands q
      = parameterOp ("$" ++ n) operands { q with context := q.context.dropLast
          ++ [.localOperation { back.deref with op := some ("$" ++ n) }] } := by
  unfold fallbackOp
  rw [bind_apply, contextBack_eq q back hback]
  simp only [bind_apply, setContextBack, dollar_append_data, List.head?_cons,
    Option.some.injEq]
  rfl

/-- The handler that `parseOpNode` calls for a parameter reference is `parameterOp`, run on the
members as `handleOperation` leaves them, with some context stack above the one of `qp`. -/
theorem callHandler_parameter (fuel : Nat) (op : String) (operands : List Value) (n : String)
    (enclosing : OperationPtr) (qp : State)
    (hform : (op = "$" ∧ ∃ v, operands = [v] ∧ n = (toString v).bytes)
      ∨ (op = "$" ++ n ∧ n ≠ "")) :
    parseNode (fuel + 1) (.array (.string op :: operands))
      = handleOperation (parseNode fuel) (lookUpOperation op operands) op operands ∧
    ∃ ctx, ctx.dropLast = qp.context ∧
      callHandler (parseNode fuel) (lookUpOperation op operands).deref.handler op operands
          (entered (lookUpOperation op operands)
            (parenthesize (lookUpOperation op operands) enclosing) qp)
        = parameterOp op operands { qp with
            context := ctx
            sql := qp.sql ++
              if parenthesize (lookUpOperation op operands) enclosing then "(" else "" } := by
  rcases hform with ⟨h1, v, h2, _⟩ | ⟨h1, h2⟩
  · subst h1 h2
    have hl : lookUp "$" (min [v].length 9) kOperationList 0 false = (1, true) :=
      lookUp_parameter.1
    have hop : lookUpOperation "$" [v] = .kOperationList 1 := rfl
    refine ⟨?_, qp.context ++ [.kOperationList 1], by simp, ?_⟩
    · rw [parseNode_succ_array, hl, hop]
      rfl
    · rw [hop]
      rfl
  · subst h1
    have hl : lookUp ("$" ++ n) (min operands.length 9) kOperationList 0 false = (33, false) :=
      lookUp_parameter_shorthand n _ h2
    have hop : lookUpOperation ("$" ++ n) operands = .kOperationList 33 := by
      simp only [lookUpOperation, hl]
    refine ⟨?_, qp.context ++ [.localOperation
      { (OperationPtr.kOperationList 33).deref with op := some ("$" ++ n) }], by simp, ?_⟩
    · rw [parseNode_succ_array, hl, hop]
      rfl
    · rw [hop]
      have hh : (OperationPtr.kOperationList 33).deref.handler = some .fallbackOp := rfl
      rw [hh]
      show fallbackOp (parseNode fuel) ("$" ++ n) operands _ = _
      rw [fallbackOp_parameter (parseNode fuel) n operands (.kOperationList 33) _
        (by simp [entered])]
      simp [entered]

/-- C30: a parameter reference, in the long form `["$", n]` or in the shorthand form `["$n"]`,
is compiled successfully if and only if the name `n` is not empty and consists only of ASCII
letters, digits and underscores.  On success the members change only by the text `$_n`
appended (between the parentheses of `handleOperation` if the enclosing operation calls for
them) and by `n` added to `_parameters`; on failure `_parameters` is as before.  The shorthand
form followed by an operand is rejected, and nothing is recorded. -/
theorem parseNode_parameter (fuel : Nat) (op : String) (operands : List Value) (n : String)
    (enclosing : OperationPtr) (qp : State)
    (htop : qp.context.getLast? = some enclosing)
    (hform : (op = "$" ∧ ∃ v, operands = [v] ∧ n = (toString v).bytes)
      ∨ (op = "$" ++ n ∧ operands = [])) :
    ((parseNode (fuel + 1) (.array (.string op :: operands)) qp).1 = .ok () ↔
      n ≠ "" ∧ ∀ c ∈ n.data, c.isAlpha = true ∨ c.isDigit = true ∨ c = '_') ∧
    ((parseNode (fuel + 1) (.array (.string op :: operands)) qp).1 = .ok () →
      (parseNode (fuel + 1) (.array (.string op :: operands)) qp).2 = { qp with
        parameters := qp.parameters.insert n
        sql := qp.sql ++
          if parenthesize (lookUpOperation op operands) enclosing then "(" ++ ("$_" ++ n) ++ ")"
          else "$_" ++ n } ∧
      n ∈ (parseNode (fuel + 1) (.array (.string op :: operands)) qp).2.parameters) ∧
    ((parseNode (fuel + 1) (.array (.string op :: operands)) qp).1 ≠ .ok () →
      (parseNode (fuel + 1) (.array (.string op :: operands)) qp).2.parameters
        = qp.parameters) ∧
    (∀ extra : List Value, n ≠ "" → extra ≠ [] →
      parseNode (fuel + 1) (.array (.string ("$" ++ n) :: extra)) qp
        = (.error (.invalidQuery ("extra operands to '" ++ n ++ "'")),
            (parseNode (fuel + 1) (.array (.string ("$" ++ n) :: extra)) qp).2) ∧
      (parseNode (fuel + 1) (.array (.string ("$" ++ n) :: extra)) qp).2.parameters
        = qp.parameters) := by
  rw [← isAlphanumericOrUnderscore_iff]
  have hextra : ∀ extra : List Value, n ≠ "" → extra ≠ [] →
      parseNode (fuel + 1) (.array (.string ("$" ++ n) :: extra)) qp
        = (.error (.invalidQuery ("extra operands to '" ++ n ++ "'")),
            (parseNode (fuel + 1) (.array (.string ("$" ++ n) :: extra)) qp).2) ∧
      (parseNode (fuel + 1) (.array (.string ("$" ++ n) :: extra)) qp).2.parameters
        = qp.parameters := by
    intro extra hn hex
    obtain ⟨hparse, ctx, _, hcall⟩ :=
      callHandler_parameter fuel ("$" ++ n) extra n enclosing qp (Or.inr ⟨rfl, hn⟩)
    have hlen : ("$" ++ n).length ≠ 1 := by
      show ("$" ++ n).data.length ≠ 1
      rw [dollar_append_data]
      intro h
      apply hn
      simp only [List.length_cons, Nat.add_left_eq_self] at h
      exact String.ext (List.length_eq_zero.1 h)
    have hpos : extra.length > 0 := by
      cases extra with
      | nil => exact absurd rfl hex
      | cons _ _ => simp
    rw [hparse]
    unfold handleOperation
    rw [handleOperationWith_eq _ _ enclosing qp htop, hcall]
    unfold parameterOp
    simp only [hlen, if_false, dollar_append_data, List.drop_succ_cons, List.drop_zero, hpos,
      if_true, bind_apply, fail, raise]
    refine ⟨?_, ?_⟩ <;> first | trivial | rfl
  have key :
      (isAlphanumericOrUnderscore n = true ∧
        parseNode (fuel + 1) (.array (.string op :: operands)) qp = (.ok (), { qp with
          parameters := qp.parameters.insert n
          sql := qp.sql ++
            if parenthesize (lookUpOperation op operands) enclosing then
              "(" ++ ("$_" ++ n) ++ ")"
            else "$_" ++ n })) ∨
      (¬ isAlphanumericOrUnderscore n = true ∧
        (∃ e, (parseNode (fuel + 1) (.array (.string op :: operands)) qp).1 = .error e) ∧
        (parseNode (fuel + 1) (.array (.string op :: operands)) qp).2.parameters
          = qp.parameters) := by
    by_cases hshort : op = "$" ∧ operands = []
    · -- the symbol `$` without an operand
      obtain ⟨h1, h2⟩ := hshort
      subst h1 h2
      have hn : n = "" := by
        rcases hform with ⟨_, v, hv, _⟩ | ⟨h1, _⟩
        · cases hv
        · have h2 := congrArg String.data h1
          rw [dollar_append_data] at h2
          have h3 : "$".data = ['$'] := rfl
          rw [h3] at h2
          simp only [List.cons.injEq, true_and] at h2
          exact String.ext h2.symm
      subst hn
      have hfail : parseNode (fuel + 1) (.array [.string "$"]) qp
          = (.error (.invalidQuery "Wrong number of arguments to $"), qp) := rfl
      rw [hfail]
      exact Or.inr ⟨by decide, ⟨_, rfl⟩, rfl⟩
    · have hform2 : (op = "$" ∧ ∃ v, operands = [v] ∧ n = (toString v).bytes)
          ∨ (op = "$" ++ n ∧ n ≠ "" ∧ operands = []) := by
        rcases hform with h | ⟨h1, h2⟩
        · exact Or.inl h
        · refine Or.inr ⟨h1, ?_, h2⟩
          intro hn
          subst hn
          exact hshort ⟨h1, h2⟩
      have hform3 : (op = "$" ∧ ∃ v, operands = [v] ∧ n = (toString v).bytes)
          ∨ (op = "$" ++ n ∧ n ≠ "") := by
        rcases hform2 with h | ⟨h1, h2, _⟩
        · exact Or.inl h
        · exact Or.inr ⟨h1, h2⟩
      obtain ⟨hparse, ctx, hctx, hcall⟩ :=
        callHandler_parameter fuel op operands n enclosing qp hform3
      rw [hparse]
      unfold handleOperation
      rw [handleOperationWith_eq _ _ enclosing qp htop, hcall,
        parameterOp_eq op operands n _ hform2]
      by_cases hc : isAlphanumericOrUnderscore n = true
      · refine Or.inl ⟨hc, ?_⟩
        simp only [hc, if_true]
        cases parenthesize (lookUpOperation op operands) enclosing <;>
          simp [hctx, String.append_assoc]
      · refine Or.inr ⟨hc, ?_⟩
        simp only [hc, if_false]
        exact ⟨⟨_, rfl⟩, rfl⟩
  refine ⟨?_, ?_, ?_, hextra⟩
  · rcases key with ⟨hv, hr⟩ | ⟨hv, ⟨e, he⟩, _⟩
    · rw [hr]
      exact ⟨fun _ => hv, fun _ => rfl⟩
    · rw [he]
      exact ⟨fun h => (by cases h), fun h => absurd h hv⟩
  · rcases key with ⟨_, hr⟩ | ⟨_, ⟨e, he⟩, _⟩
    · intro _
      rw [hr]
      exact ⟨rfl, by simp only [List.mem_insert_iff, true_or]⟩
    · intro h
      rw [he] at h
      cases h
  · rcases key with ⟨_, hr⟩ | ⟨_, _, hp⟩
    · intro h
      rw [hr] at h
      exact absurd rfl h
    · intro _
      exact hp

/-- Witness of C30: the references `["$", "x"]` and `["$x"]`. -/
theorem parseNode_parameter_witness :
    exampleRecorded.context.getLast? = some .kOuterOperation ∧
    parseNode 1 (.array [.string "$", .string "x"]) exampleRecorded
      = (.ok (), { exampleRecorded with sql := "$_x", parameters := ["x", "y"] }) ∧
    parseNode 1 (.array [.string "$x"]) exampleRecorded
      = (.ok (), { exampleRecorded with sql := "$_x", parameters := ["x", "y"] }) ∧
    (parseNode 1 (.array [.string "$", .string "a b"]) exampleRecorded).1
      = .error (.invalidQuery "Invalid query parameter name 'a b'") := by
  have h1 := parseNode_parameter 0 "$" [.string "x"] "x" .kOuterOperation exampleRecorded rfl
    (Or.inl ⟨rfl, _, rfl, rfl⟩)
  have h2 := parseNode_parameter 0 ("$" ++ "x") [] "x" .kOuterOperation exampleRecorded rfl
    (Or.inr ⟨rfl, rfl⟩)
  have ok1 := h1.1.2 ⟨by decide, by decide⟩
  have ok2 := h2.1.2 ⟨by decide, by decide⟩
  refine ⟨rfl, Prod.ext ok1 ((h1.2.1 ok1).1.trans ?_), Prod.ext ok2 ((h2.2.1 ok2).1.trans ?_),
    by decide!⟩
  · decide!
  · decide!

/-! ### Function calls -/

theorem call_append_data (name : String) : (name ++ "()").data = name.data ++ ['(', ')'] := by
  rw [String.data_append]

theorem call_append_length (name : String) : (name ++ "()").length = name.length + 2 := by
  show (name ++ "()").data.length = name.data.length + 2
  rw [call_append_data, List.length_append]
  rfl

theorem call_append_take_data (name : String) :
    (name ++ "()").data.take ((name ++ "()").length - 2) = name.data := by
  rw [call_append_length, call_append_data]
  have h : name.length + 2 - 2 = name.data.length := by
    show name.data.length + 2 - 2 = name.data.length
    omega
  rw [h]
  exact List.take_left' rfl

theorem call_append_take (name : String) :
    String.mk ((name ++ "()").data.take ((name ++ "()").length - 2)) = name := by
  rw [call_append_take_data]

theorem call_append_suffix (name : String) :
    (name ++ "()").data.get? ((name ++ "()").length - 2) = some '(' ∧
    (name ++ "()").data.get? ((name ++ "()").length - 1) = some ')' := by
  rw [call_append_length, call_append_data]
  have h2 : name.length + 2 - 2 = name.data.length := by
    show name.data.length + 2 - 2 = name.data.length
    omega
  have h1 : name.length + 2 - 1 = name.data.length + 1 := by
    show name.data.length + 2 - 1 = name.data.length + 1
    omega
  rw [h1, h2]
  constructor
  · rw [List.get?_eq_getElem?, List.getElem?_append_right (Nat.le_refl _)]
    simp
  · rw [List.get?_eq_getElem?, List.getElem?_append_right (Nat.le_succ _)]
    simp

theorem call_append_head (name : String) (hname : name ≠ "") :
    (name ++ "()").data.head? = name.data.head? := by
  rw [call_append_data]
  cases hd : name.data with
  | nil => exact absurd (String.ext hd) hname
  | cons c rest => rfl

theorem kOperationList_no_call :
    ∀ d ∈ kOperationList, d.op.bytes.data.getLast? ≠ some ')' := by
  decide

/-- A symbol of the form `name()` is no name of `kOperationList`. -/
theorem lookUp_call (name : String) (nargs : Nat) :
    lookUp (name ++ "()") nargs kOperationList 0 false = (33, false) := by
  apply lookUp_fallback
  intro d hd hs
  cases hdo : d.op with
  | none => rw [hdo] at hs; cases hs
  | some s =>
    simp only [slice.eq, slice.bytes, Option.getD_some, beq_eq_false_iff_ne, ne_eq]
    intro heq
    have h1 := kOperationList_no_call d hd
    rw [hdo] at h1
    simp only [slice.bytes, Option.getD_some] at h1
    rw [← heq, call_append_data] at h1
    simp at h1

/-- The first character of a function name that `functionOp` accepts is none of the prefixes
that `fallbackOp` tests before the suffix `()`. -/
theorem head_of_alnum (name : String) (hvalid : name.data.all isAlnumOrUnderscore = true) :
    name.data.head? ≠ some '.' ∧ name.data.head? ≠ some '$' ∧ name.data.head? ≠ some '?' := by
  cases hd : name.data with
  | nil => simp
  | cons c rest =>
    rw [hd] at hvalid
    simp only [List.all_cons, Bool.and_eq_true] at hvalid
    simp only [List.head?_cons, ne_eq, Option.some.injEq]
    refine ⟨?_, ?_, ?_⟩ <;>
    · intro hc
      subst hc
      exact absurd hvalid.1 (by decide)

/-- What `fallbackOp` does with a symbol of the form `name()` whose name starts with none of
`.`, `$` and `?`: it calls `functionOp`, with the symbol in the entry on top of the context
stack. -/
theorem fallbackOp_call (parseNode : Value → M Unit) (name : String) (operands : List Value)
    (back : OperationPtr) (q : State) (hback : q.context.getLast? = some back)
    (hname : name ≠ "") (hdot : name.data.head? ≠ some '.') (hdollar : name.data.head? ≠ some '$')
    (hquestion : name.data.head? ≠ some '?') :
    fallbackOp parseNode (name ++ "()") operands q
      = functionOp parseNode (name ++ "()") operands { q with context := q.context.dropLast
          ++ [.localOperation { back.deref with op := some (name ++ "()") }] } := by
  unfold fallbackOp
  rw [bind_apply, contextBack_eq q back hback]
  have hlen : (name ++ "()").length > 2 := by
    rw [call_append_length]
    have : name.length ≠ 0 := fun h => hname (String.ext (List.length_eq_zero.1 h))
    omega
  simp only [bind_apply, setContextBack, call_append_head name hname, hdot, hdollar, hquestion,
    if_false, hlen, (call_append_suffix name).1, (call_append_suffix name).2, and_self, if_true]

/-- The handler `functionOp` on a symbol `name()` that is not one of its special cases: the
name is written as it stands, and the operands are compiled in turn as an argument list,
which is written between parentheses after the name. -/
theorem functionOp_spec (parseNode : Value → M Unit) (hpn : ∀ node, Same (parseNode node))
    (name : String) (operands : List Value) (back : OperationPtr) (q q' : State)
    (hback : q.context.getLast? = some back) (hprec : (-2 : Int) ≤ back.deref.precedence)
    (hplain : (name.map Char.toLower = "array_count" ∨ name.map Char.toLower = "rank") →
      ∀ first, operands.head? = some first → propertyFromNode first = .ok "")
    (h : functionOp parseNode (name ++ "()") operands q = (.ok (), q')) :
    name.data.all isAlnumOrUnderscore = true ∧
    ∃ texts : List String, texts.length = operands.length ∧
      q'.sql = q.sql ++ (name ++ "(" ++ String.intercalate ", " texts ++ ")") ∧
      q'.context = q.context ∧
      ∀ j x, operands.get? j = some x →
        ∃ t qj qj', texts.get? j = some t ∧ parseNode x qj = (.ok (), qj')
          ∧ qj'.sql = qj.sql ++ t := by
  unfold functionOp at h
  simp only [call_append_take, call_append_take_data] at h
  cases hvalid : name.data.all isAlnumOrUnderscore with
  | false =>
    simp only [hvalid, Bool.not_false, if_true, bind_apply, fail, raise] at h
    cases h
  | true =>
    refine ⟨rfl, ?_⟩
    simp only [hvalid, Bool.not_true, Bool.false_eq_true, if_false, bind_apply, pure, M.pure]
      at h
    -- the special cases do not apply
    have hspecial : ∀ fn : String,
        (name.map Char.toLower = "array_count" ∨ name.map Char.toLower = "rank") →
        writeNestedPropertyOpIfAny fn operands q = (.ok false, q) := by
      intro fn hsp
      unfold writeNestedPropertyOpIfAny
      cases hops : operands with
      | nil => rfl
      | cons first rest =>
        have := hplain hsp first (by rw [hops]; rfl)
        simp only [bind_apply, this, liftExcept, M.pure]
        rfl
    have heta : ({ data := name.data } : String) = name := rfl
    have hrest : (do write name; writeArgList parseNode operands : M Unit) q = (.ok (), q') := by
      by_cases h1 : name.map Char.toLower = "array_count"
      · simp only [h1, if_true, bind_apply, hspecial "fl_count" (Or.inl h1), heta,
          Bool.false_eq_true, if_false] at h
        simp only [bind_apply]
        exact h
      · by_cases h2 : name.map Char.toLower = "rank"
        · have hra : ¬ ("rank" : String) = "array_count" := by decide
          simp only [h1, h2, hra, if_true, if_false, bind_apply, hspecial "rank" (Or.inr h2),
            heta, Bool.false_eq_true] at h
          simp only [bind_apply]
          exact h
        · simp only [h1, h2, if_false, bind_apply, M.pure, heta, Bool.false_eq_true] at h
          simp only [bind_apply]
          exact h
    simp only [bind_apply, write] at hrest
    have hback2 : ({ q with sql := q.sql ++ name } : State).context.getLast? = some back :=
      hback
    obtain ⟨body, q2, hcall, hq2, hsql, hctx⟩ :=
      handleOperationWith_spec _ .kArgListOperation back _ q' hback2
        (top_of_same (same_infixOp parseNode hpn _ _)) hrest
    obtain ⟨texts, hlen, hsql2, _, hops⟩ :=
      infixOpLoop_spec parseNode hpn _ operands 0 _ q2 hcall
    simp only [if_true] at hsql2
    rw [hq2] at hsql2
    have hbody := String_append_cancel _ _ _ hsql2
    have hsep : separator kArgListOperation.op.bytes = ", " := by decide
    rw [hsep] at hbody
    have hp : (OperationPtr.kArgListOperation).deref.precedence ≤ back.deref.precedence :=
      hprec
    refine ⟨texts, hlen, ?_, hctx, ?_⟩
    · rw [hsql]
      simp only [hp, if_true, hbody, String.append_assoc]
    · intro j y hy
      obtain ⟨t, qj, qj', h1, _, h3, h4⟩ := hops j y hy
      exact ⟨t, qj, qj', h1, h3, h4⟩


theorem call_not_alphanumeric (rest : String) :
    (rest ++ "()").data.all isAlnumOrUnderscore = false := by
  rw [call_append_data, List.all_append]
  have h : (['(', ')'] : List Char).all isAlnumOrUnderscore = false := by decide
  rw [h, Bool.and_false]

theorem call_length_pos (rest : String) : (rest ++ "()").length ≠ 0 := by
  rw [call_append_length]
  omega

theorem parameterOp_call_fails (rest : String) (operands : List Value) (q : State) :
    ∃ message, parameterOp ("$" ++ (rest ++ "()")) operands q
      = (.error (.invalidQuery message), q) := by
  have hlen : ("$" ++ (rest ++ "()")).length ≠ 1 := by
    show ("$" ++ (rest ++ "()")).data.length ≠ 1
    rw [dollar_append_data, List.length_cons]
    have := call_length_pos rest
    intro h
    apply this
    show (rest ++ "()").data.length = 0
    omega
  have hinvalid : isAlphanumericOrUnderscore (rest ++ "()") = false := by
    simp only [isAlphanumericOrUnderscore, call_length_pos rest, if_false,
      call_not_alphanumeric]
  unfold parameterOp
  by_cases hops : operands.length > 0
  · refine ⟨"extra operands to '" ++ (rest ++ "()") ++ "'", ?_⟩
    have heta : ({ data := (rest ++ "()").data } : String) = rest ++ "()" := rfl
    simp only [hlen, if_false, hops, if_true, bind_apply, fail, raise, dollar_append_data,
      List.drop_succ_cons, List.drop_zero, heta]
  · refine ⟨"Invalid query parameter name '" ++ (rest ++ "()") ++ "'", ?_⟩
    have heta : ({ data := (rest ++ "()").data } : String) = rest ++ "()" := rfl
    simp only [hlen, if_false, hops, bind_apply, pure, M.pure, dollar_append_data,
      List.drop_succ_cons, List.drop_zero, heta, hinvalid, Bool.not_false, if_true, fail, raise]

theorem variableOp_call_fails (rest : String) (operands : List Value) (q : State) :
    ∃ message, variableOp ("?" ++ (rest ++ "()")) operands q
      = (.error (.invalidQuery message), q) := by
  have hlen : ("?" ++ (rest ++ "()")).length ≠ 1 := by
    show ("?" ++ (rest ++ "()")).data.length ≠ 1
    rw [question_append_data, List.length_cons]
    have := call_length_pos rest
    intro h
    apply this
    show (rest ++ "()").data.length = 0
    omega
  have hinvalid : isValidIdentifier (rest ++ "()") = false := by
    simp only [isValidIdentifier, isAlphanumericOrUnderscore, call_length_pos rest, if_false,
      call_not_alphanumeric, Bool.false_and]
  refine ⟨"Invalid variable name '" ++ (rest ++ "()") ++ "'", ?_⟩
  have heta : ({ data := (rest ++ "()").data } : String) = rest ++ "()" := rfl
  unfold variableOp
  simp only [hlen, if_false, bind_apply, pure, M.pure, question_append_data,
    List.drop_succ_cons, List.drop_zero, heta, hinvalid, Bool.not_false, if_true, fail, raise]

/-- A string whose first character is `c` is `c` followed by the rest. -/
theorem eq_singleton_append (name : String) (c : Char) (h : name.data.head? = some c) :
    name = String.mk [c] ++ String.mk name.data.tail := by
  apply String.ext
  rw [singleton_append_data]
  cases hd : name.data with
  | nil => rw [hd] at h; cases h
  | cons a rest =>
    rw [hd] at h
    simp only [List.head?_cons, Option.some.injEq] at h
    subst h
    rfl

/-- How `parseNode` ends on a symbol of the form `name()`: it ends as the handler `fallbackOp`
ends on the members that `handleOperation` leaves for it. -/
theorem parseNode_call_error (fuel : Nat) (name : String) (operands : List Value)
    (enclosing : OperationPtr) (qp : State) (htop : qp.context.getLast? = some enclosing)
    (e : Error)
    (h : (fallbackOp (parseNode fuel) (name ++ "()") operands
      (entered (.kOperationList 33) (parenthesize (.kOperationList 33) enclosing) qp)).1
        = .error e) :
    (parseNode (fuel + 1) (.array (.string (name ++ "()") :: operands)) qp).1 = .error e := by
  have hl := lookUp_call name (min operands.length 9)
  have hop : lookUpOperation (name ++ "()") operands = .kOperationList 33 := by
    simp only [lookUpOperation, hl]
  rw [parseNode_succ_array, hl, hop]
  simp only [Bool.false_eq_true, false_and, if_false]
  unfold handleOperation
  rw [handleOperationWith_eq _ _ enclosing qp htop]
  have hh : (OperationPtr.kOperationList 33).deref.handler = some .fallbackOp := rfl
  rw [hh]
  have hc : ∀ q, callHandler (parseNode fuel) (some .fallbackOp) (name ++ "()") operands q
      = fallbackOp (parseNode fuel) (name ++ "()") operands q := fun _ => rfl
  rw [hc]
  cases hr : fallbackOp (parseNode fuel) (name ++ "()") operands
      (entered (.kOperationList 33) (parenthesize (.kOperationList 33) enclosing) qp) with
  | mk r q2 =>
    rw [hr] at h
    simp only at h
    subst h
    rfl

/-- C27, as stated, fails: the name of the function is written as it stands, not lowercased;
`array_count` applied to a property reference is rewritten as a call of `fl_count` on the
property; and the symbol `.a()`, whose name `.a` has a character that is no letter, digit or
underscore, is not rejected but read as a property shorthand. -/
theorem functionOp_keeps_case :
    expressionSQL exampleCount = .ok "COUNT(fl_value(body, 'x'))" ∧
    expressionSQL exampleCount ≠ .ok "count(fl_value(body, 'x'))" ∧
    expressionSQL exampleArrayCount = .ok "fl_count(body, 'x')" ∧
    expressionSQL exampleDottedCall = .ok "fl_value(body, 'a()')" := by
  refine ⟨by decide!, by decide!, by decide!, by decide!⟩

/-- C27, amended: for a symbol of the form `name()` with a non-empty name (no such symbol is in
the operation table), the compiler emits a function call whose name is the name of the symbol
as it is written (the lowercased name only serves to recognise `array_count` and `rank`),
followed by the parenthesized, comma-and-space separated compilation of the operands, when the
name consists of ASCII letters, digits and underscores and the call is not one of
`array_count` or `rank` (in any letter case) with a property reference as first operand; a
call without operands emits `name()`.  The text stands between the parentheses of
`handleOperation` if the enclosing operation calls for them.  A name that contains any other
character is rejected, unless it starts with `.`, which makes the symbol a property
shorthand. -/
theorem parseNode_function (fuel : Nat) (name : String) (operands : List Value)
    (enclosing : OperationPtr) (qp : State)
    (htop : qp.context.getLast? = some enclosing) (hname : name ≠ "") :
    lookUpOperation (name ++ "()") operands = .kOperationList 33 ∧
    (name.data.all isAlnumOrUnderscore = true →
      ((name.map Char.toLower = "array_count" ∨ name.map Char.toLower = "rank") →
        ∀ first, operands.head? = some first → propertyFromNode first = .ok "") →
      ∀ qp', parseNode (fuel + 1) (.array (.string (name ++ "()") :: operands)) qp
          = (.ok (), qp') →
        ∃ texts : List String, texts.length = operands.length ∧
          qp'.sql = qp.sql ++
            (if parenthesize (.kOperationList 33) enclosing then
              "(" ++ (name ++ "(" ++ String.intercalate ", " texts ++ ")") ++ ")"
            else name ++ "(" ++ String.intercalate ", " texts ++ ")") ∧
          qp'.context = qp.context ∧
          ∀ j x, operands.get? j = some x →
            ∃ t qj qj', texts.get? j = some t ∧ parseNode fuel x qj = (.ok (), qj')
              ∧ qj'.sql = qj.sql ++ t) ∧
    (name.data.all isAlnumOrUnderscore = true → operands = [] →
      parseNode (fuel + 1) (.array (.string (name ++ "()") :: operands)) qp
        = (.ok (), { qp with sql := qp.sql ++
            (if parenthesize (.kOperationList 33) enclosing then "(" ++ (name ++ "()") ++ ")"
            else name ++ "()") })) ∧
    (name.data.all isAlnumOrUnderscore = false → name.data.head? ≠ some '.' →
      ∃ message, (parseNode (fuel + 1) (.array (.string (name ++ "()") :: operands)) qp).1
        = .error (.invalidQuery message)) ∧
    expressionSQL (.array [.string "f()", .int 1, .array [.string "g()"]]) = .ok "f(1, g())" := by
  have hl := lookUp_call name (min operands.length 9)
  have hop : lookUpOperation (name ++ "()") operands = .kOperationList 33 := by
    simp only [lookUpOperation, hl]
  have hh : (OperationPtr.kOperationList 33).deref.handler = some .fallbackOp := rfl
  have hentered : (entered (.kOperationList 33)
      (parenthesize (.kOperationList 33) enclosing) qp).context.getLast?
        = some (.kOperationList 33) := by
    simp [entered]
  have hgeneral : name.data.all isAlnumOrUnderscore = true →
      ((name.map Char.toLower = "array_count" ∨ name.map Char.toLower = "rank") →
        ∀ first, operands.head? = some first → propertyFromNode first = .ok "") →
      ∀ qp', parseNode (fuel + 1) (.array (.string (name ++ "()") :: operands)) qp
          = (.ok (), qp') →
        ∃ texts : List String, texts.length = operands.length ∧
          qp'.sql = qp.sql ++
            (if parenthesize (.kOperationList 33) enclosing then
              "(" ++ (name ++ "(" ++ String.intercalate ", " texts ++ ")") ++ ")"
            else name ++ "(" ++ String.intercalate ", " texts ++ ")") ∧
          qp'.context = qp.context ∧
          ∀ j x, operands.get? j = some x →
            ∃ t qj qj', texts.get? j = some t ∧ parseNode fuel x qj = (.ok (), qj')
              ∧ qj'.sql = qj.sql ++ t := by
    intro hvalid hplain qp' h
    obtain ⟨body, q2, hcall, hq2, hsql, hctx⟩ :=
      parseNode_operation fuel (name ++ "()") operands enclosing qp qp' htop h
    rw [hop, hh] at hcall
    rw [hop] at hq2 hsql
    obtain ⟨hdot, hdollar, hquestion⟩ := head_of_alnum name hvalid
    have hcall2 : fallbackOp (parseNode fuel) (name ++ "()") operands
        (entered (.kOperationList 33) (parenthesize (.kOperationList 33) enclosing) qp)
          = (.ok (), q2) := hcall
    rw [fallbackOp_call (parseNode fuel) name operands (.kOperationList 33) _ hentered hname
      hdot hdollar hquestion] at hcall2
    obtain ⟨_, texts, hlen, hsql2, _, hops⟩ :=
      functionOp_spec (parseNode fuel) (same_parseNode fuel) name operands
        (.localOperation { (OperationPtr.kOperationList 33).deref with
          op := some (name ++ "()") }) _ q2 (by simp [entered])
          (by show (-2 : Int) ≤ 10; decide) hplain hcall2
    have hbody : body = name ++ "(" ++ String.intercalate ", " texts ++ ")" := by
      rw [hq2] at hsql2
      exact String_append_cancel _ _ _ hsql2
    refine ⟨texts, hlen, ?_, hctx, hops⟩
    rw [hsql, hbody]
    simp only [parenthesize, decide_eq_true_eq]
  refine ⟨hop, hgeneral, ?_, ?_, by decide!⟩
  · intro hvalid hnil
    subst hnil
    obtain ⟨hdot, hdollar, hquestion⟩ := head_of_alnum name hvalid
    rw [parseNode_succ_array, hl, hop]
    simp only [Bool.false_eq_true, false_and, if_false]
    unfold handleOperation
    rw [handleOperationWith_eq _ _ enclosing qp htop, hh]
    have hc : ∀ q, callHandler (parseNode fuel) (some .fallbackOp) (name ++ "()") [] q
        = fallbackOp (parseNode fuel) (name ++ "()") [] q := fun _ => rfl
    rw [hc, fallbackOp_call (parseNode fuel) name [] (.kOperationList 33) _ hentered hname
      hdot hdollar hquestion]
    have hfn : ∀ q : State, q.context.getLast? = some (.localOperation
          { (OperationPtr.kOperationList 33).deref with op := some (name ++ "()") }) →
        functionOp (parseNode fuel) (name ++ "()") [] q
          = (.ok (), { q with sql := q.sql ++ (name ++ "()") }) := by
      intro q hq
      have heta : ({ data := name.data } : String) = name := rfl
      have hnested : ∀ fn : String, writeNestedPropertyOpIfAny fn [] q = (.ok false, q) :=
        fun _ => rfl
      have hargs : ∀ q1 : State, q1.context = q.context →
          writeArgList (parseNode fuel) [] q1
            = (.ok (), { q1 with sql := q1.sql ++ "()" }) := by
        intro q1 hq1
        unfold writeArgList
        rw [handleOperationWith_eq _ _ _ q1 (by rw [hq1]; exact hq)]
        have hp : parenthesize .kArgListOperation (.localOperation
          { (OperationPtr.kOperationList 33).deref with op := some (name ++ "()") }) = true := by
          show decide ((-2 : Int) ≤ 10) = true
          decide
        simp only [hp, if_true, entered, infixOp, infixOpLoop, pure, M.pure,
          List.dropLast_concat, String.append_assoc]
        rfl
      unfold functionOp
      simp only [call_append_take, call_append_take_data, hvalid, Bool.not_true,
        Bool.false_eq_true, if_false, bind_apply, pure, M.pure, heta]
      by_cases h1 : name.map Char.toLower = "array_count"
      · simp only [h1, if_true, hnested, Bool.false_eq_true, if_false, bind_apply, write]
        rw [hargs { q with sql := q.sql ++ name } rfl]
        simp only [String.append_assoc]
      · by_cases h2 : name.map Char.toLower = "rank"
        · have hra : ¬ ("rank" : String) = "array_count" := by decide
          simp only [h2, hra, if_true, if_false, hnested, Bool.false_eq_true, bind_apply, write]
          rw [hargs { q with sql := q.sql ++ name } rfl]
          simp only [String.append_assoc]
        · simp only [h1, h2, if_false, Bool.false_eq_true, bind_apply, write, M.pure]
          rw [hargs { q with sql := q.sql ++ name } rfl]
          simp only [String.append_assoc]
    rw [hfn _ (by simp [entered])]
    cases parenthesize (.kOperationList 33) enclosing <;>
      simp [entered, String.append_assoc]
  · intro hinvalid hdot
    by_cases hdollar : name.data.head? = some '$'
    · have hn := eq_singleton_append name '$' hdollar
      obtain ⟨message, hm⟩ := parameterOp_call_fails (String.mk name.data.tail) operands
        { (entered (.kOperationList 33) (parenthesize (.kOperationList 33) enclosing) qp) with
          context := (entered (.kOperationList 33)
            (parenthesize (.kOperationList 33) enclosing) qp).context.dropLast
            ++ [.localOperation { (OperationPtr.kOperationList 33).deref with
              op := some ("$" ++ (String.mk name.data.tail ++ "()")) }] }
      refine ⟨message, parseNode_call_error fuel name operands enclosing qp htop _ ?_⟩
      have hname2 : name ++ "()" = "$" ++ (String.mk name.data.tail ++ "()") := by
        conv => lhs; rw [hn]
        rw [String.append_assoc]
      rw [hname2, fallbackOp_parameter (parseNode fuel) _ operands (.kOperationList 33) _
        hentered, hm]
    · by_cases hquestion : name.data.head? = some '?'
      · have hn := eq_singleton_append name '?' hquestion
        obtain ⟨message, hm⟩ := variableOp_call_fails (String.mk name.data.tail) operands
          { (entered (.kOperationList 33) (parenthesize (.kOperationList 33) enclosing) qp) with
            context := (entered (.kOperationList 33)
              (parenthesize (.kOperationList 33) enclosing) qp).context.dropLast
              ++ [.localOperation { (OperationPtr.kOperationList 33).deref with
                op := some ("?" ++ (String.mk name.data.tail ++ "()")) }] }
        refine ⟨message, parseNode_call_error fuel name operands enclosing qp htop _ ?_⟩
        have hname2 : name ++ "()" = "?" ++ (String.mk name.data.tail ++ "()") := by
          conv => lhs; rw [hn]
          rw [String.append_assoc]
        rw [hname2, fallbackOp_variable (parseNode fuel) _ operands (.kOperationList 33) _
          hentered, hm]
      · refine ⟨"Illegal non-alphanumeric character in function name",
          parseNode_call_error fuel name operands enclosing qp htop _ ?_⟩
        rw [fallbackOp_call (parseNode fuel) name operands (.kOperationList 33) _ hentered hname
          hdot hdollar hquestion]
        unfold functionOp
        simp only [call_append_take, call_append_take_data, hinvalid, Bool.not_false, if_true,
          bind_apply, fail, raise]

/-- Witness of C27: the calls `["f()", 1, ["g()"]]` and `["name()"]`. -/
theorem parseNode_function_witness :
    exampleParser.context.getLast? = some .kOuterOperation ∧ "name" ≠ "" ∧
    parseNode 1 (.array [.string "name()"]) exampleParser
      = (.ok (), { exampleParser with sql := "name()" }) := by
  have h := (parseNode_function 0 "name" [] .kOuterOperation exampleParser rfl
    (by decide)).2.2.1 (by decide) rfl
  exact ⟨rfl, by decide, h.trans (by decide!)⟩

/-! ### Relations that every method keeps -/

theorem keeps_bind {α β : Type} {I : State → State → Prop} (hI : Stable I) {m : M α}
    {k : α → M β} (hm : Keeps I m) (hk : ∀ a, Keeps I (k a)) : Keeps I (m >>= k) := by
  constructor
  intro qp b h
  have hb := bind_apply m k qp
  have h1 := hm.keeps qp
  cases hq : m qp with
  | mk r q1 =>
    rw [hq] at hb h1
    cases r with
    | error e =>
      rw [hb] at h
      cases h
    | ok a =>
      simp only at hb h1
      rw [hb] at h ⊢
      exact hI.trans _ _ _ (h1 a rfl) ((hk a).keeps q1 b h)

theorem keeps_pure {α : Type} {I : State → State → Prop} (hI : Stable I) (a : α) :
    Keeps I (pure a : M α) := ⟨fun q _ _ => hI.refl q⟩

theorem keeps_raise {α : Type} {I : State → State → Prop} (e : Error) :
    Keeps I (raise e : M α) := ⟨fun _ _ h => by cases h⟩

theorem keeps_fail {α : Type} {I : State → State → Prop} (s : String) :
    Keeps I (fail s : M α) := keeps_raise _

theorem keeps_getState {I : State → State → Prop} (hI : Stable I) : Keeps I getState :=
  ⟨fun q _ _ => hI.refl q⟩

theorem keeps_write {I : State → State → Prop} (hI : Stable I) (s : String) :
    Keeps I (write s) := ⟨fun q _ _ => hI.write q s⟩

theorem keeps_contextBack {I : State → State → Prop} (hI : Stable I) : Keeps I contextBack := by
  constructor
  intro qp a h
  simp only [contextBack] at h ⊢
  cases hb : qp.context.getLast? with
  | none => rw [hb] at h; cases h
  | some op => exact hI.refl qp

theorem keeps_pushContext {I : State → State → Prop} (hI : Stable I) (op : OperationPtr) :
    Keeps I (pushContext op) := ⟨fun q _ _ => hI.pushContext q op⟩

theorem keeps_popContext {I : State → State → Prop} (hI : Stable I) : Keeps I popContext :=
  ⟨fun q _ _ => hI.popContext q⟩

theorem keeps_setContextBack {I : State → State → Prop} (hI : Stable I) (op : OperationPtr) :
    Keeps I (setContextBack op) := ⟨fun q _ _ => hI.setContextBack q op⟩

theorem keeps_reset {I : State → State → Prop} (hI : Stable I) : Keeps I reset :=
  ⟨fun q _ _ => hI.reset q⟩

theorem keeps_liftExcept {α : Type} {I : State → State → Prop} (hI : Stable I)
    (x : Except Error α) : Keeps I (liftExcept x) := by
  cases x
  · exact keeps_raise _
  · exact keeps_pure hI _

theorem keeps_writeSQLString {I : State → State → Prop} (hI : Stable I) (s : String) :
    Keeps I (writeSQLString s) := keeps_write hI _

theorem keeps_insertParameter {I : State → State → Prop} (hI : Stable I) (parameter : String) :
    Keeps I (insertParameter parameter) := ⟨fun q _ _ => hI.insertParameter q parameter⟩

theorem keeps_addFTSTable {I : State → State → Prop} (hI : Stable I) (key : String) :
    Keeps I (addFTSTable key) := ⟨fun q _ _ => hI.addFTSTable q key⟩

theorem keeps_setFirstCustomResultCol {I : State → State → Prop} (hI : Stable I) (nCol : Nat) :
    Keeps I (setFirstCustomResultCol nCol) :=
  ⟨fun q _ _ => hI.setFirstCustomResultCol q nCol⟩

theorem keeps_ite {α : Type} {I : State → State → Prop} (c : Prop) [Decidable c] {a b : M α}
    (ha : Keeps I a) (hb : Keeps I b) : Keeps I (if c then a else b) := by
  split
  · exact ha
  · exact hb

theorem keeps_writePropertyGetter {I : State → State → Prop} (hI : Stable I)
    (fn property : String) :
    Keeps I (writePropertyGetter fn property) := by
  unfold writePropertyGetter
  repeat' with_reducible first
    | exact keeps_pure hI _ | exact keeps_write hI _ | exact keeps_fail _ | exact keeps_raise _
    | exact keeps_getState hI | exact keeps_contextBack hI | exact keeps_liftExcept hI _
    | exact keeps_writeSQLString hI _ | exact keeps_pushContext hI _ | exact keeps_popContext hI
    | exact keeps_setContextBack hI _ | exact keeps_reset hI | exact keeps_insertParameter hI _
    | exact keeps_addFTSTable hI _ | exact keeps_setFirstCustomResultCol hI _
    | assumption
    | apply keeps_bind hI | intro _ | apply keeps_ite | split | dsimp only

theorem keeps_writeStringLiteralAsProperty {I : State → State → Prop} (hI : Stable I)
    (str : String) :
    Keeps I (writeStringLiteralAsProperty str) := by
  unfold writeStringLiteralAsProperty
  repeat' with_reducible first
    | exact keeps_pure hI _ | exact keeps_write hI _ | exact keeps_fail _ | exact keeps_raise _
    | exact keeps_getState hI | exact keeps_contextBack hI | exact keeps_liftExcept hI _
    | exact keeps_writeSQLString hI _ | exact keeps_pushContext hI _ | exact keeps_popContext hI
    | exact keeps_setContextBack hI _ | exact keeps_reset hI | exact keeps_insertParameter hI _
    | exact keeps_addFTSTable hI _ | exact keeps_setFirstCustomResultCol hI _
    | exact keeps_writePropertyGetter hI _ _
    | assumption
    | apply keeps_bind hI | intro _ | apply keeps_ite | split | dsimp only

theorem keeps_writeNestedPropertyOpIfAny {I : State → State → Prop} (hI : Stable I)
    (fnName : String) (operands : List Value) :
    Keeps I (writeNestedPropertyOpIfAny fnName operands) := by
  unfold writeNestedPropertyOpIfAny
  repeat' with_reducible first
    | exact keeps_pure hI _ | exact keeps_write hI _ | exact keeps_fail _ | exact keeps_raise _
    | exact keeps_getState hI | exact keeps_contextBack hI | exact keeps_liftExcept hI _
    | exact keeps_writeSQLString hI _ | exact keeps_pushContext hI _ | exact keeps_popContext hI
    | exact keeps_setContextBack hI _ | exact keeps_reset hI | exact keeps_insertParameter hI _
    | exact keeps_addFTSTable hI _ | exact keeps_setFirstCustomResultCol hI _
    | exact keeps_writePropertyGetter hI _ _ | exact keeps_writeStringLiteralAsProperty hI _
    | assumption
    | apply keeps_bind hI | intro _ | apply keeps_ite | split | dsimp only

theorem keeps_FTSIndexName {I : State → State → Prop} (hI : Stable I)
    (key : Value) :
    Keeps I (FTSIndexName key) := by
  unfold FTSIndexName
  repeat' with_reducible first
    | exact keeps_pure hI _ | exact keeps_write hI _ | exact keeps_fail _ | exact keeps_raise _
    | exact keeps_getState hI | exact keeps_contextBack hI | exact keeps_liftExcept hI _
    | exact keeps_writeSQLString hI _ | exact keeps_pushContext hI _ | exact keeps_popContext hI
    | exact keeps_setContextBack hI _ | exact keeps_reset hI | exact keeps_insertParameter hI _
    | exact keeps_addFTSTable hI _ | exact keeps_setFirstCustomResultCol hI _
    | exact keeps_writePropertyGetter hI _ _ | exact keeps_writeStringLiteralAsProperty hI _
    | exact keeps_writeNestedPropertyOpIfAny hI _ _
    | assumption
    | apply keeps_bind hI | intro _ | apply keeps_ite | split | dsimp only

theorem keeps_FTSPropertyIndex {I : State → State → Prop} (hI : Stable I)
    (matchLHS : Value) (canAdd : Bool) :
    Keeps I (FTSPropertyIndex matchLHS canAdd) := by
  unfold FTSPropertyIndex
  repeat' with_reducible first
    | exact keeps_pure hI _ | exact keeps_write hI _ | exact keeps_fail _ | exact keeps_raise _
    | exact keeps_getState hI | exact keeps_contextBack hI | exact keeps_liftExcept hI _
    | exact keeps_writeSQLString hI _ | exact keeps_pushContext hI _ | exact keeps_popContext hI
    | exact keeps_setContextBack hI _ | exact keeps_reset hI | exact keeps_insertParameter hI _
    | exact keeps_addFTSTable hI _ | exact keeps_setFirstCustomResultCol hI _
    | exact keeps_writePropertyGetter hI _ _ | exact keeps_writeStringLiteralAsProperty hI _
    | exact keeps_writeNestedPropertyOpIfAny hI _ _ | exact keeps_FTSIndexName hI _
    | assumption
    | apply keeps_bind hI | intro _ | apply keeps_ite | split | dsimp only

theorem keeps_parseOperand {I : State → State → Prop} (_hI : Stable I)
    (parseNode : Value → M Unit) (hpn : ∀ node, Keeps I (parseNode node))
    (operands : List Value) (i : Nat) :
    Keeps I (parseOperand parseNode operands i) := by
  unfold parseOperand
  repeat' with_reducible first
    | exact keeps_pure hI _ | exact keeps_write hI _ | exact keeps_fail _ | exact keeps_raise _
    | exact keeps_getState hI | exact keeps_contextBack hI | exact keeps_liftExcept hI _
    | exact keeps_writeSQLString hI _ | exact keeps_pushContext hI _ | exact keeps_popContext hI
    | exact keeps_setContextBack hI _ | exact keeps_reset hI | exact keeps_insertParameter hI _
    | exact keeps_addFTSTable hI _ | exact keeps_setFirstCustomResultCol hI _
    | exact keeps_writePropertyGetter hI _ _ | exact keeps_writeStringLiteralAsProperty hI _
    | exact keeps_writeNestedPropertyOpIfAny hI _ _ | exact keeps_FTSIndexName hI _
    | exact keeps_FTSPropertyIndex hI _ _ | exact hpn _
    | assumption
    | apply keeps_bind hI | intro _ | apply keeps_ite | split | dsimp only

theorem keeps_handleOperationWith {I : State → State → Prop} (hI : Stable I)
    (handler : M Unit) (op : OperationPtr) (h : Keeps I handler) :
    Keeps I (handleOperationWith handler op) := by
  unfold handleOperationWith
  repeat' with_reducible first
    | exact keeps_pure hI _ | exact keeps_write hI _ | exact keeps_fail _ | exact keeps_raise _
    | exact keeps_getState hI | exact keeps_contextBack hI | exact keeps_liftExcept hI _
    | exact keeps_writeSQLString hI _ | exact keeps_pushContext hI _ | exact keeps_popContext hI
    | exact keeps_setContextBack hI _ | exact keeps_reset hI | exact keeps_insertParameter hI _
    | exact keeps_addFTSTable hI _ | exact keeps_setFirstCustomResultCol hI _
    | exact keeps_writePropertyGetter hI _ _ | exact keeps_writeStringLiteralAsProperty hI _
    | exact keeps_writeNestedPropertyOpIfAny hI _ _ | exact keeps_FTSIndexName hI _
    | exact keeps_FTSPropertyIndex hI _ _ | exact keeps_parseOperand hI _ hpn _ _
    | assumption
    | apply keeps_bind hI | intro _ | apply keeps_ite | split | dsimp only

theorem keeps_prefixOp {I : State → State → Prop} (hI : Stable I)
    (parseNode : Value → M Unit) (hpn : ∀ node, Keeps I (parseNode node))
    (op : String) (operands : List Value) :
    Keeps I (prefixOp parseNode op operands) := by
  unfold prefixOp
  repeat' with_reducible first
    | exact keeps_pure hI _ | exact keeps_write hI _ | exact keeps_fail _ | exact keeps_raise _
    | exact keeps_getState hI | exact keeps_contextBack hI | exact keeps_liftExcept hI _
    | exact keeps_writeSQLString hI _ | exact keeps_pushContext hI _ | exact keeps_popContext hI
    | exact keeps_setContextBack hI _ | exact keeps_reset hI | exact keeps_insertParameter hI _
    | exact keeps_addFTSTable hI _ | exact keeps_setFirstCustomResultCol hI _
    | exact keeps_writePropertyGetter hI _ _ | exact keeps_writeStringLiteralAsProperty hI _
    | exact keeps_writeNestedPropertyOpIfAny hI _ _ | exact keeps_FTSIndexName hI _
    | exact keeps_FTSPropertyIndex hI _ _ | exact keeps_parseOperand hI _ hpn _ _ | exact hpn _
    | assumption
    | apply keeps_bind hI | intro _ | apply keeps_ite | split | dsimp only

theorem keeps_postfixOp {I : State → State → Prop} (hI : Stable I)
    (parseNode : Value → M Unit) (hpn : ∀ node, Keeps I (parseNode node))
    (op : String) (operands : List Value) :
    Keeps I (postfixOp parseNode op operands) := by
  unfold postfixOp
  repeat' with_reducible first
    | exact keeps_pure hI _ | exact keeps_write hI _ | exact keeps_fail _ | exact keeps_raise _
    | exact keeps_getState hI | exact keeps_contextBack hI | exact keeps_liftExcept hI _
    | exact keeps_writeSQLString hI _ | exact keeps_pushContext hI _ | exact keeps_popContext hI
    | exact keeps_setContextBack hI _ | exact keeps_reset hI | exact keeps_insertParameter hI _
    | exact keeps_addFTSTable hI _ | exact keeps_setFirstCustomResultCol hI _
    | exact keeps_writePropertyGetter hI _ _ | exact keeps_writeStringLiteralAsProperty hI _
    | exact keeps_writeNestedPropertyOpIfAny hI _ _ | exact keeps_FTSIndexName hI _
    | exact keeps_FTSPropertyIndex hI _ _ | exact keeps_parseOperand hI _ hpn _ _
    | exact keeps_prefixOp hI _ hpn _ _ | exact hpn _
    | assumption
    | apply keeps_bind hI | intro _ | apply keeps_ite | split | dsimp only

theorem keeps_infixOpLoop {I : State → State → Prop} (hI : Stable I)
    (parseNode : Value → M Unit) (hpn : ∀ node, Keeps I (parseNode node))
    (op : String) (operands : List Value) :
    ∀ n, Keeps I (infixOpLoop parseNode op n operands) := by
  induction operands with
  | nil => intro n; exact keeps_pure hI _
  | cons node rest ih =>
    intro n
    unfold infixOpLoop
    repeat' with_reducible first
      | exact keeps_pure hI _ | exact keeps_write hI _ | exact keeps_fail _
      | exact keeps_raise _ | exact keeps_getState hI | exact keeps_contextBack hI
      | exact keeps_liftExcept hI _ | exact keeps_writeSQLString hI _
      | exact keeps_pushContext hI _ | exact keeps_popContext hI
      | exact keeps_setContextBack hI _ | exact keeps_reset hI
      | exact keeps_insertParameter hI _ | exact keeps_addFTSTable hI _
      | exact keeps_setFirstCustomResultCol hI _ | exact keeps_writePropertyGetter hI _ _
      | exact keeps_writeStringLiteralAsProperty hI _
      | exact keeps_writeNestedPropertyOpIfAny hI _ _ | exact keeps_FTSIndexName hI _
      | exact keeps_FTSPropertyIndex hI _ _ | exact keeps_parseOperand hI _ hpn _ _
      | exact keeps_prefixOp hI _ hpn _ _ | exact keeps_postfixOp hI _ hpn _ _ | exact hpn _
      | exact ih _
      | assumption
      | apply keeps_bind hI | intro _ | apply keeps_ite | split | dsimp only

theorem keeps_infixOp {I : State → State → Prop} (hI : Stable I)
    (parseNode : Value → M Unit) (hpn : ∀ node, Keeps I (parseNode node))
    (op : String) (operands : List Value) : Keeps I (infixOp parseNode op operands) :=
  keeps_infixOpLoop hI parseNode hpn op operands 0

theorem keeps_writeArgList {I : State → State → Prop} (hI : Stable I)
    (parseNode : Value → M Unit) (hpn : ∀ node, Keeps I (parseNode node))
    (operands : List Value) : Keeps I (writeArgList parseNode operands) :=
  keeps_handleOperationWith hI _ _ (keeps_infixOp hI parseNode hpn _ _)

theorem keeps_writeColumnList {I : State → State → Prop} (hI : Stable I)
    (parseNode : Value → M Unit) (hpn : ∀ node, Keeps I (parseNode node))
    (operands : List Value) : Keeps I (writeColumnList parseNode operands) :=
  keeps_handleOperationWith hI _ _ (keeps_infixOp hI parseNode hpn _ _)

theorem keeps_existsOp {I : State → State → Prop} (hI : Stable I)
    (parseNode : Value → M Unit) (hpn : ∀ node, Keeps I (parseNode node))
    (op : String) (operands : List Value) :
    Keeps I (existsOp parseNode op operands) := by
  unfold existsOp
  repeat' with_reducible first
    | exact keeps_pure hI _ | exact keeps_write hI _ | exact keeps_fail _ | exact keeps_raise _
    | exact keeps_getState hI | exact keeps_contextBack hI | exact keeps_liftExcept hI _
    | exact keeps_writeSQLString hI _ | exact keeps_pushContext hI _ | exact keeps_popContext hI
    | exact keeps_setContextBack hI _ | exact keeps_reset hI | exact keeps_insertParameter hI _
    | exact keeps_addFTSTable hI _ | exact keeps_setFirstCustomResultCol hI _
    | exact keeps_writePropertyGetter hI _ _ | exact keeps_writeStringLiteralAsProperty hI _
    | exact keeps_writeNestedPropertyOpIfAny hI _ _ | exact keeps_FTSIndexName hI _
    | exact keeps_FTSPropertyIndex hI _ _ | exact keeps_parseOperand hI _ hpn _ _
    | exact keeps_prefixOp hI _ hpn _ _ | exact keeps_postfixOp hI _ hpn _ _
    | exact keeps_infixOp hI _ hpn _ _ | exact keeps_writeArgList hI _ hpn _
    | exact keeps_writeColumnList hI _ hpn _ | exact hpn _
    | assumption
    | apply keeps_bind hI | intro _ | apply keeps_ite | split | dsimp only

theorem keeps_betweenOp {I : State → State → Prop} (hI : Stable I)
    (parseNode : Value → M Unit) (hpn : ∀ node, Keeps I (parseNode node))
    (op : String) (operands : List Value) :
    Keeps I (betweenOp parseNode op operands) := by
  unfold betweenOp
  repeat' with_reducible first
    | exact keeps_pure hI _ | exact keeps_write hI _ | exact keeps_fail _ | exact keeps_raise _
    | exact keeps_getState hI | exact keeps_contextBack hI | exact keeps_liftExcept hI _
    | exact keeps_writeSQLString hI _ | exact keeps_pushContext hI _ | exact keeps_popContext hI
    | exact keeps_setContextBack hI _ | exact keeps_reset hI | exact keeps_insertParameter hI _
    | exact keeps_addFTSTable hI _ | exact keeps_setFirstCustomResultCol hI _
    | exact keeps_writePropertyGetter hI _ _ | exact keeps_writeStringLiteralAsProperty hI _
    | exact keeps_writeNestedPropertyOpIfAny hI _ _ | exact keeps_FTSIndexName hI _
    | exact keeps_FTSPropertyIndex hI _ _ | exact keeps_parseOperand hI _ hpn _ _
    | exact keeps_prefixOp hI _ hpn _ _ | exact keeps_postfixOp hI _ hpn _ _
    | exact keeps_infixOp hI _ hpn _ _ | exact keeps_writeArgList hI _ hpn _
    | exact keeps_writeColumnList hI _ hpn _ | exact keeps_existsOp hI _ hpn _ _ | exact hpn _
    | assumption
    | apply keeps_bind hI | intro _ | apply keeps_ite | split | dsimp only

theorem keeps_inOp {I : State → State → Prop} (hI : Stable I)
    (parseNode : Value → M Unit) (hpn : ∀ node, Keeps I (parseNode node))
    (op : String) (operands : List Value) :
    Keeps I (inOp parseNode op operands) := by
  unfold inOp
  repeat' with_reducible first
    | exact keeps_pure hI _ | exact keeps_write hI _ | exact keeps_fail _ | exact keeps_raise _
    | exact keeps_getState hI | exact keeps_contextBack hI | exact keeps_liftExcept hI _
    | exact keeps_writeSQLString hI _ | exact keeps_pushContext hI _ | exact keeps_popContext hI
    | exact keeps_setContextBack hI _ | exact keeps_reset hI | exact keeps_insertParameter hI _
    | exact keeps_addFTSTable hI _ | exact keeps_setFirstCustomResultCol hI _
    | exact keeps_writePropertyGetter hI _ _ | exact keeps_writeStringLiteralAsProperty hI _
    | exact keeps_writeNestedPropertyOpIfAny hI _ _ | exact keeps_FTSIndexName hI _
    | exact keeps_FTSPropertyIndex hI _ _ | exact keeps_parseOperand hI _ hpn _ _
    | exact keeps_prefixOp hI _ hpn _ _ | exact keeps_postfixOp hI _ hpn _ _
    | exact keeps_infixOp hI _ hpn _ _ | exact keeps_writeArgList hI _ hpn _
    | exact keeps_writeColumnList hI _ hpn _ | exact keeps_existsOp hI _ hpn _ _
    | exact keeps_betweenOp hI _ hpn _ _ | exact hpn _
    | assumption
    | apply keeps_bind hI | intro _ | apply keeps_ite | split | dsimp only

theorem keeps_matchOp {I : State → State → Prop} (hI : Stable I)
    (parseNode : Value → M Unit) (hpn : ∀ node, Keeps I (parseNode node))
    (op : String) (operands : List Value) :
    Keeps I (matchOp parseNode op operands) := by
  unfold matchOp
  repeat' with_reducible first
    | exact keeps_pure hI _ | exact keeps_write hI _ | exact keeps_fail _ | exact keeps_raise _
    | exact keeps_getState hI | exact keeps_contextBack hI | exact keeps_liftExcept hI _
    | exact keeps_writeSQLString hI _ | exact keeps_pushContext hI _ | exact keeps_popContext hI
    | exact keeps_setContextBack hI _ | exact keeps_reset hI | exact keeps_insertParameter hI _
    | exact keeps_addFTSTable hI _ | exact keeps_setFirstCustomResultCol hI _
    | exact keeps_writePropertyGetter hI _ _ | exact keeps_writeStringLiteralAsProperty hI _
    | exact keeps_writeNestedPropertyOpIfAny hI _ _ | exact keeps_FTSIndexName hI _
    | exact keeps_FTSPropertyIndex hI _ _ | exact keeps_parseOperand hI _ hpn _ _
    | exact keeps_prefixOp hI _ hpn _ _ | exact keeps_postfixOp hI _ hpn _ _
    | exact keeps_infixOp hI _ hpn _ _ | exact keeps_writeArgList hI _ hpn _
    | exact keeps_writeColumnList hI _ hpn _ | exact keeps_existsOp hI _ hpn _ _
    | exact keeps_betweenOp hI _ hpn _ _ | exact keeps_inOp hI _ hpn _ _ | exact hpn _
    | assumption
    | apply keeps_bind hI | intro _ | apply keeps_ite | split | dsimp only

theorem keeps_functionOp {I : State → State → Prop} (hI : Stable I)
    (parseNode : Value → M Unit) (hpn : ∀ node, Keeps I (parseNode node))
    (op : String) (operands : List Value) :
    Keeps I (functionOp parseNode op operands) := by
  unfold functionOp
  repeat' with_reducible first
    | exact keeps_pure hI _ | exact keeps_write hI _ | exact keeps_fail _ | exact keeps_raise _
    | exact keeps_getState hI | exact keeps_contextBack hI | exact keeps_liftExcept hI _
    | exact keeps_writeSQLString hI _ | exact keeps_pushContext hI _ | exact keeps_popContext hI
    | exact keeps_setContextBack hI _ | exact keeps_reset hI | exact keeps_insertParameter hI _
    | exact keeps_addFTSTable hI _ | exact keeps_setFirstCustomResultCol hI _
    | exact keeps_writePropertyGetter hI _ _ | exact keeps_writeStringLiteralAsProperty hI _
    | exact keeps_writeNestedPropertyOpIfAny hI _ _ | exact keeps_FTSIndexName hI _
    | exact keeps_FTSPropertyIndex hI _ _ | exact keeps_parseOperand hI _ hpn _ _
    | exact keeps_prefixOp hI _ hpn _ _ | exact keeps_postfixOp hI _ hpn _ _
    | exact keeps_infixOp hI _ hpn _ _ | exact keeps_writeArgList hI _ hpn _
    | exact keeps_writeColumnList hI _ hpn _ | exact keeps_existsOp hI _ hpn _ _
    | exact keeps_betweenOp hI _ hpn _ _ | exact keeps_inOp hI _ hpn _ _
    | exact keeps_matchOp hI _ hpn _ _ | exact hpn _
    | assumption
    | apply keeps_bind hI | intro _ | apply keeps_ite | split | dsimp only

theorem keeps_propertyOp {I : State → State → Prop} (hI : Stable I)
    (op : String) (operands : List Value) :
    Keeps I (propertyOp op operands) := by
  unfold propertyOp
  repeat' with_reducible first
    | exact keeps_pure hI _ | exact keeps_write hI _ | exact keeps_fail _ | exact keeps_raise _
    | exact keeps_getState hI | exact keeps_contextBack hI | exact keeps_liftExcept hI _
    | exact keeps_writeSQLString hI _ | exact keeps_pushContext hI _ | exact keeps_popContext hI
    | exact keeps_setContextBack hI _ | exact keeps_reset hI | exact keeps_insertParameter hI _
    | exact keeps_addFTSTable hI _ | exact keeps_setFirstCustomResultCol hI _
    | exact keeps_writePropertyGetter hI _ _ | exact keeps_writeStringLiteralAsProperty hI _
    | exact keeps_writeNestedPropertyOpIfAny hI _ _ | exact keeps_FTSIndexName hI _
    | exact keeps_FTSPropertyIndex hI _ _ | exact keeps_parseOperand hI _ hpn _ _
    | exact keeps_prefixOp hI _ hpn _ _ | exact keeps_postfixOp hI _ hpn _ _
    | exact keeps_infixOp hI _ hpn _ _ | exact keeps_writeArgList hI _ hpn _
    | exact keeps_writeColumnList hI _ hpn _ | exact keeps_existsOp hI _ hpn _ _
    | exact keeps_betweenOp hI _ hpn _ _ | exact keeps_inOp hI _ hpn _ _
    | exact keeps_matchOp hI _ hpn _ _ | exact keeps_functionOp hI _ hpn _ _
    | assumption
    | apply keeps_bind hI | intro _ | apply keeps_ite | split | dsimp only

theorem keeps_parameterOp {I : State → State → Prop} (hI : Stable I)
    (op : String) (operands : List Value) :
    Keeps I (parameterOp op operands) := by
  unfold parameterOp
  repeat' with_reducible first
    | exact keeps_pure hI _ | exact keeps_write hI _ | exact keeps_fail _ | exact keeps_raise _
    | exact keeps_getState hI | exact keeps_contextBack hI | exact keeps_liftExcept hI _
    | exact keeps_writeSQLString hI _ | exact keeps_pushContext hI _ | exact keeps_popContext hI
    | exact keeps_setContextBack hI _ | exact keeps_reset hI | exact keeps_insertParameter hI _
    | exact keeps_addFTSTable hI _ | exact keeps_setFirstCustomResultCol hI _
    | exact keeps_writePropertyGetter hI _ _ | exact keeps_writeStringLiteralAsProperty hI _
    | exact keeps_writeNestedPropertyOpIfAny hI _ _ | exact keeps_FTSIndexName hI _
    | exact keeps_FTSPropertyIndex hI _ _ | exact keeps_parseOperand hI _ hpn _ _
    | exact keeps_prefixOp hI _ hpn _ _ | exact keeps_postfixOp hI _ hpn _ _
    | exact keeps_infixOp hI _ hpn _ _ | exact keeps_writeArgList hI _ hpn _
    | exact keeps_writeColumnList hI _ hpn _ | exact keeps_existsOp hI _ hpn _ _
    | exact keeps_betweenOp hI _ hpn _ _ | exact keeps_inOp hI _ hpn _ _
    | exact keeps_matchOp hI _ hpn _ _ | exact keeps_functionOp hI _ hpn _ _
    | exact keeps_propertyOp hI _ _
    | assumption
    | apply keeps_bind hI | intro _ | apply keeps_ite | split | dsimp only

theorem keeps_variableOp {I : State → State → Prop} (hI : Stable I)
    (op : String) (operands : List Value) :
    Keeps I (variableOp op operands) := by
  unfold variableOp
  repeat' with_reducible first
    | exact keeps_pure hI _ | exact keeps_write hI _ | exact keeps_fail _ | exact keeps_raise _
    | exact keeps_getState hI | exact keeps_contextBack hI | exact keeps_liftExcept hI _
    | exact keeps_writeSQLString hI _ | exact keeps_pushContext hI _ | exact keeps_popContext hI
    | exact keeps_setContextBack hI _ | exact keeps_reset hI | exact keeps_insertParameter hI _
    | exact keeps_addFTSTable hI _ | exact keeps_setFirstCustomResultCol hI _
    | exact keeps_writePropertyGetter hI _ _ | exact keeps_writeStringLiteralAsProperty hI _
    | exact keeps_writeNestedPropertyOpIfAny hI _ _ | exact keeps_FTSIndexName hI _
    | exact keeps_FTSPropertyIndex hI _ _ | exact keeps_parseOperand hI _ hpn _ _
    | exact keeps_prefixOp hI _ hpn _ _ | exact keeps_postfixOp hI _ hpn _ _
    | exact keeps_infixOp hI _ hpn _ _ | exact keeps_writeArgList hI _ hpn _
    | exact keeps_writeColumnList hI _ hpn _ | exact keeps_existsOp hI _ hpn _ _
    | exact keeps_betweenOp hI _ hpn _ _ | exact keeps_inOp hI _ hpn _ _
    | exact keeps_matchOp hI _ hpn _ _ | exact keeps_functionOp hI _ hpn _ _
    | exact keeps_propertyOp hI _ _ | exact keeps_parameterOp hI _ _
    | assumption
    | apply keeps_bind hI | intro _ | apply keeps_ite | split | dsimp only

theorem keeps_missingOp {I : State → State → Prop} (hI : Stable I)
    (op : String) (operands : List Value) :
    Keeps I (missingOp op operands) := by
  unfold missingOp
  repeat' with_reducible first
    | exact keeps_pure hI _ | exact keeps_write hI _ | exact keeps_fail _ | exact keeps_raise _
    | exact keeps_getState hI | exact keeps_contextBack hI | exact keeps_liftExcept hI _
    | exact keeps_writeSQLString hI _ | exact keeps_pushContext hI _ | exact keeps_popContext hI
    | exact keeps_setContextBack hI _ | exact keeps_reset hI | exact keeps_insertParameter hI _
    | exact keeps_addFTSTable hI _ | exact keeps_setFirstCustomResultCol hI _
    | exact keeps_writePropertyGetter hI _ _ | exact keeps_writeStringLiteralAsProperty hI _
    | exact keeps_writeNestedPropertyOpIfAny hI _ _ | exact keeps_FTSIndexName hI _
    | exact keeps_FTSPropertyIndex hI _ _ | exact keeps_parseOperand hI _ hpn _ _
    | exact keeps_prefixOp hI _ hpn _ _ | exact keeps_postfixOp hI _ hpn _ _
    | exact keeps_infixOp hI _ hpn _ _ | exact keeps_writeArgList hI _ hpn _
    | exact keeps_writeColumnList hI _ hpn _ | exact keeps_existsOp hI _ hpn _ _
    | exact keeps_betweenOp hI _ hpn _ _ | exact keeps_inOp hI _ hpn _ _
    | exact keeps_matchOp hI _ hpn _ _ | exact keeps_functionOp hI _ hpn _ _
    | exact keeps_propertyOp hI _ _ | exact keeps_parameterOp hI _ _
    | exact keeps_variableOp hI _ _
    | assumption
    | apply keeps_bind hI | intro _ | apply keeps_ite | split | dsimp only

theorem keeps_fallbackOp {I : State → State → Prop} (hI : Stable I)
    (parseNode : Value → M Unit) (hpn : ∀ node, Keeps I (parseNode node))
    (op : String) (operands : List Value) :
    Keeps I (fallbackOp parseNode op operands) := by
  unfold fallbackOp
  repeat' with_reducible first
    | exact keeps_pure hI _ | exact keeps_write hI _ | exact keeps_fail _ | exact keeps_raise _
    | exact keeps_getState hI | exact keeps_contextBack hI | exact keeps_liftExcept hI _
    | exact keeps_writeSQLString hI _ | exact keeps_pushContext hI _ | exact keeps_popContext hI
    | exact keeps_setContextBack hI _ | exact keeps_reset hI | exact keeps_insertParameter hI _
    | exact keeps_addFTSTable hI _ | exact keeps_setFirstCustomResultCol hI _
    | exact keeps_writePropertyGetter hI _ _ | exact keeps_writeStringLiteralAsProperty hI _
    | exact keeps_writeNestedPropertyOpIfAny hI _ _ | exact keeps_FTSIndexName hI _
    | exact keeps_FTSPropertyIndex hI _ _ | exact keeps_parseOperand hI _ hpn _ _
    | exact keeps_prefixOp hI _ hpn _ _ | exact keeps_postfixOp hI _ hpn _ _
    | exact keeps_infixOp hI _ hpn _ _ | exact keeps_writeArgList hI _ hpn _
    | exact keeps_writeColumnList hI _ hpn _ | exact keeps_existsOp hI _ hpn _ _
    | exact keeps_betweenOp hI _ hpn _ _ | exact keeps_inOp hI _ hpn _ _
    | exact keeps_matchOp hI _ hpn _ _ | exact keeps_functionOp hI _ hpn _ _
    | exact keeps_propertyOp hI _ _ | exact keeps_parameterOp hI _ _
    | exact keeps_variableOp hI _ _ | exact keeps_missingOp hI _ _ | exact hpn _
    | assumption
    | apply keeps_bind hI | intro _ | apply keeps_ite | split | dsimp only

theorem keeps_findFTSPropertiesIn {I : State → State → Prop} (hI : Stable I)
    (l : List Value)
    (h : ∀ v ∈ l, Keeps I (findFTSProperties v)) : Keeps I (findFTSPropertiesIn l) := by
  induction l with
  | nil => rw [findFTSPropertiesIn]; exact keeps_pure hI _
  | cons a l ih =>
    rw [findFTSPropertiesIn]
    exact keeps_bind hI (h a (List.mem_cons_self _ _))
      (fun _ => ih (fun v hv => h v (List.mem_cons_of_mem _ hv)))

theorem keeps_findFTSProperties_depth {I : State → State → Prop} (hI : Stable I) :
    ∀ (n : Nat) (v : Value), v.depth ≤ n → Keeps I (findFTSProperties v) := by
  intro n
  induction n with
  | zero =>
    intro v hv
    cases v with
    | array items => rw [Value.depth] at hv; omega
    | dict entries => simp only [findFTSProperties]; exact keeps_pure hI _
    | _ => simp only [findFTSProperties]; exact keeps_pure hI _
  | succ n ih =>
    intro v hv
    cases v with
    | array items =>
      rw [Value.depth] at hv
      cases items with
      | nil => simp only [findFTSProperties]; exact keeps_pure hI _
      | cons first operands =>
        have hops : ∀ v ∈ operands, Keeps I (findFTSProperties v) := fun v hv2 =>
          ih v (le_trans (depth_le_depthItems (List.mem_cons_of_mem first hv2)) (by omega))
        cases operands with
        | nil =>
          rw [findFTSProperties]
          split
          · exact keeps_pure hI _
          · exact keeps_findFTSPropertiesIn hI _ hops
        | cons lhs rest =>
          rw [findFTSProperties]
          split
          · exact keeps_bind hI (keeps_FTSPropertyIndex hI _ _) (fun _ =>
              keeps_findFTSPropertiesIn hI _ (fun v hv2 => hops v (List.mem_cons_of_mem _ hv2)))
          · exact keeps_findFTSPropertiesIn hI _ hops
    | _ => simp only [findFTSProperties]; exact keeps_pure hI _

theorem keeps_findFTSProperties {I : State → State → Prop} (hI : Stable I) (v : Value) :
    Keeps I (findFTSProperties v) :=
  keeps_findFTSProperties_depth hI v.depth v (le_refl _)

theorem keeps_writeResultColumn {I : State → State → Prop} (hI : Stable I)
    (parseNode : Value → M Unit) (hpn : ∀ node, Keeps I (parseNode node))
    (val : Value) :
    Keeps I (writeResultColumn parseNode val) := by
  unfold writeResultColumn
  repeat' with_reducible first
    | exact keeps_pure hI _ | exact keeps_write hI _ | exact keeps_fail _ | exact keeps_raise _
    | exact keeps_getState hI | exact keeps_contextBack hI | exact keeps_liftExcept hI _
    | exact keeps_writeSQLString hI _ | exact keeps_pushContext hI _ | exact keeps_popContext hI
    | exact keeps_setContextBack hI _ | exact keeps_reset hI | exact keeps_insertParameter hI _
    | exact keeps_addFTSTable hI _ | exact keeps_setFirstCustomResultCol hI _
    | exact keeps_writePropertyGetter hI _ _ | exact keeps_writeStringLiteralAsProperty hI _
    | exact keeps_writeNestedPropertyOpIfAny hI _ _ | exact keeps_FTSIndexName hI _
    | exact keeps_FTSPropertyIndex hI _ _ | exact keeps_parseOperand hI _ hpn _ _
    | exact keeps_prefixOp hI _ hpn _ _ | exact keeps_postfixOp hI _ hpn _ _
    | exact keeps_infixOp hI _ hpn _ _ | exact keeps_writeArgList hI _ hpn _
    | exact keeps_writeColumnList hI _ hpn _ | exact keeps_existsOp hI _ hpn _ _
    | exact keeps_betweenOp hI _ hpn _ _ | exact keeps_inOp hI _ hpn _ _
    | exact keeps_matchOp hI _ hpn _ _ | exact keeps_functionOp hI _ hpn _ _
    | exact keeps_propertyOp hI _ _ | exact keeps_parameterOp hI _ _
    | exact keeps_variableOp hI _ _ | exact keeps_missingOp hI _ _
    | exact keeps_fallbackOp hI _ hpn _ _ | exact keeps_findFTSProperties hI _ | exact hpn _
    | assumption
    | apply keeps_bind hI | intro _ | apply keeps_ite | split | dsimp only

theorem keeps_writeWhats {I : State → State → Prop} (hI : Stable I)
    (parseNode : Value → M Unit) (hpn : ∀ node, Keeps I (parseNode node))
    (whats : List Value) : ∀ nCol, Keeps I (writeWhats parseNode nCol whats) := by
  induction whats with
  | nil => intro nCol; exact keeps_pure hI _
  | cons val rest ih =>
    intro nCol
    unfold writeWhats
    repeat' with_reducible first
      | exact keeps_pure hI _ | exact keeps_write hI _ | exact keeps_fail _
      | exact keeps_raise _ | exact keeps_getState hI | exact keeps_contextBack hI
      | exact keeps_liftExcept hI _ | exact keeps_writeSQLString hI _
      | exact keeps_pushContext hI _ | exact keeps_popContext hI
      | exact keeps_setContextBack hI _ | exact keeps_reset hI
      | exact keeps_insertParameter hI _ | exact keeps_addFTSTable hI _
      | exact keeps_setFirstCustomResultCol hI _ | exact keeps_writePropertyGetter hI _ _
      | exact keeps_writeStringLiteralAsProperty hI _
      | exact keeps_writeNestedPropertyOpIfAny hI _ _ | exact keeps_FTSIndexName hI _
      | exact keeps_FTSPropertyIndex hI _ _ | exact keeps_parseOperand hI _ hpn _ _
      | exact keeps_prefixOp hI _ hpn _ _ | exact keeps_postfixOp hI _ hpn _ _
      | exact keeps_infixOp hI _ hpn _ _ | exact keeps_writeArgList hI _ hpn _
      | exact keeps_writeColumnList hI _ hpn _ | exact keeps_existsOp hI _ hpn _ _
      | exact keeps_betweenOp hI _ hpn _ _ | exact keeps_inOp hI _ hpn _ _
      | exact keeps_matchOp hI _ hpn _ _ | exact keeps_functionOp hI _ hpn _ _
      | exact keeps_propertyOp hI _ _ | exact keeps_parameterOp hI _ _
      | exact keeps_variableOp hI _ _ | exact keeps_missingOp hI _ _
      | exact keeps_fallbackOp hI _ hpn _ _ | exact keeps_findFTSProperties hI _
      | exact keeps_writeResultColumn hI _ hpn _ | exact hpn _ | exact ih _
      | assumption
      | apply keeps_bind hI | intro _ | apply keeps_ite | split | dsimp only

theorem keeps_writeSelect {I : State → State → Prop} (hI : Stable I)
    (parseNode : Value → M Unit) (hpn : ∀ node, Keeps I (parseNode node))
    (whereNode : Option Value)
    (operands : Option (List (String × Value))) :
    Keeps I (writeSelect parseNode whereNode operands) := by
  unfold writeSelect
  repeat' with_reducible first
    | exact keeps_pure hI _ | exact keeps_write hI _ | exact keeps_fail _ | exact keeps_raise _
    | exact keeps_getState hI | exact keeps_contextBack hI | exact keeps_liftExcept hI _
    | exact keeps_writeSQLString hI _ | exact keeps_pushContext hI _ | exact keeps_popContext hI
    | exact keeps_setContextBack hI _ | exact keeps_reset hI | exact keeps_insertParameter hI _
    | exact keeps_addFTSTable hI _ | exact keeps_setFirstCustomResultCol hI _
    | exact keeps_writePropertyGetter hI _ _ | exact keeps_writeStringLiteralAsProperty hI _
    | exact keeps_writeNestedPropertyOpIfAny hI _ _ | exact keeps_FTSIndexName hI _
    | exact keeps_FTSPropertyIndex hI _ _ | exact keeps_parseOperand hI _ hpn _ _
    | exact keeps_prefixOp hI _ hpn _ _ | exact keeps_postfixOp hI _ hpn _ _
    | exact keeps_infixOp hI _ hpn _ _ | exact keeps_writeArgList hI _ hpn _
    | exact keeps_writeColumnList hI _ hpn _ | exact keeps_existsOp hI _ hpn _ _
    | exact keeps_betweenOp hI _ hpn _ _ | exact keeps_inOp hI _ hpn _ _
    | exact keeps_matchOp hI _ hpn _ _ | exact keeps_functionOp hI _ hpn _ _
    | exact keeps_propertyOp hI _ _ | exact keeps_parameterOp hI _ _
    | exact keeps_variableOp hI _ _ | exact keeps_missingOp hI _ _
    | exact keeps_fallbackOp hI _ hpn _ _ | exact keeps_findFTSProperties hI _
    | exact keeps_writeResultColumn hI _ hpn _ | exact keeps_writeWhats hI _ hpn _ _
    | exact hpn _
    | assumption
    | apply keeps_bind hI | intro _ | apply keeps_ite | split | dsimp only

theorem keeps_writeSelectOperands {I : State → State → Prop} (hI : Stable I)
    (parseNode : Value → M Unit) (hpn : ∀ node, Keeps I (parseNode node))
    (operands : List (String × Value)) : Keeps I (writeSelectOperands parseNode operands) :=
  keeps_writeSelect hI parseNode hpn _ _

theorem keeps_selectOp {I : State → State → Prop} (hI : Stable I)
    (parseNode : Value → M Unit) (hpn : ∀ node, Keeps I (parseNode node))
    (op : String) (operands : List Value) :
    Keeps I (selectOp parseNode op operands) := by
  unfold selectOp
  repeat' with_reducible first
    | exact keeps_pure hI _ | exact keeps_write hI _ | exact keeps_fail _ | exact keeps_raise _
    | exact keeps_getState hI | exact keeps_contextBack hI | exact keeps_liftExcept hI _
    | exact keeps_writeSQLString hI _ | exact keeps_pushContext hI _ | exact keeps_popContext hI
    | exact keeps_setContextBack hI _ | exact keeps_reset hI | exact keeps_insertParameter hI _
    | exact keeps_addFTSTable hI _ | exact keeps_setFirstCustomResultCol hI _
    | exact keeps_writePropertyGetter hI _ _ | exact keeps_writeStringLiteralAsProperty hI _
    | exact keeps_writeNestedPropertyOpIfAny hI _ _ | exact keeps_FTSIndexName hI _
    | exact keeps_FTSPropertyIndex hI _ _ | exact keeps_parseOperand hI _ hpn _ _
    | exact keeps_prefixOp hI _ hpn _ _ | exact keeps_postfixOp hI _ hpn _ _
    | exact keeps_infixOp hI _ hpn _ _ | exact keeps_writeArgList hI _ hpn _
    | exact keeps_writeColumnList hI _ hpn _ | exact keeps_existsOp hI _ hpn _ _
    | exact keeps_betweenOp hI _ hpn _ _ | exact keeps_inOp hI _ hpn _ _
    | exact keeps_matchOp hI _ hpn _ _ | exact keeps_functionOp hI _ hpn _ _
    | exact keeps_propertyOp hI _ _ | exact keeps_parameterOp hI _ _
    | exact keeps_variableOp hI _ _ | exact keeps_missingOp hI _ _
    | exact keeps_fallbackOp hI _ hpn _ _ | exact keeps_findFTSProperties hI _
    | exact keeps_writeResultColumn hI _ hpn _ | exact keeps_writeWhats hI _ hpn _ _
    | exact keeps_writeSelect hI _ hpn _ _ | exact keeps_writeSelectOperands hI _ hpn _
    | exact hpn _
    | assumption
    | apply keeps_bind hI | intro _ | apply keeps_ite | split | dsimp only

theorem keeps_callHandler {I : State → State → Prop} (hI : Stable I)
    (hany : ∀ (pn : Value → M Unit) (op : String) (operands : List Value),
      (∀ node, Keeps I (pn node)) → Keeps I (anyEveryOp pn op operands))
    (parseNode : Value → M Unit) (hpn : ∀ node, Keeps I (parseNode node))
    (handler : Option OpHandler) (op : String) (operands : List Value) :
    Keeps I (callHandler parseNode handler op operands) := by
  unfold callHandler
  split
  all_goals first
    | exact hany _ _ _ hpn
    | exact keeps_prefixOp hI _ hpn _ _
    | exact keeps_postfixOp hI _ hpn _ _
    | exact keeps_infixOp hI _ hpn _ _
    | exact keeps_existsOp hI _ hpn _ _
    | exact keeps_betweenOp hI _ hpn _ _
    | exact keeps_inOp hI _ hpn _ _
    | exact keeps_matchOp hI _ hpn _ _
    | exact keeps_functionOp hI _ hpn _ _
    | exact keeps_propertyOp hI _ _
    | exact keeps_parameterOp hI _ _
    | exact keeps_variableOp hI _ _
    | exact keeps_missingOp hI _ _
    | exact keeps_fallbackOp hI _ hpn _ _
    | exact keeps_selectOp hI _ hpn _ _
    | exact keeps_raise _

theorem keeps_handleOperation {I : State → State → Prop} (hI : Stable I)
    (hany : ∀ (pn : Value → M Unit) (op : String) (operands : List Value),
      (∀ node, Keeps I (pn node)) → Keeps I (anyEveryOp pn op operands))
    (parseNode : Value → M Unit) (hpn : ∀ node, Keeps I (parseNode node))
    (opDef : OperationPtr) (op : String) (operands : List Value) :
    Keeps I (handleOperation parseNode opDef op operands) :=
  keeps_handleOperationWith hI _ _ (keeps_callHandler hI hany parseNode hpn _ _ _)

theorem keeps_parseOpNode {I : State → State → Prop} (hI : Stable I)
    (hany : ∀ (pn : Value → M Unit) (op : String) (operands : List Value),
      (∀ node, Keeps I (pn node)) → Keeps I (anyEveryOp pn op operands))
    (parseNode : Value → M Unit) (hpn : ∀ node, Keeps I (parseNode node))
    (node : List Value) : Keeps I (parseOpNode parseNode node) := by
  unfold parseOpNode
  repeat' with_reducible first
    | exact keeps_pure hI _ | exact keeps_write hI _ | exact keeps_fail _ | exact keeps_raise _
    | exact keeps_getState hI | exact keeps_contextBack hI | exact keeps_liftExcept hI _
    | exact keeps_writeSQLString hI _ | exact keeps_pushContext hI _ | exact keeps_popContext hI
    | exact keeps_setContextBack hI _ | exact keeps_reset hI | exact keeps_insertParameter hI _
    | exact keeps_addFTSTable hI _ | exact keeps_setFirstCustomResultCol hI _
    | exact keeps_writePropertyGetter hI _ _ | exact keeps_writeStringLiteralAsProperty hI _
    | exact keeps_writeNestedPropertyOpIfAny hI _ _ | exact keeps_FTSIndexName hI _
    | exact keeps_FTSPropertyIndex hI _ _ | exact keeps_parseOperand hI _ hpn _ _
    | exact keeps_prefixOp hI _ hpn _ _ | exact keeps_postfixOp hI _ hpn _ _
    | exact keeps_infixOp hI _ hpn _ _ | exact keeps_writeArgList hI _ hpn _
    | exact keeps_writeColumnList hI _ hpn _ | exact keeps_existsOp hI _ hpn _ _
    | exact keeps_betweenOp hI _ hpn _ _ | exact keeps_inOp hI _ hpn _ _
    | exact keeps_matchOp hI _ hpn _ _ | exact keeps_functionOp hI _ hpn _ _
    | exact keeps_propertyOp hI _ _ | exact keeps_parameterOp hI _ _
    | exact keeps_variableOp hI _ _ | exact keeps_missingOp hI _ _
    | exact keeps_fallbackOp hI _ hpn _ _ | exact keeps_findFTSProperties hI _
    | exact keeps_writeResultColumn hI _ hpn _ | exact keeps_writeWhats hI _ hpn _ _
    | exact keeps_writeSelect hI _ hpn _ _ | exact keeps_writeSelectOperands hI _ hpn _
    | exact keeps_selectOp hI _ hpn _ _ | exact keeps_handleOperation hI hany _ hpn _ _ _
    | exact hpn _
    | assumption
    | apply keeps_bind hI | intro _ | apply keeps_ite | split | dsimp only

theorem keeps_parseNodeWith {I : State → State → Prop} (hI : Stable I)
    (hany : ∀ (pn : Value → M Unit) (op : String) (operands : List Value),
      (∀ node, Keeps I (pn node)) → Keeps I (anyEveryOp pn op operands))
    (parseNode : Value → M Unit) (hpn : ∀ node, Keeps I (parseNode node))
    (node : Value) : Keeps I (parseNodeWith parseNode node) := by
  unfold parseNodeWith
  repeat' with_reducible first
    | exact keeps_pure hI _ | exact keeps_write hI _ | exact keeps_fail _ | exact keeps_raise _
    | exact keeps_getState hI | exact keeps_contextBack hI | exact keeps_liftExcept hI _
    | exact keeps_writeSQLString hI _ | exact keeps_pushContext hI _ | exact keeps_popContext hI
    | exact keeps_setContextBack hI _ | exact keeps_reset hI | exact keeps_insertParameter hI _
    | exact keeps_addFTSTable hI _ | exact keeps_setFirstCustomResultCol hI _
    | exact keeps_writePropertyGetter hI _ _ | exact keeps_writeStringLiteralAsProperty hI _
    | exact keeps_writeNestedPropertyOpIfAny hI _ _ | exact keeps_FTSIndexName hI _
    | exact keeps_FTSPropertyIndex hI _ _ | exact keeps_parseOperand hI _ hpn _ _
    | exact keeps_prefixOp hI _ hpn _ _ | exact keeps_postfixOp hI _ hpn _ _
    | exact keeps_infixOp hI _ hpn _ _ | exact keeps_writeArgList hI _ hpn _
    | exact keeps_writeColumnList hI _ hpn _ | exact keeps_existsOp hI _ hpn _ _
    | exact keeps_betweenOp hI _ hpn _ _ | exact keeps_inOp hI _ hpn _ _
    | exact keeps_matchOp hI _ hpn _ _ | exact keeps_functionOp hI _ hpn _ _
    | exact keeps_propertyOp hI _ _ | exact keeps_parameterOp hI _ _
    | exact keeps_variableOp hI _ _ | exact keeps_missingOp hI _ _
    | exact keeps_fallbackOp hI _ hpn _ _ | exact keeps_findFTSProperties hI _
    | exact keeps_writeResultColumn hI _ hpn _ | exact keeps_writeWhats hI _ hpn _ _
    | exact keeps_writeSelect hI _ hpn _ _ | exact keeps_writeSelectOperands hI _ hpn _
    | exact keeps_selectOp hI _ hpn _ _ | exact keeps_handleOperation hI hany _ hpn _ _ _
    | exact hpn _ | exact keeps_parseOpNode hI hany _ hpn _
    | assumption
    | apply keeps_bind hI | intro _ | apply keeps_ite | split | dsimp only

/-- Compiling a node relates the members before and after it by a stable relation that every
ANY and EVERY keeps. -/
theorem keeps_parseNode {I : State → State → Prop} (hI : Stable I)
    (hany : ∀ (pn : Value → M Unit) (op : String) (operands : List Value),
      (∀ node, Keeps I (pn node)) → Keeps I (anyEveryOp pn op operands)) :
    ∀ (fuel : Nat) (node : Value), Keeps I (parseNode fuel node) := by
  intro fuel
  induction fuel with
  | zero => intro node; exact keeps_raise _
  | succ fuel ih => intro node; exact keeps_parseNodeWith hI hany _ ih node


/-! ### The scope of variables -/

theorem stable_sameScope : Stable SameScope := by
  constructor
  · intro q; exact ⟨rfl, rfl, rfl, rfl, rfl, rfl, rfl⟩
  · intro a b c h1 h2
    obtain ⟨a1, a2, a3, a4, a5, a6, a7⟩ := h1
    obtain ⟨b1, b2, b3, b4, b5, b6, b7⟩ := h2
    exact ⟨b1.trans a1, b2.trans a2, b3.trans a3, b4.trans a4, b5.trans a5, b6.trans a6,
      b7.trans a7⟩
  all_goals intros; exact ⟨rfl, rfl, rfl, rfl, rfl, rfl, rfl⟩

theorem keeps_then {α β : Type} {I J : State → State → Prop}
    (hcomp : ∀ a b c, I a b → J b c → J a c) {m : M α} {k : α → M β}
    (hm : Keeps I m) (hk : ∀ a, Keeps J (k a)) : Keeps J (m >>= k) := by
  constructor
  intro qp b h
  have hb := bind_apply m k qp
  have h1 := hm.keeps qp
  cases hq : m qp with
  | mk r q1 =>
    rw [hq] at hb h1
    cases r with
    | error e =>
      rw [hb] at h
      cases h
    | ok a =>
      simp only at hb h1
      rw [hb] at h ⊢
      exact hcomp _ _ _ (h1 a rfl) ((hk a).keeps q1 b h)

theorem scope_erased_comp (var : String) :
    ∀ a b c, SameScope a b → ScopeErased var b c → ScopeErased var a c := by
  intro a b c h1 h2
  obtain ⟨a1, a2, a3, a4, a5, a6, a7⟩ := h1
  obtain ⟨b1, b2, b3, b4, b5, b6, b7⟩ := h2
  exact ⟨by rw [b1, a1], b2.trans a2, b3.trans a3, b4.trans a4, b5.trans a5, b6.trans a6,
    b7.trans a7⟩

theorem keeps_eraseVariable (var : String) : Keeps (ScopeErased var) (eraseVariable var) :=
  ⟨fun _ _ _ => ⟨rfl, rfl, rfl, rfl, rfl, rfl, rfl⟩⟩

/-- A variable that is inserted, kept by what follows, and erased at the end leaves
`_variables` as it was. -/
theorem keeps_insert_erase {β : Type} (var : String) {rest : Unit → M β}
    (h : ∀ a, Keeps (ScopeErased var) (rest a)) :
    Keeps SameScope (insertVariable var >>= rest) := by
  constructor
  intro qp b hb
  rw [bind_apply] at hb ⊢
  simp only [insertVariable] at hb ⊢
  obtain ⟨b1, b2, b3, b4, b5, b6, b7⟩ := (h ()).keeps _ b hb
  refine ⟨?_, b2, b3, b4, b5, b6, b7⟩
  rw [b1]
  simp

/-- `anyEveryOp` leaves the scope as it found it, when compiling a node does. -/
theorem keeps_anyEveryOp (parseNode : Value → M Unit)
    (op : String) (operands : List Value) (hpn : ∀ node, Keeps SameScope (parseNode node)) :
    Keeps SameScope (anyEveryOp parseNode op operands) := by
  have hI := stable_sameScope
  unfold anyEveryOp
  repeat' with_reducible first
    | exact keeps_pure hI _ | exact keeps_write hI _ | exact keeps_fail _ | exact keeps_raise _
    | exact keeps_getState hI | exact keeps_liftExcept hI _
    | exact keeps_writePropertyGetter hI _ _
    | exact keeps_parseOperand hI _ hpn _ _
    | exact keeps_eraseVariable _
    | apply keeps_insert_erase
    | apply keeps_then (scope_erased_comp _)
    | apply keeps_bind hI | intro _ | apply keeps_ite | split | dsimp only

/-- What `parseNode` does with a property reference of path `p`, in either form. -/
theorem parseNode_property_eq (fuel : Nat) (op : String) (operands : List Value) (p : String)
    (enclosing : OperationPtr) (qp : State)
    (htop : qp.context.getLast? = some enclosing)
    (hform : (op = "." ∧ operands ≠ [] ∧ propertyFromOperands operands = .ok p)
      ∨ (op = "." ++ p ∧ p ≠ "")) :
    parseNode (fuel + 1) (.array (.string op :: operands)) qp = (.ok (), { qp with
      sql := qp.sql ++
        if parenthesize (lookUpOperation op operands) enclosing then
          "(" ++ (if p = "_id" then "key" else if p = "_sequence" then "sequence"
            else "fl_value(" ++ qp.bodyColumnName ++ ", "
              ++ sqlString (appendPaths qp.propertyPath p) ++ ")") ++ ")"
        else (if p = "_id" then "key" else if p = "_sequence" then "sequence"
            else "fl_value(" ++ qp.bodyColumnName ++ ", "
              ++ sqlString (appendPaths qp.propertyPath p) ++ ")") }) := by
  obtain ⟨hparse, ctx, hctx, hcall⟩ :=
    callHandler_property fuel op operands p enclosing qp hform
  rw [hparse]
  unfold handleOperation
  rw [handleOperationWith_eq _ _ enclosing qp htop, hcall, writePropertyGetter_fl_value]
  cases parenthesize (lookUpOperation op operands) enclosing <;>
    simp [hctx, String.append_assoc]

/-- What `parseNode` does with a reference to the parameter `n` of a valid name, in either
form. -/
theorem parseNode_parameter_eq (fuel : Nat) (op : String) (operands : List Value) (n : String)
    (enclosing : OperationPtr) (qp : State)
    (htop : qp.context.getLast? = some enclosing)
    (hform : (op = "$" ∧ ∃ v, operands = [v] ∧ n = (toString v).bytes)
      ∨ (op = "$" ++ n ∧ n ≠ "" ∧ operands = []))
    (hvalid : isAlphanumericOrUnderscore n = true) :
    parseNode (fuel + 1) (.array (.string op :: operands)) qp = (.ok (), { qp with
      parameters := qp.parameters.insert n
      sql := qp.sql ++
        if parenthesize (lookUpOperation op operands) enclosing then "(" ++ ("$_" ++ n) ++ ")"
        else "$_" ++ n }) := by
  have hform3 : (op = "$" ∧ ∃ v, operands = [v] ∧ n = (toString v).bytes)
      ∨ (op = "$" ++ n ∧ n ≠ "") := by
    rcases hform with h | ⟨h1, h2, _⟩
    · exact Or.inl h
    · exact Or.inr ⟨h1, h2⟩
  obtain ⟨hparse, ctx, hctx, hcall⟩ :=
    callHandler_parameter fuel op operands n enclosing qp hform3
  rw [hparse]
  unfold handleOperation
  rw [handleOperationWith_eq _ _ enclosing qp htop, hcall, parameterOp_eq op operands n _ hform]
  simp only [hvalid, if_true]
  cases parenthesize (lookUpOperation op operands) enclosing <;>
    simp [hctx, String.append_assoc]

theorem valid_ne_empty (n : String) (h : isAlphanumericOrUnderscore n = true) : n ≠ "" := by
  intro hn
  subst hn
  revert h
  decide

/-- C39, as stated, fails: under NOT, whose precedence is 9, the long form of a property
reference (precedence 9) is written between parentheses and the shorthand form (the fallback,
precedence 10) is not; the same holds for a parameter reference. -/
theorem forms_differ_under_not :
    expressionSQL exampleNotLong = .ok "NOT (fl_value(body, 'p'))" ∧
    expressionSQL exampleNotShort = .ok "NOT fl_value(body, 'p')" ∧
    expressionSQL exampleNotLongParameter = .ok "NOT ($_n)" ∧
    expressionSQL exampleNotShortParameter = .ok "NOT $_n" := by
  refine ⟨by decide!, by decide!, by decide!, by decide!⟩

/-- C39, amended: the long and the shorthand form of a reference are compiled to the same text
up to the parentheses of `handleOperation`: for every non-empty `p`, `[".", p]` and `[".p"]`
give the same property getter, and for every valid parameter name `n`, `["$", n]` and `["$n"]`
give `$_n` and record `n`; the long form, whose entry has precedence 9, is written between
parentheses if and only if the precedence of the enclosing operation is at least 9, and the
shorthand form, compiled by the fallback of precedence 10, if and only if it is at least 10.
So the two forms give the same text exactly when the precedence of the enclosing operation
is below 9 or at least 10. -/
theorem parseNode_reference_forms (fuel : Nat) (enclosing : OperationPtr) (qp : State)
    (htop : qp.context.getLast? = some enclosing) :
    (∀ p : String, p ≠ "" → ∃ text : String,
      parseNode (fuel + 1) (.array [.string ".", .string p]) qp = (.ok (), { qp with
        sql := qp.sql ++
          if 9 ≤ enclosing.deref.precedence then "(" ++ text ++ ")" else text }) ∧
      parseNode (fuel + 1) (.array [.string ("." ++ p)]) qp = (.ok (), { qp with
        sql := qp.sql ++
          if 10 ≤ enclosing.deref.precedence then "(" ++ text ++ ")" else text }) ∧
      ((enclosing.deref.precedence < 9 ∨ 10 ≤ enclosing.deref.precedence) →
        parseNode (fuel + 1) (.array [.string ".", .string p]) qp
          = parseNode (fuel + 1) (.array [.string ("." ++ p)]) qp)) ∧
    (∀ n : String, isAlphanumericOrUnderscore n = true →
      parseNode (fuel + 1) (.array [.string "$", .string n]) qp = (.ok (), { qp with
        parameters := qp.parameters.insert n
        sql := qp.sql ++
          if 9 ≤ enclosing.deref.precedence then "(" ++ ("$_" ++ n) ++ ")" else "$_" ++ n }) ∧
      parseNode (fuel + 1) (.array [.string ("$" ++ n)]) qp = (.ok (), { qp with
        parameters := qp.parameters.insert n
        sql := qp.sql ++
          if 10 ≤ enclosing.deref.precedence then "(" ++ ("$_" ++ n) ++ ")" else "$_" ++ n }) ∧
      ((enclosing.deref.precedence < 9 ∨ 10 ≤ enclosing.deref.precedence) →
        parseNode (fuel + 1) (.array [.string "$", .string n]) qp
          = parseNode (fuel + 1) (.array [.string ("$" ++ n)]) qp)) := by
  have hp9 : ∀ b : Bool, (if (decide ((9 : Int) ≤ enclosing.deref.precedence)) = true then b
      else b) = b := fun b => by split <;> rfl
  constructor
  · intro p hp
    have hlong := parseNode_property_eq fuel "." [.string p] p enclosing qp htop
      (Or.inl ⟨rfl, by simp, by
        simp [propertyFromOperands, propertyFromOperandsLoop, propertyFromOperand, asString]⟩)
    have hshort := parseNode_property_eq fuel ("." ++ p) [] p enclosing qp htop
      (Or.inr ⟨rfl, hp⟩)
    have hl1 : lookUpOperation "." [.string p] = .kOperationList 0 := rfl
    have hl2 : lookUpOperation ("." ++ p) [] = .kOperationList 33 := by
      simp only [lookUpOperation, lookUp_property_shorthand p _ hp]
    have hp1 : parenthesize (.kOperationList 0) enclosing
        = decide ((9 : Int) ≤ enclosing.deref.precedence) := rfl
    have hp2 : parenthesize (.kOperationList 33) enclosing
        = decide ((10 : Int) ≤ enclosing.deref.precedence) := rfl
    rw [hl1, hp1] at hlong
    rw [hl2, hp2] at hshort
    simp only [decide_eq_true_eq] at hlong hshort
    refine ⟨_, hlong, hshort, ?_⟩
    intro hprec
    rw [hlong, hshort]
    rcases hprec with h | h
    · have h9 : ¬ (9 : Int) ≤ enclosing.deref.precedence := by omega
      have h10 : ¬ (10 : Int) ≤ enclosing.deref.precedence := by omega
      simp only [h9, h10, if_false]
    · have h9 : (9 : Int) ≤ enclosing.deref.precedence := by omega
      simp only [h9, h, if_true]
  · intro n hn
    have hne := valid_ne_empty n hn
    have hlong := parseNode_parameter_eq fuel "$" [.string n] n enclosing qp htop
      (Or.inl ⟨rfl, _, rfl, rfl⟩) hn
    have hshort := parseNode_parameter_eq fuel ("$" ++ n) [] n enclosing qp htop
      (Or.inr ⟨rfl, hne, rfl⟩) hn
    have hl1 : lookUpOperation "$" [.string n] = .kOperationList 1 := rfl
    have hl2 : lookUpOperation ("$" ++ n) [] = .kOperationList 33 := by
      simp only [lookUpOperation, lookUp_parameter_shorthand n _ hne]
    have hp1 : parenthesize (.kOperationList 1) enclosing
        = decide ((9 : Int) ≤ enclosing.deref.precedence) := rfl
    have hp2 : parenthesize (.kOperationList 33) enclosing
        = decide ((10 : Int) ≤ enclosing.deref.precedence) := rfl
    rw [hl1, hp1] at hlong
    rw [hl2, hp2] at hshort
    simp only [decide_eq_true_eq] at hlong hshort
    refine ⟨hlong, hshort, ?_⟩
    intro hprec
    rw [hlong, hshort]
    rcases hprec with h | h
    · have h9 : ¬ (9 : Int) ≤ enclosing.deref.precedence := by omega
      have h10 : ¬ (10 : Int) ≤ enclosing.deref.precedence := by omega
      simp only [h9, h10, if_false]
    · have h9 : (9 : Int) ≤ enclosing.deref.precedence := by omega
      simp only [h9, h, if_true]

/-- Witness of C39: the two forms of a reference to the property `p`, compiled as a bare
expression. -/
theorem parseNode_reference_forms_witness :
    exampleParser.context.getLast? = some .kOuterOperation ∧
    parseNode 1 (.array [.string ".", .string "p"]) exampleParser
      = parseNode 1 (.array [.string ".p"]) exampleParser := by
  obtain ⟨_, _, _, h⟩ := (parseNode_reference_forms 0 .kOuterOperation exampleParser rfl).1 "p"
    (by decide)
  exact ⟨rfl, h (Or.inl (by decide))⟩

/-! ### The context stack on the two ways out of `handleOperation` -/

/-- A successful `parse` leaves the outer frame alone on the context stack. -/
theorem parse_context (expression : Value) (q q' : State)
    (h : parse expression q = (.ok (), q')) : q'.context = [.kOuterOperation] := by
  unfold parse at h
  rw [bind_apply] at h
  simp only [reset] at h
  have hsame : ∀ (m : M Unit), Same m →
      m { q with context := [.kOuterOperation] } = (.ok (), q') →
      q'.context = [.kOuterOperation] := by
    intro m hm hq
    have := hm.context { q with context := [.kOuterOperation] } () (by rw [hq])
    rw [hq] at this
    exact this
  split at h
  · exact hsame _ (same_writeSelectOperands _ (same_parseNode _) _) h
  · split at h
    · exact hsame _ (same_parseNode _ _) h
    · exact hsame _ (same_writeSelect _ (same_parseNode _) _ _) h
  · exact hsame _ (same_writeSelect _ (same_parseNode _) _ _) h

/-- A successful `parseJustExpression` leaves the outer frame alone on the context stack. -/
theorem parseJustExpression_context (expression : Value) (q q' : State)
    (h : parseJustExpression expression q = (.ok (), q')) : q'.context = [.kOuterOperation] := by
  unfold parseJustExpression at h
  rw [bind_apply] at h
  simp only [reset] at h
  have := (same_parseNode _ expression).context { q with context := [.kOuterOperation] } ()
    (by rw [h])
  rw [h] at this
  exact this

/-- A run that succeeds is the pair of `.ok ()` and its final members. -/
theorem run_eta (x : Except Error Unit × State) (h : x.1 = .ok ()) : x = (.ok (), x.2) := by
  cases x
  simp only at h
  rw [h]

/-- C36, as stated, fails: when the handler ends by an invalid-query failure, the operations
that `handleOperation` pushed stay on the context stack; no exit path but the return pops. -/
theorem handleOperation_failure_keeps_stack :
    (parseJustExpression exampleInvalidParameter exampleParser).1
      = .error (.invalidQuery "Invalid query parameter name 'a b'") ∧
    (parseJustExpression exampleInvalidParameter exampleParser).2.context
      = [.kOuterOperation, .kOperationList 25, .kOperationList 1] ∧
    exampleParser.context = [.kOuterOperation] := by
  refine ⟨by decide!, by decide!, rfl⟩

/-- C36, amended: every push onto the context stack made by `handleOperation` is paired with a
pop when the handler returns: after `handleOperation` returns, the context stack equals the
stack before the call, and after a successful `parse` or `parseJustExpression` it consists
of the outer frame only.  When the handler ends by a failure, `handleOperation` ends there,
with the members as the handler left them: nothing is popped (the next `parse` starts with
`reset`, which sets the stack to the outer frame). -/
theorem handleOperation_context (fuel : Nat) (op : OperationPtr) (actualOperator : String)
    (operands : List Value) (enclosing : OperationPtr) (qp : State)
    (htop : qp.context.getLast? = some enclosing) :
    (∀ qp', handleOperation (parseNode fuel) op actualOperator operands qp = (.ok (), qp') →
      qp'.context = qp.context) ∧
    (∀ e q2, callHandler (parseNode fuel) op.deref.handler actualOperator operands
        (entered op (parenthesize op enclosing) qp) = (.error e, q2) →
      handleOperation (parseNode fuel) op actualOperator operands qp = (.error e, q2)) ∧
    (entered op (parenthesize op enclosing) qp).context = qp.context ++ [op] ∧
    (∀ expression q q', parse expression q = (.ok (), q') → q'.context = [.kOuterOperation]) ∧
    (∀ expression q q', parseJustExpression expression q = (.ok (), q') →
      q'.context = [.kOuterOperation]) ∧
    (∀ q, (reset q).2.context = [.kOuterOperation]) := by
  refine ⟨?_, ?_, rfl, parse_context, parseJustExpression_context, fun _ => rfl⟩
  · intro qp' h
    have := (same_handleOperation (parseNode fuel) (same_parseNode fuel) op actualOperator
      operands).context qp () (by rw [h])
    rw [h] at this
    exact this
  · intro e q2 h
    unfold handleOperation
    rw [handleOperationWith_eq _ _ enclosing qp htop, h]

/-- Witness of C36: the example conjunction. -/
theorem handleOperation_context_witness :
    exampleParser.context.getLast? = some .kOuterOperation ∧
    (parseJustExpression exampleConjunction exampleParser).1 = .ok () ∧
    (parseJustExpression exampleConjunction exampleParser).2.context = [.kOuterOperation] := by
  have hok : (parseJustExpression exampleConjunction exampleParser).1 = .ok () := by decide!
  exact ⟨rfl, hok, (handleOperation_context 0 (.kOperationList 26) "AND" [] .kOuterOperation
    exampleParser rfl).2.2.2.2.1 exampleConjunction exampleParser _ (run_eta _ hok)⟩

/-! ### Names of FTS tables -/

/-- C34, the defect: for a MATCH left operand that is no property, `FTSIndexName` puts the
table name and `::` in front of `indexName`, which starts with the table name and `::`
already; the name has the prefix twice.  For a property `p`, the sibling path gives
`<table>::.p`. -/
theorem FTSIndexName_doubles_table :
    (FTSIndexName exampleMatchKey exampleTableParser).1
      = .ok "kv_default::kv_default::['lower()',['.','text']]" ∧
    indexName "kv_default" [.string "lower()", .array [.string ".", .string "text"]]
      = "kv_default::['lower()',['.','text']]" ∧
    (∀ (p : String) (q : State),
      (FTSIndexName (.array [.string ".", .string p]) q).1 = .ok (q.tableName ++ "::." ++ p)) ∧
    (∀ (op : String) (operands : List Value) (q : State), op ≠ "" →
      op.data.head? ≠ some '.' →
      (FTSIndexName (.array (.string op :: operands)) q).1
        = .ok (q.tableName ++ "::" ++ indexName q.tableName (.string op :: operands))) := by
  refine ⟨by decide!, by decide!, fun p q => ?_, fun op operands q hop hdot => ?_⟩
  · rw [FTSIndexName_dot]
  · have hsize : ¬ (slice.size (asString (some (Value.string op))) = 0) := by
      show ¬ (op.length = 0)
      intro h
      exact hop (String.ext (List.length_eq_zero.1 h))
    have hsize2 : ¬ (slice.size (some op) = 0) := hsize
    simp only [FTSIndexName, bind_apply, getState, List.head?_cons, hsize2, if_false, asString,
      slice.bytes, Option.getD_some, hdot, pure, M.pure]

/-! ### Quoted identifiers -/

/-- C40, the defect: the name of an FTS table is written between double quotes as it stands,
with the property path in it; a property path that holds a double quote ends the quoted
identifier early, and the text after it is no more balanced. -/
theorem parse_unbalanced_identifier :
    SQL (parse exampleQuotedMatch exampleTableParser)
      = .ok ("SELECT offsets(\"kv_default::.x\"(\") FROM kv_default, \"kv_default::.x\"(\" AS FTS1"
        ++ " WHERE (FTS1.text MATCH 'cat' AND FTS1.rowid = kv_default.sequence)") ∧
    (SQL (parse exampleQuotedMatch exampleTableParser)).map balanced = .ok false ∧
    balanced "kv_default" = true ∧ balanced "body" = true ∧
    (SQL (parse exampleMatch exampleTableParser)).map balanced = .ok true := by
  refine ⟨by decide!, by decide!, by decide!, by decide!, by decide!⟩

/-! ### Nested SELECT -/

/-- C35: a SELECT that is the WHERE expression of a top-level mapping is not the root
expression, and yet `selectOp` takes it for the outer SELECT, because the context stack holds
two entries when it is handled (the test `_context.size() <= 2`): it is compiled in place by
the enclosing compiler.  Its MATCH adds an entry to the FTS plan of the enclosing compiler,
which was empty, its columns start with the base column `key` of the enclosing compiler, and
the text of the inner statement follows ` WHERE ` without parentheses.  The same SELECT one
operator deeper, under NOT, is compiled by a parser of its own, as the branch
`Nested SELECT; use a fresh parser` says: the plan of the enclosing compiler stays empty and
the inner statement has no base column. -/
theorem selectOp_where_in_place :
    exampleKeyParser.ftsTables = [] ∧
    (parse exampleSelectAsWhere exampleKeyParser).2.ftsTables = ["kv_default::.text"] ∧
    SQL (parse exampleSelectAsWhere exampleKeyParser)
      = .ok ("SELECT key FROM kv_default WHERE SELECT key, offsets(\"kv_default::.text\") "
        ++ "FROM kv_default, \"kv_default::.text\" AS FTS1 "
        ++ "WHERE (FTS1.text MATCH 'cat' AND FTS1.rowid = kv_default.sequence)") ∧
    (parse exampleSelectUnderNot exampleKeyParser).2.ftsTables = [] ∧
    SQL (parse exampleSelectUnderNot exampleKeyParser)
      = .ok ("SELECT key FROM kv_default WHERE NOT (SELECT offsets(\"kv_default::.text\") "
        ++ "FROM kv_default, \"kv_default::.text\" AS FTS1 "
        ++ "WHERE (FTS1.text MATCH 'cat' AND FTS1.rowid = kv_default.sequence))") := by
  refine ⟨rfl, by decide!, by decide!, by decide!, by decide!⟩

/-- The two branches of `selectOp`.  While the context stack holds more than two entries (a
SELECT below another operator, or in an ORDER BY list), the SELECT is compiled by a fresh
parser, which has the table name and body column name of the enclosing one, an empty FTS plan
and a context stack of its own: when it succeeds, its output text is appended to the enclosing
output and no other member of the enclosing parser changes; when it fails, `selectOp` fails
with the same error and changes nothing.  While the context stack holds at most two entries,
the SELECT is compiled in place by `writeSelect` of the enclosing parser. -/
theorem selectOp_nested (parseNode : Value → M Unit) (op : String)
    (dict : List (String × Value)) (rest : List Value) (qp : State) :
    (2 < qp.context.length →
      (∀ nested, parseOperands parseNode dict
          { tableName := qp.tableName, bodyColumnName := qp.bodyColumnName } = (.ok (), nested) →
        selectOp parseNode op (.dict dict :: rest) qp
          = (.ok (), { qp with sql := qp.sql ++ nested.sql })) ∧
      (∀ e nested, parseOperands parseNode dict
          { tableName := qp.tableName, bodyColumnName := qp.bodyColumnName }
            = (.error e, nested) →
        selectOp parseNode op (.dict dict :: rest) qp = (.error e, qp))) ∧
    (qp.context.length ≤ 2 →
      selectOp parseNode op (.dict dict :: rest) qp = writeSelectOperands parseNode dict qp) ∧
    ({ tableName := qp.tableName, bodyColumnName := qp.bodyColumnName } : State).ftsTables = [] ∧
    (∀ q, (parseOperands parseNode dict q)
      = writeSelectOperands parseNode dict { q with context := [.kOuterOperation] }) := by
  refine ⟨fun hdepth => ⟨fun nested hn => ?_, fun e nested hn => ?_⟩, fun hdepth => ?_, rfl,
    fun q => ?_⟩
  · have hle : ¬ qp.context.length ≤ 2 := by omega
    simp only [selectOp, List.get?_cons_zero, asDict, bind_apply, getState, hle, if_false, hn,
      write]
  · have hle : ¬ qp.context.length ≤ 2 := by omega
    simp only [selectOp, List.get?_cons_zero, asDict, bind_apply, getState, hle, if_false, hn,
      raise]
  · simp only [selectOp, List.get?_cons_zero, asDict, bind_apply, getState, hdepth, if_true]
  · simp only [parseOperands, bind_apply, reset]

/-- An instance of the nested branch: `selectOp` on the operands
`{"WHERE": ["MATCH", [".", "text"], "cat"]}` under NOT appends the text of the fresh parser
and leaves the FTS plan of the enclosing parser empty; so does `parse` of the example with the
SELECT under NOT, in which the inner SELECT has the columns of a parser of its own. -/
theorem selectOp_nested_witness :
    2 < exampleNestedContext.context.length ∧
    (selectOp (parseNode 3) "SELECT" [.dict [("WHERE", exampleMatch)]]
        exampleNestedContext).2.ftsTables = [] ∧
    (parse exampleSelectUnderNot exampleKeyParser).2.ftsTables = [] ∧
    SQL (parse exampleSelectUnderNot exampleKeyParser)
      = .ok ("SELECT key FROM kv_default WHERE NOT (SELECT offsets(\"kv_default::.text\") "
        ++ "FROM kv_default, \"kv_default::.text\" AS FTS1 "
        ++ "WHERE (FTS1.text MATCH 'cat' AND FTS1.rowid = kv_default.sequence))") := by
  have hok : (parseOperands (parseNode 3) [("WHERE", exampleMatch)]
      { tableName := exampleNestedContext.tableName,
        bodyColumnName := exampleNestedContext.bodyColumnName }).1 = .ok () := by decide!
  have h := ((selectOp_nested (parseNode 3) "SELECT" [("WHERE", exampleMatch)] []
    exampleNestedContext).1 (by decide)).1 _ (run_eta _ hok)
  refine ⟨by decide, ?_, by decide!, by decide!⟩
  rw [h]
  rfl

/-! ### The planner -/

theorem FTSIndexName_state (key : Value) (q : State) : (FTSIndexName key q).2 = q := by
  unfold FTSIndexName
  simp only [bind_apply, getState]
  cases key with
  | array items =>
    simp only
    cases items.head? with
    | none => rfl
    | some first =>
      simp only
      split
      · rfl
      · split
        · rw [bind_apply]
          cases propertyFromNode (.array items) <;> rfl
        · rfl
  | _ => rfl

theorem FTSIndexName_table (key : Value) (q q' : State) (h : q'.tableName = q.tableName) :
    (FTSIndexName key q').1 = (FTSIndexName key q).1 := by
  unfold FTSIndexName
  simp only [bind_apply, getState]
  cases key with
  | array items =>
    simp only
    cases items.head? with
    | none => rfl
    | some first =>
      simp only
      split
      · rfl
      · split
        · rw [bind_apply, bind_apply]
          cases propertyFromNode (.array items) <;> simp [liftExcept, raise, pure, M.pure, h]
        · simp [pure, M.pure, h]
  | _ => rfl

theorem findIndex1_append (key : String) (plan : List String) (h : key ∉ plan) :
    findIndex1 key (plan ++ [key]) = plan.length + 1 := by
  induction plan with
  | nil => simp [findIndex1]
  | cons t ts ih =>
    have ht : t ≠ key := fun he => h (by simp [he])
    have hts : key ∉ ts := fun hm => h (List.mem_cons_of_mem _ hm)
    simp only [List.cons_append, findIndex1, ht, if_false, List.length_cons]
    show (match findIndex1 key (ts ++ [key]) with
      | 0 => 0
      | n + 1 => n + 2) = _
    rw [ih hts]

theorem findIndex1_mem (key : String) (plan : List String) (h : key ∈ plan) :
    1 ≤ findIndex1 key plan ∧ findIndex1 key plan ≤ plan.length ∧
      plan.get? (findIndex1 key plan - 1) = some key := by
  induction plan with
  | nil => simp at h
  | cons t ts ih =>
    by_cases ht : t = key
    · simp [findIndex1, ht]
    · have hts : key ∈ ts := by
        rcases List.mem_cons.1 h with h | h
        · exact absurd h.symm ht
        · exact h
      obtain ⟨h1, h2, h3⟩ := ih hts
      obtain ⟨n, hn⟩ : ∃ n, findIndex1 key ts = n + 1 := ⟨findIndex1 key ts - 1, by omega⟩
      rw [hn] at h3
      simp only [findIndex1, ht, if_false, hn, List.length_cons]
      refine ⟨by omega, by omega, ?_⟩
      simpa using h3

theorem findIndex1_not_mem (key : String) (plan : List String) (h : key ∉ plan) :
    findIndex1 key plan = 0 := by
  induction plan with
  | nil => rfl
  | cons t ts ih =>
    have ht : t ≠ key := fun he => h (by simp [he])
    have hts : key ∉ ts := fun hm => h (List.mem_cons_of_mem _ hm)
    simp only [findIndex1, ht, if_false, ih hts]

/-- `FTSPropertyIndex` with `canAdd`: the name of the key is registered, and its 1-based
index in the plan is returned. -/
theorem FTSPropertyIndex_register (lhs : Value) (q : State) (key : String)
    (hkey : (FTSIndexName lhs q).1 = .ok key) :
    FTSPropertyIndex lhs true q = (.ok (findIndex1 key (register q.ftsTables key)),
      { q with ftsTables := register q.ftsTables key }) := by
  have hq : FTSIndexName lhs q = (.ok key, q) := Prod.ext hkey (FTSIndexName_state lhs q)
  simp only [FTSPropertyIndex, bind_apply, hq, getState, register]
  by_cases hm : key ∈ q.ftsTables
  · simp only [hm, if_true, pure, M.pure]
  · simp only [hm, if_false, if_true, addFTSTable, findIndex1_append key _ hm]

theorem FTSPropertyIndex_error (lhs : Value) (canAdd : Bool) (q : State) (e : Error)
    (hkey : (FTSIndexName lhs q).1 = .error e) :
    (FTSPropertyIndex lhs canAdd q).1 = .error e := by
  have hq : FTSIndexName lhs q = (.error e, q) := Prod.ext hkey (FTSIndexName_state lhs q)
  simp only [FTSPropertyIndex, bind_apply, hq]

theorem foldl_register (names : List String) :
    ∀ plan : List String,
      names.foldl register plan = plan ++ firstOccurrences plan names := by
  induction names with
  | nil => intro plan; simp [firstOccurrences]
  | cons name rest ih =>
    intro plan
    by_cases hm : name ∈ plan
    · simp only [List.foldl_cons, register, hm, if_true, firstOccurrences, ih]
    · simp only [List.foldl_cons, register, hm, if_false, firstOccurrences, ih,
        List.append_assoc, List.singleton_append]

theorem firstOccurrences_spec (names : List String) :
    ∀ seen : List String,
      (firstOccurrences seen names).Nodup ∧
      (∀ name, name ∈ firstOccurrences seen names ↔ name ∈ names ∧ name ∉ seen) ∧
      List.Sublist (firstOccurrences seen names) names := by
  induction names with
  | nil => intro seen; simp [firstOccurrences]
  | cons name rest ih =>
    intro seen
    by_cases hm : name ∈ seen
    · obtain ⟨h1, h2, h3⟩ := ih seen
      simp only [firstOccurrences, hm, if_true]
      refine ⟨h1, fun x => ?_, h3.cons _⟩
      rw [h2 x]
      constructor
      · exact fun ⟨ha, hb⟩ => ⟨List.mem_cons_of_mem _ ha, hb⟩
      · rintro ⟨ha, hb⟩
        rcases List.mem_cons.1 ha with ha | ha
        · subst ha; exact absurd hm hb
        · exact ⟨ha, hb⟩
    · obtain ⟨h1, h2, h3⟩ := ih (seen ++ [name])
      simp only [firstOccurrences, hm, if_false]
      refine ⟨?_, fun x => ?_, h3.cons₂ _⟩
      · rw [List.nodup_cons]
        refine ⟨fun hin => ?_, h1⟩
        have := ((h2 name).1 hin).2
        exact this (by simp)
      · rw [List.mem_cons, h2 x]
        constructor
        · rintro (hx | ⟨ha, hb⟩)
          · subst hx; exact ⟨List.mem_cons_self _ _, hm⟩
          · exact ⟨List.mem_cons_of_mem _ ha, fun hs => hb (List.mem_append_left _ hs)⟩
        · rintro ⟨ha, hb⟩
          by_cases hx : x = name
          · exact Or.inl hx
          · right
            rcases List.mem_cons.1 ha with ha | ha
            · exact absurd ha hx
            · refine ⟨ha, fun hs => ?_⟩
              rcases List.mem_append.1 hs with hs | hs
              · exact hb hs
              · exact hx (by simpa using hs)

theorem named_table (q q' : State) (h : q'.tableName = q.tableName) (keys : List Value)
    (names : List String) (hn : Named q' keys names) : Named q keys names := by
  unfold Named at hn ⊢
  induction hn with
  | nil => exact List.Forall₂.nil
  | cons h1 _ ih => exact List.Forall₂.cons (by rw [← FTSIndexName_table _ q q' h]; exact h1) ih

theorem findFTSPropertiesIn_plan (l : List Value)
    (hl : ∀ v ∈ l, ∀ q q', findFTSProperties v q = (.ok (), q') →
      ∃ names, Named q (matchOperands v) names ∧
        q' = { q with ftsTables := names.foldl register q.ftsTables }) :
    ∀ q q', findFTSPropertiesIn l q = (.ok (), q') →
      ∃ names, Named q (matchOperandsIn l) names ∧
        q' = { q with ftsTables := names.foldl register q.ftsTables } := by
  induction l with
  | nil =>
    intro q q' h
    rw [findFTSPropertiesIn] at h
    simp only [pure, M.pure, Prod.mk.injEq, true_and] at h
    subst h
    exact ⟨[], by rw [matchOperandsIn]; exact List.Forall₂.nil, rfl⟩
  | cons v rest ih =>
    intro q q' h
    rw [findFTSPropertiesIn, bind_apply] at h
    cases h1 : findFTSProperties v q with
    | mk r q1 =>
      rw [h1] at h
      cases r with
      | error e => simp only at h; exact absurd (congrArg Prod.fst h) (by simp)
      | ok u =>
        simp only at h
        obtain ⟨n1, hn1, hq1⟩ := hl v (List.mem_cons_self _ _) q q1 h1
        obtain ⟨n2, hn2, hq2⟩ := ih (fun w hw => hl w (List.mem_cons_of_mem _ hw)) q1 q' h
        refine ⟨n1 ++ n2, ?_, ?_⟩
        · rw [matchOperandsIn]
          exact List.rel_append hn1 (named_table q q1 (by rw [hq1]) _ _ hn2)
        · rw [hq2, hq1, List.foldl_append]

theorem findFTSProperties_plan_depth :
    ∀ (n : Nat) (v : Value), v.depth ≤ n → ∀ q q', findFTSProperties v q = (.ok (), q') →
      ∃ names, Named q (matchOperands v) names ∧
        q' = { q with ftsTables := names.foldl register q.ftsTables } := by
  have hleaf : ∀ (v : Value) (q q' : State), findFTSProperties v = pure () →
      matchOperands v = [] → findFTSProperties v q = (.ok (), q') →
      ∃ names, Named q (matchOperands v) names ∧
        q' = { q with ftsTables := names.foldl register q.ftsTables } := by
    intro v q q' hf hm h
    rw [hf] at h
    simp only [pure, M.pure, Prod.mk.injEq, true_and] at h
    subst h
    exact ⟨[], by rw [hm]; exact List.Forall₂.nil, rfl⟩
  intro n
  induction n with
  | zero =>
    intro v hv
    cases v with
    | array items => rw [Value.depth] at hv; omega
    | dict entries =>
      intro q q'
      exact hleaf _ q q' (by simp only [findFTSProperties]) (by simp only [matchOperands])
    | _ =>
      intro q q'
      exact hleaf _ q q' (by simp only [findFTSProperties]) (by simp only [matchOperands])
  | succ n ih =>
    intro v hv
    cases v with
    | array items =>
      rw [Value.depth] at hv
      cases items with
      | nil =>
        intro q q'
        exact hleaf _ q q' (by simp only [findFTSProperties]) (by simp only [matchOperands])
      | cons first operands =>
        have hops : ∀ v ∈ operands, ∀ q q', findFTSProperties v q = (.ok (), q') →
            ∃ names, Named q (matchOperands v) names ∧
              q' = { q with ftsTables := names.foldl register q.ftsTables } := fun v hv2 =>
          ih v (le_trans (depth_le_depthItems (List.mem_cons_of_mem first hv2)) (by omega))
        intro q q' h
        cases operands with
        | nil =>
          rw [findFTSProperties] at h
          rw [matchOperands]
          split at h
          · simp only [pure, M.pure, Prod.mk.injEq, true_and] at h
            subst h
            simp only [*, if_true]
            exact ⟨[], List.Forall₂.nil, rfl⟩
          · simp only [*, if_false]
            exact findFTSPropertiesIn_plan _ hops q q' h
        | cons lhs rest =>
          rw [findFTSProperties] at h
          rw [matchOperands]
          split at h
          · simp only [*, if_true]
            rw [bind_apply] at h
            cases hk : (FTSIndexName lhs q).1 with
            | error e =>
              have := FTSPropertyIndex_error lhs true q e hk
              cases hx : FTSPropertyIndex lhs true q with
              | mk r qx =>
                rw [hx] at this h
                simp only at this
                subst this
                simp only at h
                exact absurd (congrArg Prod.fst h) (by simp)
            | ok key =>
              rw [FTSPropertyIndex_register lhs q key hk] at h
              simp only at h
              obtain ⟨n2, hn2, hq2⟩ := findFTSPropertiesIn_plan rest
                (fun v hv2 => hops v (List.mem_cons_of_mem _ hv2)) _ q' h
              refine ⟨key :: n2, ?_, ?_⟩
              · exact List.Forall₂.cons hk
                  (named_table q { q with ftsTables := register q.ftsTables key } rfl _ _ hn2)
              · rw [hq2, List.foldl_cons]
          · simp only [*, if_false]
            exact findFTSPropertiesIn_plan _ hops q q' h
    | _ =>
      intro q q'
      exact hleaf _ q q' (by simp only [findFTSProperties]) (by simp only [matchOperands])

/-- What the planner does: it registers, in the order of its walk, the names of the left
operands of the MATCH nodes it reaches, and changes nothing else. -/
theorem findFTSProperties_plan (v : Value) (q q' : State)
    (h : findFTSProperties v q = (.ok (), q')) :
    ∃ names, Named q (matchOperands v) names ∧
      q' = { q with ftsTables := names.foldl register q.ftsTables } :=
  findFTSProperties_plan_depth v.depth v (le_refl _) q q' h
/-- C32: when the planner `findFTSProperties` has walked an expression, the FTS plan is the
plan before the walk followed by the derived index names of the left operands of the MATCH
nodes it reached (it descends through all operands of every sequence node, but not into the
left operand of a MATCH) that were not in the plan, without duplicates and in the order of
their first occurrence in the walk; nothing else changes.  So the plan contains the name of
every MATCH node reached, and has no duplicates if it had none.  Registering a name that is
present leaves the plan unchanged and returns its 1-based index; a new name is added at the
end, and its index is the new length. -/
theorem findFTSProperties_registers (node : Value) (q q' : State)
    (h : findFTSProperties node q = (.ok (), q')) :
    ∃ names : List String,
      Named q (matchOperands node) names ∧
      q' = { q with ftsTables := q.ftsTables ++ firstOccurrences q.ftsTables names } ∧
      (∀ name ∈ names, name ∈ q'.ftsTables) ∧
      (q.ftsTables.Nodup → q'.ftsTables.Nodup) ∧
      List.Sublist (firstOccurrences q.ftsTables names) names ∧
      (∀ (lhs : Value) (name : String) (p : State), (FTSIndexName lhs p).1 = .ok name →
        name ∈ p.ftsTables →
        FTSPropertyIndex lhs true p = (.ok (findIndex1 name p.ftsTables), p) ∧
        1 ≤ findIndex1 name p.ftsTables ∧
        p.ftsTables.get? (findIndex1 name p.ftsTables - 1) = some name) ∧
      (∀ (lhs : Value) (name : String) (p : State), (FTSIndexName lhs p).1 = .ok name →
        name ∉ p.ftsTables →
        FTSPropertyIndex lhs true p
          = (.ok (p.ftsTables.length + 1), { p with ftsTables := p.ftsTables ++ [name] })) := by
  obtain ⟨names, hn, hq⟩ := findFTSProperties_plan node q q' h
  rw [foldl_register] at hq
  obtain ⟨hnd, hmem, hsub⟩ := firstOccurrences_spec names q.ftsTables
  refine ⟨names, hn, hq, fun name hname => ?_, fun hq0 => ?_, hsub, fun lhs name p hk hm => ?_,
    fun lhs name p hk hm => ?_⟩
  · rw [hq]
    show name ∈ q.ftsTables ++ firstOccurrences q.ftsTables names
    by_cases hin : name ∈ q.ftsTables
    · exact List.mem_append_left _ hin
    · exact List.mem_append_right _ ((hmem name).2 ⟨hname, hin⟩)
  · rw [hq]
    show (q.ftsTables ++ firstOccurrences q.ftsTables names).Nodup
    rw [List.nodup_append]
    exact ⟨hq0, hnd, fun a ha hb => ((hmem a).1 hb).2 ha⟩
  · have hr := FTSPropertyIndex_register lhs p name hk
    have hreg : register p.ftsTables name = p.ftsTables := by simp [register, hm]
    rw [hreg] at hr
    obtain ⟨h1, _, h3⟩ := findIndex1_mem name p.ftsTables hm
    exact ⟨hr, h1, h3⟩
  · have hr := FTSPropertyIndex_register lhs p name hk
    have hreg : register p.ftsTables name = p.ftsTables ++ [name] := by simp [register, hm]
    rw [hreg, findIndex1_append name _ hm] at hr
    exact hr

/-- Witness of C32: two MATCH clauses on the same property yield one plan entry, and both are
written with the alias `FTS1`. -/
theorem findFTSProperties_registers_witness :
    (findFTSProperties exampleTwoMatches exampleTableParser).1 = .ok () ∧
    (∃ names, Named exampleTableParser (matchOperands exampleTwoMatches) names ∧
      (findFTSProperties exampleTwoMatches exampleTableParser).2
        = { exampleTableParser with
            ftsTables := exampleTableParser.ftsTables
              ++ firstOccurrences exampleTableParser.ftsTables names }) ∧
    (findFTSProperties exampleTwoMatches exampleTableParser).2.ftsTables
      = ["kv_default::.text"] ∧
    SQL (parse exampleTwoMatches exampleTableParser)
      = .ok ("SELECT offsets(\"kv_default::.text\") FROM kv_default, "
        ++ "\"kv_default::.text\" AS FTS1 WHERE "
        ++ "(FTS1.text MATCH 'cat' AND FTS1.rowid = kv_default.sequence) AND "
        ++ "(FTS1.text MATCH 'dog' AND FTS1.rowid = kv_default.sequence)") := by
  have hok : (findFTSProperties exampleTwoMatches exampleTableParser).1 = .ok () := by decide!
  obtain ⟨names, h1, h2, _⟩ := findFTSProperties_registers exampleTwoMatches
    exampleTableParser _ (run_eta _ hok)
  exact ⟨hok, ⟨names, h1, h2⟩, by decide!, by decide!⟩

/-! ### The layout of a SELECT -/

theorem bind_ok {α β : Type} (m : M α) (k : α → M β) (q q' : State) (b : β)
    (h : (m >>= k) q = (.ok b, q')) : ∃ a q1, m q = (.ok a, q1) ∧ k a q1 = (.ok b, q') := by
  rw [bind_apply] at h
  cases hm : m q with
  | mk r q1 =>
    rw [hm] at h
    cases r with
    | error e => simp only at h; exact absurd (congrArg Prod.fst h) (by simp)
    | ok a => exact ⟨a, q1, rfl, h⟩

theorem same_run {α : Type} {m : M α} (hm : Same m) (q q' : State) (a : α)
    (h : m q = (.ok a, q')) : q'.context = q.context ∧ ∃ t, q'.sql = q.sql ++ t := by
  have h1 := hm.context q a (by rw [h])
  have h2 := hm.appends q
  rw [h] at h1 h2
  exact ⟨h1, h2⟩

theorem keeps_run {α : Type} {I : State → State → Prop} {m : M α} (hm : Keeps I m)
    (q q' : State) (a : α) (h : m q = (.ok a, q')) : I q q' := by
  have h1 := hm.keeps q a (by rw [h])
  rw [h] at h1
  exact h1

theorem stable_planGrows : Stable PlanGrows := by
  constructor
  · intro q; exact List.prefix_refl _
  · intro a b c h1 h2; exact List.IsPrefix.trans h1 h2
  · intro q s; exact List.prefix_refl _
  · intro q s; exact List.prefix_refl _
  · intro q; exact List.prefix_refl _
  · intro q s; exact List.prefix_refl _
  · intro q; exact List.prefix_refl _
  · intro q s; exact List.prefix_refl _
  · intro q key; exact List.prefix_append _ _
  · intro q n; exact List.prefix_refl _

theorem keeps_insertVariable {I : State → State → Prop}
    (hv : ∀ q v, I q (insertVariable v q).2) (var : String) : Keeps I (insertVariable var) :=
  ⟨fun q _ _ => hv q var⟩

theorem keeps_eraseVariable_of {I : State → State → Prop}
    (hv : ∀ q v, I q (eraseVariable v q).2) (var : String) : Keeps I (eraseVariable var) :=
  ⟨fun q _ _ => hv q var⟩

/-- `anyEveryOp` keeps a relation that the changes of `_variables` keep, when compiling a node
does. -/
theorem keeps_anyEveryOp_of {I : State → State → Prop} (hI : Stable I)
    (hins : ∀ q v, I q (insertVariable v q).2) (hers : ∀ q v, I q (eraseVariable v q).2)
    (parseNode : Value → M Unit)
    (op : String) (operands : List Value) (hpn : ∀ node, Keeps I (parseNode node)) :
    Keeps I (anyEveryOp parseNode op operands) := by
  unfold anyEveryOp
  repeat' with_reducible first
    | exact keeps_pure hI _ | exact keeps_write hI _ | exact keeps_fail _ | exact keeps_raise _
    | exact keeps_getState hI | exact keeps_liftExcept hI _
    | exact keeps_writePropertyGetter hI _ _
    | exact keeps_parseOperand hI _ hpn _ _
    | exact keeps_eraseVariable_of hers _
    | exact keeps_insertVariable hins _
    | apply keeps_bind hI | intro _ | apply keeps_ite | split | dsimp only

theorem keeps_parseNode_planGrows (fuel : Nat) (node : Value) :
    Keeps PlanGrows (parseNode fuel node) :=
  keeps_parseNode stable_planGrows
    (fun pn op operands hpn => keeps_anyEveryOp_of stable_planGrows
      (fun _ _ => List.prefix_refl _) (fun _ _ => List.prefix_refl _) pn op operands hpn)
    fuel node

theorem keeps_parseNode_sameScope (fuel : Nat) (node : Value) :
    Keeps SameScope (parseNode fuel node) :=
  keeps_parseNode stable_sameScope keeps_anyEveryOp fuel node

theorem stable_settled : Stable Settled := by
  have h1 := stable_sameScope
  have h2 := stable_planGrows
  constructor
  · intro q; exact ⟨h1.refl q, h2.refl q⟩
  · intro a b c ha hb; exact ⟨h1.trans a b c ha.1 hb.1, h2.trans a b c ha.2 hb.2⟩
  · intro q s; exact ⟨h1.write q s, h2.write q s⟩
  · intro q s; exact ⟨h1.pushContext q s, h2.pushContext q s⟩
  · intro q; exact ⟨h1.popContext q, h2.popContext q⟩
  · intro q s; exact ⟨h1.setContextBack q s, h2.setContextBack q s⟩
  · intro q; exact ⟨h1.reset q, h2.reset q⟩
  · intro q s; exact ⟨h1.insertParameter q s, h2.insertParameter q s⟩
  · intro q s; exact ⟨h1.addFTSTable q s, h2.addFTSTable q s⟩
  · intro q s; exact ⟨h1.setFirstCustomResultCol q s, h2.setFirstCustomResultCol q s⟩

theorem keeps_parseNode_settled (fuel : Nat) (node : Value) :
    Keeps Settled (parseNode fuel node) :=
  ⟨fun q a h => ⟨(keeps_parseNode_sameScope fuel node).keeps q a h,
    (keeps_parseNode_planGrows fuel node).keeps q a h⟩⟩

theorem joinedFrom_cons (op : String) (n : Nat) (t : String) (texts : List String) :
    joinedFrom op n (t :: texts)
      = (if n = 0 then "" else separator op) ++ t ++ joinedFrom op (n + 1) texts := by
  unfold joinedFrom
  rw [intercalate_cons]
  by_cases hn : n = 0
  · simp only [hn, if_true, Nat.add_one_ne_zero, if_false, String.empty_append]
  · simp only [hn, if_false, Nat.add_one_ne_zero, List.isEmpty_cons, Bool.false_eq_true,
      String.append_assoc]

theorem joinedFrom_zero (op : String) (texts : List String) :
    joinedFrom op 0 texts = String.intercalate (separator op) texts := by
  simp [joinedFrom]

/-- The loop of `infixOp`, with a relation `I` that compiling a node keeps: the operands are
compiled in turn, each from members that are `I`-related to the ones the loop found and with
the same context stack, and their texts are written with the separator between them. -/
theorem infixOpLoop_texts {I : State → State → Prop} (hI : Stable I)
    (parseNode : Value → M Unit) (hs : ∀ node, Same (parseNode node))
    (hk : ∀ node, Keeps I (parseNode node)) (op : String) :
    ∀ (operands : List Value) (n : Nat) (q q' : State),
      infixOpLoop parseNode op n operands q = (.ok (), q') →
      I q q' ∧ q'.context = q.context ∧
      ∃ texts : List String, texts.length = operands.length ∧
        q'.sql = q.sql ++ joinedFrom op n texts ∧
        ∀ j x, operands.get? j = some x →
          ∃ t qj qj', texts.get? j = some t ∧ qj.context = q.context ∧ I q qj ∧
            parseNode x qj = (.ok (), qj') ∧ qj'.sql = qj.sql ++ t := by
  intro operands
  induction operands with
  | nil =>
    intro n q q' h
    simp only [infixOpLoop, pure, M.pure, Prod.mk.injEq, true_and] at h
    subst h
    refine ⟨hI.refl _, rfl, [], rfl, ?_, fun j x hx => by simp at hx⟩
    unfold joinedFrom
    split <;> simp [String.intercalate]
  | cons x rest ih =>
    intro n q q' h
    unfold infixOpLoop at h
    obtain ⟨_, q0, h0, h⟩ := bind_ok _ _ _ _ _ h
    obtain ⟨_, q1, h1, h⟩ := bind_ok _ _ _ _ _ h
    have hq0 : q0 = { q with sql := q.sql ++ (if n = 0 then "" else separator op) } := by
      by_cases hn : n > 0
      · have hn0 : n ≠ 0 := by omega
        by_cases hop : op ≠ ","
        · simp only [hn, hn0, hop, if_true, if_false, bind_apply, write, separator,
            not_false_eq_true, ne_eq, Prod.mk.injEq, true_and] at h0 ⊢
          rw [← h0]
          simp [String.append_assoc]
        · simp only [hn, hn0, hop, if_true, if_false, bind_apply, write, separator, pure,
            M.pure, not_false_eq_true, ne_eq, Prod.mk.injEq, true_and] at h0 ⊢
          rw [← h0]
          simp
      · have hn0 : n = 0 := by omega
        simp only [hn, hn0, if_true, if_false, pure, M.pure, Prod.mk.injEq, true_and,
          lt_self_iff_false] at h0 ⊢
        rw [← h0]
        simp
    have hI0 : I q q0 := by
      rw [hq0]
      exact hI.write q _
    obtain ⟨hc1, t, ht⟩ := same_run (hs x) q0 q1 _ h1
    have hI1 : I q0 q1 := keeps_run (hk x) q0 q1 _ h1
    obtain ⟨hIr, hcr, texts, hlen, hsql, hitems⟩ := ih (n + 1) q1 q' h
    have hc0 : q0.context = q.context := by rw [hq0]
    refine ⟨hI.trans _ _ _ hI0 (hI.trans _ _ _ hI1 hIr), by rw [hcr, hc1, hc0], t :: texts,
      by simp [hlen], ?_, ?_⟩
    · rw [hsql, ht, hq0, joinedFrom_cons]
      simp only [String.append_assoc]
    · intro j y hy
      cases j with
      | zero =>
        simp only [List.get?_cons_zero, Option.some.injEq] at hy
        subst hy
        exact ⟨t, q0, q1, rfl, hc0, hI0, h1, ht⟩
      | succ j =>
        simp only [List.get?_cons_succ] at hy
        obtain ⟨t', qj, qj', ha, hb, hc, hd, he⟩ := hitems j y hy
        exact ⟨t', qj, qj', by simpa using ha, by rw [hb, hc1, hc0],
          hI.trans _ _ _ hI0 (hI.trans _ _ _ hI1 hc), hd, he⟩

theorem resultColumnsText_append (a b : List String) :
    ∀ n, resultColumnsText n (a ++ b)
      = resultColumnsText n a ++ resultColumnsText (n + a.length) b := by
  induction a with
  | nil => intro n; simp [resultColumnsText]
  | cons x a ih =>
    intro n
    simp only [List.cons_append, resultColumnsText, List.length_cons]
    show _ ++ x ++ resultColumnsText (n + 1) (a ++ b) = _
    rw [ih, show n + 1 + a.length = n + (a.length + 1) by omega]
    simp only [String.append_assoc]

theorem resultColumnsText_eq (l : List String) :
    ∀ n, resultColumnsText n l = joinedFrom "," n l := by
  have hsep : separator "," = ", " := by decide
  induction l with
  | nil => intro n; unfold joinedFrom; split <;> simp [resultColumnsText, String.intercalate]
  | cons x l ih =>
    intro n
    rw [joinedFrom_cons, resultColumnsText, ih, hsep]
    by_cases hn : n = 0
    · simp [hn]
    · have : n > 0 := by omega
      simp [hn, this]

theorem resultColumnsText_zero (l : List String) :
    resultColumnsText 0 l = String.intercalate ", " l := by
  rw [resultColumnsText_eq, joinedFrom_zero]
  rfl

/-- The loop of `writeSelect` over the WHAT columns: the items are compiled in turn by
`writeResultColumn`, and their texts continue the list of columns. -/
theorem writeWhats_spec {I : State → State → Prop} (hI : Stable I)
    (parseNode : Value → M Unit) (hs : ∀ node, Same (parseNode node))
    (hk : ∀ node, Keeps I (parseNode node)) :
    ∀ (whats : List Value) (n m : Nat) (q q' : State),
      writeWhats parseNode n whats q = (.ok m, q') →
      m = n + whats.length ∧ I q q' ∧ q'.context = q.context ∧
      ∃ texts : List String, texts.length = whats.length ∧
        q'.sql = q.sql ++ resultColumnsText n texts ∧
        ∀ j x, whats.get? j = some x →
          ∃ t qj qj', texts.get? j = some t ∧ qj.context = q.context ∧ I q qj ∧
            writeResultColumn parseNode x qj = (.ok (), qj') ∧ qj'.sql = qj.sql ++ t := by
  intro whats
  induction whats with
  | nil =>
    intro n m q q' h
    simp only [writeWhats, pure, M.pure, Prod.mk.injEq, Except.ok.injEq] at h
    obtain ⟨h1, h2⟩ := h
    subst h1 h2
    exact ⟨rfl, hI.refl _, rfl, [], rfl, by simp [resultColumnsText],
      fun j x hx => by simp at hx⟩
  | cons x rest ih =>
    intro n m q q' h
    unfold writeWhats at h
    obtain ⟨_, q0, h0, h⟩ := bind_ok _ _ _ _ _ h
    obtain ⟨_, q1, h1, h⟩ := bind_ok _ _ _ _ _ h
    have hq0 : q0 = { q with sql := q.sql ++ (if n > 0 then ", " else "") } := by
      by_cases hn : n > 0
      · simp only [hn, if_true, write, Prod.mk.injEq, true_and] at h0 ⊢
        exact h0.symm
      · simp only [hn, if_false, pure, M.pure, Prod.mk.injEq, true_and] at h0 ⊢
        rw [← h0]
        simp
    have hI0 : I q q0 := by
      rw [hq0]
      exact hI.write q _
    obtain ⟨hc1, t, ht⟩ := same_run (same_writeResultColumn parseNode hs x) q0 q1 _ h1
    have hI1 : I q0 q1 := keeps_run (keeps_writeResultColumn hI parseNode hk x) q0 q1 _ h1
    obtain ⟨hm, hIr, hcr, texts, hlen, hsql, hitems⟩ := ih (n + 1) m q1 q' h
    have hc0 : q0.context = q.context := by rw [hq0]
    refine ⟨by rw [hm, List.length_cons]; omega, hI.trans _ _ _ hI0 (hI.trans _ _ _ hI1 hIr),
      by rw [hcr, hc1, hc0], t :: texts, by simp [hlen], ?_, ?_⟩
    · rw [hsql, ht, hq0, resultColumnsText]
      simp only [String.append_assoc]
    · intro j y hy
      cases j with
      | zero =>
        simp only [List.get?_cons_zero, Option.some.injEq] at hy
        subst hy
        exact ⟨t, q0, q1, rfl, hc0, hI0, h1, ht⟩
      | succ j =>
        simp only [List.get?_cons_succ] at hy
        obtain ⟨t', qj, qj', ha, hb, hc, hd, he⟩ := hitems j y hy
        exact ⟨t', qj, qj', by simpa using ha, by rw [hb, hc1, hc0],
          hI.trans _ _ _ hI0 (hI.trans _ _ _ hI1 hc), hd, he⟩

/-- A column list: the items are compiled in turn with the column-list operation on top of
the context stack, and their texts are written with `, ` between them, between parentheses
if the enclosing operation calls for them. -/
theorem writeColumnList_spec {I : State → State → Prop} (hI : Stable I)
    (parseNode : Value → M Unit) (hs : ∀ node, Same (parseNode node))
    (hk : ∀ node, Keeps I (parseNode node)) (items : List Value) (enclosing : OperationPtr)
    (q q' : State) (htop : q.context.getLast? = some enclosing)
    (h : writeColumnList parseNode items q = (.ok (), q')) :
    I q q' ∧ q'.context = q.context ∧
    ∃ texts : List String, texts.length = items.length ∧
      q'.sql = q.sql ++ (if (-2 : Int) ≤ enclosing.deref.precedence
        then "(" ++ String.intercalate ", " texts ++ ")" else String.intercalate ", " texts) ∧
      ∀ j x, items.get? j = some x →
        ∃ t qj qj', texts.get? j = some t ∧
          qj.context = q.context ++ [.kColumnListOperation] ∧ I q qj ∧
          parseNode x qj = (.ok (), qj') ∧ qj'.sql = qj.sql ++ t := by
  unfold writeColumnList at h
  rw [handleOperationWith_eq _ _ enclosing q htop] at h
  have hp : parenthesize .kColumnListOperation enclosing
      = decide ((-2 : Int) ≤ enclosing.deref.precedence) := rfl
  have hop : kColumnListOperation.op.bytes = "," := rfl
  have hsep : separator "," = ", " := by decide
  rw [hop] at h
  cases hloop : infixOp parseNode "," items
      (entered .kColumnListOperation (parenthesize .kColumnListOperation enclosing) q) with
  | mk r q2 =>
    rw [hloop] at h
    cases r with
    | error e => simp only at h; exact absurd (congrArg Prod.fst h) (by simp)
    | ok u =>
      simp only [Prod.mk.injEq, true_and] at h
      obtain ⟨hIr, hcr, texts, hlen, hsql, hitems⟩ :=
        infixOpLoop_texts hI parseNode hs hk "," items 0 _ q2 hloop
      have hIe : I q (entered .kColumnListOperation
          (parenthesize .kColumnListOperation enclosing) q) := by
        exact hI.trans _ _ _ (hI.pushContext q .kColumnListOperation) (hI.write _
          (if parenthesize .kColumnListOperation enclosing then "(" else ""))
      have hce : (entered .kColumnListOperation
          (parenthesize .kColumnListOperation enclosing) q).context
          = q.context ++ [.kColumnListOperation] := by
        rfl
      have hse : (entered .kColumnListOperation
          (parenthesize .kColumnListOperation enclosing) q).sql
          = q.sql ++ (if parenthesize .kColumnListOperation enclosing then "(" else "") := by
        rfl
      subst h
      refine ⟨?_, ?_, texts, hlen, ?_, ?_⟩
      · exact hI.trans _ _ _ hIe (hI.trans _ _ _ hIr
          (hI.trans _ _ _ (hI.write _ _) (hI.popContext _)))
      · show q2.context.dropLast = q.context
        rw [hcr, hce]
        simp
      · show q2.sql ++ _ = _
        rw [hsql, hse, joinedFrom_zero, hsep, hp]
        by_cases hb : (-2 : Int) ≤ enclosing.deref.precedence
        · simp [hb, String.append_assoc]
        · simp [hb]
      · intro j x hx
        obtain ⟨t, qj, qj', ha, hb, hc, hd, he⟩ := hitems j x hx
        exact ⟨t, qj, qj', ha, by rw [hb, hce], hI.trans _ _ _ hIe hc, hd, he⟩
theorem ok_pair_eq {α : Type} {a b : α} {q q' : State}
    (h : ((Except.ok a : Except Error α), q) = (Except.ok b, q')) : a = b ∧ q = q' := by
  simp only [Prod.mk.injEq, Except.ok.injEq] at h
  exact h

theorem error_ne_ok {α : Type} {e : Error} {b : α} {q q' : State}
    (h : ((Except.error e : Except Error α), q) = (Except.ok b, q')) : False := by
  simp only [Prod.mk.injEq] at h
  exact absurd h.1 (by simp)

/-- What `writeSelect` has done when it returns: the scan of the WHERE expression, the columns,
the FROM clause with the FTS tables joined, and the WHERE, ORDER BY, LIMIT and OFFSET
clauses, each tied to the compilation of its part. -/
theorem writeSelect_spec (fuel : Nat) (whereNode : Option Value)
    (operands : Option (List (String × Value))) (q q' : State)
    (h : writeSelect (parseNode fuel) whereNode operands q = (.ok (), q')) :
    ∃ (q1 : State) (whatTexts joined : List String) (whereText orderText : String),
      (∀ node, whereNode = some node → findFTSProperties node q = (.ok (), q1)) ∧
      (whereNode = none → q1 = q) ∧
      q'.sql = q.sql ++ "SELECT "
        ++ resultColumnsText 0 (q.baseResultColumns ++ q1.ftsTables.map offsetsColumn
            ++ whatTexts)
        ++ " FROM " ++ q.tableName ++ ftsJoinsText 0 joined
        ++ (if whereNode.isSome then " WHERE " ++ whereText else "")
        ++ (if (operands.bind fun d => dictGet d "ORDER BY").isSome
            then " ORDER BY " ++ orderText else "")
        ++ (if !q.defaultLimit.isEmpty then " LIMIT " ++ q.defaultLimit else "")
        ++ (if !q.defaultOffset.isEmpty then " OFFSET " ++ q.defaultOffset else "") ∧
      q.baseResultColumns.length + q1.ftsTables.length + whatTexts.length ≠ 0 ∧
      (operands.bind fun d => dictGet d " FROM") = none ∧
      ((operands.bind fun d => dictGet d "WHAT") = none →
        whatTexts = [] ∧ joined = q1.ftsTables) ∧
      (∀ w, (operands.bind fun d => dictGet d "WHAT") = some w → ∃ whats q3,
            asArray (some w) = some whats ∧ whatTexts.length = whats.length ∧
            writeWhats (parseNode fuel) (q.baseResultColumns.length + q1.ftsTables.length) whats
              { q1 with
                sql := q.sql ++ "SELECT " ++ resultColumnsText 0 (q.baseResultColumns
                  ++ q1.ftsTables.map offsetsColumn)
                firstCustomResultCol := q.baseResultColumns.length + q1.ftsTables.length }
              = (.ok (q.baseResultColumns.length + q1.ftsTables.length + whats.length), q3) ∧
            joined = q3.ftsTables ∧
            ∀ j x, whats.get? j = some x →
              ∃ t qj qj', whatTexts.get? j = some t ∧ qj.context = q.context ∧
                Settled q1 qj ∧ writeResultColumn (parseNode fuel) x qj = (.ok (), qj') ∧
                qj'.sql = qj.sql ++ t) ∧
      q1.ftsTables <+: joined ∧ joined <+: q'.ftsTables ∧
      (∀ node, whereNode = some node →
        ∃ qw qw', qw.context = q.context ∧ SameScope q qw ∧ qw.ftsTables = joined ∧
          parseNode fuel node qw = (.ok (), qw') ∧ qw'.sql = qw.sql ++ whereText) ∧
      (∀ o, (operands.bind fun d => dictGet d "ORDER BY") = some o →
        ∃ items texts, asArray (some o) = some items ∧ texts.length = items.length ∧
          orderText = String.intercalate ", " texts ∧
          ∀ j x, items.get? j = some x →
            ∃ t qj qj', texts.get? j = some t ∧
              qj.context = q.context ++ [.kOrderByOperation, .kColumnListOperation] ∧
              SameScope q qj ∧ parseNode fuel x qj = (.ok (), qj') ∧ qj'.sql = qj.sql ++ t) ∧
      q'.context = q.context ∧ SameScope q q' ∧
      ((operands.bind fun d => dictGet d "WHAT") = none → whereNode = none →
        (operands.bind fun d => dictGet d "ORDER BY") = none →
        q'.firstCustomResultCol = q.baseResultColumns.length + q.ftsTables.length) := by
  have hS := stable_settled
  have hs := same_parseNode fuel
  have hk := keeps_parseNode_settled fuel
  unfold writeSelect at h
  have hb := bind_ok _ _ _ _ _ h
  clear h
  obtain ⟨_, q1, h1, h⟩ := hb
  have hb := bind_ok _ _ _ _ _ h
  clear h
  obtain ⟨_, q2, h2, h⟩ := hb
  have hb := bind_ok _ _ _ _ _ h
  clear h
  obtain ⟨qa, q3, h3, h⟩ := hb
  have hb := bind_ok _ _ _ _ _ h
  clear h
  obtain ⟨_, q4, h4, h⟩ := hb
  have hb := bind_ok _ _ _ _ _ h
  clear h
  obtain ⟨_, q5, h5, h⟩ := hb
  have hb := bind_ok _ _ _ _ _ h
  clear h
  obtain ⟨nCol, q6, h6, h⟩ := hb
  have hb := bind_ok _ _ _ _ _ h
  clear h
  obtain ⟨_, q7, h7, h⟩ := hb
  have hb := bind_ok _ _ _ _ _ h
  clear h
  obtain ⟨_, q8, h8, h⟩ := hb
  have hb := bind_ok _ _ _ _ _ h
  clear h
  obtain ⟨_, q9, h9, h⟩ := hb
  have hb := bind_ok _ _ _ _ _ h
  clear h
  obtain ⟨qf, q10, h10, h⟩ := hb
  have hb := bind_ok _ _ _ _ _ h
  clear h
  obtain ⟨_, q11, h11, h⟩ := hb
  have hb := bind_ok _ _ _ _ _ h
  clear h
  obtain ⟨_, q12, h12, h⟩ := hb
  have hb := bind_ok _ _ _ _ _ h
  clear h
  obtain ⟨_, q13, h13, h⟩ := hb
  have hb := bind_ok _ _ _ _ _ h
  clear h
  obtain ⟨_, q14, h14, h15⟩ := hb
  -- the scan
  have hscan : Settled q q1 ∧ q1.context = q.context ∧ q1.sql = q.sql ∧
      q1.firstCustomResultCol = q.firstCustomResultCol ∧
      (∀ node, whereNode = some node → findFTSProperties node q = (.ok (), q1)) ∧
      (whereNode = none → q1 = q) := by
    cases whereNode with
    | none =>
      obtain ⟨_, hq⟩ := ok_pair_eq h1
      subst hq
      exact ⟨hS.refl _, rfl, rfl, rfl, fun _ hn => Option.noConfusion hn, fun _ => rfl⟩
    | some node =>
      simp only at h1
      obtain ⟨names, _, hq⟩ := findFTSProperties_plan node q q1 h1
      refine ⟨keeps_run (keeps_findFTSProperties hS node) q q1 _ h1, ?_, ?_, ?_,
        fun n hn => by rw [← Option.some.inj hn]; exact h1,
        fun hn => Option.noConfusion hn⟩ <;> rw [hq]
  obtain ⟨hset1, hc1, hsql1, hfc1, hsome1, hnone1⟩ := hscan
  -- the prefix columns
  obtain ⟨_, hq2⟩ := ok_pair_eq h2
  obtain ⟨hqa, hq3⟩ := ok_pair_eq h3
  obtain ⟨_, hq4⟩ := ok_pair_eq h4
  obtain ⟨_, hq5⟩ := ok_pair_eq h5
  subst hq2 hq3 hqa
  simp only [write] at hq4
  subst hq4
  simp only [setFirstCustomResultCol] at hq5
  have hbase : q1.baseResultColumns = q.baseResultColumns := hset1.1.2.2.2.2.1
  have htable : q1.tableName = q.tableName := hset1.1.2.1
  have hlimit : q1.defaultLimit = q.defaultLimit := hset1.1.2.2.2.2.2.1
  have hoffset : q1.defaultOffset = q.defaultOffset := hset1.1.2.2.2.2.2.2
  -- the guards
  have hn : nCol ≠ 0 := by
    intro hz
    rw [if_pos hz] at h7
    exact error_ne_ok h7
  rw [if_neg hn] at h7
  obtain ⟨_, hq7⟩ := ok_pair_eq h7
  obtain ⟨_, hq8⟩ := ok_pair_eq h8
  have hfrom : (operands.bind fun d => dictGet d " FROM") = none := by
    cases hf : (operands.bind fun d => dictGet d " FROM") with
    | none => rfl
    | some v =>
      rw [hf] at h9
      simp only [Option.isSome_some, if_true] at h9
      exact (error_ne_ok h9).elim
  rw [hfrom] at h9
  simp only [Option.isSome_none, Bool.false_eq_true, if_false] at h9
  obtain ⟨_, hq9⟩ := ok_pair_eq h9
  obtain ⟨hqf, hq10⟩ := ok_pair_eq h10
  obtain ⟨_, hq11⟩ := ok_pair_eq h11
  subst hq7 hq8 hq9 hq10 hqf
  simp only [write] at hq11
  -- LIMIT and OFFSET
  have hq14 : q14 = { q13 with sql := q13.sql
      ++ (if !q.defaultLimit.isEmpty then " LIMIT " ++ q.defaultLimit else "") } := by
    rw [hlimit] at h14
    by_cases hl : (!q.defaultLimit.isEmpty) = true
    · rw [if_pos hl] at h14
      rw [if_pos hl]
      exact (ok_pair_eq h14).2.symm
    · rw [if_neg hl] at h14
      rw [if_neg hl]
      rw [← (ok_pair_eq h14).2]
      simp
  have hq' : q' = { q14 with sql := q14.sql
      ++ (if !q.defaultOffset.isEmpty then " OFFSET " ++ q.defaultOffset else "") } := by
    rw [hoffset] at h15
    by_cases hl : (!q.defaultOffset.isEmpty) = true
    · rw [if_pos hl] at h15
      rw [if_pos hl]
      exact (ok_pair_eq h15).2.symm
    · rw [if_neg hl] at h15
      rw [if_neg hl]
      rw [← (ok_pair_eq h15).2]
      simp
  -- the WHAT columns
  have hwhat : ∃ whatTexts : List String,
      nCol = q.baseResultColumns.length + q1.ftsTables.length + whatTexts.length ∧
      Settled q1 q6 ∧ q6.context = q.context ∧
      q6.sql = q.sql ++ "SELECT " ++ resultColumnsText 0 (q.baseResultColumns
        ++ q1.ftsTables.map offsetsColumn ++ whatTexts) ∧
      ((operands.bind fun d => dictGet d "WHAT") = none →
        whatTexts = [] ∧ q6.ftsTables = q1.ftsTables ∧
          q6.firstCustomResultCol = q.baseResultColumns.length + q1.ftsTables.length) ∧
      (∀ w, (operands.bind fun d => dictGet d "WHAT") = some w → ∃ whats q3,
            asArray (some w) = some whats ∧ whatTexts.length = whats.length ∧
            writeWhats (parseNode fuel) (q.baseResultColumns.length + q1.ftsTables.length) whats
              { q1 with
                sql := q.sql ++ "SELECT " ++ resultColumnsText 0 (q.baseResultColumns
                  ++ q1.ftsTables.map offsetsColumn)
                firstCustomResultCol := q.baseResultColumns.length + q1.ftsTables.length }
              = (.ok (q.baseResultColumns.length + q1.ftsTables.length + whats.length), q3) ∧
            q6.ftsTables = q3.ftsTables ∧
            ∀ j x, whats.get? j = some x →
              ∃ t qj qj', whatTexts.get? j = some t ∧ qj.context = q.context ∧
                Settled q1 qj ∧ writeResultColumn (parseNode fuel) x qj = (.ok (), qj') ∧
                qj'.sql = qj.sql ++ t) := by
    have hstart : q5 = { q1 with
        sql := q.sql ++ "SELECT " ++ resultColumnsText 0 (q.baseResultColumns
          ++ q1.ftsTables.map offsetsColumn)
        firstCustomResultCol := q.baseResultColumns.length + q1.ftsTables.length } := by
      rw [← hq5]
      simp only [write, hbase, hsql1, String.append_assoc]
      rfl
    have hS5 : Settled q1 q5 := by
      rw [hstart]
      exact hS.trans _ _ _ (hS.write q1 ("SELECT " ++ resultColumnsText 0 (q.baseResultColumns
        ++ q1.ftsTables.map offsetsColumn))) (hS.setFirstCustomResultCol _
          (q.baseResultColumns.length + q1.ftsTables.length))
    rw [hbase] at h6
    cases hw : (operands.bind fun d => dictGet d "WHAT") with
    | none =>
      rw [hw] at h6
      obtain ⟨hnc, hq6⟩ := ok_pair_eq h6
      subst hq6
      refine ⟨[], by rw [← hnc]; simp, hS5, ?_, ?_, fun _ => ⟨rfl, ?_, ?_⟩,
        fun w hw2 => Option.noConfusion hw2⟩
      · rw [hstart]; exact hc1
      · rw [hstart]; simp
      · rw [hstart]
      · rw [hstart]
    | some w =>
      rw [hw] at h6
      simp only at h6
      cases ha : asArray (some w) with
      | none =>
        rw [ha] at h6
        exact (error_ne_ok h6).elim
      | some whats =>
        rw [ha] at h6
        simp only at h6
        obtain ⟨hm, hI6, hc6, texts, hlen, hsql6, hitems⟩ :=
          writeWhats_spec hS (parseNode fuel) hs hk whats _ nCol q5 q6 h6
        refine ⟨texts, by rw [hm, hlen], hS.trans _ _ _ hS5 hI6, ?_, ?_,
          fun hw2 => Option.noConfusion hw2, fun w2 hw2 => ?_⟩
        rotate_left 2
        · have hww : w2 = w := (Option.some.inj hw2).symm
          subst hww
          refine ⟨whats, q6, ha, hlen, ?_, rfl, ?_⟩
          · have h6' := h6
            rw [hm] at h6'
            rw [← hstart]
            exact h6'
          · intro j x hx
            obtain ⟨t, qj, qj', ha, hb, hc, hd, he⟩ := hitems j x hx
            exact ⟨t, qj, qj', ha, by rw [hb, hstart]; exact hc1, hS.trans _ _ _ hS5 hc, hd,
              he⟩
        · rw [hc6, hstart]; exact hc1
        · rw [hsql6, hstart]
          simp only
          rw [resultColumnsText_append _ texts]
          simp only [Nat.zero_add, List.length_append, List.length_map, String.append_assoc]
  obtain ⟨whatTexts, hnCol, hS6, hc6, hsql6, hwnone, hwsome⟩ := hwhat
  have hS_q6 : Settled q q6 := hS.trans _ _ _ hset1 hS6
  -- the FROM clause
  have hq11' : q11 = { q6 with
      sql := q6.sql ++ " FROM " ++ q.tableName ++ ftsJoinsText 0 q6.ftsTables } := by
    rw [← hq11]
    simp only [write, String.append_assoc]
    rw [hS_q6.1.2.1]
  have hS11 : Settled q6 q11 := by
    rw [hq11']
    exact hS.write q6 (" FROM " ++ q.tableName ++ ftsJoinsText 0 q6.ftsTables)
  have hc11 : q11.context = q.context := by rw [hq11']; exact hc6
  have hf11 : q11.ftsTables = q6.ftsTables := by rw [hq11']
  clear hq11 h2 h3 h4 h5 h7 h8 h9 h10 h11
  -- the WHERE clause
  have hwhere : ∃ whereText : String, Settled q11 q12 ∧ q12.context = q.context ∧
      q12.sql = q11.sql ++ (if whereNode.isSome then " WHERE " ++ whereText else "") ∧
      (∀ node, whereNode = some node →
        ∃ qw qw', qw.context = q.context ∧ SameScope q qw ∧ qw.ftsTables = q6.ftsTables ∧
          parseNode fuel node qw = (.ok (), qw') ∧ qw'.sql = qw.sql ++ whereText) ∧
      (whereNode = none → q12 = q11) := by
    cases whereNode with
    | none =>
      obtain ⟨_, hq⟩ := ok_pair_eq h12
      subst hq
      exact ⟨"", hS.refl _, hc11, by simp, fun _ hn => Option.noConfusion hn, fun _ => rfl⟩
    | some node =>
      obtain ⟨_, qw, hw1, hw2⟩ := bind_ok _ _ _ _ _ h12
      obtain ⟨_, hqw⟩ := ok_pair_eq hw1
      obtain ⟨hcw, t, ht⟩ := same_run (hs node) qw q12 _ hw2
      have hSw : Settled q11 qw := by
        rw [← hqw]
        exact hS.write q11 " WHERE "
      refine ⟨t, hS.trans _ _ _ hSw (keeps_run (hk node) qw q12 _ hw2), ?_, ?_, ?_,
        fun hn => Option.noConfusion hn⟩
      · rw [hcw, ← hqw]; exact hc11
      · rw [ht, ← hqw]
        simp [String.append_assoc]
      · intro n hn
        have hnn : n = node := (Option.some.inj hn).symm
        subst hnn
        refine ⟨qw, q12, ?_, ?_, ?_, hw2, ht⟩
        · rw [← hqw]; exact hc11
        · exact (hS.trans _ _ _ hS_q6 (hS.trans _ _ _ hS11 hSw)).1
        · rw [← hqw]; exact hf11
  obtain ⟨whereText, hS12, hc12, hsql12, hwhereTie, hwhereNone⟩ := hwhere
  clear h12
  -- the ORDER BY clause
  have horder : ∃ orderText : String, Settled q12 q13 ∧ q13.context = q.context ∧
      q13.sql = q12.sql ++ (if (operands.bind fun d => dictGet d "ORDER BY").isSome
        then " ORDER BY " ++ orderText else "") ∧
      (∀ o, (operands.bind fun d => dictGet d "ORDER BY") = some o →
        ∃ items texts, asArray (some o) = some items ∧ texts.length = items.length ∧
          orderText = String.intercalate ", " texts ∧
          ∀ j x, items.get? j = some x →
            ∃ t qj qj', texts.get? j = some t ∧
              qj.context = q.context ++ [.kOrderByOperation, .kColumnListOperation] ∧
              SameScope q qj ∧ parseNode fuel x qj = (.ok (), qj') ∧ qj'.sql = qj.sql ++ t) ∧
      ((operands.bind fun d => dictGet d "ORDER BY") = none → q13 = q12) := by
    cases ho : (operands.bind fun d => dictGet d "ORDER BY") with
    | none =>
      rw [ho] at h13
      obtain ⟨_, hq⟩ := ok_pair_eq h13
      subst hq
      exact ⟨"", hS.refl _, hc12, by simp, fun _ hn => Option.noConfusion hn, fun _ => rfl⟩
    | some o =>
      rw [ho] at h13
      obtain ⟨_, qa, ha1, ha2⟩ := bind_ok _ _ _ _ _ h13
      obtain ⟨_, qb, hb1, hb2⟩ := bind_ok _ _ _ _ _ ha2
      obtain ⟨_, qc, hc1', hc2⟩ := bind_ok _ _ _ _ _ hb2
      obtain ⟨_, hqa⟩ := ok_pair_eq ha1
      obtain ⟨_, hqb⟩ := ok_pair_eq hb1
      obtain ⟨_, hqd⟩ := ok_pair_eq hc2
      cases hitems : asArray (some o) with
      | none =>
        rw [hitems] at hc1'
        exact (error_ne_ok hc1').elim
      | some items =>
        rw [hitems] at hc1'
        simp only at hc1'
        have hSb : Settled q12 qb := by
          rw [← hqb, ← hqa]
          exact hS.trans _ _ _ (hS.write q12 " ORDER BY ") (hS.pushContext _ .kOrderByOperation)
        have hcb : qb.context = q.context ++ [.kOrderByOperation] := by
          rw [← hqb, ← hqa]
          simp [hc12]
        have htop : qb.context.getLast? = some .kOrderByOperation := by
          rw [hcb]
          simp
        obtain ⟨hIc, hcc, texts, hlen, hsqlc, htie⟩ :=
          writeColumnList_spec hS (parseNode fuel) hs hk items .kOrderByOperation qb qc htop hc1'
        have hnp : ¬ ((-2 : Int) ≤ OperationPtr.kOrderByOperation.deref.precedence) := by decide
        rw [if_neg hnp] at hsqlc
        refine ⟨String.intercalate ", " texts, ?_, ?_, ?_, fun o2 ho2 => ?_,
          fun hn => Option.noConfusion hn⟩
        · rw [← hqd]
          exact hS.trans _ _ _ hSb (hS.trans _ _ _ hIc (hS.popContext qc))
        · rw [← hqd]
          show qc.context.dropLast = q.context
          rw [hcc, hcb]
          simp
        · rw [← hqd]
          show qc.sql = _
          rw [hsqlc, ← hqb, ← hqa]
          simp [String.append_assoc]
        · have hoo : o2 = o := (Option.some.inj ho2).symm
          subst hoo
          refine ⟨items, texts, hitems, hlen, rfl, fun j x hx => ?_⟩
          obtain ⟨t, qj, qj', h1', h2', h3', h4', h5'⟩ := htie j x hx
          refine ⟨t, qj, qj', h1', ?_, ?_, h4', h5'⟩
          · rw [h2', hcb]
            simp
          · exact (hS.trans _ _ _ hS_q6 (hS.trans _ _ _ hS11 (hS.trans _ _ _ hS12
              (hS.trans _ _ _ hSb h3')))).1
  obtain ⟨orderText, hS13, hc13, hsql13, horderTie, horderNone⟩ := horder
  clear h13
  have hS_q13 : Settled q q13 :=
    hS.trans _ _ _ hS_q6 (hS.trans _ _ _ hS11 (hS.trans _ _ _ hS12 hS13))
  refine ⟨q1, whatTexts, q6.ftsTables, whereText, orderText, hsome1, hnone1, ?_, ?_, hfrom,
    ?_, ?_, hS6.2, ?_, hwhereTie, horderTie, ?_, ?_, ?_⟩
  · rw [hq', hq14]
    simp only
    rw [hsql13, hsql12, hq11']
    simp only
    rw [hsql6]
  · rw [← hnCol]
    exact hn
  · intro hw
    exact ⟨(hwnone hw).1, (hwnone hw).2.1⟩
  · intro w hw
    obtain ⟨whats, q3, h1', h2', h3', h4', h5'⟩ := hwsome w hw
    exact ⟨whats, q3, h1', h2', h3', h4', h5'⟩
  · rw [hq', hq14]
    exact (hS.trans _ _ _ hS11 (hS.trans _ _ _ hS12 hS13)).2
  · rw [hq', hq14]
    exact hc13
  · rw [hq', hq14]
    exact hS_q13.1
  · intro hw hwn hon
    rw [hq', hq14, horderNone hon, hwhereNone hwn, hq11']
    simp only
    rw [(hwnone hw).2.2, hnone1 hwn]
/-- A string item of a column list is read as a property. -/
theorem parseNode_column_string (fuel : Nat) (s : String) (q : State)
    (htop : q.context.getLast? = some .kColumnListOperation) :
    parseNode (fuel + 1) (.string s) q = writeStringLiteralAsProperty s q := by
  simp only [parseNode, parseNodeWith, bind_apply, contextBack, htop, if_true]

theorem parse_dict_eq (d : List (String × Value)) (qp : State) :
    parse (.dict d) qp = writeSelect (parseNode ((Value.dict d).depth + 1)) (dictGet d "WHERE")
      (some d) { qp with context := [.kOuterOperation] } := by
  simp only [parse, bind_apply, reset, writeSelectOperands]

theorem sameScope_reset (qp : State) :
    SameScope { qp with context := [.kOuterOperation] } qp :=
  ⟨rfl, rfl, rfl, rfl, rfl, rfl, rfl⟩

theorem sameScope_trans (a b c : State) (h1 : SameScope a b) (h2 : SameScope b c) :
    SameScope a c := stable_sameScope.trans a b c h1 h2

theorem sameScope_symm (a b : State) (h : SameScope a b) : SameScope b a := by
  obtain ⟨a1, a2, a3, a4, a5, a6, a7⟩ := h
  exact ⟨a1.symm, a2.symm, a3.symm, a4.symm, a5.symm, a6.symm, a7.symm⟩

/-! ### Properties of the members that every method keeps -/

theorem guard_bind {α β : Type} {P : State → Prop} {E : Error → Prop} {m : M α}
    {k : α → M β} (hm : Guard P E m) (hk : ∀ a, Guard P E (k a)) : Guard P E (m >>= k) := by
  constructor
  · intro q e hq h
    have hb := bind_apply m k q
    have h1 := hm.error q
    have h2 := hm.keeps q
    cases hmq : m q with
    | mk r q1 =>
      rw [hmq] at hb h1 h2
      cases r with
      | error e1 =>
        rw [hb] at h
        simp only [Except.error.injEq] at h
        subst h
        exact h1 _ hq rfl
      | ok a =>
        simp only at hb
        rw [hb] at h
        exact (hk a).error q1 e (h2 a hq rfl) h
  · intro q b hq h
    have hb := bind_apply m k q
    have h2 := hm.keeps q
    cases hmq : m q with
    | mk r q1 =>
      rw [hmq] at hb h2
      cases r with
      | error e1 =>
        rw [hb] at h
        cases h
      | ok a =>
        simp only at hb
        rw [hb] at h ⊢
        exact (hk a).keeps q1 b (h2 a hq rfl) h

theorem guard_pure {α : Type} {P : State → Prop} {E : Error → Prop} (a : α) :
    Guard P E (pure a : M α) :=
  ⟨fun _ _ _ h => (by cases h), fun _ _ hq _ => hq⟩

theorem guard_raise {α : Type} {P : State → Prop} {E : Error → Prop} {e : Error} (he : E e) :
    Guard P E (raise e : M α) :=
  ⟨fun _ _ _ h => (by
    simp only [raise, Except.error.injEq] at h
    rw [← h]
    exact he), fun _ _ _ h => (by cases h)⟩

theorem guard_fail {α : Type} {P : State → Prop} {E : Error → Prop} (hG : GStable P E)
    (s : String) : Guard P E (fail s : M α) := guard_raise (hG.invalidQuery s)

theorem guard_undefined {α : Type} {P : State → Prop} {E : Error → Prop} (hG : GStable P E) :
    Guard P E (raise .undefinedBehavior : M α) := guard_raise hG.undefinedBehavior

theorem guard_getState {P : State → Prop} {E : Error → Prop} : Guard P E getState :=
  ⟨fun _ _ _ h => (by cases h), fun _ _ hq _ => hq⟩

theorem guard_write {P : State → Prop} {E : Error → Prop} (hG : GStable P E) (s : String) :
    Guard P E (write s) :=
  ⟨fun _ _ _ h => (by cases h), fun q _ hq _ => hG.write q s hq⟩

theorem guard_contextBack {P : State → Prop} {E : Error → Prop} (hG : GStable P E) :
    Guard P E contextBack := by
  constructor
  · intro q e hq h
    simp only [contextBack] at h
    cases hb : q.context.getLast? with
    | none =>
      rw [hb] at h
      simp only [Except.error.injEq] at h
      rw [← h]
      exact hG.undefinedBehavior
    | some op => rw [hb] at h; cases h
  · intro q a hq h
    simp only [contextBack] at h ⊢
    cases hb : q.context.getLast? with
    | none => rw [hb] at h; cases h
    | some op => exact hq

theorem guard_pushContext {P : State → Prop} {E : Error → Prop} (hG : GStable P E)
    (op : OperationPtr) : Guard P E (pushContext op) :=
  ⟨fun _ _ _ h => (by cases h), fun q _ hq _ => hG.pushContext q op hq⟩

theorem guard_popContext {P : State → Prop} {E : Error → Prop}
    (hpop : ∀ q, P q → P (QueryParser.popContext q).2) : Guard P E popContext :=
  ⟨fun _ _ _ h => (by cases h), fun q _ hq _ => hpop q hq⟩

theorem guard_setContextBack {P : State → Prop} {E : Error → Prop} (hG : GStable P E)
    (op : OperationPtr) : Guard P E (setContextBack op) :=
  ⟨fun _ _ _ h => (by cases h), fun q _ hq _ => hG.setContextBack q op hq⟩

theorem guard_insertParameter {P : State → Prop} {E : Error → Prop} (hG : GStable P E)
    (parameter : String) : Guard P E (insertParameter parameter) :=
  ⟨fun _ _ _ h => (by cases h), fun q _ hq _ => hG.insertParameter q parameter hq⟩

theorem guard_insertVariable {P : State → Prop} {E : Error → Prop} (hG : GStable P E)
    (var : String) : Guard P E (insertVariable var) :=
  ⟨fun _ _ _ h => (by cases h), fun q _ hq _ => hG.insertVariable q var hq⟩

theorem guard_eraseVariable {P : State → Prop} {E : Error → Prop} (hG : GStable P E)
    (var : String) : Guard P E (eraseVariable var) :=
  ⟨fun _ _ _ h => (by cases h), fun q _ hq _ => hG.eraseVariable q var hq⟩

theorem guard_writeSQLString {P : State → Prop} {E : Error → Prop} (hG : GStable P E)
    (s : String) : Guard P E (writeSQLString s) := guard_write hG _

theorem guard_ite {α : Type} {P : State → Prop} {E : Error → Prop} (c : Prop) [Decidable c]
    {a b : M α} (ha : Guard P E a) (hb : Guard P E b) : Guard P E (if c then a else b) := by
  split
  · exact ha
  · exact hb

theorem propertyFromOperands_error (operands : List Value) (e : Error)
    (h : propertyFromOperands operands = .error e) : ∃ message, e = .invalidQuery message :=
  propertyFromOperandsLoop_error operands 0 e h

theorem propertyFromNode_error (node : Value) (e : Error)
    (h : propertyFromNode node = .error e) : ∃ message, e = .invalidQuery message := by
  unfold propertyFromNode at h
  split at h
  · split at h
    · split at h
      · split at h
        · exact propertyFromOperands_error _ e h
        · cases h
      · cases h
    · cases h
  · cases h

theorem guard_liftExcept {α : Type} {P : State → Prop} {E : Error → Prop} (hG : GStable P E)
    (x : Except Error α) (hx : ∀ e, x = .error e → ∃ message, e = .invalidQuery message) :
    Guard P E (liftExcept x) := by
  cases x with
  | error e =>
    obtain ⟨s, hs⟩ := hx e rfl
    subst hs
    exact guard_raise (hG.invalidQuery s)
  | ok a => exact guard_pure a

theorem guard_propertyFromNode {P : State → Prop} {E : Error → Prop} (hG : GStable P E)
    (node : Value) : Guard P E (liftExcept (propertyFromNode node)) :=
  guard_liftExcept hG _ (propertyFromNode_error node)

theorem guard_propertyFromOperands {P : State → Prop} {E : Error → Prop} (hG : GStable P E)
    (operands : List Value) : Guard P E (liftExcept (propertyFromOperands operands)) :=
  guard_liftExcept hG _ (propertyFromOperands_error operands)

theorem guard_parseOperand {P : State → Prop} {E : Error → Prop} (hG : GStable P E)
    (parseNode : Value → M Unit) (operands : List Value)
    (hall : ∀ x ∈ operands, Guard P E (parseNode x)) (i : Nat) :
    Guard P E (parseOperand parseNode operands i) := by
  unfold parseOperand
  cases h : operands.get? i with
  | none => exact guard_undefined hG
  | some node => exact hall node (List.get?_mem h)
theorem guard_writePropertyGetter {P : State → Prop} {E : Error → Prop} (hG : GStable P E)
    (fn property : String) :
    Guard P E (writePropertyGetter fn property) := by
  unfold writePropertyGetter
  repeat' with_reducible first
    | exact guard_pure _ | exact guard_write hG _ | exact guard_fail hG _
    | exact guard_undefined hG | exact guard_getState | exact guard_contextBack hG
    | exact guard_propertyFromNode hG _ | exact guard_propertyFromOperands hG _
    | exact guard_writeSQLString hG _ | exact guard_pushContext hG _
    | exact guard_setContextBack hG _ | exact guard_insertParameter hG _
    | exact guard_insertVariable hG _ | exact guard_eraseVariable hG _
    | assumption
    | apply guard_bind | intro _ | apply guard_ite | split | dsimp only

theorem guard_writeStringLiteralAsProperty {P : State → Prop} {E : Error → Prop} (hG : GStable P E)
    (str : String) :
    Guard P E (writeStringLiteralAsProperty str) := by
  unfold writeStringLiteralAsProperty
  repeat' with_reducible first
    | exact guard_pure _ | exact guard_write hG _ | exact guard_fail hG _
    | exact guard_undefined hG | exact guard_getState | exact guard_contextBack hG
    | exact guard_propertyFromNode hG _ | exact guard_propertyFromOperands hG _
    | exact guard_writeSQLString hG _ | exact guard_pushContext hG _
    | exact guard_setContextBack hG _ | exact guard_insertParameter hG _
    | exact guard_insertVariable hG _ | exact guard_eraseVariable hG _
    | exact guard_writePropertyGetter hG _ _
    | assumption
    | apply guard_bind | intro _ | apply guard_ite | split | dsimp only

theorem guard_writeNestedPropertyOpIfAny {P : State → Prop} {E : Error → Prop} (hG : GStable P E)
    (fnName : String) (operands : List Value) :
    Guard P E (writeNestedPropertyOpIfAny fnName operands) := by
  unfold writeNestedPropertyOpIfAny
  repeat' with_reducible first
    | exact guard_pure _ | exact guard_write hG _ | exact guard_fail hG _
    | exact guard_undefined hG | exact guard_getState | exact guard_contextBack hG
    | exact guard_propertyFromNode hG _ | exact guard_propertyFromOperands hG _
    | exact guard_writeSQLString hG _ | exact guard_pushContext hG _
    | exact guard_setContextBack hG _ | exact guard_insertParameter hG _
    | exact guard_insertVariable hG _ | exact guard_eraseVariable hG _
    | exact guard_writePropertyGetter hG _ _ | exact guard_writeStringLiteralAsProperty hG _
    | assumption
    | apply guard_bind | intro _ | apply guard_ite | split | dsimp only

theorem guard_FTSIndexName {P : State → Prop} {E : Error → Prop} (hG : GStable P E)
    (key : Value) :
    Guard P E (FTSIndexName key) := by
  unfold FTSIndexName
  repeat' with_reducible first
    | exact guard_pure _ | exact guard_write hG _ | exact guard_fail hG _
    | exact guard_undefined hG | exact guard_getState | exact guard_contextBack hG
    | exact guard_propertyFromNode hG _ | exact guard_propertyFromOperands hG _
    | exact guard_writeSQLString hG _ | exact guard_pushContext hG _
    | exact guard_setContextBack hG _ | exact guard_insertParameter hG _
    | exact guard_insertVariable hG _ | exact guard_eraseVariable hG _
    | exact guard_writePropertyGetter hG _ _ | exact guard_writeStringLiteralAsProperty hG _
    | exact guard_writeNestedPropertyOpIfAny hG _ _
    | assumption
    | apply guard_bind | intro _ | apply guard_ite | split | dsimp only

/-- The alias lookup, which adds nothing to the plan. -/
theorem guard_FTSPropertyIndex {P : State → Prop} {E : Error → Prop} (hG : GStable P E)
    (matchLHS : Value) : Guard P E (FTSPropertyIndex matchLHS false) := by
  unfold FTSPropertyIndex
  simp only [Bool.false_eq_true, if_false]
  repeat' with_reducible first
    | exact guard_pure _ | exact guard_write hG _ | exact guard_fail hG _
    | exact guard_undefined hG | exact guard_getState | exact guard_contextBack hG
    | exact guard_propertyFromNode hG _ | exact guard_propertyFromOperands hG _
    | exact guard_writeSQLString hG _ | exact guard_pushContext hG _
    | exact guard_setContextBack hG _ | exact guard_insertParameter hG _
    | exact guard_insertVariable hG _ | exact guard_eraseVariable hG _
    | exact guard_writePropertyGetter hG _ _ | exact guard_writeStringLiteralAsProperty hG _
    | exact guard_writeNestedPropertyOpIfAny hG _ _ | exact guard_FTSIndexName hG _
    | assumption
    | apply guard_bind | intro _ | apply guard_ite | split | dsimp only

theorem guard_handleOperationWith {P : State → Prop} {E : Error → Prop} (hG : GStable P E)
    (hpop : ∀ q, P q → P (QueryParser.popContext q).2)
    (handler : M Unit) (op : OperationPtr) (h : Guard P E handler) :
    Guard P E (handleOperationWith handler op) := by
  unfold handleOperationWith
  repeat' with_reducible first
    | exact guard_pure _ | exact guard_write hG _ | exact guard_fail hG _
    | exact guard_undefined hG | exact guard_getState | exact guard_contextBack hG
    | exact guard_propertyFromNode hG _ | exact guard_propertyFromOperands hG _
    | exact guard_writeSQLString hG _ | exact guard_pushContext hG _
    | exact guard_popContext hpop
    | exact guard_setContextBack hG _ | exact guard_insertParameter hG _
    | exact guard_insertVariable hG _ | exact guard_eraseVariable hG _
    | exact guard_writePropertyGetter hG _ _ | exact guard_writeStringLiteralAsProperty hG _
    | exact guard_writeNestedPropertyOpIfAny hG _ _ | exact guard_FTSIndexName hG _
    | exact guard_FTSPropertyIndex hG _
    | assumption
    | apply guard_bind | intro _ | apply guard_ite | split | dsimp only

theorem guard_prefixOp {P : State → Prop} {E : Error → Prop} (hG : GStable P E)
    (parseNode : Value → M Unit)
    (op : String) (operands : List Value)
    (hall : ∀ x ∈ operands, Guard P E (parseNode x)) :
    Guard P E (prefixOp parseNode op operands) := by
  unfold prefixOp
  repeat' with_reducible first
    | exact guard_pure _ | exact guard_write hG _ | exact guard_fail hG _
    | exact guard_undefined hG | exact guard_getState | exact guard_contextBack hG
    | exact guard_propertyFromNode hG _ | exact guard_propertyFromOperands hG _
    | exact guard_writeSQLString hG _ | exact guard_pushContext hG _
    | exact guard_setContextBack hG _ | exact guard_insertParameter hG _
    | exact guard_insertVariable hG _ | exact guard_eraseVariable hG _
    | exact guard_writePropertyGetter hG _ _ | exact guard_writeStringLiteralAsProperty hG _
    | exact guard_writeNestedPropertyOpIfAny hG _ _ | exact guard_FTSIndexName hG _
    | exact guard_FTSPropertyIndex hG _ | exact guard_parseOperand hG _ _ hall _
    | assumption
    | apply guard_bind | intro _ | apply guard_ite | split | dsimp only

theorem guard_postfixOp {P : State → Prop} {E : Error → Prop} (hG : GStable P E)
    (parseNode : Value → M Unit)
    (op : String) (operands : List Value)
    (hall : ∀ x ∈ operands, Guard P E (parseNode x)) :
    Guard P E (postfixOp parseNode op operands) := by
  unfold postfixOp
  repeat' with_reducible first
    | exact guard_pure _ | exact guard_write hG _ | exact guard_fail hG _
    | exact guard_undefined hG | exact guard_getState | exact guard_contextBack hG
    | exact guard_propertyFromNode hG _ | exact guard_propertyFromOperands hG _
    | exact guard_writeSQLString hG _ | exact guard_pushContext hG _
    | exact guard_setContextBack hG _ | exact guard_insertParameter hG _
    | exact guard_insertVariable hG _ | exact guard_eraseVariable hG _
    | exact guard_writePropertyGetter hG _ _ | exact guard_writeStringLiteralAsProperty hG _
    | exact guard_writeNestedPropertyOpIfAny hG _ _ | exact guard_FTSIndexName hG _
    | exact guard_FTSPropertyIndex hG _ | exact guard_prefixOp hG _ _ _ hall
    | exact guard_parseOperand hG _ _ hall _
    | assumption
    | apply guard_bind | intro _ | apply guard_ite | split | dsimp only

theorem guard_infixOpLoop {P : State → Prop} {E : Error → Prop} (hG : GStable P E)
    (parseNode : Value → M Unit) (op : String) :
    ∀ (operands : List Value) (n : Nat), (∀ x ∈ operands, Guard P E (parseNode x)) →
      Guard P E (infixOpLoop parseNode op n operands) := by
  intro operands
  induction operands with
  | nil => intro n _; exact guard_pure _
  | cons node rest ih =>
    intro n hall
    have hnode := hall node (List.mem_cons_self _ _)
    have hrest := fun m => ih m (fun x hx => hall x (List.mem_cons_of_mem _ hx))
    unfold infixOpLoop
    repeat' with_reducible first
      | exact guard_pure _ | exact guard_write hG _ | exact guard_fail hG _
      | exact guard_undefined hG | exact guard_getState | exact guard_contextBack hG
      | exact guard_propertyFromNode hG _ | exact guard_propertyFromOperands hG _
      | exact guard_writeSQLString hG _ | exact guard_pushContext hG _
      | exact guard_setContextBack hG _
      | exact guard_insertParameter hG _ | exact guard_insertVariable hG _
      | exact guard_eraseVariable hG _ | exact guard_writePropertyGetter hG _ _
      | exact guard_writeStringLiteralAsProperty hG _
      | exact guard_writeNestedPropertyOpIfAny hG _ _ | exact guard_FTSIndexName hG _
      | exact guard_FTSPropertyIndex hG _ | exact guard_prefixOp hG _ _ _ hall
      | exact guard_postfixOp hG _ _ _ hall | exact hnode | exact hrest _
      | assumption
      | apply guard_bind | intro _ | apply guard_ite | split | dsimp only

theorem guard_infixOp {P : State → Prop} {E : Error → Prop} (hG : GStable P E)
    (parseNode : Value → M Unit) (op : String) (operands : List Value)
    (hall : ∀ x ∈ operands, Guard P E (parseNode x)) : Guard P E (infixOp parseNode op operands) :=
  guard_infixOpLoop hG parseNode op operands 0 hall

theorem guard_writeArgList {P : State → Prop} {E : Error → Prop} (hG : GStable P E)
    (hpop : ∀ q, P q → P (QueryParser.popContext q).2)
    (parseNode : Value → M Unit) (operands : List Value)
    (hall : ∀ x ∈ operands, Guard P E (parseNode x)) : Guard P E (writeArgList parseNode operands) :=
  guard_handleOperationWith hG hpop _ _ (guard_infixOp hG parseNode _ _ hall)

theorem guard_writeColumnList {P : State → Prop} {E : Error → Prop} (hG : GStable P E)
    (hpop : ∀ q, P q → P (QueryParser.popContext q).2)
    (parseNode : Value → M Unit) (operands : List Value)
    (hall : ∀ x ∈ operands, Guard P E (parseNode x)) : Guard P E (writeColumnList parseNode operands) :=
  guard_handleOperationWith hG hpop _ _ (guard_infixOp hG parseNode _ _ hall)

theorem guard_existsOp {P : State → Prop} {E : Error → Prop} (hG : GStable P E)
    (parseNode : Value → M Unit)
    (op : String) (operands : List Value)
    (hall : ∀ x ∈ operands, Guard P E (parseNode x)) :
    Guard P E (existsOp parseNode op operands) := by
  unfold existsOp
  repeat' with_reducible first
    | exact guard_pure _ | exact guard_write hG _ | exact guard_fail hG _
    | exact guard_undefined hG | exact guard_getState | exact guard_contextBack hG
    | exact guard_propertyFromNode hG _ | exact guard_propertyFromOperands hG _
    | exact guard_writeSQLString hG _ | exact guard_pushContext hG _
    | exact guard_setContextBack hG _ | exact guard_insertParameter hG _
    | exact guard_insertVariable hG _ | exact guard_eraseVariable hG _
    | exact guard_writePropertyGetter hG _ _ | exact guard_writeStringLiteralAsProperty hG _
    | exact guard_writeNestedPropertyOpIfAny hG _ _ | exact guard_FTSIndexName hG _
    | exact guard_FTSPropertyIndex hG _ | exact guard_prefixOp hG _ _ _ hall
    | exact guard_postfixOp hG _ _ _ hall | exact guard_infixOp hG _ _ _ hall
    | exact guard_parseOperand hG _ _ hall _
    | assumption
    | apply guard_bind | intro _ | apply guard_ite | split | dsimp only

theorem guard_betweenOp {P : State → Prop} {E : Error → Prop} (hG : GStable P E)
    (parseNode : Value → M Unit)
    (op : String) (operands : List Value)
    (hall : ∀ x ∈ operands, Guard P E (parseNode x)) :
    Guard P E (betweenOp parseNode op operands) := by
  unfold betweenOp
  repeat' with_reducible first
    | exact guard_pure _ | exact guard_write hG _ | exact guard_fail hG _
    | exact guard_undefined hG | exact guard_getState | exact guard_contextBack hG
    | exact guard_propertyFromNode hG _ | exact guard_propertyFromOperands hG _
    | exact guard_writeSQLString hG _ | exact guard_pushContext hG _
    | exact guard_setContextBack hG _ | exact guard_insertParameter hG _
    | exact guard_insertVariable hG _ | exact guard_eraseVariable hG _
    | exact guard_writePropertyGetter hG _ _ | exact guard_writeStringLiteralAsProperty hG _
    | exact guard_writeNestedPropertyOpIfAny hG _ _ | exact guard_FTSIndexName hG _
    | exact guard_FTSPropertyIndex hG _ | exact guard_prefixOp hG _ _ _ hall
    | exact guard_postfixOp hG _ _ _ hall | exact guard_infixOp hG _ _ _ hall
    | exact guard_existsOp hG _ _ _ hall | exact guard_parseOperand hG _ _ hall _
    | assumption
    | apply guard_bind | intro _ | apply guard_ite | split | dsimp only

theorem guard_inOp {P : State → Prop} {E : Error → Prop} (hG : GStable P E)
    (hpop : ∀ q, P q → P (QueryParser.popContext q).2)
    (parseNode : Value → M Unit)
    (op : String) (operands : List Value)
    (hall : ∀ x ∈ operands, Guard P E (parseNode x)) :
    Guard P E (inOp parseNode op operands) := by
  unfold inOp
  repeat' with_reducible first
    | exact guard_pure _ | exact guard_write hG _ | exact guard_fail hG _
    | exact guard_undefined hG | exact guard_getState | exact guard_contextBack hG
    | exact guard_propertyFromNode hG _ | exact guard_propertyFromOperands hG _
    | exact guard_writeSQLString hG _ | exact guard_pushContext hG _
    | exact guard_popContext hpop
    | exact guard_setContextBack hG _ | exact guard_insertParameter hG _
    | exact guard_insertVariable hG _ | exact guard_eraseVariable hG _
    | exact guard_writePropertyGetter hG _ _ | exact guard_writeStringLiteralAsProperty hG _
    | exact guard_writeNestedPropertyOpIfAny hG _ _ | exact guard_FTSIndexName hG _
    | exact guard_FTSPropertyIndex hG _ | exact guard_prefixOp hG _ _ _ hall
    | exact guard_postfixOp hG _ _ _ hall | exact guard_infixOp hG _ _ _ hall
    | exact guard_writeArgList hG hpop _ _ hall | exact guard_writeColumnList hG hpop _ _ hall
    | exact guard_existsOp hG _ _ _ hall | exact guard_betweenOp hG _ _ _ hall
    | exact guard_writeArgList hG hpop _ _ (fun x hx => hall x (List.mem_of_mem_drop hx))
    | exact guard_parseOperand hG _ _ hall _
    | assumption
    | apply guard_bind | intro _ | apply guard_ite | split | dsimp only

theorem guard_functionOp {P : State → Prop} {E : Error → Prop} (hG : GStable P E)
    (hpop : ∀ q, P q → P (QueryParser.popContext q).2)
    (parseNode : Value → M Unit)
    (op : String) (operands : List Value)
    (hall : ∀ x ∈ operands, Guard P E (parseNode x)) :
    Guard P E (functionOp parseNode op operands) := by
  unfold functionOp
  repeat' with_reducible first
    | exact guard_pure _ | exact guard_write hG _ | exact guard_fail hG _
    | exact guard_undefined hG | exact guard_getState | exact guard_contextBack hG
    | exact guard_propertyFromNode hG _ | exact guard_propertyFromOperands hG _
    | exact guard_writeSQLString hG _ | exact guard_pushContext hG _
    | exact guard_popContext hpop
    | exact guard_setContextBack hG _ | exact guard_insertParameter hG _
    | exact guard_insertVariable hG _ | exact guard_eraseVariable hG _
    | exact guard_writePropertyGetter hG _ _ | exact guard_writeStringLiteralAsProperty hG _
    | exact guard_writeNestedPropertyOpIfAny hG _ _ | exact guard_FTSIndexName hG _
    | exact guard_FTSPropertyIndex hG _ | exact guard_prefixOp hG _ _ _ hall
    | exact guard_postfixOp hG _ _ _ hall | exact guard_infixOp hG _ _ _ hall
    | exact guard_writeArgList hG hpop _ _ hall | exact guard_writeColumnList hG hpop _ _ hall
    | exact guard_existsOp hG _ _ _ hall | exact guard_betweenOp hG _ _ _ hall
    | exact guard_inOp hG hpop _ _ _ hall | exact guard_parseOperand hG _ _ hall _
    | assumption
    | apply guard_bind | intro _ | apply guard_ite | split | dsimp only

theorem guard_anyEveryOp {P : State → Prop} {E : Error → Prop} (hG : GStable P E)
    (parseNode : Value → M Unit)
    (op : String) (operands : List Value)
    (hall : ∀ x ∈ operands, Guard P E (parseNode x)) :
    Guard P E (anyEveryOp parseNode op operands) := by
  unfold anyEveryOp
  repeat' with_reducible first
    | exact guard_pure _ | exact guard_write hG _ | exact guard_fail hG _
    | exact guard_undefined hG | exact guard_getState | exact guard_contextBack hG
    | exact guard_propertyFromNode hG _ | exact guard_propertyFromOperands hG _
    | exact guard_writeSQLString hG _ | exact guard_pushContext hG _
    | exact guard_setContextBack hG _ | exact guard_insertParameter hG _
    | exact guard_insertVariable hG _ | exact guard_eraseVariable hG _
    | exact guard_writePropertyGetter hG _ _ | exact guard_writeStringLiteralAsProperty hG _
    | exact guard_writeNestedPropertyOpIfAny hG _ _ | exact guard_FTSIndexName hG _
    | exact guard_FTSPropertyIndex hG _ | exact guard_prefixOp hG _ _ _ hall
    | exact guard_postfixOp hG _ _ _ hall | exact guard_infixOp hG _ _ _ hall
    | exact guard_existsOp hG _ _ _ hall | exact guard_betweenOp hG _ _ _ hall
    | exact guard_parseOperand hG _ _ hall _
    | assumption
    | apply guard_bind | intro _ | apply guard_ite | split | dsimp only

theorem guard_propertyOp {P : State → Prop} {E : Error → Prop} (hG : GStable P E)
    (op : String) (operands : List Value) :
    Guard P E (propertyOp op operands) := by
  unfold propertyOp
  repeat' with_reducible first
    | exact guard_pure _ | exact guard_write hG _ | exact guard_fail hG _
    | exact guard_undefined hG | exact guard_getState | exact guard_contextBack hG
    | exact guard_propertyFromNode hG _ | exact guard_propertyFromOperands hG _
    | exact guard_writeSQLString hG _ | exact guard_pushContext hG _
    | exact guard_setContextBack hG _ | exact guard_insertParameter hG _
    | exact guard_insertVariable hG _ | exact guard_eraseVariable hG _
    | exact guard_writePropertyGetter hG _ _ | exact guard_writeStringLiteralAsProperty hG _
    | exact guard_writeNestedPropertyOpIfAny hG _ _ | exact guard_FTSIndexName hG _
    | exact guard_FTSPropertyIndex hG _ | exact guard_prefixOp hG _ _ _ hall
    | exact guard_postfixOp hG _ _ _ hall | exact guard_infixOp hG _ _ _ hall
    | exact guard_existsOp hG _ _ _ hall | exact guard_betweenOp hG _ _ _ hall
    | exact guard_anyEveryOp hG _ _ _ hall
    | assumption
    | apply guard_bind | intro _ | apply guard_ite | split | dsimp only

theorem guard_parameterOp {P : State → Prop} {E : Error → Prop} (hG : GStable P E)
    (op : String) (operands : List Value) :
    Guard P E (parameterOp op operands) := by
  unfold parameterOp
  repeat' with_reducible first
    | exact guard_pure _ | exact guard_write hG _ | exact guard_fail hG _
    | exact guard_undefined hG | exact guard_getState | exact guard_contextBack hG
    | exact guard_propertyFromNode hG _ | exact guard_propertyFromOperands hG _
    | exact guard_writeSQLString hG _ | exact guard_pushContext hG _
    | exact guard_setContextBack hG _ | exact guard_insertParameter hG _
    | exact guard_insertVariable hG _ | exact guard_eraseVariable hG _
    | exact guard_writePropertyGetter hG _ _ | exact guard_writeStringLiteralAsProperty hG _
    | exact guard_writeNestedPropertyOpIfAny hG _ _ | exact guard_FTSIndexName hG _
    | exact guard_FTSPropertyIndex hG _ | exact guard_prefixOp hG _ _ _ hall
    | exact guard_postfixOp hG _ _ _ hall | exact guard_infixOp hG _ _ _ hall
    | exact guard_existsOp hG _ _ _ hall | exact guard_betweenOp hG _ _ _ hall
    | exact guard_anyEveryOp hG _ _ _ hall | exact guard_propertyOp hG _ _
    | assumption
    | apply guard_bind | intro _ | apply guard_ite | split | dsimp only

theorem guard_variableOp {P : State → Prop} {E : Error → Prop} (hG : GStable P E)
    (op : String) (operands : List Value) :
    Guard P E (variableOp op operands) := by
  unfold variableOp
  repeat' with_reducible first
    | exact guard_pure _ | exact guard_write hG _ | exact guard_fail hG _
    | exact guard_undefined hG | exact guard_getState | exact guard_contextBack hG
    | exact guard_propertyFromNode hG _ | exact guard_propertyFromOperands hG _
    | exact guard_writeSQLString hG _ | exact guard_pushContext hG _
    | exact guard_setContextBack hG _ | exact guard_insertParameter hG _
    | exact guard_insertVariable hG _ | exact guard_eraseVariable hG _
    | exact guard_writePropertyGetter hG _ _ | exact guard_writeStringLiteralAsProperty hG _
    | exact guard_writeNestedPropertyOpIfAny hG _ _ | exact guard_FTSIndexName hG _
    | exact guard_FTSPropertyIndex hG _ | exact guard_prefixOp hG _ _ _ hall
    | exact guard_postfixOp hG _ _ _ hall | exact guard_infixOp hG _ _ _ hall
    | exact guard_existsOp hG _ _ _ hall | exact guard_betweenOp hG _ _ _ hall
    | exact guard_anyEveryOp hG _ _ _ hall | exact guard_propertyOp hG _ _
    | exact guard_parameterOp hG _ _
    | assumption
    | apply guard_bind | intro _ | apply guard_ite | split | dsimp only

theorem guard_missingOp {P : State → Prop} {E : Error → Prop} (hG : GStable P E)
    (op : String) (operands : List Value) :
    Guard P E (missingOp op operands) := by
  unfold missingOp
  repeat' with_reducible first
    | exact guard_pure _ | exact guard_write hG _ | exact guard_fail hG _
    | exact guard_undefined hG | exact guard_getState | exact guard_contextBack hG
    | exact guard_propertyFromNode hG _ | exact guard_propertyFromOperands hG _
    | exact guard_writeSQLString hG _ | exact guard_pushContext hG _
    | exact guard_setContextBack hG _ | exact guard_insertParameter hG _
    | exact guard_insertVariable hG _ | exact guard_eraseVariable hG _
    | exact guard_writePropertyGetter hG _ _ | exact guard_writeStringLiteralAsProperty hG _
    | exact guard_writeNestedPropertyOpIfAny hG _ _ | exact guard_FTSIndexName hG _
    | exact guard_FTSPropertyIndex hG _ | exact guard_prefixOp hG _ _ _ hall
    | exact guard_postfixOp hG _ _ _ hall | exact guard_infixOp hG _ _ _ hall
    | exact guard_existsOp hG _ _ _ hall | exact guard_betweenOp hG _ _ _ hall
    | exact guard_anyEveryOp hG _ _ _ hall | exact guard_propertyOp hG _ _
    | exact guard_parameterOp hG _ _ | exact guard_variableOp hG _ _
    | assumption
    | apply guard_bind | intro _ | apply guard_ite | split | dsimp only

theorem guard_fallbackOp {P : State → Prop} {E : Error → Prop} (hG : GStable P E)
    (hpop : ∀ q, P q → P (QueryParser.popContext q).2)
    (parseNode : Value → M Unit)
    (op : String) (operands : List Value)
    (hall : ∀ x ∈ operands, Guard P E (parseNode x)) :
    Guard P E (fallbackOp parseNode op operands) := by
  unfold fallbackOp
  repeat' with_reducible first
    | exact guard_pure _ | exact guard_write hG _ | exact guard_fail hG _
    | exact guard_undefined hG | exact guard_getState | exact guard_contextBack hG
    | exact guard_propertyFromNode hG _ | exact guard_propertyFromOperands hG _
    | exact guard_writeSQLString hG _ | exact guard_pushContext hG _
    | exact guard_popContext hpop
    | exact guard_setContextBack hG _ | exact guard_insertParameter hG _
    | exact guard_insertVariable hG _ | exact guard_eraseVariable hG _
    | exact guard_writePropertyGetter hG _ _ | exact guard_writeStringLiteralAsProperty hG _
    | exact guard_writeNestedPropertyOpIfAny hG _ _ | exact guard_FTSIndexName hG _
    | exact guard_FTSPropertyIndex hG _ | exact guard_prefixOp hG _ _ _ hall
    | exact guard_postfixOp hG _ _ _ hall | exact guard_infixOp hG _ _ _ hall
    | exact guard_writeArgList hG hpop _ _ hall | exact guard_writeColumnList hG hpop _ _ hall
    | exact guard_existsOp hG _ _ _ hall | exact guard_betweenOp hG _ _ _ hall
    | exact guard_inOp hG hpop _ _ _ hall | exact guard_functionOp hG hpop _ _ _ hall
    | exact guard_anyEveryOp hG _ _ _ hall | exact guard_propertyOp hG _ _
    | exact guard_parameterOp hG _ _ | exact guard_variableOp hG _ _
    | exact guard_missingOp hG _ _ | exact guard_parseOperand hG _ _ hall _
    | assumption
    | apply guard_bind | intro _ | apply guard_ite | split | dsimp only

/-- The handlers other than `matchOp` and `selectOp` keep what compiling their operands
keeps. -/
theorem guard_callHandler {P : State → Prop} {E : Error → Prop} (hG : GStable P E)
    (hpop : ∀ q, P q → P (QueryParser.popContext q).2)
    (parseNode : Value → M Unit) (handler : Option OpHandler) (op : String) (operands : List Value)
    (hall : ∀ x ∈ operands, Guard P E (parseNode x))
    (hmatch : handler = some .matchOp → Guard P E (matchOp parseNode op operands))
    (hselect : handler = some .selectOp → Guard P E (selectOp parseNode op operands)) :
    Guard P E (callHandler parseNode handler op operands) := by
  unfold callHandler
  split
  all_goals first
    | exact hmatch rfl
    | exact hselect rfl
    | exact guard_prefixOp hG _ _ _ hall
    | exact guard_postfixOp hG _ _ _ hall
    | exact guard_infixOp hG _ _ _ hall
    | exact guard_existsOp hG _ _ _ hall
    | exact guard_betweenOp hG _ _ _ hall
    | exact guard_inOp hG hpop _ _ _ hall
    | exact guard_functionOp hG hpop _ _ _ hall
    | exact guard_anyEveryOp hG _ _ _ hall
    | exact guard_propertyOp hG _ _
    | exact guard_parameterOp hG _ _
    | exact guard_variableOp hG _ _
    | exact guard_missingOp hG _ _
    | exact guard_fallbackOp hG hpop _ _ _ hall
    | exact guard_undefined hG

theorem guard_handleOperation {P : State → Prop} {E : Error → Prop} (hG : GStable P E)
    (hpop : ∀ q, P q → P (QueryParser.popContext q).2)
    (parseNode : Value → M Unit) (opDef : OperationPtr) (op : String) (operands : List Value)
    (hall : ∀ x ∈ operands, Guard P E (parseNode x))
    (hmatch : opDef.deref.handler = some .matchOp → Guard P E (matchOp parseNode op operands))
    (hselect : opDef.deref.handler = some .selectOp →
      Guard P E (selectOp parseNode op operands)) :
    Guard P E (handleOperation parseNode opDef op operands) :=
  guard_handleOperationWith hG hpop _ _ (guard_callHandler hG hpop parseNode _ _ _ hall hmatch hselect)
/-! ### The planner covers the emitter -/

theorem gstable_planned (plan : List String) (tableName : String) :
    GStable (Planned plan tableName) NoAssertion := by
  constructor
  · intro q s h; exact h
  · intro q s h; exact h
  · intro q s h; exact h
  · intro q s h; exact h
  · intro q s h; exact h
  · intro q s h; exact h
  · intro s h; cases h
  · intro h; cases h

theorem hasSelectIn_false (l : List Value) (h : hasSelectIn l = false) :
    ∀ x ∈ l, hasSelect x = false := by
  induction l with
  | nil => intro x hx; cases hx
  | cons a l ih =>
    rw [hasSelectIn, Bool.or_eq_false_iff] at h
    intro x hx
    rcases List.mem_cons.1 hx with rfl | hx
    · exact h.1
    · exact ih h.2 x hx

theorem hasSelect_array (first : Value) (operands : List Value)
    (h : hasSelect (.array (first :: operands)) = false) :
    slice.eq (asString (some first)) (some "SELECT") = false ∧
      ∀ x ∈ operands, hasSelect x = false := by
  rw [hasSelect, Bool.or_eq_false_iff] at h
  exact ⟨h.1, hasSelectIn_false operands h.2⟩

theorem mem_matchOperandsIn (l : List Value) (x : Value) (hx : x ∈ l) (lhs : Value)
    (h : lhs ∈ matchOperands x) : lhs ∈ matchOperandsIn l := by
  induction l with
  | nil => cases hx
  | cons a l ih =>
    rw [matchOperandsIn]
    rcases List.mem_cons.1 hx with rfl | hx
    · exact List.mem_append_left _ h
    · exact List.mem_append_right _ (ih hx)

theorem covered_operands (plan : List String) (tableName : String) (first : Value)
    (operands : List Value) (h : Covered plan tableName (.array (first :: operands)))
    (hop : slice.eq (asString (some first)) (some "MATCH") = false) :
    ∀ x ∈ operands, Covered plan tableName x := by
  intro x hx lhs hlhs
  apply h lhs
  cases operands with
  | nil => cases hx
  | cons a rest =>
    rw [matchOperands, if_neg (by rw [hop]; decide)]
    exact mem_matchOperandsIn _ x hx lhs hlhs

theorem covered_match (plan : List String) (tableName : String) (first lhs : Value)
    (rest : List Value) (h : Covered plan tableName (.array (first :: lhs :: rest)))
    (hop : slice.eq (asString (some first)) (some "MATCH") = true) :
    (∀ (q : State) (name : String), q.tableName = tableName →
      (FTSIndexName lhs q).1 = .ok name → name ∈ plan) ∧
    ∀ x ∈ rest, Covered plan tableName x := by
  constructor
  · apply h lhs
    rw [matchOperands, if_pos hop]
    exact List.mem_cons_self _ _
  · intro x hx l hl
    apply h l
    rw [matchOperands, if_pos hop]
    exact List.mem_cons_of_mem _ (mem_matchOperandsIn rest x hx l hl)

theorem lookUp_match :
    ∀ nargs, nargs ≤ 9 → lookUp "MATCH" nargs kOperationList 0 false
      = if nargs = 2 then (22, true) else (33, true) := by
  decide

theorem handler_matchOp :
    ∀ k, k < 34 → (OperationPtr.kOperationList k).deref.handler = some .matchOp → k = 22 := by
  decide

theorem handler_selectOp :
    ∀ k, k < 34 → (OperationPtr.kOperationList k).deref.handler = some .selectOp → k = 31 := by
  decide

theorem handler_beyond (k : Nat) (h : 34 ≤ k) :
    (OperationPtr.kOperationList k).deref.handler = some .fallbackOp := by
  have hlen : kOperationList.length = 34 := by decide
  show (kOperationList.getD k kFallbackOperation).handler = _
  rw [List.getD_eq_default _ _ (by omega)]
  rfl

/-- The descriptor found for an operator has the handler `matchOp` only for MATCH with two
operands, and the handler `selectOp` only for SELECT. -/
theorem lookUpOperation_handler (op : String) (operands : List Value) :
    ((lookUpOperation op operands).deref.handler = some .matchOp →
      op = "MATCH" ∧ operands.length = 2) ∧
    ((lookUpOperation op operands).deref.handler = some .selectOp → op = "SELECT") := by
  obtain ⟨k, hk, hspec⟩ := lookUp_spec op (min operands.length 9) kOperationList 0 false
  have hidx : lookUpOperation op operands = .kOperationList k := by
    simp only [lookUpOperation, hk, Nat.zero_add]
  rw [hidx]
  constructor
  · intro h
    have hk34 : k < 34 := by
      by_contra hc
      rw [handler_beyond k (by omega)] at h
      cases h
    have h22 := handler_matchOp k hk34 h
    subst h22
    obtain ⟨h1, h2, h3⟩ := hspec _ (by decide : kOperationList.get? 22
      = some ⟨some "MATCH", 2, 2, 3, some .matchOp⟩) rfl
    have hop := (slice_eq_some op "MATCH").1 h1
    have h2' : (2 : Nat) ≤ min operands.length 9 := h2
    have h3' : min operands.length 9 ≤ (2 : Nat) := h3
    exact ⟨hop.symm, by omega⟩
  · intro h
    have hk34 : k < 34 := by
      by_contra hc
      rw [handler_beyond k (by omega)] at h
      cases h
    have h31 := handler_selectOp k hk34 h
    subst h31
    obtain ⟨h1, _, _⟩ := hspec _ (by decide : kOperationList.get? 31
      = some ⟨some "SELECT", 1, 1, 1, some .selectOp⟩) rfl
    exact ((slice_eq_some op "SELECT").1 h1).symm
theorem guard_bind_val {α β : Type} {P : State → Prop} {E : Error → Prop} {m : M α}
    {k : α → M β} (R : α → Prop) (hm : Guard P E m)
    (hval : ∀ q a, P q → (m q).1 = .ok a → R a)
    (hk : ∀ a, R a → Guard P E (k a)) : Guard P E (m >>= k) := by
  constructor
  · intro q e hq h
    have hb := bind_apply m k q
    have h1 := hm.error q
    have h2 := hm.keeps q
    have h3 := hval q
    cases hmq : m q with
    | mk r q1 =>
      rw [hmq] at hb h1 h2 h3
      cases r with
      | error e1 =>
        rw [hb] at h
        simp only [Except.error.injEq] at h
        subst h
        exact h1 _ hq rfl
      | ok a =>
        simp only at hb
        rw [hb] at h
        exact (hk a (h3 a hq rfl)).error q1 e (h2 a hq rfl) h
  · intro q b hq h
    have hb := bind_apply m k q
    have h2 := hm.keeps q
    have h3 := hval q
    cases hmq : m q with
    | mk r q1 =>
      rw [hmq] at hb h2 h3
      cases r with
      | error e1 =>
        rw [hb] at h
        cases h
      | ok a =>
        simp only at hb
        rw [hb] at h ⊢
        exact (hk a (h3 a hq rfl)).keeps q1 b (h2 a hq rfl) h

/-- The alias lookup of `matchOp` for a key whose name is in the plan: it returns the 1-based
index of the name and leaves the members as they are. -/
theorem FTSPropertyIndex_planned (lhs : Value) (q : State) (name : String)
    (hname : (FTSIndexName lhs q).1 = .ok name) (hmem : name ∈ q.ftsTables) :
    FTSPropertyIndex lhs false q = (.ok (findIndex1 name q.ftsTables), q) ∧
      1 ≤ findIndex1 name q.ftsTables ∧
      q.ftsTables.get? (findIndex1 name q.ftsTables - 1) = some name := by
  have hq : FTSIndexName lhs q = (.ok name, q) := Prod.ext hname (FTSIndexName_state lhs q)
  obtain ⟨h1, _, h3⟩ := findIndex1_mem name q.ftsTables hmem
  refine ⟨?_, h1, h3⟩
  simp only [FTSPropertyIndex, bind_apply, hq, getState, hmem, if_true, pure, M.pure]

/-- `matchOp` on a key whose name is in the plan does not fail its assertion. -/
theorem guard_matchOp_planned (plan : List String) (tableName : String)
    (parseNode : Value → M Unit) (op : String) (lhs rhs : Value)
    (hlhs : ∀ (q : State) (name : String), q.tableName = tableName →
      (FTSIndexName lhs q).1 = .ok name → name ∈ plan)
    (hrhs : Guard (Planned plan tableName) NoAssertion (parseNode rhs)) :
    Guard (Planned plan tableName) NoAssertion (matchOp parseNode op [lhs, rhs]) := by
  have hG := gstable_planned plan tableName
  have hall : ∀ x ∈ [lhs, rhs], x ≠ lhs → Guard (Planned plan tableName) NoAssertion
      (parseNode x) := by
    intro x hx hne
    rcases List.mem_cons.1 hx with h | h
    · exact absurd h hne
    · rw [List.mem_singleton.1 h]; exact hrhs
  have hop1 : parseOperand parseNode [lhs, rhs] 1 = parseNode rhs := rfl
  unfold matchOp
  simp only [List.get?_cons_zero, hop1]
  refine guard_bind_val (fun n => n ≠ 0) (guard_FTSPropertyIndex hG lhs) ?_ ?_
  · intro q n hq hn
    cases hk : (FTSIndexName lhs q).1 with
    | error e =>
      rw [FTSPropertyIndex_error lhs false q e hk] at hn
      cases hn
    | ok name =>
      have hmem : name ∈ q.ftsTables := by rw [hq.2]; exact hlhs q name hq.1 hk
      obtain ⟨h1, h2, _⟩ := FTSPropertyIndex_planned lhs q name hk hmem
      rw [h1] at hn
      simp only [Except.ok.injEq] at hn
      omega
  · intro n hn
    rw [if_neg hn]
    repeat' with_reducible first
      | exact guard_pure _ | exact guard_write hG _ | exact guard_getState | exact hrhs
      | apply guard_bind | intro _

theorem guard_leaf {P : State → Prop} {E : Error → Prop} (hG : GStable P E)
    (parseNode : Value → M Unit) (node : Value) (h : ∀ items, node ≠ .array items) :
    Guard P E (parseNodeWith parseNode node) := by
  unfold parseNodeWith
  cases node with
  | array items => exact absurd rfl (h items)
  | string s =>
    simp only
    repeat' with_reducible first
      | exact guard_contextBack hG | exact guard_writeStringLiteralAsProperty hG _
      | exact guard_writeSQLString hG _
      | apply guard_bind | intro _ | apply guard_ite
  | _ => first | exact guard_write hG _ | exact guard_fail hG _

/-- Compiling an expression in which no SELECT operator occurs, in a parser whose plan holds
the names of the MATCH nodes of the expression, does not fail an assertion, and leaves the
names in the plan. -/
theorem guard_parseNode_planned (plan : List String) (tableName : String) :
    ∀ (fuel : Nat) (node : Value), hasSelect node = false → Covered plan tableName node →
      Guard (Planned plan tableName) NoAssertion (parseNode fuel node) := by
  have hG := gstable_planned plan tableName
  intro fuel
  induction fuel with
  | zero =>
    intro node _ _
    exact guard_raise (fun h => by cases h)
  | succ fuel ih =>
    intro node hsel hcov
    show Guard _ _ (parseNodeWith (parseNode fuel) node)
    cases node with
    | array items =>
      show Guard _ _ (parseOpNode (parseNode fuel) items)
      unfold parseOpNode
      cases items with
      | nil => exact guard_fail hG _
      | cons first operands =>
        simp only
        cases hfirst : asString (some first) with
        | none => exact guard_fail hG _
        | some op =>
          simp only
          obtain ⟨hnosel, hopsel⟩ := hasSelect_array first operands hsel
          obtain ⟨hm, hs⟩ := lookUpOperation_handler op operands
          split
          · exact guard_fail hG _
          · rename_i hfound
            by_cases hop : op = "MATCH"
            · -- a MATCH: the handler is `matchOp`, on two operands
              subst hop
              have hmin : min operands.length 9 ≤ 9 := Nat.min_le_right _ _
              have hlook := lookUp_match (min operands.length 9) hmin
              by_cases h2 : min operands.length 9 = 2
              · rw [if_pos h2] at hlook
                have hlen : operands.length = 2 := by omega
                match operands, hlen with
                | [lhs, rhs], _ =>
                  have hmatch : slice.eq (asString (some first)) (some "MATCH") = true := by
                    rw [hfirst]; decide
                  obtain ⟨hl, hr⟩ := covered_match plan tableName first lhs [rhs] hcov hmatch
                  have hrhs := ih rhs (hopsel rhs (by simp)) (hr rhs (by simp))
                  rw [hlook]
                  show Guard _ _ (handleOperationWith
                    (matchOp (parseNode fuel) "MATCH" [lhs, rhs]) (.kOperationList 22))
                  exact guard_handleOperationWith hG (fun _ h => h) _ _
                    (guard_matchOp_planned plan tableName (parseNode fuel) "MATCH" lhs rhs hl
                      hrhs)
              · rw [if_neg h2] at hlook
                exfalso
                apply hfound
                rw [hlook]
                decide
            · have hnm : slice.eq (asString (some first)) (some "MATCH") = false := by
                rw [hfirst]
                cases hx : slice.eq (some op) (some "MATCH") with
                | false => rfl
                | true => exact absurd ((slice_eq_some op "MATCH").1 hx).symm hop
              have hcovs := covered_operands plan tableName first operands hcov hnm
              have hall : ∀ x ∈ operands, Guard (Planned plan tableName) NoAssertion
                  (parseNode fuel x) := fun x hx => ih x (hopsel x hx) (hcovs x hx)
              refine guard_handleOperation hG (fun _ h => h) _ _ _ _ hall (fun h => ?_) (fun h => ?_)
              · exact absurd (hm h).1 hop
              · have hsl := hs h
                subst hsl
                rw [hfirst] at hnosel
                exact absurd hnosel (by decide)
    | _ => exact guard_leaf hG _ _ (fun items h => by cases h)
theorem gstable_any : GStable (fun _ => True) NoAssertion :=
  ⟨fun _ _ _ => trivial, fun _ _ _ => trivial, fun _ _ _ => trivial,
    fun _ _ _ => trivial, fun _ _ _ => trivial, fun _ _ _ => trivial,
    fun _ h => (by cases h), fun h => (by cases h)⟩

theorem guard_FTSPropertyIndex_add {P : State → Prop} {E : Error → Prop} (hG : GStable P E)
    (hadd : ∀ q key, P q → P (addFTSTable key q).2) (matchLHS : Value) :
    Guard P E (FTSPropertyIndex matchLHS true) := by
  have haddG : ∀ key, Guard P E (addFTSTable key) := fun key =>
    ⟨fun _ _ _ h => (by cases h), fun q _ hq _ => hadd q key hq⟩
  unfold FTSPropertyIndex
  simp only [if_true]
  repeat' with_reducible first
    | exact guard_pure _ | exact guard_getState | exact guard_FTSIndexName hG _
    | exact haddG _
    | apply guard_bind | intro _ | apply guard_ite

theorem guard_findFTSPropertiesIn {P : State → Prop} {E : Error → Prop} (l : List Value)
    (h : ∀ v ∈ l, Guard P E (findFTSProperties v)) : Guard P E (findFTSPropertiesIn l) := by
  induction l with
  | nil => rw [findFTSPropertiesIn]; exact guard_pure _
  | cons a l ih =>
    rw [findFTSPropertiesIn]
    exact guard_bind (h a (List.mem_cons_self _ _))
      (fun _ => ih (fun v hv => h v (List.mem_cons_of_mem _ hv)))

theorem guard_findFTSProperties_depth {P : State → Prop} {E : Error → Prop}
    (hG : GStable P E) (hadd : ∀ q key, P q → P (addFTSTable key q).2) :
    ∀ (n : Nat) (v : Value), v.depth ≤ n → Guard P E (findFTSProperties v) := by
  intro n
  induction n with
  | zero =>
    intro v hv
    cases v with
    | array items => rw [Value.depth] at hv; omega
    | dict entries => simp only [findFTSProperties]; exact guard_pure _
    | _ => simp only [findFTSProperties]; exact guard_pure _
  | succ n ih =>
    intro v hv
    cases v with
    | array items =>
      rw [Value.depth] at hv
      cases items with
      | nil => simp only [findFTSProperties]; exact guard_pure _
      | cons first operands =>
        have hops : ∀ v ∈ operands, Guard P E (findFTSProperties v) := fun v hv2 =>
          ih v (le_trans (depth_le_depthItems (List.mem_cons_of_mem first hv2)) (by omega))
        cases operands with
        | nil =>
          rw [findFTSProperties]
          split
          · exact guard_pure _
          · exact guard_findFTSPropertiesIn _ hops
        | cons lhs rest =>
          rw [findFTSProperties]
          split
          · exact guard_bind (guard_FTSPropertyIndex_add hG hadd _) (fun _ =>
              guard_findFTSPropertiesIn _ (fun v hv2 => hops v (List.mem_cons_of_mem _ hv2)))
          · exact guard_findFTSPropertiesIn _ hops
    | _ => simp only [findFTSProperties]; exact guard_pure _

/-- The scan of the planner fails no assertion. -/
theorem findFTSProperties_no_assertion (v : Value) (q : State) (e : Error)
    (h : (findFTSProperties v q).1 = .error e) : NoAssertion e :=
  (guard_findFTSProperties_depth gstable_any (fun _ _ _ => trivial) v.depth v
    (le_refl _)).error q e trivial h

theorem guard_ne {α : Type} {P : State → Prop} {m : M α} (hm : Guard P NoAssertion m)
    (q : State) (hq : P q) : (m q).1 ≠ .error .assertionFailed :=
  fun h => hm.error q _ hq h rfl

theorem bind_no_assertion {α β : Type} (m : M α) (k : α → M β) (q : State)
    (hm : ∀ e, (m q).1 = .error e → NoAssertion e)
    (hk : ∀ a q1, m q = (.ok a, q1) → (k a q1).1 ≠ .error .assertionFailed) :
    ((m >>= k) q).1 ≠ .error .assertionFailed := by
  rw [bind_apply]
  cases hmq : m q with
  | mk r q1 =>
    cases r with
    | error e =>
      simp only
      intro h
      have := hm e (by rw [hmq])
      simp only [Except.error.injEq] at h
      exact this h
    | ok a => exact hk a q1 hmq

theorem named_mem (q : State) (keys : List Value) (names : List String)
    (h : Named q keys names) :
    ∀ lhs ∈ keys, ∃ name ∈ names, (FTSIndexName lhs q).1 = .ok name := by
  unfold Named at h
  induction h with
  | nil => intro lhs hl; cases hl
  | cons h1 _ ih =>
    intro lhs hl
    rcases List.mem_cons.1 hl with rfl | hl
    · exact ⟨_, List.mem_cons_self _ _, h1⟩
    · obtain ⟨name, hn, hk⟩ := ih lhs hl
      exact ⟨name, List.mem_cons_of_mem _ hn, hk⟩

/-- After the scan of an expression, the name of every MATCH node that the walk reaches is in
the plan. -/
theorem findFTSProperties_covers (expr : Value) (q q1 : State)
    (hscan : findFTSProperties expr q = (.ok (), q1)) :
    q1.tableName = q.tableName ∧
    ∀ lhs ∈ matchOperands expr, ∃ name ∈ q1.ftsTables,
      ∀ s : State, s.tableName = q.tableName → (FTSIndexName lhs s).1 = .ok name := by
  obtain ⟨names, hnamed, hq1⟩ := findFTSProperties_plan expr q q1 hscan
  refine ⟨by rw [hq1], fun lhs hl => ?_⟩
  obtain ⟨name, hn, hk⟩ := named_mem q _ _ hnamed lhs hl
  refine ⟨name, ?_, fun s hs => by rw [FTSIndexName_table lhs q s hs]; exact hk⟩
  rw [hq1]
  show name ∈ names.foldl register q.ftsTables
  rw [foldl_register]
  by_cases hin : name ∈ q.ftsTables
  · exact List.mem_append_left _ hin
  · exact List.mem_append_right _
      (((firstOccurrences_spec names q.ftsTables).2.1 name).2 ⟨hn, hin⟩)

theorem covered_of_scan (expr : Value) (q q1 : State) (plan : List String)
    (hscan : findFTSProperties expr q = (.ok (), q1)) (hplan : q1.ftsTables <+: plan) :
    Covered plan q.tableName expr := by
  intro lhs hl s name hs hname
  obtain ⟨name', hn', hk⟩ := (findFTSProperties_covers expr q q1 hscan).2 lhs hl
  have := hk s hs
  rw [hname] at this
  simp only [Except.ok.injEq] at this
  rw [this]
  exact hplan.subset hn'

theorem ftsJoinsText_append (before : List String) (name : String) (after : List String) :
    ∀ k, ftsJoinsText k (before ++ name :: after)
      = ftsJoinsText k before
        ++ (", \"" ++ name ++ "\" AS FTS" ++ ToString.toString (k + before.length + 1))
        ++ ftsJoinsText (k + before.length + 1) after := by
  induction before with
  | nil =>
    intro k
    simp only [List.nil_append, ftsJoinsText, List.length_nil, Nat.add_zero,
      String.empty_append, String.append_assoc]
  | cons b before ih =>
    intro k
    show ftsJoinsText k (b :: (before ++ name :: after)) = _
    rw [ftsJoinsText, ih (k + 1), ftsJoinsText, List.length_cons,
      show k + 1 + before.length + 1 = k + (before.length + 1) + 1 by omega]
    simp only [String.append_assoc]

theorem get?_split {α : Type} (l : List α) (i : Nat) (x : α) (h : l.get? i = some x) :
    l = l.take i ++ x :: l.drop (i + 1) ∧ (l.take i).length = i := by
  induction l generalizing i with
  | nil => simp at h
  | cons a l ih =>
    cases i with
    | zero =>
      simp only [List.get?_cons_zero, Option.some.injEq] at h
      subst h
      simp
    | succ i =>
      simp only [List.get?_cons_succ] at h
      obtain ⟨h1, h2⟩ := ih i h
      constructor
      · simp only [List.take_succ_cons, List.drop_succ_cons, List.cons_append]
        rw [← h1]
      · simp [h2]

/-- What `matchOp` does when the alias lookup returns `n`, not 0. -/
theorem matchOp_alias (parseNode : Value → M Unit) (op : String) (lhs rhs : Value) (s : State)
    (n : Nat) (hn : 1 ≤ n) (hidx : FTSPropertyIndex lhs false s = (.ok n, s)) :
    matchOp parseNode op [lhs, rhs] s
      = (do
          write ("(FTS" ++ ToString.toString n ++ ".text MATCH ")
          parseNode rhs
          let qp ← getState
          write (" AND FTS" ++ ToString.toString n ++ ".rowid = " ++ qp.tableName
            ++ ".sequence)")) s := by
  have hne : n ≠ 0 := by omega
  have hop1 : parseOperand parseNode [lhs, rhs] 1 = parseNode rhs := rfl
  unfold matchOp
  simp only [List.get?_cons_zero, hop1]
  rw [bind_apply, hidx]
  simp only [hne, if_false]
  rfl

theorem parse_implicit (expr : Value) (qp : State) (hnd : ∀ d, expr ≠ .dict d)
    (hsel : hasSelect expr = false) :
    parse expr qp = writeSelect (parseNode (expr.depth + 1)) (some expr) none
      { qp with context := [.kOuterOperation] } := by
  unfold parse
  rw [bind_apply]
  simp only [reset]
  cases expr with
  | dict d => exact absurd rfl (hnd d)
  | array items =>
    cases items with
    | nil => rfl
    | cons first rest =>
      have := (hasSelect_array first rest hsel).1
      simp only [this, Bool.false_eq_true, if_false]
  | _ => rfl

theorem guard_setFirstCustomResultCol_planned (plan : List String) (tableName : String)
    (nCol : Nat) :
    Guard (Planned plan tableName) NoAssertion (setFirstCustomResultCol nCol) :=
  ⟨fun _ _ _ h => (by cases h), fun _ _ hq _ => hq⟩

/-- A SELECT whose WHERE expression holds no SELECT operator, and that has no WHAT and no
ORDER BY, fails no assertion. -/
theorem writeSelect_no_assertion (fuel : Nat) (expr : Value)
    (operands : Option (List (String × Value))) (q : State)
    (hsel : hasSelect expr = false)
    (hwhat : (operands.bind fun d => dictGet d "WHAT") = none)
    (horder : (operands.bind fun d => dictGet d "ORDER BY") = none) :
    (writeSelect (parseNode fuel) (some expr) operands q).1 ≠ .error .assertionFailed := by
  unfold writeSelect
  refine bind_no_assertion _ _ q (fun e he => findFTSProperties_no_assertion expr q e he) ?_
  intro a q1 hscan
  have hG := gstable_planned q1.ftsTables q.tableName
  have hcov := covered_of_scan expr q q1 q1.ftsTables hscan (List.prefix_refl _)
  have hw := guard_parseNode_planned q1.ftsTables q.tableName fuel expr hsel hcov
  have hP : Planned q1.ftsTables q.tableName q1 :=
    ⟨(findFTSProperties_covers expr q q1 hscan).1, rfl⟩
  simp only [hwhat, horder]
  refine guard_ne ?_ q1 hP
  repeat' with_reducible first
    | exact guard_pure _ | exact guard_write hG _ | exact guard_fail hG _
    | exact guard_getState | exact hw
    | exact guard_setFirstCustomResultCol_planned _ _ _
    | apply guard_bind | intro _ | apply guard_ite | split | dsimp only

/-! ### The recursion allowance is enough -/

theorem gstable_fuel : GStable (fun _ => True) NoFuelError :=
  ⟨fun _ _ _ => trivial, fun _ _ _ => trivial, fun _ _ _ => trivial,
    fun _ _ _ => trivial, fun _ _ _ => trivial, fun _ _ _ => trivial,
    fun _ h => (by cases h), fun h => (by cases h)⟩

/-- A method that changes the members and cannot fail keeps the property that holds of all
members. -/
theorem guard_total {α : Type} {E : Error → Prop} (m : M α)
    (h : ∀ q e, (m q).1 ≠ .error e) : Guard (fun _ => True) E m :=
  ⟨fun q e _ he => absurd he (h q e), fun _ _ _ _ => trivial⟩

theorem guard_matchOp_of {P : State → Prop} {E : Error → Prop} (hG : GStable P E)
    (hassert : E .assertionFailed) (parseNode : Value → M Unit) (op : String)
    (operands : List Value) (hall : ∀ x ∈ operands, Guard P E (parseNode x)) :
    Guard P E (matchOp parseNode op operands) := by
  unfold matchOp
  repeat' with_reducible first
    | exact guard_pure _ | exact guard_write hG _ | exact guard_undefined hG
    | exact guard_getState | exact guard_FTSPropertyIndex hG _
    | exact guard_raise hassert
    | exact guard_parseOperand hG _ _ hall _
    | apply guard_bind | intro _ | apply guard_ite | split | dsimp only

theorem guard_writeResultColumn {P : State → Prop} {E : Error → Prop} (hG : GStable P E)
    (parseNode : Value → M Unit) (val : Value) (h : Guard P E (parseNode val)) :
    Guard P E (writeResultColumn parseNode val) := by
  unfold writeResultColumn
  repeat' with_reducible first
    | exact guard_fail hG _ | exact guard_writeStringLiteralAsProperty hG _ | exact h
    | apply guard_ite | split

theorem guard_writeWhats {P : State → Prop} {E : Error → Prop} (hG : GStable P E)
    (parseNode : Value → M Unit) :
    ∀ (whats : List Value) (nCol : Nat), (∀ x ∈ whats, Guard P E (parseNode x)) →
      Guard P E (writeWhats parseNode nCol whats) := by
  intro whats
  induction whats with
  | nil => intro nCol _; exact guard_pure _
  | cons val rest ih =>
    intro nCol hall
    have hval := guard_writeResultColumn hG parseNode val (hall val (List.mem_cons_self _ _))
    have hrest := fun m => ih m (fun x hx => hall x (List.mem_cons_of_mem _ hx))
    unfold writeWhats
    repeat' with_reducible first
      | exact guard_pure _ | exact guard_write hG _ | exact hval | exact hrest _
      | apply guard_bind | intro _ | apply guard_ite

/-- `writeSelect` in a parser of which every property of the members is kept: it ends by an
error only if the scan or the compilation of one of its parts does. -/
theorem guard_writeSelect {E : Error → Prop} (hG : GStable (fun _ => True) E)
    (parseNode : Value → M Unit) (whereNode : Option Value)
    (operands : Option (List (String × Value)))
    (hwhere : ∀ node, whereNode = some node → Guard (fun _ => True) E (parseNode node))
    (hwhat : ∀ w whats, (operands.bind fun d => dictGet d "WHAT") = some w →
      asArray (some w) = some whats → ∀ x ∈ whats, Guard (fun _ => True) E (parseNode x))
    (horder : ∀ o items, (operands.bind fun d => dictGet d "ORDER BY") = some o →
      asArray (some o) = some items → ∀ x ∈ items, Guard (fun _ => True) E (parseNode x)) :
    Guard (fun _ => True) E (writeSelect parseNode whereNode operands) := by
  have hscan : ∀ node, Guard (fun _ => True) E (findFTSProperties node) := fun node =>
    guard_findFTSProperties_depth hG (fun _ _ _ => trivial) node.depth node (le_refl _)
  have hset : ∀ n, Guard (fun _ => True) E (setFirstCustomResultCol n) := fun n =>
    guard_total _ (fun _ _ h => by cases h)
  unfold writeSelect
  refine guard_bind ?scan fun _ => guard_bind (guard_write hG _) fun _ =>
    guard_bind guard_getState fun qp => guard_bind (guard_write hG _) fun _ =>
    guard_bind (hset _) fun _ => guard_bind ?what fun nCol =>
    guard_bind (guard_ite _ (guard_fail hG _) (guard_pure _)) fun _ =>
    guard_bind (guard_write hG _) fun _ =>
    guard_bind (guard_ite _ (guard_fail hG _) (guard_pure _)) fun _ =>
    guard_bind guard_getState fun qpFrom => guard_bind (guard_write hG _) fun _ =>
    guard_bind ?wh fun _ => guard_bind ?order fun _ =>
    guard_bind (guard_ite _ (guard_write hG _) (guard_pure _)) fun _ =>
    guard_ite _ (guard_write hG _) (guard_pure _)
  case scan =>
    cases whereNode with
    | none => exact guard_pure _
    | some node => exact hscan node
  case what =>
    cases hw : (operands.bind fun d => dictGet d "WHAT") with
    | none => exact guard_pure _
    | some w =>
      dsimp only
      cases ha : asArray (some w) with
      | none => exact guard_fail hG _
      | some whats => exact guard_writeWhats hG parseNode whats _ (hwhat w whats hw ha)
  case wh =>
    cases whereNode with
    | none => exact guard_pure _
    | some node => exact guard_bind (guard_write hG _) fun _ => hwhere node rfl
  case order =>
    cases ho : (operands.bind fun d => dictGet d "ORDER BY") with
    | none => exact guard_pure _
    | some o =>
      refine guard_bind (guard_write hG _) fun _ => guard_bind (guard_pushContext hG _) fun _ =>
        guard_bind ?_ fun _ => guard_popContext (fun _ _ => trivial)
      cases ha : asArray (some o) with
      | none => exact guard_fail hG _
      | some items => exact guard_writeColumnList hG (fun _ _ => trivial) parseNode items (horder o items ho ha)

theorem depth_lt_of_mem_array {x : Value} {items : List Value} (h : x ∈ items) :
    x.depth < (Value.array items).depth := by
  rw [Value.depth]
  exact Nat.lt_succ_of_le (depth_le_depthItems h)

theorem depth_le_depthEntries {d : List (String × Value)} {key : String} {v : Value}
    (h : dictGet d key = some v) : v.depth ≤ depthEntries d := by
  induction d with
  | nil => simp [dictGet] at h
  | cons e d ih =>
    obtain ⟨k, w⟩ := e
    rw [depthEntries]
    simp only [dictGet, List.find?_cons] at h ih
    by_cases hk : (k == key) = true
    · simp only [hk, Option.map_some', Option.some.injEq] at h
      subst h
      exact le_max_left _ _
    · simp only [hk, Bool.false_eq_true] at h
      exact le_trans (ih h) (le_max_right _ _)

theorem depth_lt_of_dictGet {d : List (String × Value)} {key : String} {v : Value}
    (h : dictGet d key = some v) : v.depth < (Value.dict d).depth := by
  rw [Value.depth]
  exact Nat.lt_succ_of_le (depth_le_depthEntries h)

theorem asArray_eq {v : Value} {items : List Value} (h : asArray (some v) = some items) :
    v = .array items := by
  cases v <;> simp [asArray] at h
  rw [h]

theorem asDict_eq {v : Value} {d : List (String × Value)} (h : asDict (some v) = some d) :
    v = .dict d := by
  cases v <;> simp [asDict] at h
  rw [h]

/-- `writeSelect` on the operands `d`, with a method that compiles every node below `d`. -/
theorem guard_writeSelectOperands {E : Error → Prop} (hG : GStable (fun _ => True) E)
    (parseNode : Value → M Unit) (d : List (String × Value))
    (hpn : ∀ x : Value, x.depth < (Value.dict d).depth → Guard (fun _ => True) E (parseNode x)) :
    Guard (fun _ => True) E (writeSelectOperands parseNode d) := by
  unfold writeSelectOperands
  refine guard_writeSelect hG parseNode _ _ ?_ ?_ ?_
  · intro node hnode
    exact hpn node (depth_lt_of_dictGet hnode)
  · intro w whats hw ha x hx
    have h1 := depth_lt_of_dictGet (show dictGet d "WHAT" = some w from hw)
    rw [asArray_eq ha] at h1
    exact hpn x (lt_trans (depth_lt_of_mem_array hx) h1)
  · intro o items ho ha x hx
    have h1 := depth_lt_of_dictGet (show dictGet d "ORDER BY" = some o from ho)
    rw [asArray_eq ha] at h1
    exact hpn x (lt_trans (depth_lt_of_mem_array hx) h1)

theorem guard_selectOp {E : Error → Prop} (hG : GStable (fun _ => True) E)
    (parseNode : Value → M Unit) (op : String) (operands : List Value)
    (hpn : ∀ x : Value, x.depth < depthItems operands → Guard (fun _ => True) E (parseNode x)) :
    Guard (fun _ => True) E (selectOp parseNode op operands) := by
  unfold selectOp
  cases hfirst : operands.get? 0 with
  | none => exact guard_undefined hG
  | some first =>
    simp only
    cases hd : asDict (some first) with
    | none => exact guard_fail hG _
    | some d =>
      simp only
      have hmem : first ∈ operands := List.get?_mem hfirst
      have hdepth : (Value.dict d).depth ≤ depthItems operands := by
        rw [← asDict_eq hd]
        exact depth_le_depthItems hmem
      have hsel := guard_writeSelectOperands hG parseNode d
        (fun x hx => hpn x (lt_of_lt_of_le hx hdepth))
      refine guard_bind guard_getState fun qp => guard_ite _ hsel ?_
      have hnested : Guard (fun _ => True) E (parseOperands parseNode d) := by
        unfold parseOperands
        exact guard_bind (guard_total reset (fun _ _ h => by cases h)) (fun _ => hsel)
      constructor
      · intro q e _ h
        have herr := fun s => hnested.error s
        cases hn : parseOperands parseNode d
            ({ tableName := qp.tableName, bodyColumnName := qp.bodyColumnName } : State) with
        | mk r qn =>
          rw [hn] at h
          cases r with
          | ok u =>
            simp only [write] at h
            cases h
          | error e1 =>
            simp only [raise, Except.error.injEq] at h
            rw [← h]
            exact herr _ e1 trivial (by rw [hn])
      · intro _ _ _ _
        trivial

/-- Compiling a node with an allowance above its depth does not use the allowance up. -/
theorem guard_parseNode_fuel :
    ∀ (fuel : Nat) (node : Value), node.depth < fuel →
      Guard (fun _ => True) NoFuelError (parseNode fuel node) := by
  have hG := gstable_fuel
  intro fuel
  induction fuel with
  | zero => intro node h; omega
  | succ fuel ih =>
    intro node hdepth
    show Guard _ _ (parseNodeWith (parseNode fuel) node)
    cases node with
    | array items =>
      show Guard _ _ (parseOpNode (parseNode fuel) items)
      unfold parseOpNode
      cases items with
      | nil => exact guard_fail hG _
      | cons first operands =>
        simp only
        cases hfirst : asString (some first) with
        | none => exact guard_fail hG _
        | some op =>
          simp only
          have hops : depthItems operands < fuel := by
            rw [Value.depth, depthItems] at hdepth
            have := le_max_right first.depth (depthItems operands)
            omega
          have hall : ∀ x ∈ operands, Guard (fun _ => True) NoFuelError (parseNode fuel x) :=
            fun x hx => ih x (lt_of_le_of_lt (depth_le_depthItems hx) hops)
          split
          · exact guard_fail hG _
          · exact guard_handleOperation hG (fun _ _ => trivial) _ _ _ _ hall
              (fun _ => guard_matchOp_of hG (fun h => by cases h) _ _ _ hall)
              (fun _ => guard_selectOp hG _ _ _ (fun x hx => ih x (lt_trans hx hops)))
    | _ => exact guard_leaf hG _ _ (fun items h => by cases h)

/-- The recursion allowance that `parse`, `parseJustExpression` and `writeCreateIndex` give to
`parseNode` is enough: none of them ends because the allowance is used up. -/
theorem parse_fuel (expression : Value) (expressions : List Value) (q : State) :
    (parse expression q).1 ≠ .error .outOfFuel ∧
    (parseJustExpression expression q).1 ≠ .error .outOfFuel ∧
    (writeCreateIndex expressions q).1 ≠ .error .outOfFuel := by
  have hG := gstable_fuel
  have hreset : Guard (fun _ => True) NoFuelError reset :=
    guard_total reset (fun _ _ h => by cases h)
  have hne : ∀ {α : Type} (m : M α), Guard (fun _ => True) NoFuelError m →
      (m q).1 ≠ .error .outOfFuel := fun m hm h => hm.error q _ trivial h rfl
  refine ⟨hne _ ?_, hne _ ?_, hne _ ?_⟩
  · unfold parse
    refine guard_bind hreset fun _ => ?_
    have hself := guard_parseNode_fuel (expression.depth + 1) expression (Nat.lt_succ_self _)
    have himplicit : Guard (fun _ => True) NoFuelError
        (writeSelect (parseNode (expression.depth + 1)) (some expression) none) :=
      guard_writeSelect hG _ _ _ (fun node hn => by rw [← Option.some.inj hn]; exact hself)
        (fun w whats hw => by cases hw) (fun o items ho => by cases ho)
    cases expression with
    | dict d =>
      exact guard_writeSelectOperands hG _ d
        (fun x hx => guard_parseNode_fuel _ x (Nat.lt_succ_of_lt hx))
    | array items =>
      cases items with
      | nil => exact himplicit
      | cons first rest =>
        simp only
        exact guard_ite _ hself himplicit
    | _ => exact himplicit
  · unfold parseJustExpression
    exact guard_bind hreset fun _ =>
      guard_parseNode_fuel (expression.depth + 1) expression (Nat.lt_succ_self _)
  · unfold writeCreateIndex
    exact guard_bind hreset fun _ => guard_bind guard_getState fun _ =>
      guard_bind (guard_write hG _) fun _ =>
        guard_writeColumnList hG (fun _ _ => trivial) _ expressions (fun x hx =>
          guard_parseNode_fuel _ x (Nat.lt_succ_of_le (depth_le_depthItems hx)))

/-! ### The recorded index of the first custom column -/

theorem gstable_deep (n k : Nat) : GStable (Deep n k) (fun _ => True) := by
  refine ⟨fun q s h => h, fun q op h => ⟨h.1, ?_⟩, fun q op h => ⟨h.1, ?_⟩, fun q p h => h,
    fun q v h => h, fun q v h => h, fun _ => trivial, trivial⟩
  · show k ≤ (q.context ++ [op]).length
    have := h.2
    simp only [List.length_append, List.length_singleton]
    omega
  · show k ≤ (q.context.dropLast ++ [op]).length
    simp only [List.length_append, List.length_singleton, List.length_dropLast]
    have := h.2
    omega

/-- The frame of `handleOperation` around a handler that runs one level deeper. -/
theorem deep_handleOperationWith (n k : Nat) (hk : 1 ≤ k) (handler : M Unit) (op : OperationPtr)
    (h : Guard (Deep n (k + 1)) (fun _ => True) handler) :
    Guard (Deep n k) (fun _ => True) (handleOperationWith handler op) := by
  constructor
  · intro _ _ _ _
    trivial
  · intro q a hq hrun
    have hlen := hq.2
    obtain ⟨enclosing, htop⟩ : ∃ e, q.context.getLast? = some e := by
      cases hc : q.context.getLast? with
      | none =>
        rw [List.getLast?_eq_none_iff] at hc
        rw [hc] at hlen
        simp only [List.length_nil] at hlen
        omega
      | some e => exact ⟨e, rfl⟩
    rw [handleOperationWith_eq handler op enclosing q htop] at hrun ⊢
    have hin : Deep n (k + 1) (entered op (parenthesize op enclosing) q) := by
      refine ⟨hq.1, ?_⟩
      show k + 1 ≤ (q.context ++ [op]).length
      simp only [List.length_append, List.length_singleton]
      omega
    cases hh : handler (entered op (parenthesize op enclosing) q) with
    | mk r q2 =>
      rw [hh] at hrun
      cases r with
      | error e => cases hrun
      | ok u =>
        have h2 := h.keeps _ u hin (by rw [hh])
        rw [hh] at h2
        refine ⟨h2.1, ?_⟩
        show k ≤ q2.context.dropLast.length
        have h3 : k + 1 ≤ q2.context.length := h2.2
        simp only [List.length_dropLast]
        omega

theorem deep_writeArgList (n k : Nat) (hk : 1 ≤ k) (parseNode : Value → M Unit)
    (operands : List Value)
    (hall : ∀ x ∈ operands, Guard (Deep n (k + 1)) (fun _ => True) (parseNode x)) :
    Guard (Deep n k) (fun _ => True) (writeArgList parseNode operands) :=
  deep_handleOperationWith n k hk _ _
    (guard_infixOp (gstable_deep n (k + 1)) parseNode _ _ hall)

theorem deep_writeColumnList (n k : Nat) (hk : 1 ≤ k) (parseNode : Value → M Unit)
    (operands : List Value)
    (hall : ∀ x ∈ operands, Guard (Deep n (k + 1)) (fun _ => True) (parseNode x)) :
    Guard (Deep n k) (fun _ => True) (writeColumnList parseNode operands) :=
  deep_handleOperationWith n k hk _ _
    (guard_infixOp (gstable_deep n (k + 1)) parseNode _ _ hall)

theorem deep_inOp (n k : Nat) (hk : 1 ≤ k) (parseNode : Value → M Unit) (op : String)
    (operands : List Value)
    (hall : ∀ j, k ≤ j → ∀ x ∈ operands, Guard (Deep n j) (fun _ => True) (parseNode x)) :
    Guard (Deep n k) (fun _ => True) (inOp parseNode op operands) := by
  have hG := gstable_deep n k
  unfold inOp
  exact guard_bind (guard_parseOperand hG _ _ (hall k (le_refl _)) _) fun _ =>
    guard_bind (guard_write hG _) fun _ =>
    deep_writeArgList n k hk parseNode _
      (fun x hx => hall (k + 1) (by omega) x (List.mem_of_mem_drop hx))

theorem deep_functionOp (n k : Nat) (hk : 1 ≤ k) (parseNode : Value → M Unit) (op : String)
    (operands : List Value)
    (hall : ∀ j, k ≤ j → ∀ x ∈ operands, Guard (Deep n j) (fun _ => True) (parseNode x)) :
    Guard (Deep n k) (fun _ => True) (functionOp parseNode op operands) := by
  have hG := gstable_deep n k
  unfold functionOp
  repeat' with_reducible first
    | exact guard_pure _ | exact guard_write hG _ | exact guard_fail hG _
    | exact guard_writeNestedPropertyOpIfAny hG _ _
    | exact deep_writeArgList n k hk parseNode _ (hall (k + 1) (by omega))
    | apply guard_bind | intro _ | apply guard_ite | split | dsimp only

theorem deep_fallbackOp (n k : Nat) (hk : 1 ≤ k) (parseNode : Value → M Unit) (op : String)
    (operands : List Value)
    (hall : ∀ j, k ≤ j → ∀ x ∈ operands, Guard (Deep n j) (fun _ => True) (parseNode x)) :
    Guard (Deep n k) (fun _ => True) (fallbackOp parseNode op operands) := by
  have hG := gstable_deep n k
  unfold fallbackOp
  repeat' with_reducible first
    | exact guard_pure _ | exact guard_write hG _ | exact guard_fail hG _
    | exact guard_contextBack hG | exact guard_setContextBack hG _
    | exact guard_writePropertyGetter hG _ _ | exact guard_parameterOp hG _ _
    | exact guard_variableOp hG _ _ | exact deep_functionOp n k hk parseNode _ _ hall
    | apply guard_bind | intro _ | apply guard_ite | split | dsimp only

/-- A SELECT handled while the context stack holds more than two operations is compiled by a
parser of its own: only its text reaches the members. -/
theorem deep_selectOp (n k : Nat) (hk : 3 ≤ k) (parseNode : Value → M Unit) (op : String)
    (operands : List Value) :
    Guard (Deep n k) (fun _ => True) (selectOp parseNode op operands) := by
  constructor
  · intro _ _ _ _
    trivial
  · intro q a hq hrun
    have hle : ¬ q.context.length ≤ 2 := by
      have := hq.2
      omega
    unfold selectOp at hrun ⊢
    cases hfirst : operands.get? 0 with
    | none =>
      rw [hfirst] at hrun
      cases hrun
    | some first =>
      rw [hfirst] at hrun
      dsimp only at hrun ⊢
      cases hd : asDict (some first) with
      | none =>
        rw [hd] at hrun
        cases hrun
      | some d =>
        rw [hd] at hrun
        dsimp only at hrun ⊢
        simp only [bind_apply, getState, hle, if_false] at hrun ⊢
        cases hn : parseOperands parseNode d
            ({ tableName := q.tableName, bodyColumnName := q.bodyColumnName } : State) with
        | mk r qn =>
          rw [hn] at hrun
          cases r with
          | error e => cases hrun
          | ok u => exact hq

/-- The handlers keep the recorded index while the context stack is deep enough for every
SELECT to be compiled by a parser of its own. -/
theorem deep_callHandler (n k : Nat) (hk : 1 ≤ k) (parseNode : Value → M Unit)
    (handler : Option OpHandler) (op : String) (operands : List Value)
    (hall : ∀ j, k ≤ j → ∀ x ∈ operands, Guard (Deep n j) (fun _ => True) (parseNode x))
    (hsel : handler = some .selectOp → 3 ≤ k) :
    Guard (Deep n k) (fun _ => True) (callHandler parseNode handler op operands) := by
  have hG := gstable_deep n k
  have hk0 := hall k (le_refl _)
  unfold callHandler
  split
  all_goals first
    | exact deep_selectOp n k (hsel rfl) _ _ _
    | exact guard_matchOp_of hG trivial _ _ _ hk0
    | exact guard_prefixOp hG _ _ _ hk0
    | exact guard_postfixOp hG _ _ _ hk0
    | exact guard_infixOp hG _ _ _ hk0
    | exact guard_existsOp hG _ _ _ hk0
    | exact guard_betweenOp hG _ _ _ hk0
    | exact deep_inOp n k hk _ _ _ hall
    | exact deep_functionOp n k hk _ _ _ hall
    | exact guard_anyEveryOp hG _ _ _ hk0
    | exact guard_propertyOp hG _ _
    | exact guard_parameterOp hG _ _
    | exact guard_variableOp hG _ _
    | exact guard_missingOp hG _ _
    | exact deep_fallbackOp n k hk _ _ _ hall
    | exact guard_undefined hG

theorem deep_handleOperation (n k : Nat) (hk : 1 ≤ k) (parseNode : Value → M Unit)
    (opDef : OperationPtr) (op : String) (operands : List Value)
    (hall : ∀ j, k + 1 ≤ j → ∀ x ∈ operands, Guard (Deep n j) (fun _ => True) (parseNode x))
    (hsel : opDef.deref.handler = some .selectOp → 2 ≤ k) :
    Guard (Deep n k) (fun _ => True) (handleOperation parseNode opDef op operands) :=
  deep_handleOperationWith n k hk _ _
    (deep_callHandler n (k + 1) (by omega) parseNode _ _ _ hall
      (fun h => by have := hsel h; omega))

/-- Compiling a node while the context stack holds at least two operations keeps the recorded
index: every SELECT in it is compiled by a parser of its own. -/
theorem deep_parseNode (n : Nat) :
    ∀ (fuel : Nat) (node : Value) (k : Nat), 2 ≤ k →
      Guard (Deep n k) (fun _ => True) (parseNode fuel node) := by
  intro fuel
  induction fuel with
  | zero =>
    intro node k _
    exact guard_raise trivial
  | succ fuel ih =>
    intro node k hk
    have hG := gstable_deep n k
    show Guard _ _ (parseNodeWith (parseNode fuel) node)
    cases node with
    | array items =>
      show Guard _ _ (parseOpNode (parseNode fuel) items)
      unfold parseOpNode
      cases items with
      | nil => exact guard_fail hG _
      | cons first operands =>
        simp only
        cases hfirst : asString (some first) with
        | none => exact guard_fail hG _
        | some op =>
          simp only
          split
          · exact guard_fail hG _
          · exact deep_handleOperation n k (by omega) _ _ _ _
              (fun j hj x _ => ih x j (by omega)) (fun _ => hk)
    | _ => exact guard_leaf hG _ _ (fun items h => by cases h)

/-- Compiling a node that is not a SELECT operation while the context stack holds one
operation keeps the recorded index. -/
theorem deep_parseNode_top (n : Nat) (fuel : Nat) (node : Value) (hsel : isSelect node = false) :
    Guard (Deep n 1) (fun _ => True) (parseNode fuel node) := by
  have hG := gstable_deep n 1
  cases fuel with
  | zero => exact guard_raise trivial
  | succ fuel =>
    show Guard _ _ (parseNodeWith (parseNode fuel) node)
    cases node with
    | array items =>
      show Guard _ _ (parseOpNode (parseNode fuel) items)
      unfold parseOpNode
      cases items with
      | nil => exact guard_fail hG _
      | cons first operands =>
        simp only
        cases hfirst : asString (some first) with
        | none => exact guard_fail hG _
        | some op =>
          simp only
          split
          · exact guard_fail hG _
          · refine deep_handleOperation n 1 (le_refl _) _ _ _ _
              (fun j hj x _ => deep_parseNode n fuel x j hj) (fun h => ?_)
            have hop := (lookUpOperation_handler op operands).2 h
            subst hop
            simp only [isSelect, hfirst] at hsel
            exact absurd hsel (by decide)
    | _ => exact guard_leaf hG _ _ (fun items h => by cases h)

/-- A push and a pop of the context stack around a method that runs one level deeper. -/
theorem deep_bracket (n k : Nat) (op : OperationPtr) (m : M Unit)
    (h : Guard (Deep n (k + 1)) (fun _ => True) m) :
    Guard (Deep n k) (fun _ => True) (pushContext op >>= fun _ => m >>= fun _ => popContext) := by
  constructor
  · intro _ _ _ _
    trivial
  · intro q a hq hrun
    have hin : Deep n (k + 1) ({ q with context := q.context ++ [op] } : State) := by
      refine ⟨hq.1, ?_⟩
      show k + 1 ≤ (q.context ++ [op]).length
      have := hq.2
      simp only [List.length_append, List.length_singleton]
      omega
    simp only [bind_apply, pushContext] at hrun ⊢
    cases hm : m ({ q with context := q.context ++ [op] } : State) with
    | mk r q2 =>
      rw [hm] at hrun
      cases r with
      | error e => cases hrun
      | ok u =>
        have h2 := h.keeps _ u hin (by rw [hm])
        rw [hm] at h2
        refine ⟨h2.1, ?_⟩
        show k ≤ q2.context.dropLast.length
        have h3 : k + 1 ≤ q2.context.length := h2.2
        simp only [List.length_dropLast]
        omega

/-- The index that `writeSelect` records is the number of the base columns and of the FTS
tables of the plan after the scan, and it is the value of the member when `writeSelect`
returns, if neither the WHERE expression nor a WHAT item is a SELECT operation. -/
theorem writeSelect_records (fuel : Nat) (whereNode : Option Value)
    (operands : Option (List (String × Value))) (q q' : State)
    (hctx : 1 ≤ q.context.length)
    (hwhere : ∀ node, whereNode = some node → isSelect node = false)
    (hwhat : ∀ w whats, (operands.bind fun d => dictGet d "WHAT") = some w →
      asArray (some w) = some whats → ∀ x ∈ whats, isSelect x = false)
    (h : writeSelect (parseNode fuel) whereNode operands q = (.ok (), q')) :
    ∃ q1, (∀ node, whereNode = some node → findFTSProperties node q = (.ok (), q1)) ∧
      (whereNode = none → q1 = q) ∧
      q'.firstCustomResultCol = q.baseResultColumns.length + q1.ftsTables.length := by
  unfold writeSelect at h
  have hb := bind_ok _ _ _ _ _ h
  clear h
  obtain ⟨_, q1, h1, h⟩ := hb
  have hb := bind_ok _ _ _ _ _ h
  clear h
  obtain ⟨_, q2, h2, h⟩ := hb
  have hb := bind_ok _ _ _ _ _ h
  clear h
  obtain ⟨qa, q3, h3, h⟩ := hb
  have hb := bind_ok _ _ _ _ _ h
  clear h
  obtain ⟨_, q4, h4, h⟩ := hb
  have hb := bind_ok _ _ _ _ _ h
  clear h
  obtain ⟨_, q5, h5, h⟩ := hb
  have hscan : q1.context = q.context ∧ q1.baseResultColumns = q.baseResultColumns ∧
      (∀ node, whereNode = some node → findFTSProperties node q = (.ok (), q1)) ∧
      (whereNode = none → q1 = q) := by
    cases whereNode with
    | none =>
      obtain ⟨_, hq⟩ := ok_pair_eq h1
      subst hq
      exact ⟨rfl, rfl, fun _ hn => Option.noConfusion hn, fun _ => rfl⟩
    | some node =>
      simp only at h1
      obtain ⟨names, _, hq⟩ := findFTSProperties_plan node q q1 h1
      refine ⟨?_, ?_, fun n hn => by rw [← Option.some.inj hn]; exact h1,
        fun hn => Option.noConfusion hn⟩ <;> rw [hq]
  obtain ⟨hc1, hbase, hsome, hnone⟩ := hscan
  obtain ⟨_, hq2⟩ := ok_pair_eq h2
  obtain ⟨hqa, hq3⟩ := ok_pair_eq h3
  obtain ⟨_, hq4⟩ := ok_pair_eq h4
  obtain ⟨_, hq5⟩ := ok_pair_eq h5
  subst hq2 hq3 hqa
  simp only [write] at hq4
  subst hq4
  simp only [setFirstCustomResultCol] at hq5
  subst hq5
  refine ⟨q1, hsome, hnone, ?_⟩
  rw [← hbase]
  have hG := gstable_deep (q1.baseResultColumns.length + q1.ftsTables.length) 1
  have hG2 := gstable_deep (q1.baseResultColumns.length + q1.ftsTables.length) 2
  have key : ∀ {m : M Unit} {s : State},
      Guard (Deep (q1.baseResultColumns.length + q1.ftsTables.length) 1) (fun _ => True) m →
      Deep (q1.baseResultColumns.length + q1.ftsTables.length) 1 s →
      m s = (.ok (), q') →
      q'.firstCustomResultCol = q1.baseResultColumns.length + q1.ftsTables.length := by
    intro m s hg hs hm
    have h6 := hg.keeps s () hs (by rw [hm])
    rw [hm] at h6
    exact h6.1
  refine key ?_ ⟨rfl, by show 1 ≤ q1.context.length; rw [hc1]; exact hctx⟩ h
  refine guard_bind ?what fun nCol =>
    guard_bind (guard_ite _ (guard_fail hG _) (guard_pure _)) fun _ =>
    guard_bind (guard_write hG _) fun _ =>
    guard_bind (guard_ite _ (guard_fail hG _) (guard_pure _)) fun _ =>
    guard_bind guard_getState fun qpFrom => guard_bind (guard_write hG _) fun _ =>
    guard_bind ?wh fun _ => guard_bind ?order fun _ =>
    guard_bind (guard_ite _ (guard_write hG _) (guard_pure _)) fun _ =>
    guard_ite _ (guard_write hG _) (guard_pure _)
  case what =>
    cases hw : (operands.bind fun d => dictGet d "WHAT") with
    | none => exact guard_pure _
    | some w =>
      dsimp only
      cases ha : asArray (some w) with
      | none => exact guard_fail hG _
      | some whats =>
        exact guard_writeWhats hG (parseNode fuel) whats _
          (fun x hx => deep_parseNode_top _ fuel x (hwhat w whats hw ha x hx))
  case wh =>
    cases whereNode with
    | none => exact guard_pure _
    | some node =>
      exact guard_bind (guard_write hG _) fun _ => deep_parseNode_top _ fuel node (hwhere node rfl)
  case order =>
    cases ho : (operands.bind fun d => dictGet d "ORDER BY") with
    | none => exact guard_pure _
    | some o =>
      refine guard_bind (guard_write hG _) fun _ => deep_bracket _ 1 _ _ ?_
      cases ha : asArray (some o) with
      | none => exact guard_fail hG2 _
      | some items =>
        exact deep_writeColumnList _ 2 (by omega) (parseNode fuel) items
          (fun x _ => deep_parseNode _ fuel x 3 (by omega))

/-! ### The statements compiled by `parse` and `writeCreateIndex` -/

/-- C25: for a mapping of SELECT operands, `parse` does not end because the recursion
allowance of the model is used up, and when it returns, it has found no ` FROM` key and has
written `SELECT `, the columns separated by `, ` (there is at least one), ` FROM `,
the table name and the FTS joins; then ` WHERE ` and the text of the WHERE expression if and
only if WHERE is present; then ` ORDER BY ` and its list if and only if ORDER BY is present,
the items separated by `, ` without parentheses, each compiled with the column-list
operation on top of the context stack, where a string item is read as a property; then
` LIMIT ` and ` OFFSET ` with the defaults if and only if the respective default is not empty.
It fails with the error `No result columns` when there is no base column, the plan is empty
after the scan of the WHERE expression, and WHAT is absent or empty. -/
theorem parse_select_layout (d : List (String × Value)) (qp : State) :
    (parse (.dict d) qp).1 ≠ .error .outOfFuel ∧
    (∀ qp', parse (.dict d) qp = (.ok (), qp') →
      ∃ (columns joined : List String) (whereText orderText : String),
      qp'.sql = qp.sql ++ "SELECT " ++ String.intercalate ", " columns
        ++ " FROM " ++ qp.tableName ++ ftsJoinsText 0 joined
        ++ (if (dictGet d "WHERE").isSome then " WHERE " ++ whereText else "")
        ++ (if (dictGet d "ORDER BY").isSome then " ORDER BY " ++ orderText else "")
        ++ (if !qp.defaultLimit.isEmpty then " LIMIT " ++ qp.defaultLimit else "")
        ++ (if !qp.defaultOffset.isEmpty then " OFFSET " ++ qp.defaultOffset else "") ∧
      columns ≠ [] ∧ dictGet d " FROM" = none ∧
      (∀ node, dictGet d "WHERE" = some node →
        ∃ qw qw', qw.context = [.kOuterOperation] ∧ SameScope qp qw ∧ qw.ftsTables = joined ∧
          parseNode ((Value.dict d).depth + 1) node qw = (.ok (), qw') ∧
          qw'.sql = qw.sql ++ whereText) ∧
      (∀ o, dictGet d "ORDER BY" = some o →
        ∃ items texts, asArray (some o) = some items ∧ texts.length = items.length ∧
          orderText = String.intercalate ", " texts ∧
          ∀ j x, items.get? j = some x →
            ∃ t qj qj', texts.get? j = some t ∧
              qj.context
                = [.kOuterOperation, .kOrderByOperation, .kColumnListOperation] ∧
              SameScope qp qj ∧
              parseNode ((Value.dict d).depth + 1) x qj = (.ok (), qj') ∧
              qj'.sql = qj.sql ++ t)) ∧
    (∀ (fuel : Nat) (s : String) (q : State),
      q.context.getLast? = some .kColumnListOperation →
      parseNode (fuel + 1) (.string s) q = writeStringLiteralAsProperty s q) ∧
    (∀ (e : List (String × Value)) (q q1 : State),
      (∀ node, dictGet e "WHERE" = some node →
        findFTSProperties node { q with context := [.kOuterOperation] } = (.ok (), q1)) →
      (dictGet e "WHERE" = none → q1 = { q with context := [.kOuterOperation] }) →
      q.baseResultColumns = [] → q1.ftsTables = [] →
      (dictGet e "WHAT" = none ∨ dictGet e "WHAT" = some (.array [])) →
      (parse (.dict e) q).1 = .error (.invalidQuery "No result columns")) := by
  refine ⟨(parse_fuel (.dict d) [] qp).1, ?_, parseNode_column_string, ?_⟩
  · intro qp' h
    rw [parse_dict_eq] at h
    obtain ⟨q1, whatTexts, joined, whereText, orderText, _, _, hsql, hcols, hfrom, _, _, _, _,
      hwhere, horder, _, _, _⟩ := writeSelect_spec _ _ _ _ _ h
    refine ⟨qp.baseResultColumns ++ q1.ftsTables.map offsetsColumn ++ whatTexts, joined,
      whereText, orderText, ?_, ?_, hfrom, ?_, ?_⟩
    · rw [hsql, resultColumnsText_zero]
      rfl
    · intro hnil
      apply hcols
      have := congrArg List.length hnil
      simp only [List.length_append, List.length_map, List.length_nil] at this
      exact this
    · intro node hnode
      obtain ⟨qw, qw', h1, h2, h3, h4, h5⟩ := hwhere node hnode
      exact ⟨qw, qw', h1, sameScope_trans _ _ _ (sameScope_symm _ _ (sameScope_reset qp)) h2,
        h3, h4, h5⟩
    · intro o ho
      obtain ⟨items, texts, h1, h2, h3, h4⟩ := horder o ho
      refine ⟨items, texts, h1, h2, h3, fun j x hx => ?_⟩
      obtain ⟨t, qj, qj', g1, g2, g3, g4, g5⟩ := h4 j x hx
      exact ⟨t, qj, qj', g1, g2,
        sameScope_trans _ _ _ (sameScope_symm _ _ (sameScope_reset qp)) g3, g4, g5⟩
  · intro e q q1 hscan hnone hbase hfts hwhat
    rw [parse_dict_eq]
    have hb1 : q1.baseResultColumns = [] := by
      cases hw : dictGet e "WHERE" with
      | none => rw [hnone hw]; exact hbase
      | some node =>
        have := keeps_run (keeps_findFTSProperties stable_sameScope node) _ _ _ (hscan node hw)
        rw [this.2.2.2.2.1]
        exact hbase
    unfold writeSelect
    rw [bind_apply]
    cases hw : dictGet e "WHERE" with
    | none =>
      have hq1 := hnone hw
      subst hq1
      have hstep : (pure () : M Unit) { q with context := [.kOuterOperation] }
          = (.ok (), { q with context := [.kOuterOperation] }) := rfl
      have hf : q.ftsTables = [] := hfts
      simp only [hstep]
      rcases hwhat with hwt | hwt <;>
        simp [bind_apply, write, getState, setFirstCustomResultCol, hbase, hf, hwt, pure,
          M.pure, fail, raise, asArray, writeWhats, resultColumnsText]
    | some node =>
      simp only [hscan node hw]
      rcases hwhat with hwt | hwt <;>
        simp [bind_apply, write, getState, setFirstCustomResultCol, hb1, hfts, hwt, pure,
          M.pure, fail, raise, asArray, writeWhats, resultColumnsText]

/-- Witness of C25: the example `\x7b"WHAT": [[".", "name"]], "WHERE": ["=", [".", "id"], 7]\x7d`
with no base columns and no defaults, and an example with an ORDER BY and both defaults. -/
theorem parse_select_layout_witness :
    SQL (parse (.dict exampleWhatWhere) exampleTableParser)
      = .ok "SELECT fl_value(body, 'name') FROM kv_default WHERE fl_value(body, 'id') = 7" ∧
    SQL (parse (.dict exampleOrderBy) exampleLimitParser)
      = .ok ("SELECT key, fl_value(body, 'a') FROM kv_default "
        ++ "ORDER BY fl_value(body, 'b'), fl_value(body, 'c') DESC LIMIT 10 OFFSET 5") ∧
    (parse (.dict []) exampleTableParser).1 = .error (.invalidQuery "No result columns") ∧
    dictGet exampleWhatWhere " FROM" = none := by
  have hok : (parse (.dict exampleWhatWhere) exampleTableParser).1 = .ok () := by decide!
  obtain ⟨_, hlayout, _, hfail⟩ := parse_select_layout exampleWhatWhere exampleTableParser
  obtain ⟨_, _, _, _, _, _, hfrom, _⟩ := hlayout _ (run_eta _ hok)
  refine ⟨by decide!, by decide!, ?_, hfrom⟩
  exact hfail [] exampleTableParser { exampleTableParser with context := [.kOuterOperation] }
    (fun _ hn => Option.noConfusion hn) (fun _ => rfl) rfl rfl (Or.inl rfl)

/-- C26, as stated, fails: the value recorded as the first-custom-column index is the number of
columns before the first WHAT column, not that number plus one: with the one base column
`key`, the WHAT column is the second column and the value recorded is 1. -/
theorem firstCustomResultCol_counts_prefix :
    SQL (parse (.dict exampleWhat) exampleKeyParser)
      = .ok "SELECT key, fl_value(body, 'name') FROM kv_default" ∧
    exampleKeyParser.baseResultColumns.length = 1 ∧
    (parse (.dict exampleWhat) exampleKeyParser).2.firstCustomResultCol = 1 := by
  refine ⟨by decide!, rfl, by decide!⟩

/-- C26, amended: in a compiled SELECT the result columns are, in order, the base columns,
then one call `offsets("<table>")` per entry of the FTS plan as the scan of the WHERE
expression left it, in plan order, then the WHAT columns in input order; and the value
recorded as the first-custom-column index is the number of the columns before the first WHAT
column, that is the 0-based index of the first WHAT column.  It is recorded in the members
in which the first WHAT column is compiled, and it is the value of the member when `parse`
returns, where neither the WHERE expression nor a WHAT item is itself a SELECT operation
(such a SELECT is compiled in place and records an index of its own).  And `parse` does not
end because the recursion allowance of the model is used up. -/
theorem parse_select_columns (d : List (String × Value)) (qp : State) :
    (parse (.dict d) qp).1 ≠ .error .outOfFuel ∧
    ∀ qp', parse (.dict d) qp = (.ok (), qp') →
    ∃ (q1 : State) (whatTexts : List String) (rest : String),
      (∀ node, dictGet d "WHERE" = some node →
        findFTSProperties node { qp with context := [.kOuterOperation] } = (.ok (), q1)) ∧
      (dictGet d "WHERE" = none → q1 = { qp with context := [.kOuterOperation] }) ∧
      qp'.sql = qp.sql ++ "SELECT "
        ++ String.intercalate ", "
          (qp.baseResultColumns ++ q1.ftsTables.map offsetsColumn ++ whatTexts)
        ++ " FROM " ++ rest ∧
      (dictGet d "WHAT" = none → whatTexts = []) ∧
      (∀ w, dictGet d "WHAT" = some w → ∃ whats q3,
        asArray (some w) = some whats ∧ whatTexts.length = whats.length ∧
        writeWhats (parseNode ((Value.dict d).depth + 1))
            (qp.baseResultColumns.length + q1.ftsTables.length) whats
            { q1 with
              sql := qp.sql ++ "SELECT " ++ String.intercalate ", "
                (qp.baseResultColumns ++ q1.ftsTables.map offsetsColumn)
              firstCustomResultCol := qp.baseResultColumns.length + q1.ftsTables.length }
          = (.ok (qp.baseResultColumns.length + q1.ftsTables.length + whats.length), q3) ∧
        ∀ j x, whats.get? j = some x →
          ∃ t qj qj', whatTexts.get? j = some t ∧ qj.context = [.kOuterOperation] ∧
            SameScope qp qj ∧
            writeResultColumn (parseNode ((Value.dict d).depth + 1)) x qj = (.ok (), qj') ∧
            qj'.sql = qj.sql ++ t) ∧
      ((∀ node, dictGet d "WHERE" = some node → isSelect node = false) →
        (∀ w whats, dictGet d "WHAT" = some w → asArray (some w) = some whats →
          ∀ x ∈ whats, isSelect x = false) →
        qp'.firstCustomResultCol = qp.baseResultColumns.length + q1.ftsTables.length) := by
  refine ⟨(parse_fuel (.dict d) [] qp).1, fun qp' h => ?_⟩
  rw [parse_dict_eq] at h
  obtain ⟨q1, whatTexts, joined, whereText, orderText, hsome, hnone, hsql, hcols, hfrom, hwn,
    hws, _, _, _, _, _, _, _⟩ := writeSelect_spec _ _ _ _ _ h
  refine ⟨q1, whatTexts, qp.tableName ++ ftsJoinsText 0 joined
      ++ (if (dictGet d "WHERE").isSome then " WHERE " ++ whereText else "")
      ++ (if (dictGet d "ORDER BY").isSome then " ORDER BY " ++ orderText else "")
      ++ (if !qp.defaultLimit.isEmpty then " LIMIT " ++ qp.defaultLimit else "")
      ++ (if !qp.defaultOffset.isEmpty then " OFFSET " ++ qp.defaultOffset else ""),
    hsome, hnone, ?_, fun hw => (hwn hw).1, ?_, ?_⟩
  · rw [hsql, resultColumnsText_zero]
    simp only [String.append_assoc]
    rfl
  · intro w hw
    obtain ⟨whats, q3, h1, h2, h3, _, h5⟩ := hws w hw
    have hS1 : Settled { qp with context := [.kOuterOperation] } q1 := by
      cases hwh : dictGet d "WHERE" with
      | none => rw [hnone hwh]; exact stable_settled.refl _
      | some node =>
        exact keeps_run (keeps_findFTSProperties stable_settled node) _ _ _ (hsome node hwh)
    refine ⟨whats, q3, h1, h2, ?_, fun j x hx => ?_⟩
    · rw [← resultColumnsText_zero]
      exact h3
    · obtain ⟨t, qj, qj', g1, g2, g3, g4, g5⟩ := h5 j x hx
      exact ⟨t, qj, qj', g1, g2, sameScope_trans _ _ _
        (sameScope_symm _ _ (sameScope_reset qp)) (sameScope_trans _ _ _ hS1.1 g3.1), g4, g5⟩
  · intro hwhere hwhat
    obtain ⟨q1', hsome', hnone', hfc⟩ := writeSelect_records _ (dictGet d "WHERE") (some d)
      { qp with context := [.kOuterOperation] } qp' (Nat.le_refl 1) hwhere hwhat h
    have heq : q1' = q1 := by
      cases hwh : dictGet d "WHERE" with
      | none => rw [hnone hwh, hnone' hwh]
      | some node =>
        have e1 := hsome node hwh
        have e2 := hsome' node hwh
        rw [e1] at e2
        exact (ok_pair_eq e2).2.symm
    rw [heq] at hfc
    exact hfc

/-- Witness of C26: the example with the base column `key` and one WHAT column: the index
recorded is 1, the number of the base columns. -/
theorem parse_select_columns_witness :
    (∃ (fts whatTexts : List String) (rest : String),
      (parse (.dict exampleWhat) exampleKeyParser).2.sql = exampleKeyParser.sql ++ "SELECT "
        ++ String.intercalate ", "
          (exampleKeyParser.baseResultColumns ++ fts.map offsetsColumn ++ whatTexts)
        ++ " FROM " ++ rest ∧ fts = []) ∧
    (parse (.dict exampleWhat) exampleKeyParser).2.firstCustomResultCol
      = exampleKeyParser.baseResultColumns.length + 0 := by
  have hok : (parse (.dict exampleWhat) exampleKeyParser).1 = .ok () := by decide!
  obtain ⟨q1, whatTexts, rest, _, hnone, h1, _, _, hfc⟩ :=
    (parse_select_columns exampleWhat exampleKeyParser).2 _ (run_eta _ hok)
  have hq1 := hnone rfl
  subst hq1
  refine ⟨⟨_, whatTexts, rest, h1, rfl⟩, hfc (fun node hn => by cases hn) ?_⟩
  intro w whats hw ha x hx
  have hw2 : w = .array [.array [.string ".", .string "name"]] := (Option.some.inj hw).symm
  subst hw2
  have ha2 : whats = [.array [.string ".", .string "name"]] := (Option.some.inj ha).symm
  subst ha2
  rw [List.mem_singleton] at hx
  subst hx
  rfl

/-- What the statement on the recorded index leaves out: a SELECT that is the WHERE expression
is compiled in place and records an index of its own, here 2, the number of the base columns
and FTS tables of the inner statement, while the first WHAT column of the statement is its
second column. -/
theorem firstCustomResultCol_in_place :
    isSelect (.array [.string "SELECT", .dict [("WHERE", exampleMatch)]]) = true ∧
    SQL (parse (.dict exampleWhatSelect) exampleKeyParser)
      = .ok ("SELECT key, fl_value(body, 'a') FROM kv_default WHERE "
        ++ "SELECT key, offsets(\"kv_default::.text\") "
        ++ "FROM kv_default, \"kv_default::.text\" AS FTS1 "
        ++ "WHERE (FTS1.text MATCH 'cat' AND FTS1.rowid = kv_default.sequence)") ∧
    (parse (.dict exampleWhatSelect) exampleKeyParser).2.firstCustomResultCol = 2 := by
  refine ⟨by decide, by decide!, by decide!⟩

/-- C31: `writeCreateIndex` on an expression list does not end because the recursion
allowance of the model is used up, and when it returns, it has written
`CREATE INDEX IF NOT EXISTS "<name>" ON <table> (<columns>)`, where `<name>` is the table name,
`::`, and the JSON text of the expression list with every double quote replaced by an
apostrophe (so the part after `::` has no double quote and the length of the JSON text), and
`<columns>` is the texts of the expressions, separated by `, `, each compiled with the
column-list operation on top of the context stack, where a string item is read as a
property. -/
theorem writeCreateIndex_emits (expressions : List Value) (qp : State) :
    (writeCreateIndex expressions qp).1 ≠ .error .outOfFuel ∧
    (∀ qp', writeCreateIndex expressions qp = (.ok (), qp') →
      ∃ texts : List String, texts.length = expressions.length ∧
      qp'.sql = qp.sql ++ "CREATE INDEX IF NOT EXISTS \"" ++ indexName qp.tableName expressions
        ++ "\" ON " ++ qp.tableName ++ " (" ++ String.intercalate ", " texts ++ ")" ∧
      ∀ j x, expressions.get? j = some x →
        ∃ t qj qj', texts.get? j = some t ∧
          qj.context = [.kOuterOperation, .kColumnListOperation] ∧ SameScope qp qj ∧
          parseNode (depthItems expressions + 1) x qj = (.ok (), qj') ∧
          qj'.sql = qj.sql ++ t) ∧
    (∃ part : String, indexName qp.tableName expressions = qp.tableName ++ "::" ++ part ∧
      part.length = (toJSON (.array expressions)).length ∧
      Char.ofNat 34 ∉ part.data ∧
      ∀ i c, (toJSON (.array expressions)).data.get? i = some c →
        part.data.get? i = some (if c = Char.ofNat 34 then apostrophe else c)) ∧
    (∀ (fuel : Nat) (s : String) (q : State),
      q.context.getLast? = some .kColumnListOperation →
      parseNode (fuel + 1) (.string s) q = writeStringLiteralAsProperty s q) := by
  refine ⟨(parse_fuel .null expressions qp).2.2, ?_, ?_, parseNode_column_string⟩
  · intro qp' h
    unfold writeCreateIndex at h
    obtain ⟨_, q1, h1, hr1⟩ := bind_ok _ _ _ _ _ h
    obtain ⟨qa, q2, h2, hr2⟩ := bind_ok _ _ _ _ _ hr1
    obtain ⟨_, q3, h3, hr3⟩ := bind_ok _ _ _ _ _ hr2
    clear h hr1 hr2
    obtain ⟨_, hq1⟩ := ok_pair_eq h1
    obtain ⟨hqa, hq2⟩ := ok_pair_eq h2
    obtain ⟨_, hq3⟩ := ok_pair_eq h3
    subst hq1 hq2 hqa
    have htop : q3.context.getLast? = some .kOuterOperation := by rw [← hq3]; rfl
    obtain ⟨hI, _, texts, hlen, hsql, htie⟩ := writeColumnList_spec stable_sameScope
      (parseNode (depthItems expressions + 1)) (same_parseNode _)
      (keeps_parseNode_sameScope _) expressions .kOuterOperation q3 qp' htop hr3
    have hp : (-2 : Int) ≤ OperationPtr.kOuterOperation.deref.precedence := by decide
    rw [if_pos hp] at hsql
    have hS3 : SameScope qp q3 := by
      rw [← hq3]
      exact ⟨rfl, rfl, rfl, rfl, rfl, rfl, rfl⟩
    refine ⟨texts, hlen, ?_, fun j x hx => ?_⟩
    · rw [hsql, ← hq3]
      simp only [reset, write, String.append_assoc]
      rfl
    · obtain ⟨t, qj, qj', g1, g2, g3, g4, g5⟩ := htie j x hx
      refine ⟨t, qj, qj', g1, ?_, sameScope_trans _ _ _ hS3 g3, g4, g5⟩
      rw [g2, ← hq3]
      rfl
  · refine ⟨(toJSON (.array expressions)).map
      (fun c => if c = Char.ofNat 34 then apostrophe else c), rfl, ?_, ?_, ?_⟩
    · rw [String.map_eq]
      exact List.length_map _ _
    · rw [String.map_eq]
      simp only [List.mem_map, not_exists, not_and]
      intro c _
      split
      · decide
      · assumption
    · intro i c hc
      rw [String.map_eq]
      show (List.map _ _).get? i = _
      rw [List.get?_eq_getElem?, List.getElem?_map, ← List.get?_eq_getElem?, hc]
      rfl

/-- Witness of C31: the index on `[".name", ["lower()", [".", "x"]]]`. -/
theorem writeCreateIndex_emits_witness :
    SQL (writeCreateIndex exampleIndexExpressions exampleTableParser)
      = .ok ("CREATE INDEX IF NOT EXISTS \"kv_default::['.name',['lower()',['.','x']]]\" "
        ++ "ON kv_default (fl_value(body, 'name'), lower(fl_value(body, 'x')))") ∧
    ∃ texts : List String, texts.length = exampleIndexExpressions.length ∧
      (writeCreateIndex exampleIndexExpressions exampleTableParser).2.sql
        = exampleTableParser.sql ++ "CREATE INDEX IF NOT EXISTS \""
          ++ indexName exampleTableParser.tableName exampleIndexExpressions
          ++ "\" ON " ++ exampleTableParser.tableName ++ " ("
          ++ String.intercalate ", " texts ++ ")" := by
  have hok : (writeCreateIndex exampleIndexExpressions exampleTableParser).1 = .ok () := by
    decide!
  obtain ⟨texts, h1, h2, _⟩ :=
    (writeCreateIndex_emits exampleIndexExpressions exampleTableParser).2.1 _ (run_eta _ hok)
  exact ⟨by decide!, texts, h1, h2⟩

/-- C37: let `expr` be an expression in which no SELECT operator occurs.  After the scan of
`expr` by the planner, in every state of the parser whose plan starts with the plan that the
scan left (as the one in which `writeSelect` compiles the WHERE expression): compiling `expr`
fails no assertion and adds nothing to the plan; and for every MATCH node that the walk of
`expr` reaches, the name of its left operand is in the plan of the scan, the alias lookup of
`matchOp` returns its index `n`, at least 1, in every state with this plan, `matchOp` writes
the alias `FTSn`, and the FROM clause written from this plan joins that same name as `FTSn`.
So `parse` of `expr` as an implicit WHERE, or as the WHERE of a mapping without WHAT and
ORDER BY, does not end by a failed assertion, nor because the recursion allowance of the
model is used up; and when `parse` returns for a mapping whose
WHERE is `expr`, the WHERE expression was compiled in such a state, the plan of which is the
one joined in the FROM clause. -/
theorem parse_where_match_planned (expr : Value) (hsel : hasSelect expr = false) :
    (∀ (fuel : Nat) (q q1 qw : State), findFTSProperties expr q = (.ok (), q1) →
      qw.tableName = q.tableName → q1.ftsTables <+: qw.ftsTables →
      (parseNode fuel expr qw).1 ≠ .error .assertionFailed ∧
      (∀ qw', parseNode fuel expr qw = (.ok (), qw') → qw'.ftsTables = qw.ftsTables) ∧
      ∀ lhs ∈ matchOperands expr, ∃ (name : String) (n : Nat),
        name ∈ q1.ftsTables ∧ 1 ≤ n ∧
        (∃ before after, qw.ftsTables = before ++ name :: after ∧ before.length + 1 = n ∧
          ftsJoinsText 0 qw.ftsTables = ftsJoinsText 0 before
            ++ (", \"" ++ name ++ "\" AS FTS" ++ ToString.toString n)
            ++ ftsJoinsText n after) ∧
        ∀ s : State, s.tableName = q.tableName → s.ftsTables = qw.ftsTables →
          (FTSIndexName lhs s).1 = .ok name ∧
          FTSPropertyIndex lhs false s = (.ok n, s) ∧
          ∀ (pn : Value → M Unit) (op : String) (rhs : Value),
            matchOp pn op [lhs, rhs] s
              = (do
                  write ("(FTS" ++ ToString.toString n ++ ".text MATCH ")
                  pn rhs
                  let qp ← getState
                  write (" AND FTS" ++ ToString.toString n ++ ".rowid = " ++ qp.tableName
                    ++ ".sequence)")) s) ∧
    (∀ qp, (∀ d, expr ≠ .dict d) → (parse expr qp).1 ≠ .error .assertionFailed ∧
      (parse expr qp).1 ≠ .error .outOfFuel) ∧
    (∀ d qp, dictGet d "WHERE" = some expr → dictGet d "WHAT" = none →
      dictGet d "ORDER BY" = none → (parse (.dict d) qp).1 ≠ .error .assertionFailed ∧
      (parse (.dict d) qp).1 ≠ .error .outOfFuel) ∧
    (∀ d qp qp', dictGet d "WHERE" = some expr → parse (.dict d) qp = (.ok (), qp') →
      ∃ (q1 qw qw' : State) (columns whereText rest : String),
        findFTSProperties expr { qp with context := [.kOuterOperation] } = (.ok (), q1) ∧
        qw.tableName = qp.tableName ∧ q1.ftsTables <+: qw.ftsTables ∧
        parseNode ((Value.dict d).depth + 1) expr qw = (.ok (), qw') ∧
        qw'.sql = qw.sql ++ whereText ∧
        qp'.sql = qp.sql ++ "SELECT " ++ columns ++ " FROM " ++ qp.tableName
          ++ ftsJoinsText 0 qw.ftsTables ++ " WHERE " ++ whereText ++ rest) := by
  refine ⟨?_, ?_, ?_, ?_⟩
  · intro fuel q q1 qw hscan htable hplan
    have hcov := covered_of_scan expr q q1 qw.ftsTables hscan hplan
    have hw := guard_parseNode_planned qw.ftsTables q.tableName fuel expr hsel hcov
    have hP : Planned qw.ftsTables q.tableName qw := ⟨htable, rfl⟩
    refine ⟨guard_ne hw qw hP, fun qw' hqw' => ?_, fun lhs hl => ?_⟩
    · have := hw.keeps qw () hP (by rw [hqw'])
      rw [hqw'] at this
      exact this.2
    · obtain ⟨name, hn1, hk⟩ := (findFTSProperties_covers expr q q1 hscan).2 lhs hl
      have hmem : name ∈ qw.ftsTables := hplan.subset hn1
      obtain ⟨h1, _, h3⟩ := findIndex1_mem name qw.ftsTables hmem
      obtain ⟨hsplit, hlen⟩ := get?_split _ _ _ h3
      refine ⟨name, findIndex1 name qw.ftsTables, hn1, h1, ⟨_, _, hsplit, ?_, ?_⟩,
        fun s hs hf => ?_⟩
      · rw [hlen]; omega
      · have hj := ftsJoinsText_append (qw.ftsTables.take (findIndex1 name qw.ftsTables - 1))
          name (qw.ftsTables.drop (findIndex1 name qw.ftsTables - 1 + 1)) 0
        rw [← hsplit, hlen] at hj
        rw [show 0 + (findIndex1 name qw.ftsTables - 1) + 1 = findIndex1 name qw.ftsTables
          by omega] at hj
        exact hj
      · have hms : name ∈ s.ftsTables := by rw [hf]; exact hmem
        obtain ⟨g1, _, _⟩ := FTSPropertyIndex_planned lhs s name (hk s hs) hms
        rw [hf] at g1
        exact ⟨hk s hs, g1, fun pn op rhs => matchOp_alias pn op lhs rhs s _ h1 g1⟩
  · intro qp hnd
    refine ⟨?_, (parse_fuel expr [] qp).1⟩
    rw [parse_implicit expr qp hnd hsel]
    exact writeSelect_no_assertion _ expr none _ hsel rfl rfl
  · intro d qp hwhere hwhat horder
    refine ⟨?_, (parse_fuel (.dict d) [] qp).1⟩
    rw [parse_dict_eq, hwhere]
    exact writeSelect_no_assertion _ expr (some d) _ hsel hwhat horder
  · intro d qp qp' hwhere h
    rw [parse_dict_eq, hwhere] at h
    obtain ⟨q1, whatTexts, joined, whereText, orderText, hsome, _, hsql, _, _, _, _, hpre, _,
      hwh, _, _, _, _⟩ := writeSelect_spec _ _ _ _ _ h
    obtain ⟨qw, qw', _, g2, g3, g4, g5⟩ := hwh expr rfl
    refine ⟨q1, qw, qw',
      resultColumnsText 0 (qp.baseResultColumns ++ q1.ftsTables.map offsetsColumn ++ whatTexts),
      whereText,
      (if (dictGet d "ORDER BY").isSome then " ORDER BY " ++ orderText else "")
        ++ (if !qp.defaultLimit.isEmpty then " LIMIT " ++ qp.defaultLimit else "")
        ++ (if !qp.defaultOffset.isEmpty then " OFFSET " ++ qp.defaultOffset else ""),
      hsome expr rfl, g2.2.1, by rw [g3]; exact hpre, g4, g5, ?_⟩
    rw [hsql, g3]
    simp only [Option.isSome_some, if_true, String.append_assoc]
    rfl

/-- Witness of C37: the example `["AND", ["MATCH", [".", "text"], "cat"], ["=", [".", "n"], 1]]`
as an implicit WHERE. -/
theorem parse_where_match_planned_witness :
    hasSelect exampleMatchAnd = false ∧
    (parse exampleMatchAnd exampleTableParser).1 ≠ .error .assertionFailed ∧
    SQL (parse exampleMatchAnd exampleTableParser)
      = .ok ("SELECT offsets(\"kv_default::.text\") FROM kv_default, "
        ++ "\"kv_default::.text\" AS FTS1 WHERE "
        ++ "(FTS1.text MATCH 'cat' AND FTS1.rowid = kv_default.sequence) AND "
        ++ "fl_value(body, 'n') = 1") :=
  ⟨rfl, ((parse_where_match_planned exampleMatchAnd rfl).2.1 exampleTableParser
    (fun d h => by cases h)).1, by decide!⟩

end QueryParser
